import Mathlib

/-!
# GoldSrc studio-model decoder and animation clock: a shallow embedding

The definitions below follow `StudioModelRenderer.hpp` function by function.

Conventions of the embedding.

* A loaded file is a list of bytes (`Byte = Fin 256`).  A pointer into a buffer
  is modelled by the view it gives: a list of the values found from the pointer
  onward, or a lookup function from an index to the value stored there.
* A result of type `Option α` is `none` exactly when the C++ execution leaves
  defined behaviour (a read outside the buffer, a signed 32-bit overflow, a
  float-to-int conversion out of range), ends in an exception, or produces a
  `float` that is not finite.
* `float` and `double` values are modelled by rational numbers: finite values,
  exact arithmetic, `==` is equality.  NaN and the infinities are outside the
  model.  The animation clock is also given with the roundings of binary32 and
  binary64 (`AdvanceFrameBinary32`): above 2^24 the rounding of its quotient
  changes the frame by whole frames, which exact arithmetic does not show.
* Vertex indices are natural numbers: the cast to `uint32_t` is the identity on
  every index below 2^32.
* `sizeof(studiohdr_t)` and `STUDIO_NF_MASKED` come from `hlsdk/studio.h`, which
  is not part of the sources; they are parameters of the functions using them.
-/

namespace StudioModel

/-! ## Machine integers and bytes -/

/-- One byte of a loaded file. -/
abbrev Byte := Fin 256

/-- Largest value of a 32-bit `int`. -/
def INT_MAX : Int := 2147483647

/-- Smallest value of a 32-bit `int`. -/
def INT_MIN : Int := -2147483648

/-- Two's-complement reading of a 32-bit pattern as an `int`. -/
def toInt32 (u : Nat) : Int :=
  if u % 4294967296 < 2147483648 then (u % 4294967296 : Nat) else (u % 4294967296 : Nat) - 4294967296

/-- Conversion of an integer value to `int16_t` (modular, as MSVC and C++20 define it). -/
def toInt16 (x : Int) : Int :=
  (x + 32768) % 65536 - 32768

/-- The value of a 32-bit signed operation: defined only inside the range of `int`. -/
def checkInt32 (x : Int) : Option Int :=
  if INT_MIN ≤ x ∧ x ≤ INT_MAX then some x else none

/-- The read `*reinterpret_cast<int*>(buffer.data() + off)`: four bytes, little-endian. -/
def readInt32 (buffer : List Byte) (off : Nat) : Option Int :=
  match buffer.drop off with
  | b0 :: b1 :: b2 :: b3 :: _ =>
    some (toInt32 (b0.val + 256 * b1.val + 65536 * b2.val + 16777216 * b3.val))
  | _ => none

/-! ## Header verification -/

/-- The function `StudioModel::VerifyStudioFile`; `sizeofStudiohdr` stands for
`sizeof(studiohdr_t)`. -/
def VerifyStudioFile (sizeofStudiohdr : Nat) (buffer : List Byte) : Option Bool :=
  if buffer.length < sizeofStudiohdr then some false
  else
    match readInt32 buffer 0 with
    | none => none
    | some signature =>
      if signature ≠ 0x54534449 then some false
      else
        match readInt32 buffer 4 with
        | none => none
        | some version =>
          if version ≠ 10 then some false
          else some true

/-- The little-endian unsigned 32-bit number spelled by the four bytes at `off`
(the wording of the header rule; absent bytes count as zero). -/
def le32 (buffer : List Byte) (off : Nat) : Nat :=
  (buffer.getD off 0).val + 256 * (buffer.getD (off + 1) 0).val
    + 65536 * (buffer.getD (off + 2) 0).val + 16777216 * (buffer.getD (off + 3) 0).val

/-! ## Decoded geometry -/

/-- The struct `StudioModel::VEC2`. -/
structure VEC2 where
  x : ℚ
  y : ℚ
deriving DecidableEq, Repr

/-- The member `VEC2::operator==`. -/
def VEC2.eq (self v : VEC2) : Bool :=
  (v.x == self.x) && (v.y == self.y)

/-- The struct `StudioModel::VEC3`. -/
structure VEC3 where
  x : ℚ
  y : ℚ
  z : ℚ
deriving DecidableEq, Repr

/-- The member `VEC3::operator==`. -/
def VEC3.eq (self v : VEC3) : Bool :=
  (v.x == self.x) && (v.y == self.y) && (v.z == self.z)

/-- The struct `StudioModel::Vertex`. -/
structure Vertex where
  Position : VEC3
  Normal : VEC3
  TexCoord : VEC2
  Bone : Nat
deriving DecidableEq, Repr

/-- The member `Vertex::operator==`: the bone takes no part in it. -/
def Vertex.eq (self v : Vertex) : Bool :=
  (v.Position.eq self.Position) && (v.Normal.eq self.Normal) && (v.TexCoord.eq self.TexCoord)

/-- The struct `StudioModel::Mesh`. -/
structure Mesh where
  Indices : List Nat
  TextureId : Int
deriving DecidableEq, Repr

/-- The struct `StudioModel::Model`. -/
structure Model where
  Vertices : List Vertex
  Meshes : List Mesh
deriving DecidableEq, Repr

/-- The struct `StudioModel::Texture`. -/
structure Texture where
  Width : Int
  Height : Int
  Data : List Nat
deriving DecidableEq, Repr

/-! ## Views on the file structures -/

/-- The fields of `mstudiotexture_t` that the decoder reads. -/
structure mstudiotexture_t where
  flags : Nat
  width : Int
  height : Int
  index : Int
deriving DecidableEq, Repr

/-- The fields of `mstudiomesh_t` that the decoder reads: `skinref`, and the
16-bit values found from `GetPtr<int16_t>(triindex)` to the end of the buffer. -/
structure mstudiomesh_t where
  skinref : Int
  tricmds : List Int

/-- The fields of `mstudiomodel_t` that the decoder reads, with the arrays its
offsets point at: `studioMesh i` is `GetPtr<mstudiomesh_t>(meshindex) + i`,
`studioVertices i` is `GetPtr<VEC3>(vertindex)[i]`, and so on; a lookup is
`none` when the address is outside the buffer. -/
structure mstudiomodel_t where
  nummesh : Int
  studioMesh : Int → Option mstudiomesh_t
  studioVertices : Int → Option VEC3
  studioVertexBones : Int → Option Nat
  studioNormals : Int → Option VEC3

/-- The arrays reached from `m_StudioTextureHeader`: the texture descriptors at
`textureindex` and the skin table at `skinindex`. -/
structure TextureHeader where
  studioTextures : Int → Option mstudiotexture_t
  studioSkinRef : Int → Option Nat

/-! ## Mesh decoding -/

/-- The search `std::find_if(vertices.cbegin(), vertices.cend(), pred)`, as the
distance of the iterator found from `cbegin()`; `none` stands for `cend()`. -/
def find_if (pred : Vertex → Bool) : List Vertex → Option Nat
  | [] => none
  | elem :: rest => if pred elem then some 0 else (find_if pred rest).map (· + 1)

/-- The function `StudioModel::InsertVertex`: the vertex list afterwards and the
index returned. -/
def InsertVertex (vertices : List Vertex) (vertex : Vertex) : List Vertex × Nat :=
  match find_if (fun elem => elem.eq vertex) vertices with
  | some it => (vertices, it)
  | none => (vertices ++ [vertex], (vertices ++ [vertex]).length - 1)

/-- The vertex `LoadMesh` builds from the entry `tricmds[0..3]`. -/
def entryVertex (studioModel : mstudiomodel_t) (s t : ℚ) (c0 c1 c2 c3 : Int) : Option Vertex := do
  let Position ← studioModel.studioVertices c0
  let Normal ← studioModel.studioNormals c1
  let Bone ← studioModel.studioVertexBones c0
  some { Position := Position, Normal := Normal, TexCoord := ⟨s * c2, t * c3⟩, Bone := Bone }

/-- The loop `for (; i > 0; i--, tricmds += 4)` of `LoadMesh`, run `i` times:
the command pointer, the shared vertices and the run's `indices` afterwards. -/
def readRun (studioModel : mstudiomodel_t) (s t : ℚ) :
    Nat → List Int → List Vertex → List Nat → Option (List Int × List Vertex × List Nat)
  | 0, tricmds, vertices, indices => some (tricmds, vertices, indices)
  | i + 1, c0 :: c1 :: c2 :: c3 :: tricmds, vertices, indices =>
    match entryVertex studioModel s t c0 c1 c2 c3 with
    | none => none
    | some vert =>
      let r := InsertVertex vertices vert
      readRun studioModel s t i tricmds r.1 (indices ++ [r.2])
  | _ + 1, _, _, _ => none

/-- The strip branch of `LoadMesh`: the loop over `j` from 2 below
`indices.size()`, appending to `out`.  The element `d` fills `indices[j]` where
`j` is out of range, which the loop bounds exclude. -/
def expandStrip {α : Type} (d : α) (indices : List α) (out : List α) : List α :=
  (List.range' 2 (indices.length - 2)).foldl
    (fun out j =>
      if j % 2 ≠ 0 then
        out ++ [indices.getD (j - 1) d, indices.getD (j - 2) d, indices.getD j d]
      else
        out ++ [indices.getD (j - 2) d, indices.getD (j - 1) d, indices.getD j d])
    out

/-- The fan branch of `LoadMesh`. -/
def expandFan {α : Type} (d : α) (indices : List α) (out : List α) : List α :=
  (List.range' 2 (indices.length - 2)).foldl
    (fun out j => out ++ [indices.getD 0 d, indices.getD (j - 1) d, indices.getD j d])
    out

/-- The loop `while (i = *(tricmds++))` of `LoadMesh`; `fuel` bounds the number
of run headers read. -/
def LoadMeshLoop (studioModel : mstudiomodel_t) (s t : ℚ) :
    Nat → List Int → List Vertex → List Nat → Option (List Vertex × List Nat)
  | 0, _, _, _ => none
  | _ + 1, [], _, _ => none
  | fuel + 1, i :: tricmds, vertices, meshIndices =>
    if i = 0 then some (vertices, meshIndices)
    else
      let strip := decide (¬ i < 0)
      let i := if i < 0 then toInt16 (-i) else i
      match readRun studioModel s t i.toNat tricmds vertices [] with
      | none => none
      | some (tricmds, vertices, indices) =>
        LoadMeshLoop studioModel s t fuel tricmds vertices
          (if strip then expandStrip 0 indices meshIndices else expandFan 0 indices meshIndices)

/-- The function `StudioModel::LoadMesh`: the mesh, and the shared vertex list
afterwards.  A texture of width or height 0 makes the scale factors infinite,
which the rational model of `float` cannot hold: the result is `none`. -/
def LoadMesh (textureHeader : TextureHeader) (studioMesh : mstudiomesh_t)
    (studioModel : mstudiomodel_t) (vertices : List Vertex) : Option (Mesh × List Vertex) :=
  match textureHeader.studioSkinRef studioMesh.skinref with
  | none => none
  | some TextureId =>
    match textureHeader.studioTextures TextureId with
    | none => none
    | some studioTexture =>
      if studioTexture.width = 0 ∨ studioTexture.height = 0 then none
      else
        let s : ℚ := 1 / (studioTexture.width : ℚ)
        let t : ℚ := 1 / (studioTexture.height : ℚ)
        match LoadMeshLoop studioModel s t (studioMesh.tricmds.length + 1)
            studioMesh.tricmds vertices [] with
        | none => none
        | some (vertices, meshIndices) =>
          some ({ Indices := meshIndices, TextureId := TextureId }, vertices)

/-- The loop of `LoadModel` over the meshes `i, i + 1, ...`, run `n` times. -/
def LoadModelLoop (textureHeader : TextureHeader) (studioModel : mstudiomodel_t) :
    Nat → Int → Model → Option Model
  | 0, _, model => some model
  | n + 1, i, model =>
    match studioModel.studioMesh i with
    | none => none
    | some studioMesh =>
      match LoadMesh textureHeader studioMesh studioModel model.Vertices with
      | none => none
      | some (mesh, vertices) =>
        LoadModelLoop textureHeader studioModel n (i + 1)
          { Vertices := vertices, Meshes := model.Meshes ++ [mesh] }

/-- The function `StudioModel::LoadModel`. -/
def LoadModel (textureHeader : TextureHeader) (studioModel : mstudiomodel_t) : Option Model :=
  if studioModel.nummesh > 0 then
    LoadModelLoop textureHeader studioModel studioModel.nummesh.toNat 0
      { Vertices := [], Meshes := [] }
  else
    some { Vertices := [], Meshes := [] }

/-! ## Texture decoding -/

/-- The read `base[off]` of one byte, `base` being the start of the buffer. -/
def readByte (buffer : List Byte) (off : Int) : Option Nat :=
  if off < 0 then none else (buffer[off.toNat]?).map (·.val)

/-- The four assignments `pixels[pixel_offset + 0 .. 3] = r, g, b, a`. -/
def writePixel (pixels : List Nat) (pixel_offset : Nat) (r g b a : Nat) : List Nat :=
  (((pixels.set (pixel_offset + 0) r).set (pixel_offset + 1) g).set (pixel_offset + 2) b).set
    (pixel_offset + 3) a

/-- The pixel loop of `LoadTexture`, run `n` times from pixel `i`: `index` is the
offset of `indices` in the buffer, the palette starts at `index + size`, and
`masked` is the test `flags & STUDIO_NF_MASKED`. -/
def pixelLoop (masked : Bool) (buffer : List Byte) (index size : Int) :
    Nat → Nat → List Nat → Option (List Nat)
  | 0, _, pixels => some pixels
  | n + 1, i, pixels =>
    match readByte buffer (index + i) with
    | none => none
    | some c =>
      let color_offset : Int := c * 3
      let pixel_offset := i * 4
      match readByte buffer (index + size + (color_offset + 0)),
          readByte buffer (index + size + (color_offset + 1)),
          readByte buffer (index + size + (color_offset + 2)) with
      | some r, some g, some b =>
        let pixels := writePixel pixels pixel_offset r g b 0xff
        let pixels := if masked && c == 255 then writePixel pixels pixel_offset 0 0 0 0
          else pixels
        pixelLoop masked buffer index size n (i + 1) pixels
      | _, _, _ => none

/-- The function `StudioModel::LoadTexture`; `buffer` is the file that
`m_StudioTextureHeader` points at and `STUDIO_NF_MASKED` the flag bit of that
name.  A negative `size * 4` makes `resize` throw: the result is `none`. -/
def LoadTexture (STUDIO_NF_MASKED : Nat) (buffer : List Byte)
    (studioTexture : mstudiotexture_t) : Option Texture :=
  match checkInt32 (studioTexture.width * studioTexture.height) with
  | none => none
  | some size =>
    match checkInt32 (size * 4) with
    | none => none
    | some size4 =>
      if size4 < 0 then none
      else
        match pixelLoop (decide (studioTexture.flags &&& STUDIO_NF_MASKED ≠ 0)) buffer
            studioTexture.index size size.toNat 0 (List.replicate size4.toNat 0) with
        | none => none
        | some pixels =>
          some { Width := studioTexture.width, Height := studioTexture.height, Data := pixels }

/-! ## The animation clock -/

/-- The fields of `mstudioseqdesc_t` that the animation code reads: `fps` and
`numframes` in `AdvanceFrame`, the others in `SetUpBones` and the functions it
calls.  `motiontype` is the bit pattern of the flag word. -/
structure mstudioseqdesc_t where
  fps : ℚ
  numframes : Int
  numblends : Int := 1
  motiontype : Nat := 0
  motionbone : Int := 0
  seqgroup : Int := 0
  animindex : Int := 0

/-- Rounding toward zero. -/
def truncate (x : ℚ) : Int :=
  if 0 ≤ x then ⌊x⌋ else ⌈x⌉

/-- The conversion `(int)x` of a `float`: rounding toward zero, defined only
when the result is in the range of `int`. -/
def floatToInt (x : ℚ) : Option Int :=
  checkInt32 (truncate x)

/-- The function `StudioModelAnimating::AdvanceFrame` in exact arithmetic, as
the new value of `m_Frame`, for the sequence descriptor `pseqdesc` of the
current sequence.  `AdvanceFrameBinary32` below is the same function with the
roundings of `float` and `double`; the two leave the same frame on a `float`
sum of magnitude below 2^24. -/
def AdvanceFrame (pseqdesc : mstudioseqdesc_t) (m_Frame : ℚ) (dt : ℚ) : Option ℚ :=
  let dt := if dt > 1 / 10 then 1 / 10 else dt
  let m_Frame := m_Frame + dt * pseqdesc.fps
  if pseqdesc.numframes ≤ 1 then some 0
  else
    match floatToInt (m_Frame / ((pseqdesc.numframes - 1 : Int) : ℚ)) with
    | none => none
    | some q =>
      match checkInt32 (q * (pseqdesc.numframes - 1)) with
      | none => none
      | some w => some (m_Frame - (w : ℚ))

/-- Rounding to the nearest integer, ties to the even one. -/
def roundNearestEven (x : ℚ) : Int :=
  if x - ⌊x⌋ < 1 / 2 then ⌊x⌋
  else if 1 / 2 < x - ⌊x⌋ then ⌊x⌋ + 1
  else if ⌊x⌋ % 2 = 0 then ⌊x⌋
  else ⌊x⌋ + 1

/-- The least of `pw, 2 * pw, 4 * pw, ...` that exceeds `ax`, with at most
`fuel` doublings. -/
def binadeTop : Nat → ℚ → ℚ → ℚ
  | 0, pw, _ => pw
  | fuel + 1, pw, ax => if ax < pw then pw else binadeTop fuel (2 * pw) ax

/-- A binary floating-point format of IEEE 754: `precision` significant bits,
least normal exponent `1 - bias` and greatest exponent `bias`. -/
structure BinaryFormat where
  precision : Nat
  bias : Nat

/-- The conversion of a real value to the format: round to nearest, ties to
even; `none` when the result is not finite.  The spacing of the format at `x`
is `2 ^ (e + 1 - precision)` for the binade `2 ^ e <= |x| < 2 ^ (e + 1)`, and
that of the least normal binade below it. -/
def roundBinary (fmt : BinaryFormat) (x : ℚ) : Option ℚ :=
  let top := binadeTop (2 * fmt.bias - 1) (1 / 2 ^ (fmt.bias - 2)) |x|
  let quantum := top / 2 ^ fmt.precision
  let r : ℚ := (roundNearestEven (x / quantum) : ℚ) * quantum
  if |r| < 2 ^ (fmt.bias + 1) then some r else none

/-- The type `float`. -/
def binary32 : BinaryFormat := ⟨24, 127⟩

/-- The type `double`. -/
def binary64 : BinaryFormat := ⟨53, 1023⟩

/-- The value of `m_Frame` after the statement
`m_Frame += (float)(dt * pseqdesc->fps)` of `AdvanceFrame`, `dt` being the
`double` argument after the clamp to the `double` constant `0.1`: the product is
a `double`, the cast makes it a `float`, and the sum is a `float`. -/
def advanceSum (pseqdesc : mstudioseqdesc_t) (m_Frame : ℚ) (dt : ℚ) : Option ℚ :=
  match roundBinary binary64 (1 / 10) with
  | none => none
  | some tenth =>
    let dt := if dt > tenth then tenth else dt
    match roundBinary binary64 (dt * pseqdesc.fps) with
    | none => none
    | some product =>
      match roundBinary binary32 product with
      | none => none
      | some increment => roundBinary binary32 (m_Frame + increment)

/-- The statement
`m_Frame -= (int)(m_Frame / (pseqdesc->numframes - 1)) * (pseqdesc->numframes - 1)`
of `AdvanceFrame` with the roundings of its machine types: the `int` values
`numframes - 1` and the product are converted to `float`, and the quotient and
the difference are `float` operations. -/
def AdvanceFrameWrap (numframes : Int) (m_Frame : ℚ) : Option ℚ :=
  match roundBinary binary32 ((numframes - 1 : Int) : ℚ) with
  | none => none
  | some divisor =>
    match roundBinary binary32 (m_Frame / divisor) with
    | none => none
    | some quotient =>
      match floatToInt quotient with
      | none => none
      | some q =>
        match checkInt32 (q * (numframes - 1)) with
        | none => none
        | some w =>
          match roundBinary binary32 (w : ℚ) with
          | none => none
          | some wrap => roundBinary binary32 (m_Frame - wrap)

/-- The function `StudioModelAnimating::AdvanceFrame` with the roundings of its
machine types, as the new value of `m_Frame`: `m_Frame` and `fps` are `float`
values and `dt` is a `double`. -/
def AdvanceFrameBinary32 (pseqdesc : mstudioseqdesc_t) (m_Frame : ℚ) (dt : ℚ) : Option ℚ :=
  match advanceSum pseqdesc m_Frame dt with
  | none => none
  | some m_Frame =>
    if pseqdesc.numframes ≤ 1 then some 0
    else AdvanceFrameWrap pseqdesc.numframes m_Frame

/-! ## The skeleton and its animation data -/

/-- The array type `vec3_t` (`float[3]`). -/
structure vec3_t where
  x : ℚ
  y : ℚ
  z : ℚ
deriving DecidableEq, Repr

/-- The component `v[j]` of a `vec3_t`, `j` in 0..2. -/
def vec3_t.get (v : vec3_t) (j : Nat) : ℚ :=
  if j = 0 then v.x else if j = 1 then v.y else v.z

/-- The assignment `v[j] = a` on a `vec3_t`, `j` in 0..2. -/
def vec3_t.set (v : vec3_t) (j : Nat) (a : ℚ) : vec3_t :=
  if j = 0 then { v with x := a } else if j = 1 then { v with y := a } else { v with z := a }

/-- The array type `vec4_t` (`float[4]`), a quaternion. -/
structure vec4_t where
  x : ℚ
  y : ℚ
  z : ℚ
  w : ℚ
deriving DecidableEq, Repr

/-- A matrix `float[3][4]`: `mij` is the element `[i][j]`. -/
structure mat3x4 where
  m00 : ℚ
  m01 : ℚ
  m02 : ℚ
  m03 : ℚ
  m10 : ℚ
  m11 : ℚ
  m12 : ℚ
  m13 : ℚ
  m20 : ℚ
  m21 : ℚ
  m22 : ℚ
  m23 : ℚ
deriving DecidableEq, Repr

/-- The functions of `hlsdk/mathlib.h` that the animation code calls.  The file
is not part of the sources: the functions are parameters, each taken as a
function of its input arguments (`QuaternionMatrix` gives the matrix it leaves
in its output argument, whose last column the caller overwrites). -/
structure MathLib where
  AngleQuaternion : vec3_t → vec4_t
  QuaternionSlerp : vec4_t → vec4_t → ℚ → vec4_t
  QuaternionMatrix : vec4_t → mat3x4
  R_ConcatTransforms : mat3x4 → mat3x4 → mat3x4
  VectorCompare : vec3_t → vec3_t → Bool

/-- The constants of `hlsdk/studio.h` and `hlsdk/mathlib.h` that the animation
code uses; the files are not part of the sources, so the constants are
parameters.  The flag constants are bit patterns. -/
structure StudioConsts where
  MAXSTUDIOBONES : Nat
  STUDIO_X : Nat
  STUDIO_Y : Nat
  STUDIO_Z : Nat
  STUDIO_XR : Nat
  STUDIO_YR : Nat
  STUDIO_ZR : Nat
  STUDIO_TYPES : Nat
  STUDIO_RLOOP : Nat
  Q_PI : ℚ

/-- The fields of `mstudiobonecontroller_t` that the animation code reads;
`type` is the bit pattern of the flag word and `end_` the field `end`. -/
structure mstudiobonecontroller_t where
  type : Nat
  start : ℚ
  end_ : ℚ
  index : Int

/-- The fields of `mstudiobone_t` that the animation code reads; the arrays
`bonecontroller`, `value` and `scale` have the six entries 0..5. -/
structure mstudiobone_t where
  parent : Int
  bonecontroller : Nat → Int
  value : Nat → ℚ
  scale : Nat → ℚ

/-- One cell of animation data, the union `mstudioanimvalue_t`, by its three
views: `num.valid`, `num.total` and `value`. -/
structure mstudioanimvalue_t where
  valid : Nat
  total : Nat
  value : Int
deriving DecidableEq, Repr

/-- One block `mstudioanim_t`: the six offsets `offset[j]`, and for each
channel `j` the cells found from `(byte*)panim + panim->offset[j]` to the end
of the buffer. -/
structure mstudioanim_t where
  offset : Nat → Nat
  animvalue : Nat → List mstudioanimvalue_t

/-- The field of `mstudioseqgroup_t` that `GetAnim` reads. -/
structure mstudioseqgroup_t where
  data : Int

/-- The header of a sequence-group file: `anim off` is the list of blocks found
from `(mstudioanim_t*)((byte*)header + off)` to the end of the buffer (empty
when the address is outside the buffer). -/
structure studioseqhdr_t where
  anim : Int → List mstudioanim_t

/-- The fields of `mstudiobodyparts_t` that the decoder reads: `studioModel i`
is `GetPtr<mstudiomodel_t>(modelindex) + i`. -/
structure mstudiobodyparts_t where
  nummodels : Int
  studioModel : Int → Option mstudiomodel_t

/-- The fields of `studiohdr_t` that the program reads, with the arrays its
offsets point at: `bones i` is
`(mstudiobone_t*)((byte*)header + boneindex) + i`, and likewise for
`bonecontrollers`, `seqdescs`, `seqgroups`, `studioTextures` (at
`textureindex`), `studioSkinRef` (at `skinindex`) and `bodyparts` (at
`bodypartindex`); a lookup is `none` when the address is outside the buffer.
`anim off` is the list of blocks found from
`(mstudioanim_t*)((byte*)header + off)` to the end of the buffer. -/
structure studiohdr_t where
  numbones : Int
  bones : Int → Option mstudiobone_t
  numbonecontrollers : Int
  bonecontrollers : Int → Option mstudiobonecontroller_t
  numseq : Int
  seqdescs : Int → Option mstudioseqdesc_t
  numseqgroups : Int
  seqgroups : Int → Option mstudioseqgroup_t
  anim : Int → List mstudioanim_t
  numtextures : Int
  studioTextures : Int → Option mstudiotexture_t
  studioSkinRef : Int → Option Nat
  numbodyparts : Int
  bodyparts : Int → Option mstudiobodyparts_t

/-! ## Arrays and loops -/

/-- The read `arr[i]` of an array of `size` elements. -/
def readArr {α : Type} (size : Nat) (arr : Nat → α) (i : Int) : Option α :=
  if 0 ≤ i ∧ i < size then some (arr i.toNat) else none

/-- The assignment `arr[i] = v` on an array of `size` elements. -/
def writeArr {α : Type} (size : Nat) (arr : Nat → α) (i : Int) (v : α) : Option (Nat → α) :=
  if 0 ≤ i ∧ i < size then some (Function.update arr i.toNat v) else none

/-- The loop `for (; i < i + n; i++) body(i)`: `n` rounds from index `i`. -/
def forLoop {σ : Type} (body : Nat → σ → Option σ) : Nat → Nat → σ → Option σ
  | 0, _, st => some st
  | n + 1, i, st =>
    match body i st with
    | none => none
    | some st => forLoop body n (i + 1) st

/-! ## Bone controllers -/

/-- The value that `CalcBoneAdj` computes for controller `j` before the unit
conversion. -/
def boneControllerValue (c : StudioConsts) (pbonecontroller : mstudiobonecontroller_t)
    (m_Controllers : Nat → Nat) (m_Mouth : Nat) : Option ℚ :=
  let i := pbonecontroller.index
  if i ≤ 3 then
    match readArr 4 m_Controllers i with
    | none => none
    | some controller =>
      if pbonecontroller.type &&& c.STUDIO_RLOOP ≠ 0 then
        some ((controller : ℚ) * (360 / 256) + pbonecontroller.start)
      else
        let value : ℚ := (controller : ℚ) / 255
        let value : ℚ := if value < 0 then 0 else value
        let value : ℚ := if value > 1 then 1 else value
        some ((1 - value) * pbonecontroller.start + value * pbonecontroller.end_)
  else
    let value : ℚ := (m_Mouth : ℚ) / 64
    let value : ℚ := if value > 1 then 1 else value
    some ((1 - value) * pbonecontroller.start + value * pbonecontroller.end_)

/-- The function `StudioModelAnimating::CalcBoneAdj`: the array `m_BoneAdjust`
(four entries) afterwards. -/
def CalcBoneAdj (c : StudioConsts) (hdr : studiohdr_t) (m_Controllers : Nat → Nat)
    (m_Mouth : Nat) (m_BoneAdjust : Nat → ℚ) : Option (Nat → ℚ) :=
  forLoop
    (fun j m_BoneAdjust =>
      match hdr.bonecontrollers j with
      | none => none
      | some pbonecontroller =>
        match boneControllerValue c pbonecontroller m_Controllers m_Mouth with
        | none => none
        | some value =>
          let t := pbonecontroller.type &&& c.STUDIO_TYPES
          if t = c.STUDIO_XR ∨ t = c.STUDIO_YR ∨ t = c.STUDIO_ZR then
            writeArr 4 m_BoneAdjust j (value * (c.Q_PI / 180))
          else if t = c.STUDIO_X ∨ t = c.STUDIO_Y ∨ t = c.STUDIO_Z then
            writeArr 4 m_BoneAdjust j value
          else some m_BoneAdjust)
    hdr.numbonecontrollers.toNat 0 m_BoneAdjust

/-! ## Sampling the animation curves -/

/-- The read `panimvalue[i]`. -/
def animvalueAt (panimvalue : List mstudioanimvalue_t) (i : Int) : Option mstudioanimvalue_t :=
  if i < 0 then none else panimvalue[i.toNat]?

/-- The loop `while (panimvalue->num.total <= k) { k -= panimvalue->num.total;
panimvalue += panimvalue->num.valid + 1; }` of `CalcBoneQuaternion` and
`CalcBonePosition`: the pointer and `k` when it stops; `fuel` bounds the number
of rounds. -/
def findSpan : Nat → List mstudioanimvalue_t → Int → Option (List mstudioanimvalue_t × Int)
  | 0, _, _ => none
  | _ + 1, [], _ => none
  | fuel + 1, num :: rest, k =>
    if (num.total : Int) ≤ k then findSpan fuel (rest.drop num.valid) (k - num.total)
    else some (num :: rest, k)

/-- The body of the loop over `j` in `CalcBonePosition`: the component
`pos[j]`. -/
def CalcBonePositionChannel (m_BoneAdjust : Nat → ℚ) (frame : Int) (s : ℚ)
    (pbone : mstudiobone_t) (panim : mstudioanim_t) (j : Nat) : Option ℚ :=
  let pos : ℚ := pbone.value j
  let sampled : Option ℚ :=
    if panim.offset j ≠ 0 then
      match findSpan ((panim.animvalue j).length + 1) (panim.animvalue j) frame with
      | none => none
      | some (panimvalue, k) =>
        match panimvalue with
        | [] => none
        | num :: _ =>
          if (num.valid : Int) > k then
            if (num.valid : Int) > k + 1 then
              match animvalueAt panimvalue (k + 1), animvalueAt panimvalue (k + 2) with
              | some a, some b =>
                some (pos + ((a.value : ℚ) * (1 - s) + s * (b.value : ℚ)) * pbone.scale j)
              | _, _ => none
            else
              match animvalueAt panimvalue (k + 1) with
              | some a => some (pos + (a.value : ℚ) * pbone.scale j)
              | none => none
          else
            if (num.total : Int) ≤ k + 1 then
              match animvalueAt panimvalue num.valid, animvalueAt panimvalue (num.valid + 2) with
              | some a, some b =>
                some (pos + ((a.value : ℚ) * (1 - s) + s * (b.value : ℚ)) * pbone.scale j)
              | _, _ => none
            else
              match animvalueAt panimvalue num.valid with
              | some a => some (pos + (a.value : ℚ) * pbone.scale j)
              | none => none
    else some pos
  match sampled with
  | none => none
  | some pos =>
    if pbone.bonecontroller j ≠ -1 then
      match readArr 4 m_BoneAdjust (pbone.bonecontroller j) with
      | none => none
      | some adjust => some (pos + adjust)
    else some pos

/-- The function `StudioModelAnimating::CalcBonePosition`. -/
def CalcBonePosition (m_BoneAdjust : Nat → ℚ) (frame : Int) (s : ℚ) (pbone : mstudiobone_t)
    (panim : mstudioanim_t) : Option vec3_t :=
  match CalcBonePositionChannel m_BoneAdjust frame s pbone panim 0,
      CalcBonePositionChannel m_BoneAdjust frame s pbone panim 1,
      CalcBonePositionChannel m_BoneAdjust frame s pbone panim 2 with
  | some p0, some p1, some p2 => some ⟨p0, p1, p2⟩
  | _, _, _ => none

/-- The body of the loop over `j` in `CalcBoneQuaternion`: the components
`angle1[j]` and `angle2[j]`. -/
def CalcBoneAngleChannel (m_BoneAdjust : Nat → ℚ) (frame : Int) (pbone : mstudiobone_t)
    (panim : mstudioanim_t) (j : Nat) : Option (ℚ × ℚ) :=
  let sampled : Option (ℚ × ℚ) :=
    if panim.offset (j + 3) = 0 then some (pbone.value (j + 3), pbone.value (j + 3))
    else
      match findSpan ((panim.animvalue (j + 3)).length + 1) (panim.animvalue (j + 3)) frame with
      | none => none
      | some (panimvalue, k) =>
        match panimvalue with
        | [] => none
        | num :: _ =>
          let angles : Option (ℚ × ℚ) :=
            if (num.valid : Int) > k then
              match animvalueAt panimvalue (k + 1) with
              | none => none
              | some a =>
                if (num.valid : Int) > k + 1 then
                  match animvalueAt panimvalue (k + 2) with
                  | none => none
                  | some b => some ((a.value : ℚ), (b.value : ℚ))
                else
                  if (num.total : Int) > k + 1 then some ((a.value : ℚ), (a.value : ℚ))
                  else
                    match animvalueAt panimvalue (num.valid + 2) with
                    | none => none
                    | some b => some ((a.value : ℚ), (b.value : ℚ))
            else
              match animvalueAt panimvalue num.valid with
              | none => none
              | some a =>
                if (num.total : Int) > k + 1 then some ((a.value : ℚ), (a.value : ℚ))
                else
                  match animvalueAt panimvalue (num.valid + 2) with
                  | none => none
                  | some b => some ((a.value : ℚ), (b.value : ℚ))
          match angles with
          | none => none
          | some (angle1, angle2) =>
            some (pbone.value (j + 3) + angle1 * pbone.scale (j + 3),
              pbone.value (j + 3) + angle2 * pbone.scale (j + 3))
  match sampled with
  | none => none
  | some (angle1, angle2) =>
    if pbone.bonecontroller (j + 3) ≠ -1 then
      match readArr 4 m_BoneAdjust (pbone.bonecontroller (j + 3)) with
      | none => none
      | some adjust => some (angle1 + adjust, angle2 + adjust)
    else some (angle1, angle2)

/-- The function `StudioModelAnimating::CalcBoneQuaternion`. -/
def CalcBoneQuaternion (ml : MathLib) (m_BoneAdjust : Nat → ℚ) (frame : Int) (s : ℚ)
    (pbone : mstudiobone_t) (panim : mstudioanim_t) : Option vec4_t :=
  match CalcBoneAngleChannel m_BoneAdjust frame pbone panim 0,
      CalcBoneAngleChannel m_BoneAdjust frame pbone panim 1,
      CalcBoneAngleChannel m_BoneAdjust frame pbone panim 2 with
  | some a0, some a1, some a2 =>
    let angle1 : vec3_t := ⟨a0.1, a1.1, a2.1⟩
    let angle2 : vec3_t := ⟨a0.2, a1.2, a2.2⟩
    if ¬ ml.VectorCompare angle1 angle2 then
      some (ml.QuaternionSlerp (ml.AngleQuaternion angle1) (ml.AngleQuaternion angle2) s)
    else some (ml.AngleQuaternion angle1)
  | _, _, _ => none

/-! ## Pose evaluation -/

/-- The assignment `pos[bone][axis] = 0.0f` on an array of `size` elements. -/
def zeroComponent (size : Nat) (pos : Nat → vec3_t) (bone : Int) (axis : Nat) :
    Option (Nat → vec3_t) :=
  match readArr size pos bone with
  | none => none
  | some v => writeArr size pos bone (v.set axis 0)

/-- The body of the loop over the bones in `CalcRotations`: the arrays `pos`
and `q` after round `i`. -/
def CalcRotationsBody (c : StudioConsts) (ml : MathLib) (hdr : studiohdr_t)
    (m_BoneAdjust : Nat → ℚ) (frame : Int) (s : ℚ) (panim : List mstudioanim_t) (i : Nat)
    (st : (Nat → vec3_t) × (Nat → vec4_t)) : Option ((Nat → vec3_t) × (Nat → vec4_t)) :=
  match hdr.bones i, panim[i]? with
  | some pbone, some anim =>
    match CalcBoneQuaternion ml m_BoneAdjust frame s pbone anim with
    | none => none
    | some qi =>
      match writeArr c.MAXSTUDIOBONES st.2 i qi with
      | none => none
      | some q =>
        match CalcBonePosition m_BoneAdjust frame s pbone anim with
        | none => none
        | some pi =>
          match writeArr c.MAXSTUDIOBONES st.1 i pi with
          | none => none
          | some pos => some (pos, q)
  | _, _ => none

/-- The three assignments to the motion bone at the end of `CalcRotations`. -/
def zeroMotion (c : StudioConsts) (pseqdesc : mstudioseqdesc_t) (pos : Nat → vec3_t) :
    Option (Nat → vec3_t) :=
  match (if pseqdesc.motiontype &&& c.STUDIO_X ≠ 0 then
      zeroComponent c.MAXSTUDIOBONES pos pseqdesc.motionbone 0 else some pos) with
  | none => none
  | some pos =>
    match (if pseqdesc.motiontype &&& c.STUDIO_Y ≠ 0 then
        zeroComponent c.MAXSTUDIOBONES pos pseqdesc.motionbone 1 else some pos) with
    | none => none
    | some pos =>
      if pseqdesc.motiontype &&& c.STUDIO_Z ≠ 0 then
        zeroComponent c.MAXSTUDIOBONES pos pseqdesc.motionbone 2 else some pos

/-- The function `StudioModelAnimating::CalcRotations`: the arrays
`m_BoneAdjust`, `pos` and `q` afterwards; `panim` is the list of blocks from
the pointer of that name to the end of the buffer. -/
def CalcRotations (c : StudioConsts) (ml : MathLib) (hdr : studiohdr_t)
    (m_Controllers : Nat → Nat) (m_Mouth : Nat) (m_BoneAdjust : Nat → ℚ)
    (pos : Nat → vec3_t) (q : Nat → vec4_t) (pseqdesc : mstudioseqdesc_t)
    (panim : List mstudioanim_t) (f : ℚ) :
    Option ((Nat → ℚ) × (Nat → vec3_t) × (Nat → vec4_t)) :=
  match floatToInt f with
  | none => none
  | some frame =>
    let s : ℚ := f - (frame : ℚ)
    match CalcBoneAdj c hdr m_Controllers m_Mouth m_BoneAdjust with
    | none => none
    | some m_BoneAdjust =>
      match forLoop (CalcRotationsBody c ml hdr m_BoneAdjust frame s panim) hdr.numbones.toNat 0
          (pos, q) with
      | none => none
      | some (pos, q) =>
        match zeroMotion c pseqdesc pos with
        | none => none
        | some pos => some (m_BoneAdjust, pos, q)

/-- The function `StudioModelAnimating::SlerpBones`: the arrays `q1` and `pos1`
afterwards. -/
def SlerpBones (c : StudioConsts) (ml : MathLib) (hdr : studiohdr_t) (q1 : Nat → vec4_t)
    (pos1 : Nat → vec3_t) (q2 : Nat → vec4_t) (pos2 : Nat → vec3_t) (s : ℚ) :
    Option ((Nat → vec4_t) × (Nat → vec3_t)) :=
  let s : ℚ := if s < 0 then 0 else if s > 1 then 1 else s
  let s1 : ℚ := 1 - s
  forLoop
    (fun i (st : (Nat → vec4_t) × (Nat → vec3_t)) =>
      if i < c.MAXSTUDIOBONES then
        let q3 := ml.QuaternionSlerp (st.1 i) (q2 i) s
        some (Function.update st.1 i q3,
          Function.update st.2 i
            ⟨(st.2 i).x * s1 + (pos2 i).x * s, (st.2 i).y * s1 + (pos2 i).y * s,
              (st.2 i).z * s1 + (pos2 i).z * s⟩)
      else none)
    hdr.numbones.toNat 0 (q1, pos1)

/-- The members of `StudioModelAnimating`.  `m_StudioHeader` is `none` for a
null pointer; `m_StudioSequenceGroupHeaders` is `none` for a null pointer and
otherwise the array of 32 header pointers it points at, each `none` when null.
The arrays over bones have `MAXSTUDIOBONES` elements. -/
structure StudioModelAnimating where
  m_StudioHeader : Option studiohdr_t
  m_StudioSequenceGroupHeaders : Option (Nat → Option studioseqhdr_t)
  m_Sequence : Int
  m_Frame : ℚ
  m_Body : Int
  m_Skin : Int
  m_Controllers : Nat → Nat
  m_Blendings : Nat → Nat
  m_Mouth : Nat
  m_BoneAdjust : Nat → ℚ
  m_BoneTransforms : Nat → mat3x4
  tmp_pos : Nat → vec3_t
  tmp_q : Nat → vec4_t
  tmp_pos2 : Nat → vec3_t
  tmp_q2 : Nat → vec4_t
  tmp_pos3 : Nat → vec3_t
  tmp_q3 : Nat → vec4_t
  tmp_pos4 : Nat → vec3_t
  tmp_q4 : Nat → vec4_t

/-- The function `StudioModelAnimating::GetAnim`: `none` when the execution is
undefined, `some none` for the result `NULL`, and otherwise the list of blocks
found from the pointer returned to the end of its buffer. -/
def GetAnim (m_StudioSequenceGroupHeaders : Option (Nat → Option studioseqhdr_t))
    (hdr : studiohdr_t) (pseqdesc : mstudioseqdesc_t) : Option (Option (List mstudioanim_t)) :=
  if pseqdesc.seqgroup = 0 then
    match hdr.seqgroups pseqdesc.seqgroup with
    | none => none
    | some pseqgroup => some (some (hdr.anim (pseqgroup.data + pseqdesc.animindex)))
  else
    match m_StudioSequenceGroupHeaders with
    | none => some none
    | some headers =>
      match readArr 32 headers pseqdesc.seqgroup with
      | none => none
      | some none => some none
      | some (some seqhdr) => some (some (seqhdr.anim pseqdesc.animindex))

/-- The matrix `bonematrix` of `SetUpBones` for one bone: `QuaternionMatrix` of
its quaternion with the position in the last column. -/
def boneMatrix (ml : MathLib) (q : vec4_t) (pos : vec3_t) : mat3x4 :=
  { ml.QuaternionMatrix q with m03 := pos.x, m13 := pos.y, m23 := pos.z }

/-- The body of the last loop of `SetUpBones`, over the bones: the array
`m_BoneTransforms` after round `i`.  `R_ConcatTransforms` is given as a function
of its two inputs, which says nothing of a call whose output is also its first
input: a bone that is its own parent gives `none`. -/
def concatBonesBody (c : StudioConsts) (ml : MathLib) (hdr : studiohdr_t) (tmp_q : Nat → vec4_t)
    (tmp_pos : Nat → vec3_t) (i : Nat) (m_BoneTransforms : Nat → mat3x4) :
    Option (Nat → mat3x4) :=
  match hdr.bones i with
  | none => none
  | some pbone =>
    if i < c.MAXSTUDIOBONES then
      let bonematrix := boneMatrix ml (tmp_q i) (tmp_pos i)
      if pbone.parent = -1 then some (Function.update m_BoneTransforms i bonematrix)
      else if pbone.parent = i then none
      else
        match readArr c.MAXSTUDIOBONES m_BoneTransforms pbone.parent with
        | none => none
        | some parent =>
          some (Function.update m_BoneTransforms i (ml.R_ConcatTransforms parent bonematrix))
    else none

/-- The last loop of `SetUpBones`, over the bones: the array `m_BoneTransforms`
afterwards. -/
def concatBones (c : StudioConsts) (ml : MathLib) (hdr : studiohdr_t) (tmp_q : Nat → vec4_t)
    (tmp_pos : Nat → vec3_t) (m_BoneTransforms : Nat → mat3x4) : Option (Nat → mat3x4) :=
  forLoop (concatBonesBody c ml hdr tmp_q tmp_pos) hdr.numbones.toNat 0 m_BoneTransforms

/-- The part of `SetUpBones` between `GetAnim` and the loop over the bones: the
sampling of the blend groups and their combination. -/
def blendSequence (c : StudioConsts) (ml : MathLib) (hdr : studiohdr_t)
    (pseqdesc : mstudioseqdesc_t) (panim : List mstudioanim_t) (st : StudioModelAnimating) :
    Option StudioModelAnimating :=
  match CalcRotations c ml hdr st.m_Controllers st.m_Mouth st.m_BoneAdjust st.tmp_pos st.tmp_q
      pseqdesc panim st.m_Frame with
  | none => none
  | some (adjust, pos, q) =>
    let st := { st with m_BoneAdjust := adjust, tmp_pos := pos, tmp_q := q }
    if pseqdesc.numblends > 1 then
      let panim := panim.drop hdr.numbones.toNat
      match CalcRotations c ml hdr st.m_Controllers st.m_Mouth st.m_BoneAdjust st.tmp_pos2
          st.tmp_q2 pseqdesc panim st.m_Frame with
      | none => none
      | some (adjust, pos2, q2) =>
        let st := { st with m_BoneAdjust := adjust, tmp_pos2 := pos2, tmp_q2 := q2 }
        let s : ℚ := (st.m_Blendings 0 : ℚ) / 255
        match SlerpBones c ml hdr st.tmp_q st.tmp_pos st.tmp_q2 st.tmp_pos2 s with
        | none => none
        | some (q, pos) =>
          let st := { st with tmp_q := q, tmp_pos := pos }
          if pseqdesc.numblends = 4 then
            let panim := panim.drop hdr.numbones.toNat
            match CalcRotations c ml hdr st.m_Controllers st.m_Mouth st.m_BoneAdjust
                st.tmp_pos3 st.tmp_q3 pseqdesc panim st.m_Frame with
            | none => none
            | some (adjust, pos3, q3) =>
              let st := { st with m_BoneAdjust := adjust, tmp_pos3 := pos3, tmp_q3 := q3 }
              let panim := panim.drop hdr.numbones.toNat
              match CalcRotations c ml hdr st.m_Controllers st.m_Mouth st.m_BoneAdjust
                  st.tmp_pos4 st.tmp_q4 pseqdesc panim st.m_Frame with
              | none => none
              | some (adjust, pos4, q4) =>
                let st := { st with m_BoneAdjust := adjust, tmp_pos4 := pos4, tmp_q4 := q4 }
                let s : ℚ := (st.m_Blendings 0 : ℚ) / 255
                match SlerpBones c ml hdr st.tmp_q3 st.tmp_pos3 st.tmp_q4 st.tmp_pos4 s with
                | none => none
                | some (q3, pos3) =>
                  let st := { st with tmp_q3 := q3, tmp_pos3 := pos3 }
                  let s : ℚ := (st.m_Blendings 1 : ℚ) / 255
                  match SlerpBones c ml hdr st.tmp_q st.tmp_pos st.tmp_q3 st.tmp_pos3 s with
                  | none => none
                  | some (q, pos) => some { st with tmp_q := q, tmp_pos := pos }
          else some st
    else some st

/-- The function `StudioModelAnimating::SetUpBones`. -/
def SetUpBones (c : StudioConsts) (ml : MathLib) (st : StudioModelAnimating) :
    Option StudioModelAnimating :=
  match st.m_StudioHeader with
  | none => some st
  | some hdr =>
    let st := { st with m_Sequence := if st.m_Sequence ≥ hdr.numseq then 0 else st.m_Sequence }
    match hdr.seqdescs st.m_Sequence with
    | none => none
    | some pseqdesc =>
      match GetAnim st.m_StudioSequenceGroupHeaders hdr pseqdesc with
      | none => none
      | some none => some st
      | some (some panim) =>
        match blendSequence c ml hdr pseqdesc panim st with
        | none => none
        | some st =>
          match concatBones c ml hdr st.tmp_q st.tmp_pos st.m_BoneTransforms with
          | none => none
          | some transforms => some { st with m_BoneTransforms := transforms }

/-! ## Loading a model from files -/

/-- The struct `StudioModel::BodyPart`. -/
structure BodyPart where
  Models : List Model
deriving DecidableEq, Repr

/-- The operations of `std::filesystem::path` that `AddSuffixToFileName` uses,
on file names as strings: `stem`, `extension`, `parent_path` and the operator
`/` (`join`).  The library is not part of the sources: the operations are
parameters. -/
structure PathLib where
  stem : String → String
  extension : String → String
  parent_path : String → String
  join : String → String → String

/-- What the loader takes from `hlsdk/studio.h`, which is not part of the
sources: the two header sizes, the flag `STUDIO_NF_MASKED`, and the layout of
`studiohdr_t`, given as the view `header buffer` of the fields and arrays that
are read through a `studiohdr_t*` pointing at the first byte of `buffer`. -/
structure StudioLayout where
  sizeofStudiohdr : Nat
  sizeofStudioseqhdr : Nat
  STUDIO_NF_MASKED : Nat
  header : List Byte → studiohdr_t

/-- The function `StudioModel::ReadAllBytes`; `files name` is the content of the
file `name` when it can be opened and read, and `none` otherwise. -/
def ReadAllBytes (files : String → Option (List Byte)) (filePath : String) : List Byte :=
  match files filePath with
  | none => []
  | some buffer => buffer

/-- The function `StudioModel::AddSuffixToFileName`. -/
def AddSuffixToFileName (pl : PathLib) (filePath suffix : String) : String :=
  let fileName := pl.stem filePath
  let extension := pl.extension filePath
  let newFileName := fileName ++ suffix ++ extension
  pl.join (pl.parent_path filePath) newFileName

/-- The function `StudioModel::VerifySequenceStudioFile`; `sizeofStudioseqhdr`
stands for `sizeof(studioseqhdr_t)`. -/
def VerifySequenceStudioFile (sizeofStudioseqhdr : Nat) (buffer : List Byte) : Option Bool :=
  if buffer.length < sizeofStudioseqhdr then some false
  else
    match readInt32 buffer 0 with
    | none => none
    | some signature =>
      if signature ≠ 0x51534449 then some false
      else
        match readInt32 buffer 4 with
        | none => none
        | some version =>
          if version ≠ 10 then some false
          else some true

/-- The loop of `LoadBodyPart` over the models `i, i + 1, ...`, run `n` times. -/
def LoadBodyPartLoop (textureHeader : TextureHeader) (studioBodyPart : mstudiobodyparts_t) :
    Nat → Int → BodyPart → Option BodyPart
  | 0, _, bodypart => some bodypart
  | n + 1, i, bodypart =>
    match studioBodyPart.studioModel i with
    | none => none
    | some studioModel =>
      match LoadModel textureHeader studioModel with
      | none => none
      | some model =>
        LoadBodyPartLoop textureHeader studioBodyPart n (i + 1)
          { Models := bodypart.Models ++ [model] }

/-- The function `StudioModel::LoadBodyPart`. -/
def LoadBodyPart (textureHeader : TextureHeader) (studioBodyPart : mstudiobodyparts_t) :
    Option BodyPart :=
  if studioBodyPart.nummodels > 0 then
    LoadBodyPartLoop textureHeader studioBodyPart studioBodyPart.nummodels.toNat 0 { Models := [] }
  else
    some { Models := [] }

set_option linter.dupNamespace false

/-- The members of `StudioModel`.  A header pointer is `none` when null and
otherwise holds the bytes of the buffer it was set to point at; the two tables
of sequence groups have 32 slots. -/
structure StudioModel where
  m_FilePath : String
  m_FileData : List Byte
  m_StudioHeader : Option (List Byte)
  m_StudioTextureFileData : List Byte
  m_StudioTextureHeader : Option (List Byte)
  m_StudioSequenceGroupFileData : Nat → List Byte
  m_StudioSequenceGroupHeaders : Nat → Option (List Byte)
  m_BodyParts : List BodyPart
  m_Textures : List Texture

/-- The texture loop of `LoadFromFile` over the descriptors `i, i + 1, ...`, run
`n` times: the vector `m_Textures` afterwards.  `buffer` is the file that
`m_StudioTextureHeader` points at. -/
def LoadFromFileTextures (L : StudioLayout) (buffer : List Byte) :
    Nat → Int → List Texture → Option (List Texture)
  | 0, _, m_Textures => some m_Textures
  | n + 1, i, m_Textures =>
    match (L.header buffer).studioTextures i with
    | none => none
    | some studioTexture =>
      match LoadTexture L.STUDIO_NF_MASKED buffer studioTexture with
      | none => none
      | some texture => LoadFromFileTextures L buffer n (i + 1) (m_Textures ++ [texture])

/-- The body-part loop of `LoadFromFile`: the vector `m_BodyParts` afterwards. -/
def LoadFromFileBodyParts (textureHeader : TextureHeader) (hdr : studiohdr_t) :
    Nat → Int → List BodyPart → Option (List BodyPart)
  | 0, _, m_BodyParts => some m_BodyParts
  | n + 1, i, m_BodyParts =>
    match hdr.bodyparts i with
    | none => none
    | some studiobodypart =>
      match LoadBodyPart textureHeader studiobodypart with
      | none => none
      | some bodypart =>
        LoadFromFileBodyParts textureHeader hdr n (i + 1) (m_BodyParts ++ [bodypart])

/-- The call `swprintf_s(suffix, L"%02d", i)` into `wchar_t suffix[4]`: the
decimal digits of `i`, with a leading zero below 10; a text of more than three
characters does not fit, and the call ends the program. -/
def formatSuffix (i : Int) : Option String :=
  if 0 ≤ i ∧ i < 10 then some ("0" ++ Nat.repr i.toNat)
  else if 10 ≤ i ∧ i < 1000 then some (Nat.repr i.toNat)
  else if -100 < i ∧ i < 0 then some ("-" ++ Nat.repr (-i).toNat)
  else none

/-- The sequence-group loop of `LoadFromFile` over the groups `i, i + 1, ...`,
run `n` times: the two tables afterwards. -/
def LoadFromFileSeqGroups (L : StudioLayout) (pl : PathLib) (files : String → Option (List Byte))
    (filePath : String) :
    Nat → Int → (Nat → List Byte) × (Nat → Option (List Byte)) →
      Option ((Nat → List Byte) × (Nat → Option (List Byte)))
  | 0, _, tables => some tables
  | n + 1, i, tables =>
    match formatSuffix i with
    | none => none
    | some suffix =>
      let seqGroupFileName := AddSuffixToFileName pl filePath suffix
      let buffer := ReadAllBytes files seqGroupFileName
      match VerifySequenceStudioFile L.sizeofStudioseqhdr buffer with
      | none => none
      | some false => LoadFromFileSeqGroups L pl files filePath n (i + 1) tables
      | some true =>
        match writeArr 32 tables.1 i buffer with
        | none => none
        | some fileData =>
          match writeArr 32 tables.2 i (some buffer) with
          | none => none
          | some headers => LoadFromFileSeqGroups L pl files filePath n (i + 1) (fileData, headers)

/-- The part of `LoadFromFile` that looks for the texture file when the primary
header has no textures. -/
def LoadFromFileCompanion (L : StudioLayout) (pl : PathLib)
    (files : String → Option (List Byte)) (filePath : String) (self : StudioModel) :
    Option StudioModel :=
  match self.m_StudioHeader with
  | none => none
  | some primary =>
    if (L.header primary).numtextures = 0 then
      let externalFileName := AddSuffixToFileName pl filePath "T"
      let self := { self with m_StudioTextureFileData := ReadAllBytes files externalFileName }
      match VerifyStudioFile L.sizeofStudiohdr self.m_StudioTextureFileData with
      | none => none
      | some true =>
        some { self with m_StudioTextureHeader := some self.m_StudioTextureFileData }
      | some false => some self
    else some self

/-- The part of `LoadFromFile` after the header pointers are set: the texture
loop, the body-part loop and the sequence-group loop. -/
def LoadFromFileDecode (L : StudioLayout) (pl : PathLib) (files : String → Option (List Byte))
    (filePath : String) (self : StudioModel) : Option StudioModel :=
  match self.m_StudioHeader, self.m_StudioTextureHeader with
  | some primary, some textureFile =>
    let hdr := L.header primary
    let thdr := L.header textureFile
    match (if thdr.numtextures > 0 then
        LoadFromFileTextures L textureFile thdr.numtextures.toNat 0 self.m_Textures
      else some self.m_Textures) with
    | none => none
    | some m_Textures =>
      let self := { self with m_Textures := m_Textures }
      match (if hdr.numbodyparts > 0 then
          LoadFromFileBodyParts ⟨thdr.studioTextures, thdr.studioSkinRef⟩ hdr
            hdr.numbodyparts.toNat 0 self.m_BodyParts
        else some self.m_BodyParts) with
      | none => none
      | some m_BodyParts =>
        let self := { self with m_BodyParts := m_BodyParts }
        if hdr.numseqgroups > 1 then
          match LoadFromFileSeqGroups L pl files filePath (hdr.numseqgroups - 1).toNat 1
              (self.m_StudioSequenceGroupFileData, self.m_StudioSequenceGroupHeaders) with
          | none => none
          | some (fileData, headers) =>
            some { self with m_StudioSequenceGroupFileData := fileData,
                             m_StudioSequenceGroupHeaders := headers }
        else some self
  | _, _ => none

/-- The function `StudioModel::LoadFromFile`. -/
def LoadFromFile (L : StudioLayout) (pl : PathLib) (files : String → Option (List Byte))
    (filePath : String) (self : StudioModel) : Option StudioModel :=
  let self := { self with m_FileData := ReadAllBytes files filePath }
  if self.m_FileData.isEmpty then some self
  else
    match VerifyStudioFile L.sizeofStudiohdr self.m_FileData with
    | none => none
    | some false => some self
    | some true =>
      let self := { self with m_FilePath := filePath, m_StudioHeader := some self.m_FileData,
                              m_StudioTextureHeader := some self.m_FileData }
      match LoadFromFileCompanion L pl files filePath self with
      | none => none
      | some self => LoadFromFileDecode L pl files filePath self

/-- The state that the constructor of `StudioModel` leaves: null pointers, empty
strings and vectors. -/
def StudioModel.new : StudioModel where
  m_FilePath := ""
  m_FileData := []
  m_StudioHeader := none
  m_StudioTextureFileData := []
  m_StudioTextureHeader := none
  m_StudioSequenceGroupFileData := fun _ => []
  m_StudioSequenceGroupHeaders := fun _ => none
  m_BodyParts := []
  m_Textures := []

/-! ## The decoder's rules in the words of its description -/

/-- The triangles of a strip run over the vertex indices `v`: for `j = 2 .. L-1`
in increasing order, `(v[j-2], v[j-1], v[j])` when `j` is even and
`(v[j-1], v[j-2], v[j])` when `j` is odd. -/
def stripTriples (v : List Nat) : List Nat :=
  (List.range' 2 (v.length - 2)).flatMap fun j =>
    if j % 2 = 0 then [v.getD (j - 2) 0, v.getD (j - 1) 0, v.getD j 0]
    else [v.getD (j - 1) 0, v.getD (j - 2) 0, v.getD j 0]

/-- The triangles of a fan run over the vertex indices `v`: `(v[0], v[j-1], v[j])`
for `j = 2 .. L-1` in increasing order. -/
def fanTriples (v : List Nat) : List Nat :=
  (List.range' 2 (v.length - 2)).flatMap fun j =>
    [v.getD 0 0, v.getD (j - 1) 0, v.getD j 0]

/-- The byte of the buffer at offset `off` (0 outside the buffer). -/
def byteAt (buffer : List Byte) (off : Int) : Nat :=
  (readByte buffer off).getD 0

/-- The four bytes of pixel `i` in a pixel buffer. -/
def pixelAt (data : List Nat) (i : Nat) : List Nat :=
  [data.getD (4 * i) 0, data.getD (4 * i + 1) 0, data.getD (4 * i + 2) 0, data.getD (4 * i + 3) 0]

/-- The colour of pixel `i` by the texture rule: with `p` the `i`-th index byte
and the palette starting right after the `size` index bytes, it is (0,0,0,0)
when the texture is masked and `p = 255`, and (palette[3p], palette[3p+1],
palette[3p+2], 255) otherwise. -/
def decodedPixel (masked : Bool) (buffer : List Byte) (index size : Int) (i : Nat) : List Nat :=
  let p := byteAt buffer (index + i)
  if masked = true ∧ p = 255 then [0, 0, 0, 0]
  else [byteAt buffer (index + size + 3 * p), byteAt buffer (index + size + (3 * p + 1)),
    byteAt buffer (index + size + (3 * p + 2)), 255]

/-- The reference rule for the animation clock: with `d = min(dt, 0.1)` and
`x = frame + d * fps`, the new frame is 0 when `numframes <= 1` and otherwise
`x - floor(x / (numframes - 1)) * (numframes - 1)`. -/
def referenceFrame (pseqdesc : mstudioseqdesc_t) (frame : ℚ) (dt : ℚ) : ℚ :=
  let d := min dt (1 / 10)
  let x := frame + d * pseqdesc.fps
  if pseqdesc.numframes ≤ 1 then 0
  else x - ((⌊x / ((pseqdesc.numframes - 1 : Int) : ℚ)⌋ * (pseqdesc.numframes - 1) : Int) : ℚ)

/-! ## Run-length curves -/

/-- One span of a run-length curve: its explicit samples (`valid` of them) and
its run length `total`. -/
structure Span where
  samples : List Int
  total : Nat
deriving DecidableEq, Repr

/-- Every span has `1 <= valid <= total`. -/
def wellFormed (spans : List Span) : Prop :=
  ∀ sp, sp ∈ spans → 1 ≤ sp.samples.length ∧ sp.samples.length ≤ sp.total

/-- The cells `cells` start with the span list `spans`: for each span, a cell
whose `num` view gives `valid` and `total`, followed by `valid` cells whose
`value` views are the samples. -/
def isCurve : List Span → List mstudioanimvalue_t → Bool
  | [], _ => true
  | _ :: _, [] => false
  | sp :: spans, num :: rest =>
    num.valid == sp.samples.length && num.total == sp.total
      && (rest.take num.valid).map (·.value) == sp.samples
      && isCurve spans (rest.drop num.valid)

/-- The run-length expansion of one span: its samples, followed by
`total - valid` repetitions of the last one. -/
def expandSpan (sp : Span) : List Int :=
  sp.samples ++ List.replicate (sp.total - sp.samples.length) (sp.samples.getLastD 0)

/-- The run-length expansion `D` of a curve. -/
def expandCurve (spans : List Span) : List Int :=
  spans.flatMap expandSpan

/-- The number of cells that the span list takes. -/
def curveCells (spans : List Span) : Nat :=
  (spans.map (fun sp => sp.samples.length + 1)).sum

/-- The adjustment that channel `j` of a bone takes from `m_BoneAdjust`: none
when no controller is assigned. -/
def channelAdjust (m_BoneAdjust : Nat → ℚ) (pbone : mstudiobone_t) (j : Nat) : ℚ :=
  if pbone.bonecontroller j = -1 then 0 else m_BoneAdjust (pbone.bonecontroller j).toNat

/-- The last step of a channel of `CalcBonePosition`: the controller's
adjustment, read from the four-slot table. -/
def addAdjust (m_BoneAdjust : Nat → ℚ) (pbone : mstudiobone_t) (j : Nat) (sampled : Option ℚ) :
    Option ℚ :=
  match sampled with
  | none => none
  | some pos =>
    if pbone.bonecontroller j ≠ -1 then
      match readArr 4 m_BoneAdjust (pbone.bonecontroller j) with
      | none => none
      | some adjust => some (pos + adjust)
    else some pos

/-- The command stream has no zero header among its first `fuel` headers: a
header is the first value of the stream and the value found after each run of
four values per entry; the end of the stream counts as no zero header. -/
def noZeroHeader : Nat → List Int → Bool
  | 0, _ => true
  | _ + 1, [] => true
  | fuel + 1, i :: tricmds =>
    decide (i ≠ 0)
      && noZeroHeader fuel (tricmds.drop (4 * (if i < 0 then toInt16 (-i) else i).toNat))

/-- The last step of a channel of `CalcBoneQuaternion`: the controller's
adjustment, read from the four-slot table and added to both angles; `j` is the
index of the channel among the six of the bone. -/
def addAdjust2 (m_BoneAdjust : Nat → ℚ) (pbone : mstudiobone_t) (j : Nat)
    (sampled : Option (ℚ × ℚ)) : Option (ℚ × ℚ) :=
  match sampled with
  | none => none
  | some (angle1, angle2) =>
    if pbone.bonecontroller j ≠ -1 then
      match readArr 4 m_BoneAdjust (pbone.bonecontroller j) with
      | none => none
      | some adjust => some (angle1 + adjust, angle2 + adjust)
    else some (angle1, angle2)

/-- The number of frames that the span list covers: the sum of the run lengths
`total`. -/
def totalFrames (spans : List Span) : Nat :=
  (spans.map (fun sp => sp.total)).sum

/-! ## Bookkeeping for the statements about poses -/

/-- What round `j` of the loop of `CalcBoneAdj` leaves in slot `j` of
`m_BoneAdjust`, `old` being the element before the round. -/
def CalcBoneAdjSlot (c : StudioConsts) (hdr : studiohdr_t) (m_Controllers : Nat → Nat)
    (m_Mouth : Nat) (j : Nat) (old : ℚ) : Option ℚ :=
  match hdr.bonecontrollers j with
  | none => none
  | some pbonecontroller =>
    match boneControllerValue c pbonecontroller m_Controllers m_Mouth with
    | none => none
    | some value =>
      let t := pbonecontroller.type &&& c.STUDIO_TYPES
      if t = c.STUDIO_XR ∨ t = c.STUDIO_YR ∨ t = c.STUDIO_ZR then
        if j < 4 then some (value * (c.Q_PI / 180)) else none
      else if t = c.STUDIO_X ∨ t = c.STUDIO_Y ∨ t = c.STUDIO_Z then
        if j < 4 then some value else none
      else some old

/-- The weight that `SlerpBones` uses: `s` clamped to `[0, 1]`. -/
def clamp01 (s : ℚ) : ℚ :=
  if s < 0 then 0 else if s > 1 then 1 else s

/-- The componentwise blend `lerp(p, q, s) = p * (1 - s) + q * s`. -/
def vec3_t.lerp (p q : vec3_t) (s : ℚ) : vec3_t :=
  ⟨p.x * (1 - s) + q.x * s, p.y * (1 - s) + q.y * s, p.z * (1 - s) + q.z * s⟩

/-- The flag of axis `axis` (0, 1, 2 for X, Y, Z) is set in the sequence's
`motiontype`. -/
def motionFlag (c : StudioConsts) (pseqdesc : mstudioseqdesc_t) (axis : Nat) : Bool :=
  if axis = 0 then pseqdesc.motiontype &&& c.STUDIO_X ≠ 0
  else if axis = 1 then pseqdesc.motiontype &&& c.STUDIO_Y ≠ 0
  else pseqdesc.motiontype &&& c.STUDIO_Z ≠ 0

/-- A position with the components of the flagged motion axes replaced by 0. -/
def zeroAxes (c : StudioConsts) (pseqdesc : mstudioseqdesc_t) (p : vec3_t) : vec3_t :=
  ⟨if motionFlag c pseqdesc 0 then 0 else p.x, if motionFlag c pseqdesc 1 then 0 else p.y,
    if motionFlag c pseqdesc 2 then 0 else p.z⟩

/-- What round `i` of the loop of `CalcRotations` writes to `pos[i]` and
`q[i]`. -/
def CalcRotationsSlot (c : StudioConsts) (ml : MathLib) (hdr : studiohdr_t)
    (m_BoneAdjust : Nat → ℚ) (frame : Int) (s : ℚ) (panim : List mstudioanim_t) (i : Nat) :
    Option (vec3_t × vec4_t) :=
  match hdr.bones i, panim[i]? with
  | some pbone, some anim =>
    match CalcBoneQuaternion ml m_BoneAdjust frame s pbone anim with
    | none => none
    | some qi =>
      if i < c.MAXSTUDIOBONES then
        match CalcBonePosition m_BoneAdjust frame s pbone anim with
        | none => none
        | some pi => some (pi, qi)
      else none
  | _, _ => none

/-- The position of bone `i` sampled from blend group `g` of the blocks `panim`
(block `g * numbones + i`) by `CalcBonePosition` at the frame `f`, before the
motion axes are cleared. -/
def rawPosition (hdr : studiohdr_t) (m_BoneAdjust : Nat → ℚ) (panim : List mstudioanim_t)
    (f : ℚ) (g i : Nat) : Option vec3_t :=
  match floatToInt f with
  | none => none
  | some frame =>
    match hdr.bones i, panim[g * hdr.numbones.toNat + i]? with
    | some pbone, some anim => CalcBonePosition m_BoneAdjust frame (f - frame) pbone anim
    | _, _ => none

/-- The position `p` of bone `i` with the flagged motion axes cleared when `i`
is the motion bone of the sequence. -/
def motionZero (c : StudioConsts) (pseqdesc : mstudioseqdesc_t) (i : Nat) (p : vec3_t) : vec3_t :=
  if (i : Int) = pseqdesc.motionbone then zeroAxes c pseqdesc p else p

/-- The position of bone `i` sampled from blend group `g`: `rawPosition` with
the motion axes cleared. -/
def sampledPosition (c : StudioConsts) (hdr : studiohdr_t) (m_BoneAdjust : Nat → ℚ)
    (pseqdesc : mstudioseqdesc_t) (panim : List mstudioanim_t) (f : ℚ) (g i : Nat) :
    Option vec3_t :=
  (rawPosition hdr m_BoneAdjust panim f g i).map (motionZero c pseqdesc i)

/-- Every bone below `numbones` is a root (parent -1) or has a parent index
that is not negative and smaller than its own index. -/
def parentsFirst (hdr : studiohdr_t) : Prop :=
  ∀ (i : Nat) (pbone : mstudiobone_t), i < hdr.numbones.toNat → hdr.bones i = some pbone →
    pbone.parent = -1 ∨ (0 ≤ pbone.parent ∧ pbone.parent < i)

/-- The path from the root to bone `i`, found by following parent indices for at
most `fuel` steps. -/
def bonePath (hdr : studiohdr_t) : Nat → Nat → List Nat
  | 0, i => [i]
  | fuel + 1, i =>
    match hdr.bones i with
    | none => [i]
    | some pbone =>
      if pbone.parent = -1 then [i] else bonePath hdr fuel pbone.parent.toNat ++ [i]

/-- The product of the local matrices along a path, from its first bone on:
`(((L r * L a) * ...) * L i)`, each product formed by `R_ConcatTransforms`. -/
def pathProduct (ml : MathLib) (localMatrix : Nat → mat3x4) : List Nat → Option mat3x4
  | [] => none
  | r :: rest =>
    some (rest.foldl (fun m j => ml.R_ConcatTransforms m (localMatrix j)) (localMatrix r))

/-! ## Bookkeeping for the statements about decoded meshes -/

/-- A vertex list holds no two entries at different positions that
`Vertex::operator==` calls equal. -/
def NoDuplicate (vertices : List Vertex) : Prop :=
  ∀ (i j : Nat) (v w : Vertex), i ≠ j → vertices[i]? = some v → vertices[j]? = some w →
    v.eq w = false

/-- In `vertices`, `index` is the position of the first vertex equal to `entry`
under `Vertex::operator==`. -/
def Designates (vertices : List Vertex) (index : Nat) (entry : Vertex) : Prop :=
  ∃ v, vertices[index]? = some v ∧ v.eq entry = true
    ∧ ∀ (k : Nat) (w : Vertex), k < index → vertices[k]? = some w → w.eq entry = false

/-- The vertices that the `i` entries of a run denote, in stream order; this is
`readRun` without the insertion into the shared vertex list. -/
def runEntries (studioModel : mstudiomodel_t) (s t : ℚ) : Nat → List Int → Option (List Vertex)
  | 0, _ => some []
  | i + 1, c0 :: c1 :: c2 :: c3 :: tricmds =>
    match entryVertex studioModel s t c0 c1 c2 c3 with
    | none => none
    | some vert => (runEntries studioModel s t i tricmds).map (vert :: ·)
  | _ + 1, _ => none

/-- A vertex used where a list position must be filled and none is read. -/
def zeroVertex : Vertex :=
  { Position := ⟨0, 0, 0⟩, Normal := ⟨0, 0, 0⟩, TexCoord := ⟨0, 0⟩, Bone := 0 }

/-- For each index that `LoadMeshLoop` appends to the mesh index list, the
vertex of the command-stream entry that produced it: the same walk over the
command stream, with the run's entry vertices in the place of `indices`. -/
def meshEntriesLoop (studioModel : mstudiomodel_t) (s t : ℚ) :
    Nat → List Int → List Vertex → Option (List Vertex)
  | 0, _, _ => none
  | _ + 1, [], _ => none
  | fuel + 1, i :: tricmds, produced =>
    if i = 0 then some produced
    else
      let strip := decide (¬ i < 0)
      let i := if i < 0 then toInt16 (-i) else i
      match runEntries studioModel s t i.toNat tricmds with
      | none => none
      | some entries =>
        meshEntriesLoop studioModel s t fuel (tricmds.drop (4 * i.toNat))
          (if strip then expandStrip zeroVertex entries produced
            else expandFan zeroVertex entries produced)

/-- For each index of the mesh that `LoadMesh` returns, the vertex of the
command-stream entry that produced it. -/
def meshEntries (textureHeader : TextureHeader) (studioMesh : mstudiomesh_t)
    (studioModel : mstudiomodel_t) : Option (List Vertex) :=
  match textureHeader.studioSkinRef studioMesh.skinref with
  | none => none
  | some TextureId =>
    match textureHeader.studioTextures TextureId with
    | none => none
    | some studioTexture =>
      if studioTexture.width = 0 ∨ studioTexture.height = 0 then none
      else
        meshEntriesLoop studioModel (1 / (studioTexture.width : ℚ))
          (1 / (studioTexture.height : ℚ)) (studioMesh.tricmds.length + 1) studioMesh.tricmds []

/-! ## Bookkeeping for the statements about the texture file -/

/-- The two decimal digits of `i`, tens first: the text `07` for 7 and `31` for
31. -/
def twoDigits (i : Nat) : String :=
  String.mk [Char.ofNat (48 + i / 10 % 10), Char.ofNat (48 + i % 10)]

/-- The bytes read for the sequence group `i` of the model at `filePath`: the
content of the file named stem + the two digits of `i` + extension in the
directory of `filePath`, and no bytes when that file cannot be read. -/
def seqGroupFile (pl : PathLib) (files : String → Option (List Byte)) (filePath : String)
    (i : Nat) : List Byte :=
  ReadAllBytes files
    (pl.join (pl.parent_path filePath) (pl.stem filePath ++ twoDigits i ++ pl.extension filePath))

/-! ## Sample inputs -/

/-- A 244-byte buffer that starts "IDST", version 10, and is zero elsewhere. -/
def sampleHeader : List Byte :=
  [0x49, 0x44, 0x53, 0x54, 10, 0, 0, 0] ++ List.replicate 236 0

/-- A sub-model with eight vertices `(i, 0, 0)`, normal `(0, 0, 1)`, bone 0, and
one mesh: a strip of five vertices followed by a fan of three. -/
def sampleModel : mstudiomodel_t where
  nummesh := 1
  studioMesh := fun i =>
    if i = 0 then
      some ⟨0, [5, 0, 0, 0, 0, 1, 0, 0, 0, 2, 0, 0, 0, 3, 0, 0, 0, 4, 0, 0, 0,
        -3, 0, 0, 0, 0, 1, 0, 5, 0, 2, 0, 0, 0, 0]⟩
    else none
  studioVertices := fun i => if 0 ≤ i ∧ i < 8 then some ⟨i, 0, 0⟩ else none
  studioVertexBones := fun i => if 0 ≤ i ∧ i < 8 then some 0 else none
  studioNormals := fun i => if 0 ≤ i ∧ i < 8 then some ⟨0, 0, 1⟩ else none

/-- A texture header with one 4 x 4 texture and the identity skin table. -/
def sampleTextureHeader : TextureHeader where
  studioTextures := fun i => if i = 0 then some ⟨0, 4, 4, 0⟩ else none
  studioSkinRef := fun i => if i = 0 then some 0 else none

/-- The vertex `(i, 0, 0)` of `sampleModel` with texture coordinate `(u, 0)`. -/
def sampleVertex (i : Int) (u : ℚ) : Vertex :=
  { Position := ⟨i, 0, 0⟩, Normal := ⟨0, 0, 1⟩, TexCoord := ⟨u, 0⟩, Bone := 0 }

/-- A texture file image: a 2 x 2 texture whose index bytes 0, 1, 255, 1 start
at offset 0, followed by a palette with entry 0 = (10, 20, 30),
entry 1 = (40, 50, 60) and entry 255 = (70, 80, 90). -/
def sampleTextureBytes : List Byte :=
  [0, 1, 255, 1] ++ [10, 20, 30, 40, 50, 60] ++ List.replicate 759 0 ++ [70, 80, 90]

/-- The sub-model that `LoadModel` decodes from `sampleModel`: the five strip
vertices, the fan vertex with texture coordinate 5/4, and one mesh. -/
def sampleDecoded : Model :=
  { Vertices := [sampleVertex 0 0, sampleVertex 1 0, sampleVertex 2 0, sampleVertex 3 0,
      sampleVertex 4 0, sampleVertex 1 (5 / 4)],
    Meshes := [⟨[0, 1, 2, 2, 1, 3, 2, 3, 4, 0, 5, 2], 0⟩] }

/-- The values of the constants in the Half-Life SDK. -/
def sampleConsts : StudioConsts where
  MAXSTUDIOBONES := 128
  STUDIO_X := 1
  STUDIO_Y := 2
  STUDIO_Z := 4
  STUDIO_XR := 8
  STUDIO_YR := 16
  STUDIO_ZR := 32
  STUDIO_TYPES := 0x7FFF
  STUDIO_RLOOP := 0x8000
  Q_PI := 314159265358979323846 / 100000000000000000000

/-- Modelled from the spec: a value for the functions of `hlsdk/mathlib.h`.
`R_ConcatTransforms` is the composition of affine maps
(`child_world = parent_world ∘ child_local`), `QuaternionMatrix` the rotation
matrix of a quaternion (last column 0) and `VectorCompare` equality.
`AngleQuaternion` and `QuaternionSlerp`, which need sines and cosines, are
given by their first-order forms: exact at the zero angles and at `s = 0`. -/
def sampleMathLib : MathLib where
  AngleQuaternion := fun a => ⟨a.x / 2, a.y / 2, a.z / 2, 1⟩
  QuaternionSlerp := fun p q t =>
    ⟨(1 - t) * p.x + t * q.x, (1 - t) * p.y + t * q.y, (1 - t) * p.z + t * q.z,
      (1 - t) * p.w + t * q.w⟩
  QuaternionMatrix := fun q =>
    { m00 := 1 - 2 * q.y * q.y - 2 * q.z * q.z
      m10 := 2 * q.x * q.y + 2 * q.w * q.z
      m20 := 2 * q.x * q.z - 2 * q.w * q.y
      m01 := 2 * q.x * q.y - 2 * q.w * q.z
      m11 := 1 - 2 * q.x * q.x - 2 * q.z * q.z
      m21 := 2 * q.y * q.z + 2 * q.w * q.x
      m02 := 2 * q.x * q.z + 2 * q.w * q.y
      m12 := 2 * q.y * q.z - 2 * q.w * q.x
      m22 := 1 - 2 * q.x * q.x - 2 * q.y * q.y
      m03 := 0
      m13 := 0
      m23 := 0 }
  R_ConcatTransforms := fun a b =>
    { m00 := a.m00 * b.m00 + a.m01 * b.m10 + a.m02 * b.m20
      m01 := a.m00 * b.m01 + a.m01 * b.m11 + a.m02 * b.m21
      m02 := a.m00 * b.m02 + a.m01 * b.m12 + a.m02 * b.m22
      m03 := a.m00 * b.m03 + a.m01 * b.m13 + a.m02 * b.m23 + a.m03
      m10 := a.m10 * b.m00 + a.m11 * b.m10 + a.m12 * b.m20
      m11 := a.m10 * b.m01 + a.m11 * b.m11 + a.m12 * b.m21
      m12 := a.m10 * b.m02 + a.m11 * b.m12 + a.m12 * b.m22
      m13 := a.m10 * b.m03 + a.m11 * b.m13 + a.m12 * b.m23 + a.m13
      m20 := a.m20 * b.m00 + a.m21 * b.m10 + a.m22 * b.m20
      m21 := a.m20 * b.m01 + a.m21 * b.m11 + a.m22 * b.m21
      m22 := a.m20 * b.m02 + a.m21 * b.m12 + a.m22 * b.m22
      m23 := a.m20 * b.m03 + a.m21 * b.m13 + a.m22 * b.m23 + a.m23 }
  VectorCompare := fun a b => decide (a = b)

/-- A bone without controllers, with zero angles, unit scales and the base
position `(px, 0, 0)`. -/
def sampleBone (parent : Int) (px : ℚ) : mstudiobone_t where
  parent := parent
  bonecontroller := fun _ => -1
  value := fun j => if j = 0 then px else 0
  scale := fun _ => 1

/-- An animation block without curve data: all six offsets are 0. -/
def emptyAnim : mstudioanim_t where
  offset := fun _ => 0
  animvalue := fun _ => []

/-- A header with the bones `bones`, no bone controllers, and one sequence
`pseqdesc` whose animation blocks `anim` are embedded at offset 0. -/
def sampleHeader2 (bones : List mstudiobone_t) (pseqdesc : mstudioseqdesc_t)
    (anim : List mstudioanim_t) : studiohdr_t where
  numbones := bones.length
  bones := fun i => if i < 0 then none else bones[i.toNat]?
  numbonecontrollers := 0
  bonecontrollers := fun _ => none
  numseq := 1
  seqdescs := fun i => if i = 0 then some pseqdesc else none
  numseqgroups := 1
  seqgroups := fun i => if i = 0 then some ⟨0⟩ else none
  anim := fun off => if off = 0 then anim else []
  numtextures := 0
  studioTextures := fun _ => none
  studioSkinRef := fun _ => none
  numbodyparts := 0
  bodyparts := fun _ => none

/-- The matrix with all elements 0. -/
def zeroMatrix : mat3x4 :=
  ⟨0, 0, 0, 0, 0, 0, 0, 0, 0, 0, 0, 0⟩

/-- The state that the constructor of `StudioModelAnimating` leaves (all members
zero), with the header `hdr` bound by `SetStudioHeader`. -/
def newAnimating (hdr : Option studiohdr_t) : StudioModelAnimating where
  m_StudioHeader := hdr
  m_StudioSequenceGroupHeaders := none
  m_Sequence := 0
  m_Frame := 0
  m_Body := 0
  m_Skin := 0
  m_Controllers := fun _ => 0
  m_Blendings := fun _ => 0
  m_Mouth := 0
  m_BoneAdjust := fun _ => 0
  m_BoneTransforms := fun _ => zeroMatrix
  tmp_pos := fun _ => ⟨0, 0, 0⟩
  tmp_q := fun _ => ⟨0, 0, 0, 0⟩
  tmp_pos2 := fun _ => ⟨0, 0, 0⟩
  tmp_q2 := fun _ => ⟨0, 0, 0, 0⟩
  tmp_pos3 := fun _ => ⟨0, 0, 0⟩
  tmp_q3 := fun _ => ⟨0, 0, 0, 0⟩
  tmp_pos4 := fun _ => ⟨0, 0, 0⟩
  tmp_q4 := fun _ => ⟨0, 0, 0, 0⟩

/-- A skeleton of two bones in which bone 0 has bone 1 for parent and bone 1,
at position (1, 0, 0), is the root. -/
def reversedSkeleton : studiohdr_t :=
  sampleHeader2 [sampleBone 1 0, sampleBone (-1) 1] { fps := 1, numframes := 2 }
    [emptyAnim, emptyAnim]

/-- A skeleton of two bones in which bone 0, at position (1, 0, 0), is the root
and bone 1, at position (2, 0, 0), has bone 0 for parent. -/
def orderedSkeleton : studiohdr_t :=
  sampleHeader2 [sampleBone (-1) 1, sampleBone 0 2] { fps := 1, numframes := 2 }
    [emptyAnim, emptyAnim]

/-- A curve of two spans: samples 5, 7 held for four frames, then sample 9 for
one frame; the cell 0 follows it in the buffer. -/
def sampleCurveCells : List mstudioanimvalue_t :=
  [⟨2, 4, 0⟩, ⟨0, 0, 5⟩, ⟨0, 0, 7⟩, ⟨1, 1, 0⟩, ⟨0, 0, 9⟩, ⟨0, 0, 0⟩]

/-- The span list of `sampleCurveCells`. -/
def sampleSpans : List Span :=
  [⟨[5, 7], 4⟩, ⟨[9], 1⟩]

/-- An animation block whose channel 0 holds `sampleCurveCells`. -/
def curveAnim : mstudioanim_t where
  offset := fun j => if j = 0 then 12 else 0
  animvalue := fun j => if j = 0 then sampleCurveCells else []

/-- A sequence of four blend groups whose motion bone is bone 0, with the X axis
flagged. -/
def blendSeqdesc : mstudioseqdesc_t :=
  { fps := 1, numframes := 5, numblends := 4, motiontype := 1, motionbone := 0 }

/-- The blocks of four blend groups of two bones: channel 0 of the blocks of
bone 1 in groups 1 and 2 and of bone 0 in group 3 holds `sampleCurveCells`. -/
def blendBlocks : List mstudioanim_t :=
  [emptyAnim, emptyAnim, emptyAnim, curveAnim, emptyAnim, curveAnim, curveAnim, emptyAnim]

/-- A skeleton of two bones, bone 0 the root at (1, 0, 0) and bone 1 its child at
(2, 0, 0), with the sequence `blendSeqdesc` and the blocks `blendBlocks`. -/
def blendSkeleton : studiohdr_t :=
  sampleHeader2 [sampleBone (-1) 1, sampleBone 0 2] blendSeqdesc blendBlocks

/-- A new object bound to `blendSkeleton` with the blend values 51 and 102. -/
def blendState : StudioModelAnimating :=
  { newAnimating (some blendSkeleton) with m_Blendings := fun j => if j = 0 then 51 else 102 }

/-- A value for the path operations, for file names without directories:
the stem is the text before the first dot, the extension the text from that dot
on, the parent path is empty and `join` appends. -/
def samplePathLib : PathLib where
  stem := fun s => String.mk (s.data.takeWhile (fun ch => ch ≠ '.'))
  extension := fun s => String.mk (s.data.dropWhile (fun ch => ch ≠ '.'))
  parent_path := fun _ => ""
  join := fun p n => p ++ n

/-- A small layout for the samples: headers of 12 bytes; `numtextures`,
`numbodyparts` and `numseqgroups` are the bytes 8, 9 and 10; the file has one
texture descriptor, with `flags`, `width`, `height` and `index` in the bytes 12
to 15, a skin table of one entry in byte 20, and body parts of one sub-model,
which is `sampleModel` with `nummesh` taken from byte 11. -/
def sampleLayout : StudioLayout where
  sizeofStudiohdr := 12
  sizeofStudioseqhdr := 12
  STUDIO_NF_MASKED := 0x40
  header := fun buffer =>
    { numbones := 0
      bones := fun _ => none
      numbonecontrollers := 0
      bonecontrollers := fun _ => none
      numseq := 0
      seqdescs := fun _ => none
      numseqgroups := (buffer.getD 10 0).val
      seqgroups := fun _ => none
      anim := fun _ => []
      numtextures := (buffer.getD 8 0).val
      studioTextures := fun i =>
        if i = 0 then
          match buffer[12]?, buffer[13]?, buffer[14]?, buffer[15]? with
          | some flags, some width, some height, some index =>
            some ⟨flags.val, width.val, height.val, index.val⟩
          | _, _, _, _ => none
        else none
      studioSkinRef := fun i => if i = 0 then (buffer[20]?).map (fun b => b.val) else none
      numbodyparts := (buffer.getD 9 0).val
      bodyparts := fun i =>
        if 0 ≤ i ∧ i < (buffer.getD 9 0).val then
          some ⟨1, fun j =>
            if j = 0 then some { sampleModel with nummesh := (buffer.getD 11 0).val } else none⟩
        else none }

/-- A primary file without textures, with one body part of one mesh and three
sequence groups. -/
def sampleFileA : List Byte :=
  [0x49, 0x44, 0x53, 0x54, 10, 0, 0, 0, 0, 1, 3, 1]

/-- The texture file of `sampleFileA`: one texture of 1 x 1 with its index byte
at offset 16 and the palette after it, and the skin table entry 0. -/
def sampleFileAT : List Byte :=
  [0x49, 0x44, 0x53, 0x54, 10, 0, 0, 0, 1, 0, 0, 0, 0, 1, 1, 16, 0, 10, 20, 30, 0]

/-- A sequence-group file: the tag `IDSQ`, version 10. -/
def sampleFileSeq : List Byte :=
  [0x49, 0x44, 0x53, 0x51, 10, 0, 0, 0, 0, 0, 0, 0]

/-- A primary file without textures, with one body part whose sub-model has no
mesh, and one sequence group. -/
def sampleFileB : List Byte :=
  [0x49, 0x44, 0x53, 0x54, 10, 0, 0, 0, 0, 1, 1, 0]

/-- A file that passes `VerifyStudioFile` and holds one texture of 1 x 1 whose
`index` (200) lies outside the 21 bytes of the file. -/
def sampleFileBad : List Byte :=
  [0x49, 0x44, 0x53, 0x54, 10, 0, 0, 0, 1, 0, 0, 0, 0, 1, 1, 200, 0, 10, 20, 30, 0]

/-- A directory for the samples: `a.mdl` with its texture file `aT.mdl` and the
sequence-group file `a01.mdl` (no `a02.mdl`); `b.mdl` without texture file;
`bad.mdl`; the empty file `empty.mdl`; and `junk.mdl`, twelve zero bytes. -/
def sampleFiles (name : String) : Option (List Byte) :=
  if name = "a.mdl" then some sampleFileA
  else if name = "aT.mdl" then some sampleFileAT
  else if name = "a01.mdl" then some sampleFileSeq
  else if name = "b.mdl" then some sampleFileB
  else if name = "bad.mdl" then some sampleFileBad
  else if name = "empty.mdl" then some []
  else if name = "junk.mdl" then some (List.replicate 12 0)
  else none

/-- A curve of two spans in which the first has as many samples as frames:
samples 5, 7 for two frames, then sample 9 for one frame. -/
def fullSpanCells : List mstudioanimvalue_t :=
  [⟨2, 2, 0⟩, ⟨0, 0, 5⟩, ⟨0, 0, 7⟩, ⟨1, 1, 0⟩, ⟨0, 0, 9⟩]

/-- The span list of `fullSpanCells`. -/
def fullSpans : List Span :=
  [⟨[5, 7], 2⟩, ⟨[9], 1⟩]

/-- An animation block whose channels 0 (position x) and 3 (rotation x) hold
`fullSpanCells`. -/
def fullSpanAnim : mstudioanim_t where
  offset := fun j => if j = 0 ∨ j = 3 then 12 else 0
  animvalue := fun j => if j = 0 ∨ j = 3 then fullSpanCells else []

/-- An animation block whose channel 3 (rotation x) holds `sampleCurveCells`. -/
def rotationAnim : mstudioanim_t where
  offset := fun j => if j = 3 then 12 else 0
  animvalue := fun j => if j = 3 then sampleCurveCells else []

/-- A primary file with one texture of its own, no body part, and the count 34
of sequence groups. -/
def sampleFileMany : List Byte :=
  [0x49, 0x44, 0x53, 0x54, 10, 0, 0, 0, 1, 0, 34, 0, 0, 1, 1, 16, 0, 10, 20, 30, 0]

/-- A directory with the primary file `m.mdl` and the one sequence-group file
`m32.mdl`. -/
def manyFiles (name : String) : Option (List Byte) :=
  if name = "m.mdl" then some sampleFileMany
  else if name = "m32.mdl" then some sampleFileSeq
  else none

/-- The directory `sampleFiles` with a second model `c.mdl`, a copy of `a.mdl`
with its texture file `cT.mdl` and without sequence-group files. -/
def reloadFiles (name : String) : Option (List Byte) :=
  if name = "c.mdl" then some sampleFileA
  else if name = "cT.mdl" then some sampleFileAT
  else sampleFiles name

/-- An animation block whose channels 0 (position x) and 3 (rotation x) hold
the cells `cells`. -/
def channelAnim (cells : List mstudioanimvalue_t) : mstudioanim_t where
  offset := fun j => if j = 0 ∨ j = 3 then 12 else 0
  animvalue := fun j => if j = 0 ∨ j = 3 then cells else []

/-- The curve of a sequence of one frame: one span with the sample 5. -/
def oneFrameCells : List mstudioanimvalue_t :=
  [⟨1, 1, 0⟩, ⟨0, 0, 5⟩]

/-- The span list of `oneFrameCells`. -/
def oneFrameSpans : List Span :=
  [⟨[5], 1⟩]

/-- The curve of a sequence of four frames: one span with the samples 5, 7 for
four frames. -/
def fourFrameCells : List mstudioanimvalue_t :=
  [⟨2, 4, 0⟩, ⟨0, 0, 5⟩, ⟨0, 0, 7⟩]

/-- The span list of `fourFrameCells`. -/
def fourFrameSpans : List Span :=
  [⟨[5, 7], 4⟩]

/-- A header with the bone controllers `controllers` and nothing else. -/
def controllerHeader (controllers : List mstudiobonecontroller_t) : studiohdr_t :=
  { sampleHeader2 [] { fps := 1, numframes := 1 } [] with
    numbonecontrollers := controllers.length
    bonecontrollers := fun i => if i < 0 then none else controllers[i.toNat]? }

/-- Four general controllers in the slots 0..3 and a mouth controller in slot 4,
each a rotation about X from 0 to 90 degrees. -/
def mouthControllers : List mstudiobonecontroller_t :=
  [⟨8, 0, 90, 0⟩, ⟨8, 0, 90, 1⟩, ⟨8, 0, 90, 2⟩, ⟨8, 0, 90, 3⟩, ⟨8, 0, 90, 4⟩]

/-- A sub-model whose vertices 0 and 1 share the position `(1, 0, 0)` and belong
to the bones 0 and 1, with a third vertex `(2, 0, 0)` of bone 2; all normals are
`(0, 0, 1)`, and the one mesh is a strip over the vertices 0, 1, 2. -/
def twoBoneModel : mstudiomodel_t where
  nummesh := 1
  studioMesh := fun i =>
    if i = 0 then some ⟨0, [3, 0, 0, 0, 0, 1, 0, 0, 0, 2, 0, 0, 0, 0]⟩ else none
  studioVertices := fun i =>
    if i = 0 ∨ i = 1 then some ⟨1, 0, 0⟩ else if i = 2 then some ⟨2, 0, 0⟩ else none
  studioVertexBones := fun i => if 0 ≤ i ∧ i < 3 then some i.toNat else none
  studioNormals := fun i => if 0 ≤ i ∧ i < 3 then some ⟨0, 0, 1⟩ else none

/-- The vertex `(x, 0, 0)` of `twoBoneModel` with the bone `bone`. -/
def boneVertex (x : ℚ) (bone : Nat) : Vertex :=
  { Position := ⟨x, 0, 0⟩, Normal := ⟨0, 0, 1⟩, TexCoord := ⟨0, 0⟩, Bone := bone }

/-- The curve of a sequence of ten frames: one span with the sample 5 for ten
frames. -/
def tenFrameCells : List mstudioanimvalue_t :=
  [⟨1, 10, 0⟩, ⟨0, 0, 5⟩]

/-- The span list of `tenFrameCells`. -/
def tenFrameSpans : List Span :=
  [⟨[5], 10⟩]

theorem toInt32_eq_iff (u : Nat) (hu : u < 4294967296) (c : Int) (hc0 : 0 ≤ c)
    (hc : c < 2147483648) : toInt32 u = c ↔ (u : Int) = c := by
  unfold toInt32
  rw [Nat.mod_eq_of_lt hu]
  split <;> omega

theorem list_eight {α : Type} (l : List α) (h : 8 ≤ l.length) :
    ∃ b0 b1 b2 b3 b4 b5 b6 b7 rest,
      l = b0 :: b1 :: b2 :: b3 :: b4 :: b5 :: b6 :: b7 :: rest := by
  match l, h with
  | b0 :: b1 :: b2 :: b3 :: b4 :: b5 :: b6 :: b7 :: rest, _ =>
    exact ⟨b0, b1, b2, b3, b4, b5, b6, b7, rest, rfl⟩

theorem VerifyStudioFile_eq (s : Nat) (h8 : 8 ≤ s) (buffer : List Byte) :
    VerifyStudioFile s buffer
      = some (decide (s ≤ buffer.length ∧ le32 buffer 0 = 0x54534449 ∧ le32 buffer 4 = 10)) := by
  unfold VerifyStudioFile
  by_cases hlen : buffer.length < s
  · simp [hlen]
  · obtain ⟨b0, b1, b2, b3, b4, b5, b6, b7, rest, rfl⟩ := list_eight buffer (by omega)
    have h0 := b0.isLt; have h1 := b1.isLt; have h2 := b2.isLt; have h3 := b3.isLt
    have h4 := b4.isLt; have h5 := b5.isLt; have h6 := b6.isLt; have h7 := b7.isLt
    have e1 := toInt32_eq_iff (b0.val + 256 * b1.val + 65536 * b2.val + 16777216 * b3.val)
      (by omega) 0x54534449 (by norm_num) (by norm_num)
    have e2 := toInt32_eq_iff (b4.val + 256 * b5.val + 65536 * b6.val + 16777216 * b7.val)
      (by omega) 10 (by norm_num) (by norm_num)
    simp only [hlen, if_false, readInt32, List.drop, le32, List.getD_cons_zero,
      List.getD_cons_succ]
    by_cases c1 : toInt32 (b0.val + 256 * b1.val + 65536 * b2.val + 16777216 * b3.val)
        = 0x54534449
    · by_cases c2 : toInt32 (b4.val + 256 * b5.val + 65536 * b6.val + 16777216 * b7.val) = 10
      · have := e1.1 c1
        have := e2.1 c2
        have hl : s ≤ (b0 :: b1 :: b2 :: b3 :: b4 :: b5 :: b6 :: b7 :: rest).length := by omega
        simp only [c1, c2]
        simp only [ne_eq, not_true_eq_false, if_false, hl, true_and]
        have g1 : b0.val + 256 * b1.val + 65536 * b2.val + 16777216 * b3.val = 0x54534449 := by
          omega
        have g2 : b4.val + 256 * b5.val + 65536 * b6.val + 16777216 * b7.val = 10 := by omega
        simp [g1, g2]
      · have : ¬ ((b4.val + 256 * b5.val + 65536 * b6.val + 16777216 * b7.val : Nat) : Int)
            = 10 := fun h => c2 (e2.2 h)
        simp [c1, c2]
        intro _ _; omega
    · have : ¬ ((b0.val + 256 * b1.val + 65536 * b2.val + 16777216 * b3.val : Nat) : Int)
          = 0x54534449 := fun h => c1 (e1.2 h)
      simp [c1]
      intro _ _; omega

theorem VerifyStudioFile_mutation (s : Nat) (h8 : 8 ≤ s) (buffer : List Byte)
    (hacc : VerifyStudioFile s buffer = some true) (i : Nat) (hi : i < 8) (b : Byte)
    (hb : b ≠ buffer.getD i 0) : VerifyStudioFile s (buffer.set i b) = some false := by
  rw [VerifyStudioFile_eq s h8] at hacc
  rw [VerifyStudioFile_eq s h8]
  simp only [Option.some.injEq, decide_eq_true_eq] at hacc
  obtain ⟨hl, hm, hv⟩ := hacc
  obtain ⟨b0, b1, b2, b3, b4, b5, b6, b7, rest, rfl⟩ := list_eight buffer (by omega)
  have h0 := b0.isLt; have h1 := b1.isLt; have h2 := b2.isLt; have h3 := b3.isLt
  have h4 := b4.isLt; have h5 := b5.isLt; have h6 := b6.isLt; have h7 := b7.isLt
  have hbl := b.isLt
  simp only [le32, List.getD_cons_zero, List.getD_cons_succ] at hm hv
  simp only [Option.some.injEq, decide_eq_false_iff_not]
  rintro ⟨-, hm2, hv2⟩
  interval_cases i <;>
    simp only [List.set, le32, List.getD_cons_zero, List.getD_cons_succ] at hm2 hv2 hb <;>
    · have hne : b.val ≠ _ := fun h => hb (Fin.ext h)
      omega

/-- C1: with a header structure of at least eight bytes, `VerifyStudioFile`
accepts a buffer exactly when the buffer is at least as long as the header
structure, bytes 0..3 spell 0x54534449 little-endian and bytes 4..7 spell 10;
and replacing any one of the first eight bytes of an accepted buffer by a
different byte makes the buffer rejected. -/
theorem VerifyStudioFile_accepts_iff (sizeofStudiohdr : Nat) (h8 : 8 ≤ sizeofStudiohdr)
    (buffer : List Byte) :
    VerifyStudioFile sizeofStudiohdr buffer
        = some (decide (sizeofStudiohdr ≤ buffer.length ∧ le32 buffer 0 = 0x54534449
            ∧ le32 buffer 4 = 10))
      ∧ (VerifyStudioFile sizeofStudiohdr buffer = some true →
          ∀ i, i < 8 → ∀ b : Byte, b ≠ buffer.getD i 0 →
            VerifyStudioFile sizeofStudiohdr (buffer.set i b) = some false) :=
  ⟨VerifyStudioFile_eq sizeofStudiohdr h8 buffer,
    fun hacc i hi b hb => VerifyStudioFile_mutation sizeofStudiohdr h8 buffer hacc i hi b hb⟩

/-- A 244-byte header "IDST", version 10, is accepted, and is rejected once its
byte 5 is changed from 0 to 1. -/
theorem VerifyStudioFile_accepts_iff_witness :
    8 ≤ 244
      ∧ VerifyStudioFile 244 sampleHeader = some true
      ∧ VerifyStudioFile 244 (sampleHeader.set 5 1) = some false :=
  ⟨by decide,
    (VerifyStudioFile_accepts_iff 244 (by decide) sampleHeader).1.trans (by decide!),
    (VerifyStudioFile_accepts_iff 244 (by decide) sampleHeader).2
      ((VerifyStudioFile_accepts_iff 244 (by decide) sampleHeader).1.trans (by decide!))
      5 (by decide) 1 (by decide)⟩

/-! ## Strip and fan expansion: theorems -/

theorem foldl_append_flatMap {α : Type} (f : Nat → List α) (js : List Nat) (out : List α) :
    js.foldl (fun out j => out ++ f j) out = out ++ js.flatMap f := by
  induction js generalizing out with
  | nil => simp
  | cons j js ih => simp [List.foldl_cons, ih, List.flatMap_cons, List.append_assoc]

theorem expandStrip_eq (indices out : List Nat) :
    expandStrip 0 indices out = out ++ stripTriples indices := by
  unfold expandStrip stripTriples
  rw [← foldl_append_flatMap]
  congr 1
  funext out j
  by_cases hj : j % 2 = 0 <;> simp [hj]

theorem expandFan_eq (indices out : List Nat) :
    expandFan 0 indices out = out ++ fanTriples indices := by
  unfold expandFan fanTriples
  rw [← foldl_append_flatMap]

theorem readRun_length (studioModel : mstudiomodel_t) (s t : ℚ) (i : Nat) :
    ∀ (tricmds : List Int) (vertices : List Vertex) (indices : List Nat)
      (rest : List Int) (vertices' : List Vertex) (v : List Nat),
      readRun studioModel s t i tricmds vertices indices = some (rest, vertices', v) →
      v.length = indices.length + i ∧ tricmds.length = rest.length + 4 * i := by
  induction i with
  | zero =>
    intro tricmds vertices indices rest vertices' v h
    simp only [readRun, Option.some.injEq, Prod.mk.injEq] at h
    obtain ⟨rfl, -, rfl⟩ := h
    simp
  | succ i ih =>
    intro tricmds vertices indices rest vertices' v h
    match tricmds, h with
    | c0 :: c1 :: c2 :: c3 :: tricmds, h =>
      simp only [readRun] at h
      cases he : entryVertex studioModel s t c0 c1 c2 c3 with
      | none => simp [he] at h
      | some vert =>
        simp only [he] at h
        have := ih _ _ _ _ _ _ h
        simp only [List.length_append, List.length_singleton, List.length_cons,
          List.length_nil] at this ⊢
        omega

theorem LoadMeshLoop_strip (studioModel : mstudiomodel_t) (s t : ℚ) (fuel : Nat) (h : Int)
    (hpos : 0 < h) (tricmds : List Int) (vertices : List Vertex) (meshIndices : List Nat)
    (rest : List Int) (vertices' : List Vertex) (v : List Nat)
    (hrun : readRun studioModel s t h.toNat tricmds vertices [] = some (rest, vertices', v)) :
    LoadMeshLoop studioModel s t (fuel + 1) (h :: tricmds) vertices meshIndices
      = LoadMeshLoop studioModel s t fuel rest vertices' (meshIndices ++ stripTriples v) := by
  have h0 : h ≠ 0 := by omega
  have hn : ¬ h < 0 := by omega
  simp only [LoadMeshLoop, h0, hn, if_false, hrun, not_false_eq_true, decide_True, if_true,
    expandStrip_eq]

theorem LoadMeshLoop_fan (studioModel : mstudiomodel_t) (s t : ℚ) (fuel : Nat) (h : Int)
    (hneg : h < 0) (tricmds : List Int) (vertices : List Vertex) (meshIndices : List Nat)
    (rest : List Int) (vertices' : List Vertex) (v : List Nat)
    (hrun : readRun studioModel s t (toInt16 (-h)).toNat tricmds vertices []
      = some (rest, vertices', v)) :
    LoadMeshLoop studioModel s t (fuel + 1) (h :: tricmds) vertices meshIndices
      = LoadMeshLoop studioModel s t fuel rest vertices' (meshIndices ++ fanTriples v) := by
  have h0 : h ≠ 0 := by omega
  simp only [LoadMeshLoop, h0, hneg, if_false, if_true, hrun, not_true_eq_false, decide_False,
    expandFan_eq]
  simp

theorem LoadMeshLoop_zero (studioModel : mstudiomodel_t) (s t : ℚ) (fuel : Nat)
    (tricmds : List Int) (vertices : List Vertex) (meshIndices : List Nat) :
    LoadMeshLoop studioModel s t (fuel + 1) (0 :: tricmds) vertices meshIndices
      = some (vertices, meshIndices) := by
  simp [LoadMeshLoop]

/-- C2: a run with positive header `h` whose entries resolve to the vertex
indices `v` (there are `h` of them) makes `LoadMesh` append to the mesh index
list exactly the strip triples of `v`, `(v[j-2], v[j-1], v[j])` for even `j` and
`(v[j-1], v[j-2], v[j])` for odd `j`, `j = 2 .. L-1` in increasing order, before
it goes on with the next header; when that header is zero the mesh index list
is final.  The strip `[0,1,2,3,4]` gives `(0,1,2), (2,1,3), (2,3,4)`. -/
theorem LoadMesh_strip_run (studioModel : mstudiomodel_t) (s t : ℚ) (fuel : Nat) (h : Int)
    (hpos : 0 < h) (tricmds : List Int) (vertices : List Vertex) (meshIndices : List Nat)
    (rest : List Int) (vertices' : List Vertex) (v : List Nat)
    (hrun : readRun studioModel s t h.toNat tricmds vertices [] = some (rest, vertices', v)) :
    (v.length : Int) = h
      ∧ LoadMeshLoop studioModel s t (fuel + 1) (h :: tricmds) vertices meshIndices
          = LoadMeshLoop studioModel s t fuel rest vertices' (meshIndices ++ stripTriples v)
      ∧ (rest.head? = some 0 →
          LoadMeshLoop studioModel s t (fuel + 2) (h :: tricmds) vertices meshIndices
            = some (vertices', meshIndices ++ stripTriples v))
      ∧ stripTriples [0, 1, 2, 3, 4] = [0, 1, 2, 2, 1, 3, 2, 3, 4] := by
  refine ⟨?_, LoadMeshLoop_strip studioModel s t fuel h hpos tricmds vertices meshIndices
    rest vertices' v hrun, ?_, by decide⟩
  · have := (readRun_length studioModel s t _ _ _ _ _ _ _ hrun).1
    simp only [List.length_nil, Nat.zero_add] at this
    omega
  · intro hz
    rw [LoadMeshLoop_strip studioModel s t (fuel + 1) h hpos tricmds vertices meshIndices
      rest vertices' v hrun]
    match rest, hz with
    | z :: rest, hz =>
      simp only [List.head?_cons, Option.some.injEq] at hz
      subst hz
      exact LoadMeshLoop_zero _ _ _ _ _ _ _

/-- The strip of five vertices of `sampleModel`, decoded into an empty vertex
list, gives the index list `0,1,2, 2,1,3, 2,3,4`. -/
theorem LoadMesh_strip_run_witness :
    LoadMeshLoop sampleModel (1 / 4) (1 / 4) 2
        [5, 0, 0, 0, 0, 1, 0, 0, 0, 2, 0, 0, 0, 3, 0, 0, 0, 4, 0, 0, 0, 0] [] []
      = some ([sampleVertex 0 0, sampleVertex 1 0, sampleVertex 2 0, sampleVertex 3 0,
          sampleVertex 4 0], [0, 1, 2, 2, 1, 3, 2, 3, 4]) :=
  (LoadMesh_strip_run sampleModel (1 / 4) (1 / 4) 0 5 (by decide)
    [0, 0, 0, 0, 1, 0, 0, 0, 2, 0, 0, 0, 3, 0, 0, 0, 4, 0, 0, 0, 0] [] [] [0]
    [sampleVertex 0 0, sampleVertex 1 0, sampleVertex 2 0, sampleVertex 3 0, sampleVertex 4 0]
    [0, 1, 2, 3, 4] (by decide!)).2.2.1 (by decide)

/-- C3: a run with negative header `h` whose entries resolve to the vertex
indices `v` makes `LoadMesh` append to the mesh index list exactly the fan
triples `(v[0], v[j-1], v[j])`, `j = 2 .. L-1` in increasing order, before it
goes on with the next header; a fan of five vertices gives three triangles, all
starting with `v[0]`. -/
theorem LoadMesh_fan_run (studioModel : mstudiomodel_t) (s t : ℚ) (fuel : Nat) (h : Int)
    (hneg : h < 0) (tricmds : List Int) (vertices : List Vertex) (meshIndices : List Nat)
    (rest : List Int) (vertices' : List Vertex) (v : List Nat)
    (hrun : readRun studioModel s t (toInt16 (-h)).toNat tricmds vertices []
      = some (rest, vertices', v)) :
    (-32768 < h → (v.length : Int) = -h)
      ∧ LoadMeshLoop studioModel s t (fuel + 1) (h :: tricmds) vertices meshIndices
          = LoadMeshLoop studioModel s t fuel rest vertices' (meshIndices ++ fanTriples v)
      ∧ (rest.head? = some 0 →
          LoadMeshLoop studioModel s t (fuel + 2) (h :: tricmds) vertices meshIndices
            = some (vertices', meshIndices ++ fanTriples v))
      ∧ (∀ a b c d e : Nat, fanTriples [a, b, c, d, e] = [a, b, c, a, c, d, a, d, e]) := by
  refine ⟨?_, LoadMeshLoop_fan studioModel s t fuel h hneg tricmds vertices meshIndices
    rest vertices' v hrun, ?_, ?_⟩
  · intro hmin
    have := (readRun_length studioModel s t _ _ _ _ _ _ _ hrun).1
    simp only [List.length_nil, Nat.zero_add] at this
    have hneg16 : toInt16 (-h) = -h ∨ toInt16 (-h) ≤ 0 := by
      unfold toInt16
      omega
    rcases hneg16 with h16 | h16
    · rw [h16] at this
      omega
    · have h0 : (toInt16 (-h)).toNat = 0 := by omega
      have h65 : (-h + 32768) % 65536 = toInt16 (-h) + 32768 := by
        unfold toInt16
        ring
      omega
  · intro hz
    rw [LoadMeshLoop_fan studioModel s t (fuel + 1) h hneg tricmds vertices meshIndices
      rest vertices' v hrun]
    match rest, hz with
    | z :: rest, hz =>
      simp only [List.head?_cons, Option.some.injEq] at hz
      subst hz
      exact LoadMeshLoop_zero _ _ _ _ _ _ _
  · intro a b c d e
    rfl

/-! ## Vertex insertion: lemmas -/

theorem Vertex.eq_iff (a b : Vertex) :
    a.eq b = true ↔ a.Position = b.Position ∧ a.Normal = b.Normal ∧ a.TexCoord = b.TexCoord := by
  obtain ⟨⟨px, py, pz⟩, ⟨nx, ny, nz⟩, ⟨tx, ty⟩, ab⟩ := a
  obtain ⟨⟨qx, qy, qz⟩, ⟨mx, my, mz⟩, ⟨ux, uy⟩, bb⟩ := b
  simp only [Vertex.eq, VEC3.eq, VEC2.eq, Bool.and_eq_true, beq_iff_eq, VEC3.mk.injEq,
    VEC2.mk.injEq]
  constructor <;> intro h <;> simp_all

theorem Vertex.eq_refl (a : Vertex) : a.eq a = true :=
  (Vertex.eq_iff a a).2 ⟨rfl, rfl, rfl⟩

theorem Vertex.eq_symm (a b : Vertex) (h : a.eq b = true) : b.eq a = true := by
  rw [Vertex.eq_iff] at h ⊢
  exact ⟨h.1.symm, h.2.1.symm, h.2.2.symm⟩

theorem Vertex.eq_trans (a b c : Vertex) (h : a.eq b = true) (h' : b.eq c = true) :
    a.eq c = true := by
  rw [Vertex.eq_iff] at h h' ⊢
  exact ⟨h.1.trans h'.1, h.2.1.trans h'.2.1, h.2.2.trans h'.2.2⟩

theorem find_if_some (p : Vertex → Bool) :
    ∀ (l : List Vertex) (i : Nat), find_if p l = some i →
      ∃ v, l[i]? = some v ∧ p v = true ∧ ∀ k w, k < i → l[k]? = some w → p w = false := by
  intro l
  induction l with
  | nil => intro i h; simp [find_if] at h
  | cons e l ih =>
    intro i h
    unfold find_if at h
    by_cases hp : p e = true
    · simp only [hp, if_true, Option.some.injEq] at h
      subst h
      exact ⟨e, by simp, hp, by intro k w hk; omega⟩
    · simp only [hp, if_false, Option.map_eq_some', Bool.false_eq_true] at h
      obtain ⟨j, hj, rfl⟩ := h
      obtain ⟨v, hv, hpv, hfirst⟩ := ih j hj
      refine ⟨v, by simpa using hv, hpv, ?_⟩
      intro k w hk hw
      cases k with
      | zero =>
        simp only [List.getElem?_cons_zero, Option.some.injEq] at hw
        subst hw
        simpa using hp
      | succ k =>
        simp only [List.getElem?_cons_succ] at hw
        exact hfirst k w (by omega) hw

theorem find_if_none (p : Vertex → Bool) :
    ∀ (l : List Vertex), find_if p l = none → ∀ w, w ∈ l → p w = false := by
  intro l
  induction l with
  | nil => intro _ w hw; simp at hw
  | cons e l ih =>
    intro h w hw
    unfold find_if at h
    by_cases hp : p e = true
    · simp [hp] at h
    · simp only [hp, if_false, Option.map_eq_none', Bool.false_eq_true] at h
      rcases List.mem_cons.1 hw with rfl | hw
      · simpa using hp
      · exact ih h w hw

theorem find_if_first (p : Vertex → Bool) :
    ∀ (l : List Vertex) (i : Nat) (v : Vertex), l[i]? = some v → p v = true →
      (∀ k w, k < i → l[k]? = some w → p w = false) → find_if p l = some i := by
  intro l i v hv hpv hfirst
  cases hf : find_if p l with
  | none =>
    have := find_if_none p l hf v (List.getElem?_mem hv)
    simp [hpv] at this
  | some j =>
    obtain ⟨w, hw, hpw, hfirstj⟩ := find_if_some p l j hf
    rcases Nat.lt_trichotomy i j with hlt | heq | hgt
    · have := hfirstj i v hlt hv
      simp [hpv] at this
    · rw [heq]
    · have := hfirst j w hgt hw
      simp [hpw] at this

theorem InsertVertex_found (vertices : List Vertex) (vertex : Vertex) (i : Nat) (v : Vertex)
    (hv : vertices[i]? = some v) (heq : v.eq vertex = true)
    (hfirst : ∀ k w, k < i → vertices[k]? = some w → w.eq vertex = false) :
    InsertVertex vertices vertex = (vertices, i) := by
  unfold InsertVertex
  rw [find_if_first (fun elem => elem.eq vertex) vertices i v hv heq hfirst]

theorem InsertVertex_absent (vertices : List Vertex) (vertex : Vertex)
    (hno : ∀ w, w ∈ vertices → w.eq vertex = false) :
    InsertVertex vertices vertex = (vertices ++ [vertex], vertices.length) := by
  unfold InsertVertex
  cases hf : find_if (fun elem => elem.eq vertex) vertices with
  | none => simp
  | some j =>
    obtain ⟨w, hw, hpw, -⟩ := find_if_some _ vertices j hf
    have := hno w (List.getElem?_mem hw)
    simp [hpw] at this

theorem InsertVertex_cases (vertices : List Vertex) (vertex : Vertex) :
    (InsertVertex vertices vertex).1 = vertices
      ∨ ((∀ w, w ∈ vertices → w.eq vertex = false)
          ∧ InsertVertex vertices vertex = (vertices ++ [vertex], vertices.length)) := by
  cases hf : find_if (fun elem => elem.eq vertex) vertices with
  | none =>
    right
    have hno := find_if_none _ vertices hf
    exact ⟨hno, InsertVertex_absent vertices vertex hno⟩
  | some j =>
    left
    simp [InsertVertex, hf]

theorem InsertVertex_designates (vertices : List Vertex) (vertex : Vertex) :
    Designates (InsertVertex vertices vertex).1 (InsertVertex vertices vertex).2 vertex := by
  cases hf : find_if (fun elem => elem.eq vertex) vertices with
  | none =>
    have hno := find_if_none _ vertices hf
    rw [InsertVertex_absent vertices vertex hno]
    refine ⟨vertex, by simp, Vertex.eq_refl vertex, ?_⟩
    intro k w hk hw
    have hk' : k < vertices.length := hk
    rw [List.getElem?_append_left hk'] at hw
    exact hno w (List.getElem?_mem hw)
  | some j =>
    obtain ⟨v, hv, hpv, hfirst⟩ := find_if_some _ vertices j hf
    simp only [InsertVertex, hf]
    exact ⟨v, hv, hpv, hfirst⟩

theorem InsertVertex_extends (vertices : List Vertex) (vertex : Vertex) :
    ∃ ext, (InsertVertex vertices vertex).1 = vertices ++ ext := by
  rcases InsertVertex_cases vertices vertex with h | ⟨-, h⟩
  · exact ⟨[], by simp [h]⟩
  · exact ⟨[vertex], by simp [h]⟩

theorem Designates_append (vertices ext : List Vertex) (index : Nat) (entry : Vertex)
    (h : Designates vertices index entry) : Designates (vertices ++ ext) index entry := by
  obtain ⟨v, hv, heq, hfirst⟩ := h
  have hi : index < vertices.length := by
    by_contra hc
    rw [List.getElem?_eq_none (by omega)] at hv
    exact Option.noConfusion hv
  refine ⟨v, by rw [List.getElem?_append_left hi]; exact hv, heq, ?_⟩
  intro k w hk hw
  rw [List.getElem?_append_left (by omega)] at hw
  exact hfirst k w hk hw

theorem Designates_unique (vertices : List Vertex) (a b : Nat) (ea eb : Vertex)
    (ha : Designates vertices a ea) (hb : Designates vertices b eb) (heq : ea.eq eb = true) :
    a = b := by
  obtain ⟨va, hva, hea, hfa⟩ := ha
  obtain ⟨vb, hvb, heb, hfb⟩ := hb
  rcases Nat.lt_trichotomy a b with hlt | h | hgt
  · have := hfb a va hlt hva
    rw [Vertex.eq_trans va ea eb hea heq] at this
    exact Bool.noConfusion this
  · exact h
  · have := hfa b vb hgt hvb
    rw [Vertex.eq_trans vb eb ea heb (Vertex.eq_symm ea eb heq)] at this
    exact Bool.noConfusion this

theorem NoDuplicate_nil : NoDuplicate [] := by
  intro i j v w _ hv
  simp at hv

theorem InsertVertex_noDuplicate (vertices : List Vertex) (vertex : Vertex)
    (h : NoDuplicate vertices) : NoDuplicate (InsertVertex vertices vertex).1 := by
  rcases InsertVertex_cases vertices vertex with hc | ⟨hno, hc⟩
  · rw [hc]; exact h
  · rw [hc]
    have hnew : ∀ w, w ∈ vertices → vertex.eq w = false := by
      intro w hw
      cases hvw : vertex.eq w with
      | false => rfl
      | true =>
        have := hno w hw
        rw [Vertex.eq_symm vertex w hvw] at this
        exact Bool.noConfusion this
    intro i j v w hij hv hw
    simp only at hv hw
    by_cases hi : i < vertices.length
    · rw [List.getElem?_append_left hi] at hv
      by_cases hj : j < vertices.length
      · rw [List.getElem?_append_left hj] at hw
        exact h i j v w hij hv hw
      · rw [List.getElem?_append_right (by omega)] at hw
        cases hjl : j - vertices.length with
        | zero =>
          simp only [hjl, List.getElem?_cons_zero, Option.some.injEq] at hw
          subst hw
          exact hno v (List.getElem?_mem hv)
        | succ n => simp [hjl] at hw
    · rw [List.getElem?_append_right (by omega)] at hv
      cases hil : i - vertices.length with
      | zero =>
        simp only [hil, List.getElem?_cons_zero, Option.some.injEq] at hv
        subst hv
        by_cases hj : j < vertices.length
        · rw [List.getElem?_append_left hj] at hw
          exact hnew w (List.getElem?_mem hw)
        · rw [List.getElem?_append_right (by omega)] at hw
          cases hjl : j - vertices.length with
          | zero => omega
          | succ n => simp [hjl] at hw
      | succ n => simp [hil] at hv

/-! ## Mesh decoding: lemmas -/

theorem forall₂_getD {α β : Type} (R : α → β → Prop) (da : α) (db : β) :
    ∀ (l1 : List α) (l2 : List β), List.Forall₂ R l1 l2 → ∀ a, a < l1.length →
      R (l1.getD a da) (l2.getD a db) := by
  intro l1 l2 h
  induction h with
  | nil => intro a ha; simp at ha
  | cons hab _ ih =>
    intro a ha
    cases a with
    | zero => simpa using hab
    | succ a =>
      simp only [List.getD_cons_succ]
      exact ih a (by simpa using ha)

theorem foldl_forall₂ {α β : Type} (R : α → β → Prop) (f : List α → Nat → List α)
    (g : List β → Nat → List β) (P : Nat → Prop)
    (hstep : ∀ o1 o2 j, P j → List.Forall₂ R o1 o2 → List.Forall₂ R (f o1 j) (g o2 j)) :
    ∀ (js : List Nat) (o1 : List α) (o2 : List β), (∀ j, j ∈ js → P j) →
      List.Forall₂ R o1 o2 → List.Forall₂ R (js.foldl f o1) (js.foldl g o2) := by
  intro js
  induction js with
  | nil => intro o1 o2 _ h; simpa using h
  | cons j js ih =>
    intro o1 o2 hP h
    simp only [List.foldl_cons]
    exact ih _ _ (fun k hk => hP k (List.mem_cons_of_mem _ hk))
      (hstep o1 o2 j (hP j (List.mem_cons_self _ _)) h)

theorem expandStrip_forall₂ {α β : Type} (R : α → β → Prop) (da : α) (db : β)
    (l1 : List α) (l2 : List β) (o1 : List α) (o2 : List β) (h : List.Forall₂ R l1 l2)
    (ho : List.Forall₂ R o1 o2) :
    List.Forall₂ R (expandStrip da l1 o1) (expandStrip db l2 o2) := by
  unfold expandStrip
  rw [← h.length_eq]
  refine foldl_forall₂ R _ _ (fun j => 2 ≤ j ∧ j < l1.length) ?_ _ o1 o2 ?_ ho
  · intro p1 p2 j hj hp
    have e0 := forall₂_getD R da db l1 l2 h j hj.2
    have e1 := forall₂_getD R da db l1 l2 h (j - 1) (by omega)
    have e2 := forall₂_getD R da db l1 l2 h (j - 2) (by omega)
    by_cases hodd : j % 2 ≠ 0
    · simp only [hodd, if_true, ne_eq, not_false_eq_true]
      exact List.rel_append hp (List.Forall₂.cons e1 (List.Forall₂.cons e2
        (List.Forall₂.cons e0 List.Forall₂.nil)))
    · simp only [hodd, if_false]
      exact List.rel_append hp (List.Forall₂.cons e2 (List.Forall₂.cons e1
        (List.Forall₂.cons e0 List.Forall₂.nil)))
  · intro j hj
    rw [List.mem_range'_1] at hj
    omega

theorem expandFan_forall₂ {α β : Type} (R : α → β → Prop) (da : α) (db : β)
    (l1 : List α) (l2 : List β) (o1 : List α) (o2 : List β) (h : List.Forall₂ R l1 l2)
    (ho : List.Forall₂ R o1 o2) :
    List.Forall₂ R (expandFan da l1 o1) (expandFan db l2 o2) := by
  unfold expandFan
  rw [← h.length_eq]
  refine foldl_forall₂ R _ _ (fun j => 2 ≤ j ∧ j < l1.length) ?_ _ o1 o2 ?_ ho
  · intro p1 p2 j hj hp
    have e0 := forall₂_getD R da db l1 l2 h j hj.2
    have e1 := forall₂_getD R da db l1 l2 h (j - 1) (by omega)
    have e2 := forall₂_getD R da db l1 l2 h 0 (by omega)
    exact List.rel_append hp (List.Forall₂.cons e2 (List.Forall₂.cons e1
      (List.Forall₂.cons e0 List.Forall₂.nil)))
  · intro j hj
    rw [List.mem_range'_1] at hj
    omega

theorem readRun_spec (studioModel : mstudiomodel_t) (s t : ℚ) (i : Nat) :
    ∀ (tricmds : List Int) (vertices : List Vertex) (indices : List Nat)
      (rest : List Int) (vertices' : List Vertex) (indices' : List Nat),
      readRun studioModel s t i tricmds vertices indices = some (rest, vertices', indices') →
      ∃ ext new entries, vertices' = vertices ++ ext ∧ indices' = indices ++ new
        ∧ rest = tricmds.drop (4 * i)
        ∧ runEntries studioModel s t i tricmds = some entries
        ∧ List.Forall₂ (Designates vertices') new entries
        ∧ (NoDuplicate vertices → NoDuplicate vertices') := by
  induction i with
  | zero =>
    intro tricmds vertices indices rest vertices' indices' h
    simp only [readRun, Option.some.injEq, Prod.mk.injEq] at h
    obtain ⟨rfl, rfl, rfl⟩ := h
    exact ⟨[], [], [], by simp, by simp, by simp, rfl, List.Forall₂.nil, id⟩
  | succ i ih =>
    intro tricmds vertices indices rest vertices' indices' h
    match tricmds, h with
    | c0 :: c1 :: c2 :: c3 :: tricmds, h =>
      simp only [readRun] at h
      cases he : entryVertex studioModel s t c0 c1 c2 c3 with
      | none => simp [he] at h
      | some vert =>
        simp only [he] at h
        obtain ⟨ext, new, entries, hv, hi, hr, hents, hall, hnd⟩ := ih _ _ _ _ _ _ h
        obtain ⟨ext0, hext0⟩ := InsertVertex_extends vertices vert
        refine ⟨ext0 ++ ext, (InsertVertex vertices vert).2 :: new, vert :: entries, ?_, ?_, ?_,
          ?_, ?_, ?_⟩
        · rw [hv, hext0, List.append_assoc]
        · rw [hi, List.append_assoc]; rfl
        · rw [hr]
          have : 4 * (i + 1) = 4 * i + 4 := by ring
          rw [this]
          rfl
        · simp [runEntries, he, hents]
        · refine List.Forall₂.cons ?_ hall
          rw [hv]
          exact Designates_append _ _ _ _ (InsertVertex_designates vertices vert)
        · intro hn
          exact hnd (InsertVertex_noDuplicate vertices vert hn)

theorem Designates_forall₂_append (vertices ext : List Vertex) (l : List Nat)
    (entries : List Vertex) (h : List.Forall₂ (Designates vertices) l entries) :
    List.Forall₂ (Designates (vertices ++ ext)) l entries :=
  h.imp (fun a b hab => Designates_append vertices ext a b hab)

theorem LoadMeshLoop_spec (studioModel : mstudiomodel_t) (s t : ℚ) (fuel : Nat) :
    ∀ (tricmds : List Int) (vertices : List Vertex) (meshIndices : List Nat)
      (vertices' : List Vertex) (meshIndices' : List Nat),
      LoadMeshLoop studioModel s t fuel tricmds vertices meshIndices
        = some (vertices', meshIndices') →
      ∃ ext, vertices' = vertices ++ ext ∧ (NoDuplicate vertices → NoDuplicate vertices')
        ∧ ∀ produced, List.Forall₂ (Designates vertices) meshIndices produced →
          ∃ produced', meshEntriesLoop studioModel s t fuel tricmds produced = some produced'
            ∧ List.Forall₂ (Designates vertices') meshIndices' produced' := by
  induction fuel with
  | zero => intro tricmds vertices meshIndices vertices' meshIndices' h; simp [LoadMeshLoop] at h
  | succ fuel ih =>
    intro tricmds vertices meshIndices vertices' meshIndices' h
    match tricmds, h with
    | [], h => simp [LoadMeshLoop] at h
    | i :: tricmds, h =>
      by_cases hz : i = 0
      · simp only [LoadMeshLoop, hz, if_true, Option.some.injEq, Prod.mk.injEq] at h
        obtain ⟨rfl, rfl⟩ := h
        refine ⟨[], by simp, id, ?_⟩
        intro produced hp
        exact ⟨produced, by simp [meshEntriesLoop, hz], hp⟩
      · simp only [LoadMeshLoop, hz, if_false] at h
        cases hrun : readRun studioModel s t (if i < 0 then toInt16 (-i) else i).toNat tricmds
            vertices [] with
        | none => simp [hrun] at h
        | some r =>
          obtain ⟨rest, vertices2, indices⟩ := r
          simp only [hrun] at h
          obtain ⟨ext, new, entries, hv, hi, hr, hents, hall, hnd⟩ :=
            readRun_spec studioModel s t _ _ _ _ _ _ _ hrun
          simp only [List.nil_append] at hi
          subst hi
          obtain ⟨ext2, hv2, hnd2, hprod⟩ := ih _ _ _ _ _ h
          refine ⟨ext ++ ext2, by rw [hv2, hv, List.append_assoc], fun hn => hnd2 (hnd hn), ?_⟩
          intro produced hp
          have hp2 : List.Forall₂ (Designates vertices2) meshIndices produced := by
            rw [hv]
            exact Designates_forall₂_append _ _ _ _ hp
          simp only [meshEntriesLoop, hz, if_false, hents, ← hr]
          by_cases hneg : i < 0
          · simp only [hneg, not_true_eq_false, decide_False, if_true] at hprod ⊢
            exact hprod _ (expandFan_forall₂ _ _ _ _ _ _ _ hall hp2)
          · simp only [hneg, not_false_eq_true, decide_True, if_true, if_false] at hprod ⊢
            exact hprod _ (expandStrip_forall₂ _ _ _ _ _ _ _ hall hp2)

theorem LoadMesh_spec (textureHeader : TextureHeader) (studioMesh : mstudiomesh_t)
    (studioModel : mstudiomodel_t) (vertices : List Vertex) (mesh : Mesh)
    (vertices' : List Vertex)
    (h : LoadMesh textureHeader studioMesh studioModel vertices = some (mesh, vertices')) :
    ∃ ext entries, vertices' = vertices ++ ext
      ∧ (NoDuplicate vertices → NoDuplicate vertices')
      ∧ meshEntries textureHeader studioMesh studioModel = some entries
      ∧ List.Forall₂ (Designates vertices') mesh.Indices entries := by
  unfold LoadMesh at h
  unfold meshEntries
  cases hs : textureHeader.studioSkinRef studioMesh.skinref with
  | none => simp [hs] at h
  | some TextureId =>
    simp only [hs] at h ⊢
    cases ht : textureHeader.studioTextures TextureId with
    | none => simp [ht] at h
    | some studioTexture =>
      simp only [ht] at h ⊢
      by_cases hw : studioTexture.width = 0 ∨ studioTexture.height = 0
      · simp [hw] at h
      · simp only [hw, if_false] at h ⊢
        cases hl : LoadMeshLoop studioModel (1 / (studioTexture.width : ℚ))
            (1 / (studioTexture.height : ℚ)) (studioMesh.tricmds.length + 1)
            studioMesh.tricmds vertices [] with
        | none =>
          rw [hl] at h
          simp at h
        | some r =>
          obtain ⟨vertices2, meshIndices⟩ := r
          simp only [hl, Option.some.injEq, Prod.mk.injEq] at h
          obtain ⟨rfl, rfl⟩ := h
          obtain ⟨ext, hv, hnd, hprod⟩ := LoadMeshLoop_spec _ _ _ _ _ _ _ _ _ hl
          obtain ⟨produced, hp, hall⟩ := hprod [] List.Forall₂.nil
          exact ⟨ext, produced, hv, hnd, hp, hall⟩

theorem LoadModelLoop_spec (textureHeader : TextureHeader) (studioModel : mstudiomodel_t)
    (n : Nat) :
    ∀ (i : Int) (model final : Model),
      LoadModelLoop textureHeader studioModel n i model = some final →
      ∃ ext newMeshes, final.Vertices = model.Vertices ++ ext
        ∧ final.Meshes = model.Meshes ++ newMeshes
        ∧ newMeshes.length = n
        ∧ (NoDuplicate model.Vertices → NoDuplicate final.Vertices)
        ∧ ∀ (m : Nat) (mesh : Mesh), newMeshes[m]? = some mesh →
          ∃ studioMesh entries, studioModel.studioMesh (i + m) = some studioMesh
            ∧ meshEntries textureHeader studioMesh studioModel = some entries
            ∧ List.Forall₂ (Designates final.Vertices) mesh.Indices entries := by
  induction n with
  | zero =>
    intro i model final h
    simp only [LoadModelLoop, Option.some.injEq] at h
    subst h
    exact ⟨[], [], by simp, by simp, rfl, id, by intro m mesh hm; simp at hm⟩
  | succ n ih =>
    intro i model final h
    simp only [LoadModelLoop] at h
    cases hsm : studioModel.studioMesh i with
    | none => simp [hsm] at h
    | some studioMesh =>
      simp only [hsm] at h
      cases hlm : LoadMesh textureHeader studioMesh studioModel model.Vertices with
      | none => simp [hlm] at h
      | some r =>
        obtain ⟨mesh0, vertices1⟩ := r
        simp only [hlm] at h
        obtain ⟨ext0, entries0, hv0, hnd0, hme0, hall0⟩ := LoadMesh_spec _ _ _ _ _ _ hlm
        obtain ⟨ext, newMeshes, hv, hm, hlen, hnd, hrest⟩ := ih _ _ _ h
        simp only at hv hm hnd
        refine ⟨ext0 ++ ext, mesh0 :: newMeshes, ?_, ?_, ?_, ?_, ?_⟩
        · rw [hv, hv0, List.append_assoc]
        · rw [hm, List.append_assoc]; rfl
        · simp [hlen]
        · intro hn
          exact hnd (hnd0 hn)
        · intro m mesh hmesh
          cases m with
          | zero =>
            simp only [List.getElem?_cons_zero, Option.some.injEq] at hmesh
            subst hmesh
            refine ⟨studioMesh, entries0, by simpa using hsm, hme0, ?_⟩
            rw [hv]
            exact Designates_forall₂_append _ _ _ _ hall0
          | succ m =>
            simp only [List.getElem?_cons_succ] at hmesh
            obtain ⟨sm2, entries, h1, h2, h3⟩ := hrest m mesh hmesh
            refine ⟨sm2, entries, ?_, h2, h3⟩
            rw [← h1]
            congr 1
            push_cast
            ring

theorem forall₂_getElem? {α β : Type} (R : α → β → Prop) :
    ∀ (l1 : List α) (l2 : List β), List.Forall₂ R l1 l2 → ∀ (a : Nat) (x : α) (y : β),
      l1[a]? = some x → l2[a]? = some y → R x y := by
  intro l1 l2 h
  induction h with
  | nil => intro a x y hx; simp at hx
  | cons hab _ ih =>
    intro a x y hx hy
    cases a with
    | zero =>
      simp only [List.getElem?_cons_zero, Option.some.injEq] at hx hy
      subst hx hy
      exact hab
    | succ a =>
      simp only [List.getElem?_cons_succ] at hx hy
      exact ih a x y hx hy

theorem LoadMeshLoop_fuel (studioModel : mstudiomodel_t) (s t : ℚ) (fuel : Nat) :
    ∀ (fuel' : Nat) (tricmds : List Int) (vertices : List Vertex) (meshIndices : List Nat),
      tricmds.length < fuel → tricmds.length < fuel' →
      LoadMeshLoop studioModel s t fuel tricmds vertices meshIndices
        = LoadMeshLoop studioModel s t fuel' tricmds vertices meshIndices := by
  induction fuel with
  | zero => intro fuel' tricmds vertices meshIndices h; omega
  | succ fuel ih =>
    intro fuel' tricmds vertices meshIndices h h'
    cases fuel' with
    | zero => omega
    | succ fuel' =>
      match tricmds, h, h' with
      | [], _, _ => simp [LoadMeshLoop]
      | i :: tricmds, h, h' =>
        by_cases hz : i = 0
        · simp [LoadMeshLoop, hz]
        · simp only [LoadMeshLoop, hz, if_false]
          cases hrun : readRun studioModel s t (if i < 0 then toInt16 (-i) else i).toNat
              tricmds vertices [] with
          | none => rfl
          | some r =>
            obtain ⟨rest, vertices2, indices⟩ := r
            have hlen := (readRun_length studioModel s t _ _ _ _ _ _ _ hrun).2
            simp only [List.length_cons] at h h'
            exact ih fuel' rest vertices2 _ (by omega) (by omega)

/-- The fan of five vertices of `sampleModel`, decoded into an empty vertex
list, gives the index list `0,1,2, 0,2,3, 0,3,4`. -/
theorem LoadMesh_fan_run_witness :
    LoadMeshLoop sampleModel (1 / 4) (1 / 4) 2
        [-5, 0, 0, 0, 0, 1, 0, 0, 0, 2, 0, 0, 0, 3, 0, 0, 0, 4, 0, 0, 0, 0] [] []
      = some ([sampleVertex 0 0, sampleVertex 1 0, sampleVertex 2 0, sampleVertex 3 0,
          sampleVertex 4 0], [0, 1, 2, 0, 2, 3, 0, 3, 4]) :=
  (LoadMesh_fan_run sampleModel (1 / 4) (1 / 4) 0 (-5) (by decide)
    [0, 0, 0, 0, 1, 0, 0, 0, 2, 0, 0, 0, 3, 0, 0, 0, 4, 0, 0, 0, 0] [] [] [0]
    [sampleVertex 0 0, sampleVertex 1 0, sampleVertex 2 0, sampleVertex 3 0, sampleVertex 4 0]
    [0, 1, 2, 3, 4] (by decide!)).2.2.1 (by decide)

/-! ## The command loop -/

/-- C4 (the code at the header -32768): the 16-bit negation of -32768 is
-32768 again, so the run loop `for (; i > 0; ...)` does not run: no vertex entry
is consumed, no index is appended, and the next header is the value right
after -32768.  In the stream `-32768, 3, e0, e1, e2, 0` the value 3 is thus
read as the header of a strip of three entries. -/
theorem LoadMesh_header_int16_min :
    toInt16 (- (-32768)) = -32768
      ∧ (∀ (studioModel : mstudiomodel_t) (s t : ℚ) (fuel : Nat) (tricmds : List Int)
          (vertices : List Vertex) (meshIndices : List Nat),
          LoadMeshLoop studioModel s t (fuel + 1) (-32768 :: tricmds) vertices meshIndices
            = LoadMeshLoop studioModel s t fuel tricmds vertices meshIndices)
      ∧ LoadMesh sampleTextureHeader
          ⟨0, [-32768, 3, 0, 0, 0, 0, 1, 0, 0, 0, 2, 0, 0, 0, 0]⟩ sampleModel []
        = some (⟨[0, 1, 2], 0⟩, [sampleVertex 0 0, sampleVertex 1 0, sampleVertex 2 0]) := by
  refine ⟨by decide, ?_, by decide!⟩
  intro studioModel s t fuel tricmds vertices meshIndices
  have h16 : toInt16 (- (-32768)) = -32768 := by decide
  simp only [LoadMeshLoop, h16]
  simp [readRun, expandFan]

/-! ## Vertex deduplication -/

/-- C5: `InsertVertex` returns the index of the first entry that
`Vertex::operator==` calls equal to the vertex and leaves the list unchanged
when there is such an entry; otherwise it appends the vertex and returns the
previous length.  Hence, in a run decoded into any vertex list, two entries
with equal position, normal and texture coordinate get the same index, and
in a list without duplicates no other position holds a vertex equal to them;
a run of two such entries decoded into the empty list leaves exactly one
vertex and the two indices 0, 0. -/
theorem InsertVertex_first_or_append :
    (∀ (vertices : List Vertex) (vertex : Vertex) (i : Nat) (v : Vertex),
        vertices[i]? = some v → v.eq vertex = true →
        (∀ (k : Nat) (w : Vertex), k < i → vertices[k]? = some w → w.eq vertex = false) →
        InsertVertex vertices vertex = (vertices, i))
      ∧ (∀ (vertices : List Vertex) (vertex : Vertex),
          (∀ w, w ∈ vertices → w.eq vertex = false) →
          InsertVertex vertices vertex = (vertices ++ [vertex], vertices.length))
      ∧ (∀ (studioModel : mstudiomodel_t) (s t : ℚ) (i : Nat) (tricmds : List Int)
          (vertices : List Vertex) (rest : List Int) (vertices' : List Vertex)
          (indices : List Nat),
          readRun studioModel s t i tricmds vertices [] = some (rest, vertices', indices) →
          ∃ entries, runEntries studioModel s t i tricmds = some entries
            ∧ entries.length = indices.length
            ∧ ∀ (a b : Nat) (ea eb : Vertex), entries[a]? = some ea → entries[b]? = some eb →
                ea.eq eb = true →
                ∃ index, indices[a]? = some index ∧ indices[b]? = some index
                  ∧ index < vertices'.length
                  ∧ (NoDuplicate vertices → ∀ (k : Nat) (w : Vertex),
                      vertices'[k]? = some w → w.eq ea = true → k = index))
      ∧ (∀ (studioModel : mstudiomodel_t) (s t : ℚ) (c0 c1 c2 c3 d0 d1 d2 d3 : Int)
          (rest : List Int) (v1 v2 : Vertex),
          entryVertex studioModel s t c0 c1 c2 c3 = some v1 →
          entryVertex studioModel s t d0 d1 d2 d3 = some v2 →
          v1.eq v2 = true →
          readRun studioModel s t 2 (c0 :: c1 :: c2 :: c3 :: d0 :: d1 :: d2 :: d3 :: rest) [] []
            = some (rest, [v1], [0, 0])) := by
  refine ⟨InsertVertex_found, InsertVertex_absent, ?_, ?_⟩
  · intro studioModel s t i tricmds vertices rest vertices' indices h
    obtain ⟨ext, new, entries, -, hi, -, hents, hall, hnd⟩ :=
      readRun_spec studioModel s t i tricmds vertices [] rest vertices' indices h
    simp only [List.nil_append] at hi
    subst hi
    refine ⟨entries, hents, hall.length_eq.symm, ?_⟩
    intro a b ea eb hea heb heq
    have ha : a < indices.length := by
      rw [hall.length_eq]
      by_contra hc
      rw [List.getElem?_eq_none (by omega)] at hea
      exact Option.noConfusion hea
    have hb : b < indices.length := by
      rw [hall.length_eq]
      by_contra hc
      rw [List.getElem?_eq_none (by omega)] at heb
      exact Option.noConfusion heb
    have hda := forall₂_getElem? _ _ _ hall a indices[a] ea (List.getElem?_eq_getElem ha) hea
    have hdb := forall₂_getElem? _ _ _ hall b indices[b] eb (List.getElem?_eq_getElem hb) heb
    have hab := Designates_unique vertices' _ _ ea eb hda hdb heq
    refine ⟨indices[a], List.getElem?_eq_getElem ha, ?_, ?_, ?_⟩
    · rw [hab]
      exact List.getElem?_eq_getElem hb
    · obtain ⟨v, hv, -, -⟩ := hda
      by_contra hc
      rw [List.getElem?_eq_none (by omega)] at hv
      exact Option.noConfusion hv
    · intro hno k w hw hwe
      obtain ⟨v, hv, hve, -⟩ := hda
      by_contra hk
      have hvw : v.eq w = true := Vertex.eq_trans v ea w hve (Vertex.eq_symm w ea hwe)
      have := hnd hno indices[a] k v w (fun h => hk h.symm) hv hw
      rw [hvw] at this
      exact Bool.noConfusion this
  · intro studioModel s t c0 c1 c2 c3 d0 d1 d2 d3 rest v1 v2 h1 h2 heq
    simp [readRun, h1, h2, InsertVertex, find_if, heq]

/-- A run of two entries that both name vertex 3 of `sampleModel` with raw
texture coordinate (8, 0) leaves one vertex and the indices 0, 0. -/
theorem InsertVertex_first_or_append_witness :
    readRun sampleModel (1 / 4) (1 / 4) 2 [3, 0, 8, 0, 3, 0, 8, 0, 0] [] []
      = some ([0], [sampleVertex 3 2], [0, 0]) :=
  InsertVertex_first_or_append.2.2.2 sampleModel (1 / 4) (1 / 4) 3 0 8 0 3 0 8 0 [0]
    (sampleVertex 3 2) (sampleVertex 3 2) (by decide!) (by decide!) (by decide!)

/-- C6: the vertex array of every sub-model that `LoadModel` decodes holds no
two entries at different positions that are equal in position, normal and
texture coordinate; the empty array has this property and every `InsertVertex`
call, with any vertex, preserves it. -/
theorem LoadModel_noDuplicate (textureHeader : TextureHeader) (studioModel : mstudiomodel_t)
    (model : Model) (h : LoadModel textureHeader studioModel = some model) :
    NoDuplicate model.Vertices
      ∧ NoDuplicate []
      ∧ ∀ (vertices : List Vertex) (vertex : Vertex), NoDuplicate vertices →
          NoDuplicate (InsertVertex vertices vertex).1 := by
  refine ⟨?_, NoDuplicate_nil, InsertVertex_noDuplicate⟩
  unfold LoadModel at h
  by_cases hn : studioModel.nummesh > 0
  · simp only [hn, if_true] at h
    obtain ⟨ext, newMeshes, -, -, -, hnd, -⟩ := LoadModelLoop_spec _ _ _ _ _ _ h
    exact hnd NoDuplicate_nil
  · simp only [hn, if_false, Option.some.injEq] at h
    subst h
    exact NoDuplicate_nil

/-- The six vertices decoded from `sampleModel` are pairwise different under
`Vertex::operator==`. -/
theorem LoadModel_noDuplicate_witness :
    LoadModel sampleTextureHeader sampleModel = some sampleDecoded
      ∧ NoDuplicate sampleDecoded.Vertices :=
  ⟨by decide!,
    (LoadModel_noDuplicate sampleTextureHeader sampleModel sampleDecoded (by decide!)).1⟩

/-- C7: in a decoded sub-model, mesh `m` holds one index for each entry of
its command stream that produced one, every such index is smaller than the
length of the sub-model's final vertex array, and the vertex it designates
there is equal in position, normal and texture coordinate to the vertex of
that entry; this holds for every mesh, whatever was appended by later ones. -/
theorem LoadModel_indices_designate (textureHeader : TextureHeader)
    (studioModel : mstudiomodel_t) (model : Model)
    (h : LoadModel textureHeader studioModel = some model) :
    ∀ (m : Nat) (mesh : Mesh), model.Meshes[m]? = some mesh →
      ∃ studioMesh entries, studioModel.studioMesh m = some studioMesh
        ∧ meshEntries textureHeader studioMesh studioModel = some entries
        ∧ entries.length = mesh.Indices.length
        ∧ ∀ (k index : Nat) (entry : Vertex), mesh.Indices[k]? = some index →
            entries[k]? = some entry →
            index < model.Vertices.length
              ∧ ∃ v, model.Vertices[index]? = some v ∧ v.eq entry = true := by
  intro m mesh hm
  unfold LoadModel at h
  by_cases hn : studioModel.nummesh > 0
  · simp only [hn, if_true] at h
    obtain ⟨ext, newMeshes, -, hmeshes, -, -, hall⟩ := LoadModelLoop_spec _ _ _ _ _ _ h
    simp only [List.nil_append] at hmeshes
    rw [hmeshes] at hm
    obtain ⟨studioMesh, entries, h1, h2, h3⟩ := hall m mesh hm
    refine ⟨studioMesh, entries, by simpa using h1, h2, h3.length_eq.symm, ?_⟩
    intro k index entry hk he
    obtain ⟨v, hv, heq, -⟩ := forall₂_getElem? _ _ _ h3 k index entry hk he
    refine ⟨?_, v, hv, heq⟩
    by_contra hc
    rw [List.getElem?_eq_none (by omega)] at hv
    exact Option.noConfusion hv
  · simp only [hn, if_false, Option.some.injEq] at h
    subst h
    simp at hm

/-- The statement of C7 at mesh 0 of the sub-model decoded from `sampleModel`. -/
theorem LoadModel_indices_designate_witness :
    LoadModel sampleTextureHeader sampleModel = some sampleDecoded
      ∧ ∃ studioMesh entries, sampleModel.studioMesh ((0 : Nat) : Int) = some studioMesh
        ∧ meshEntries sampleTextureHeader studioMesh sampleModel = some entries
        ∧ entries.length = 12
        ∧ ∀ (k index : Nat) (entry : Vertex),
            [0, 1, 2, 2, 1, 3, 2, 3, 4, 0, 5, 2][k]? = some index →
            entries[k]? = some entry →
            index < 6 ∧ ∃ v, sampleDecoded.Vertices[index]? = some v ∧ v.eq entry = true :=
  ⟨by decide!,
    LoadModel_indices_designate sampleTextureHeader sampleModel sampleDecoded (by decide!) 0
      ⟨[0, 1, 2, 2, 1, 3, 2, 3, 4, 0, 5, 2], 0⟩ rfl⟩


/-! ## Texture decoding: lemmas -/

theorem writePixel_length (pixels : List Nat) (off r g b a : Nat) :
    (writePixel pixels off r g b a).length = pixels.length := by
  simp [writePixel]

theorem writePixel_getD (pixels : List Nat) (off r g b a : Nat) (hoff : off + 3 < pixels.length)
    (q : Nat) :
    (writePixel pixels off r g b a).getD q 0
      = if q = off then r else if q = off + 1 then g else if q = off + 2 then b
        else if q = off + 3 then a else pixels.getD q 0 := by
  simp only [writePixel, List.getD_eq_getElem?_getD, List.getElem?_set, List.length_set,
    Nat.add_zero]
  by_cases h0 : q = off
  · subst h0
    have : q < pixels.length := by omega
    simp [this]
  · by_cases h1 : q = off + 1
    · subst h1
      have : off + 1 < pixels.length := by omega
      simp [this]
    · by_cases h2 : q = off + 2
      · subst h2
        have : off + 2 < pixels.length := by omega
        simp [this]
      · by_cases h3 : q = off + 3
        · subst h3
          simp [hoff]
        · have e0 : ¬ off = q := fun h => h0 h.symm
          have e1 : ¬ off + 1 = q := fun h => h1 h.symm
          have e2 : ¬ off + 2 = q := fun h => h2 h.symm
          have e3 : ¬ off + 3 = q := fun h => h3 h.symm
          simp [h0, h1, h2, h3, e0, e1, e2, e3]

theorem writePixel_pixelAt (pixels : List Nat) (i r g b a : Nat)
    (hoff : i * 4 + 3 < pixels.length) :
    pixelAt (writePixel pixels (i * 4) r g b a) i = [r, g, b, a] := by
  simp only [pixelAt]
  rw [writePixel_getD _ _ _ _ _ _ hoff, writePixel_getD _ _ _ _ _ _ hoff,
    writePixel_getD _ _ _ _ _ _ hoff, writePixel_getD _ _ _ _ _ _ hoff]
  simp only [show 4 * i = i * 4 by omega, if_true,
    show ¬ i * 4 + 1 = i * 4 by omega, show ¬ i * 4 + 2 = i * 4 by omega,
    show ¬ i * 4 + 3 = i * 4 by omega, show ¬ i * 4 + 2 = i * 4 + 1 by omega,
    show ¬ i * 4 + 3 = i * 4 + 1 by omega, show ¬ i * 4 + 3 = i * 4 + 2 by omega,
    if_false]

theorem writePixel_getD_below (pixels : List Nat) (i r g b a : Nat)
    (hoff : i * 4 + 3 < pixels.length) (q : Nat) (hq : q < 4 * i) :
    (writePixel pixels (i * 4) r g b a).getD q 0 = pixels.getD q 0 := by
  rw [writePixel_getD _ _ _ _ _ _ hoff]
  simp only [show ¬ q = i * 4 by omega, show ¬ q = i * 4 + 1 by omega,
    show ¬ q = i * 4 + 2 by omega, show ¬ q = i * 4 + 3 by omega, if_false]

theorem pixelLoop_spec (masked : Bool) (buffer : List Byte) (index size : Int) (n : Nat) :
    ∀ (i : Nat) (pixels out : List Nat), 4 * (i + n) ≤ pixels.length →
      pixelLoop masked buffer index size n i pixels = some out →
      out.length = pixels.length
        ∧ (∀ q, q < 4 * i → out.getD q 0 = pixels.getD q 0)
        ∧ ∀ j, i ≤ j → j < i + n → pixelAt out j = decodedPixel masked buffer index size j := by
  induction n with
  | zero =>
    intro i pixels out _ h
    simp only [pixelLoop, Option.some.injEq] at h
    subst h
    exact ⟨rfl, fun _ _ => rfl, fun j h1 h2 => by omega⟩
  | succ n ih =>
    intro i pixels out hlen h
    simp only [pixelLoop, add_zero] at h
    cases hc : readByte buffer (index + i) with
    | none =>
      rw [hc] at h
      simp at h
    | some c =>
      rw [hc] at h
      simp only at h
      cases hr : readByte buffer (index + size + (c : Int) * 3) with
      | none =>
        rw [hr] at h
        simp at h
      | some r =>
        cases hg : readByte buffer (index + size + ((c : Int) * 3 + 1)) with
        | none =>
          rw [hr, hg] at h
          simp at h
        | some g =>
          cases hb : readByte buffer (index + size + ((c : Int) * 3 + 2)) with
          | none =>
            rw [hr, hg, hb] at h
            simp at h
          | some b =>
            rw [hr, hg, hb] at h
            simp only at h
            have hoff : i * 4 + 3 < pixels.length := by omega
            have hoff' : i * 4 + 3 < (writePixel pixels (i * 4) r g b 255).length := by
              rw [writePixel_length]; exact hoff
            have e3 : (3 : Int) * (c : Int) = (c : Int) * 3 := by ring
            by_cases hm : (masked && c == 255) = true
            · rw [if_pos hm] at h
              obtain ⟨h1, h2, h3⟩ := ih (i + 1) _ out
                (by rw [writePixel_length, writePixel_length]; omega) h
              have hmc : masked = true ∧ c = 255 := by
                simpa only [Bool.and_eq_true, beq_iff_eq] using hm
              refine ⟨by rw [h1, writePixel_length, writePixel_length], ?_, ?_⟩
              · intro q hq
                rw [h2 q (by omega), writePixel_getD_below _ _ _ _ _ _ hoff' q hq,
                  writePixel_getD_below _ _ _ _ _ _ hoff q hq]
              · intro j hj1 hj2
                by_cases hji : j = i
                · subst hji
                  have hp : pixelAt out j
                      = pixelAt (writePixel (writePixel pixels (j * 4) r g b 255) (j * 4) 0 0 0 0)
                          j := by
                    simp only [pixelAt]
                    rw [h2 (4 * j) (by omega), h2 (4 * j + 1) (by omega),
                      h2 (4 * j + 2) (by omega), h2 (4 * j + 3) (by omega)]
                  rw [hp, writePixel_pixelAt _ _ _ _ _ _ hoff']
                  simp only [decodedPixel, byteAt, hc, Option.getD_some]
                  rw [if_pos hmc]
                · exact h3 j (by omega) (by omega)
            · rw [if_neg hm] at h
              obtain ⟨h1, h2, h3⟩ := ih (i + 1) _ out (by rw [writePixel_length]; omega) h
              have hmc : ¬ (masked = true ∧ c = 255) := by
                intro hcon
                apply hm
                simp [hcon.1, hcon.2]
              refine ⟨by rw [h1, writePixel_length], ?_, ?_⟩
              · intro q hq
                rw [h2 q (by omega), writePixel_getD_below _ _ _ _ _ _ hoff q hq]
              · intro j hj1 hj2
                by_cases hji : j = i
                · subst hji
                  have hp : pixelAt out j = pixelAt (writePixel pixels (j * 4) r g b 255) j := by
                    simp only [pixelAt]
                    rw [h2 (4 * j) (by omega), h2 (4 * j + 1) (by omega),
                      h2 (4 * j + 2) (by omega), h2 (4 * j + 3) (by omega)]
                  rw [hp, writePixel_pixelAt _ _ _ _ _ _ hoff]
                  simp only [decodedPixel, byteAt, hc, Option.getD_some]
                  rw [if_neg hmc, e3, hr, hg, hb]
                  rfl
                · exact h3 j (by omega) (by omega)

theorem readByte_inside (buffer : List Byte) (off : Int) (h0 : 0 ≤ off)
    (h1 : off < buffer.length) : ∃ c, readByte buffer off = some c ∧ c < 256 := by
  have hlt : off.toNat < buffer.length := by omega
  refine ⟨(buffer[off.toNat]).val, ?_, (buffer[off.toNat]).isLt⟩
  simp [readByte, show ¬ off < 0 by omega, List.getElem?_eq_getElem hlt]

theorem pixelLoop_returns (masked : Bool) (buffer : List Byte) (index size : Int)
    (hindex : 0 ≤ index) (hsize : 0 ≤ size) (hbuf : index + size + 768 ≤ buffer.length)
    (n : Nat) :
    ∀ (i : Nat) (pixels : List Nat), ((i + n : Nat) : Int) ≤ size →
      ∃ out, pixelLoop masked buffer index size n i pixels = some out := by
  induction n with
  | zero => intro i pixels _; exact ⟨pixels, rfl⟩
  | succ n ih =>
    intro i pixels hin
    obtain ⟨c, hc, hc256⟩ := readByte_inside buffer (index + i) (by omega) (by omega)
    obtain ⟨r, hr, -⟩ := readByte_inside buffer (index + size + ((c : Int) * 3 + 0))
      (by omega) (by omega)
    obtain ⟨g, hg, -⟩ := readByte_inside buffer (index + size + ((c : Int) * 3 + 1))
      (by omega) (by omega)
    obtain ⟨b, hb, -⟩ := readByte_inside buffer (index + size + ((c : Int) * 3 + 2))
      (by omega) (by omega)
    simp only [pixelLoop, hc, hr, hg, hb]
    exact ih (i + 1) _ (by push_cast at hin ⊢; omega)

theorem checkInt32_some (x y : Int) (h : checkInt32 x = some y) :
    y = x ∧ INT_MIN ≤ x ∧ x ≤ INT_MAX := by
  unfold checkInt32 at h
  by_cases hr : INT_MIN ≤ x ∧ x ≤ INT_MAX
  · simp only [hr, and_self, if_true, Option.some.injEq] at h
    exact ⟨h.symm, hr⟩
  · simp [hr] at h

theorem checkInt32_inside (x : Int) (h0 : INT_MIN ≤ x) (h1 : x ≤ INT_MAX) :
    checkInt32 x = some x := by
  simp [checkInt32, h0, h1]

theorem LoadTexture_spec (STUDIO_NF_MASKED : Nat) (buffer : List Byte)
    (studioTexture : mstudiotexture_t) (texture : Texture)
    (h : LoadTexture STUDIO_NF_MASKED buffer studioTexture = some texture) :
    texture.Width = studioTexture.width ∧ texture.Height = studioTexture.height
      ∧ 0 ≤ studioTexture.width * studioTexture.height
      ∧ (texture.Data.length : Int) = 4 * (studioTexture.width * studioTexture.height)
      ∧ ∀ i : Nat, (i : Int) < studioTexture.width * studioTexture.height →
          pixelAt texture.Data i
            = decodedPixel (decide (studioTexture.flags &&& STUDIO_NF_MASKED ≠ 0)) buffer
                studioTexture.index (studioTexture.width * studioTexture.height) i := by
  unfold LoadTexture at h
  cases hs : checkInt32 (studioTexture.width * studioTexture.height) with
  | none => simp [hs] at h
  | some size =>
    obtain ⟨rfl, -, -⟩ := checkInt32_some _ _ hs
    simp only [hs] at h
    cases hs4 : checkInt32 (studioTexture.width * studioTexture.height * 4) with
    | none => simp [hs4] at h
    | some size4 =>
      obtain ⟨rfl, -, -⟩ := checkInt32_some _ _ hs4
      simp only [hs4] at h
      by_cases hneg : studioTexture.width * studioTexture.height * 4 < 0
      · simp [hneg] at h
      · simp only [hneg, if_false] at h
        cases hp : pixelLoop (decide (studioTexture.flags &&& STUDIO_NF_MASKED ≠ 0)) buffer
            studioTexture.index (studioTexture.width * studioTexture.height)
            (studioTexture.width * studioTexture.height).toNat 0
            (List.replicate (studioTexture.width * studioTexture.height * 4).toNat 0) with
        | none =>
          rw [hp] at h
          simp at h
        | some pixels =>
          simp only [hp, Option.some.injEq] at h
          subst h
          obtain ⟨h1, -, h3⟩ := pixelLoop_spec _ _ _ _ _ 0 _ pixels
            (by simp only [List.length_replicate]; omega) hp
          refine ⟨rfl, rfl, by omega, ?_, ?_⟩
          · simp only [h1, List.length_replicate]
            omega
          · intro i hi
            exact h3 i (by omega) (by omega)

theorem LoadTexture_returns (STUDIO_NF_MASKED : Nat) (buffer : List Byte)
    (studioTexture : mstudiotexture_t)
    (hsize : 0 ≤ studioTexture.width * studioTexture.height)
    (hfit : 4 * (studioTexture.width * studioTexture.height) ≤ INT_MAX)
    (hindex : 0 ≤ studioTexture.index)
    (hbuf : studioTexture.index + studioTexture.width * studioTexture.height + 768
      ≤ buffer.length) :
    ∃ texture, LoadTexture STUDIO_NF_MASKED buffer studioTexture = some texture := by
  unfold LoadTexture
  have hmax : INT_MAX = 2147483647 := rfl
  have hmin : INT_MIN = -2147483648 := rfl
  rw [checkInt32_inside _ (by omega) (by omega)]
  simp only
  rw [checkInt32_inside _ (by omega) (by omega)]
  simp only [show ¬ studioTexture.width * studioTexture.height * 4 < 0 by omega, if_false]
  obtain ⟨out, hout⟩ := pixelLoop_returns (decide (studioTexture.flags &&& STUDIO_NF_MASKED ≠ 0))
    buffer studioTexture.index (studioTexture.width * studioTexture.height) hindex hsize hbuf
    (studioTexture.width * studioTexture.height).toNat 0
    (List.replicate (studioTexture.width * studioTexture.height * 4).toNat 0) (by omega)
  rw [hout]
  exact ⟨_, rfl⟩

/-! ## Texture decoding: theorems -/

/-- C8: for a texture whose masked flag is set, every pixel that `LoadTexture`
returns is (0,0,0,0) when its index byte is 255 and otherwise
(palette[3p], palette[3p+1], palette[3p+2], 255) with `p` its index byte, the
palette starting right after the index bytes; and `LoadTexture` does return a
texture when the index bytes and the palette lie inside the buffer and the
size `4 * width * height` fits a 32-bit `int`. -/
theorem LoadTexture_masked (STUDIO_NF_MASKED : Nat) (buffer : List Byte)
    (studioTexture : mstudiotexture_t)
    (hmasked : studioTexture.flags &&& STUDIO_NF_MASKED ≠ 0) :
    (∀ texture, LoadTexture STUDIO_NF_MASKED buffer studioTexture = some texture →
        ∀ i : Nat, (i : Int) < studioTexture.width * studioTexture.height →
          pixelAt texture.Data i
            = if byteAt buffer (studioTexture.index + i) = 255 then [0, 0, 0, 0]
              else
                [byteAt buffer (studioTexture.index + studioTexture.width * studioTexture.height
                    + 3 * byteAt buffer (studioTexture.index + i)),
                  byteAt buffer (studioTexture.index + studioTexture.width * studioTexture.height
                    + (3 * byteAt buffer (studioTexture.index + i) + 1)),
                  byteAt buffer (studioTexture.index + studioTexture.width * studioTexture.height
                    + (3 * byteAt buffer (studioTexture.index + i) + 2)),
                  255])
      ∧ (0 ≤ studioTexture.width * studioTexture.height →
          4 * (studioTexture.width * studioTexture.height) ≤ INT_MAX →
          0 ≤ studioTexture.index →
          studioTexture.index + studioTexture.width * studioTexture.height + 768
            ≤ buffer.length →
          ∃ texture, LoadTexture STUDIO_NF_MASKED buffer studioTexture = some texture) := by
  refine ⟨?_, LoadTexture_returns STUDIO_NF_MASKED buffer studioTexture⟩
  intro texture h i hi
  rw [(LoadTexture_spec _ _ _ _ h).2.2.2.2 i hi]
  simp only [decodedPixel, hmasked, ne_eq, not_false_eq_true, decide_True, true_and]

/-- The masked 2 x 2 sample texture: pixel 2, whose index byte is 255, decodes
to (0,0,0,0), and pixel 1, whose index byte is 1, to palette entry 1 with
alpha 255. -/
theorem LoadTexture_masked_witness :
    64 &&& 64 ≠ 0
      ∧ pixelAt [10, 20, 30, 255, 40, 50, 60, 255, 0, 0, 0, 0, 40, 50, 60, 255] 2 = [0, 0, 0, 0]
      ∧ pixelAt [10, 20, 30, 255, 40, 50, 60, 255, 0, 0, 0, 0, 40, 50, 60, 255] 1
          = [40, 50, 60, 255] :=
  ⟨by decide,
    ((LoadTexture_masked 64 sampleTextureBytes ⟨64, 2, 2, 0⟩ (by decide)).1
      ⟨2, 2, [10, 20, 30, 255, 40, 50, 60, 255, 0, 0, 0, 0, 40, 50, 60, 255]⟩ (by decide!) 2
      (by decide)).trans (by decide!),
    ((LoadTexture_masked 64 sampleTextureBytes ⟨64, 2, 2, 0⟩ (by decide)).1
      ⟨2, 2, [10, 20, 30, 255, 40, 50, 60, 255, 0, 0, 0, 0, 40, 50, 60, 255]⟩ (by decide!) 1
      (by decide)).trans (by decide!)⟩

/-- C9: for a texture descriptor with non-negative width and height, the
texture that `LoadTexture` returns has `Width = width`, `Height = height` and a
pixel buffer of exactly `4 * width * height` bytes; the palette is read from
the byte right after the `width * height` index bytes; and when the masked flag
is clear every pixel, one with index byte 255 included, is
(palette[3p], palette[3p+1], palette[3p+2], 255) with `p` its index byte.
`LoadTexture` does return a texture when the index bytes and the palette lie
inside the buffer and `4 * width * height` fits a 32-bit `int`. -/
theorem LoadTexture_dimensions (STUDIO_NF_MASKED : Nat) (buffer : List Byte)
    (studioTexture : mstudiotexture_t) (hwidth : 0 ≤ studioTexture.width)
    (hheight : 0 ≤ studioTexture.height) :
    (∀ texture, LoadTexture STUDIO_NF_MASKED buffer studioTexture = some texture →
        texture.Width = studioTexture.width ∧ texture.Height = studioTexture.height
          ∧ (texture.Data.length : Int) = 4 * studioTexture.width * studioTexture.height
          ∧ (studioTexture.flags &&& STUDIO_NF_MASKED = 0 →
              ∀ i : Nat, (i : Int) < studioTexture.width * studioTexture.height →
                pixelAt texture.Data i
                  = [byteAt buffer (studioTexture.index
                        + studioTexture.width * studioTexture.height
                        + 3 * byteAt buffer (studioTexture.index + i)),
                      byteAt buffer (studioTexture.index
                        + studioTexture.width * studioTexture.height
                        + (3 * byteAt buffer (studioTexture.index + i) + 1)),
                      byteAt buffer (studioTexture.index
                        + studioTexture.width * studioTexture.height
                        + (3 * byteAt buffer (studioTexture.index + i) + 2)),
                      255]))
      ∧ (4 * (studioTexture.width * studioTexture.height) ≤ INT_MAX →
          0 ≤ studioTexture.index →
          studioTexture.index + studioTexture.width * studioTexture.height + 768
            ≤ buffer.length →
          ∃ texture, LoadTexture STUDIO_NF_MASKED buffer studioTexture = some texture) := by
  refine ⟨?_, LoadTexture_returns STUDIO_NF_MASKED buffer studioTexture
    (Int.mul_nonneg hwidth hheight)⟩
  intro texture h
  obtain ⟨h1, h2, -, h4, h5⟩ := LoadTexture_spec _ _ _ _ h
  refine ⟨h1, h2, by rw [h4]; ring, ?_⟩
  intro hclear i hi
  rw [h5 i hi]
  simp [decodedPixel, hclear]

/-- The sample texture with the masked flag clear: 2 x 2, sixteen bytes, and
pixel 2, whose index byte is 255, decodes to palette entry 255 with alpha 255. -/
theorem LoadTexture_dimensions_witness :
    (0 : Int) ≤ 2
      ∧ (∃ texture, LoadTexture 64 sampleTextureBytes ⟨0, 2, 2, 0⟩ = some texture)
      ∧ pixelAt [10, 20, 30, 255, 40, 50, 60, 255, 70, 80, 90, 255, 40, 50, 60, 255] 2
          = [70, 80, 90, 255] :=
  ⟨by decide,
    (LoadTexture_dimensions 64 sampleTextureBytes ⟨0, 2, 2, 0⟩ (by decide) (by decide)).2
      (by decide) (by decide) (by decide!),
    (((LoadTexture_dimensions 64 sampleTextureBytes ⟨0, 2, 2, 0⟩ (by decide) (by decide)).1
      ⟨2, 2, [10, 20, 30, 255, 40, 50, 60, 255, 70, 80, 90, 255, 40, 50, 60, 255]⟩
      (by decide!)).2.2.2 (by decide) 2 (by decide)).trans (by decide!)⟩

/-! ## The animation clock: theorems -/

theorem clamp_eq_min (dt : ℚ) : (if dt > 1 / 10 then 1 / 10 else dt) = min dt (1 / 10) := by
  by_cases h : dt > 1 / 10
  · rw [if_pos h, min_eq_right (le_of_lt h)]
  · rw [if_neg h, min_eq_left (not_lt.1 h)]

theorem AdvanceFrame_truncate (pseqdesc : mstudioseqdesc_t) (frame dt : ℚ)
    (hn : 1 < pseqdesc.numframes)
    (hq0 : INT_MIN ≤ truncate ((frame + min dt (1 / 10) * pseqdesc.fps)
      / ((pseqdesc.numframes - 1 : Int) : ℚ)))
    (hq1 : truncate ((frame + min dt (1 / 10) * pseqdesc.fps)
      / ((pseqdesc.numframes - 1 : Int) : ℚ)) ≤ INT_MAX)
    (hw0 : INT_MIN ≤ truncate ((frame + min dt (1 / 10) * pseqdesc.fps)
      / ((pseqdesc.numframes - 1 : Int) : ℚ)) * (pseqdesc.numframes - 1))
    (hw1 : truncate ((frame + min dt (1 / 10) * pseqdesc.fps)
      / ((pseqdesc.numframes - 1 : Int) : ℚ)) * (pseqdesc.numframes - 1) ≤ INT_MAX) :
    AdvanceFrame pseqdesc frame dt
      = some (frame + min dt (1 / 10) * pseqdesc.fps
          - ((truncate ((frame + min dt (1 / 10) * pseqdesc.fps)
              / ((pseqdesc.numframes - 1 : Int) : ℚ)) * (pseqdesc.numframes - 1) : Int) : ℚ)) := by
  unfold AdvanceFrame
  have hn' : ¬ pseqdesc.numframes ≤ 1 := by omega
  simp only [clamp_eq_min, hn', if_false, floatToInt]
  rw [checkInt32_inside _ hq0 hq1]
  simp only
  rw [checkInt32_inside _ hw0 hw1]

/-! ## The animation clock over several calls -/

theorem truncate_frac_nonneg (y : ℚ) (hy : 0 ≤ y) : 0 ≤ y - truncate y ∧ y - truncate y < 1 := by
  simp only [truncate, hy, if_true]
  constructor
  · have := Int.floor_le y
    linarith
  · have := Int.lt_floor_add_one y
    linarith

theorem truncate_frac_neg (y : ℚ) (hy : y < 0) : -1 < y - truncate y ∧ y - truncate y ≤ 0 := by
  have hn : ¬ 0 ≤ y := not_le.2 hy
  simp only [truncate, hn, if_false]
  constructor
  · have := Int.ceil_lt_add_one y
    linarith
  · have := Int.le_ceil y
    linarith

theorem AdvanceFrame_some (pseqdesc : mstudioseqdesc_t) (frame dt f : ℚ)
    (hn : 1 < pseqdesc.numframes) (h : AdvanceFrame pseqdesc frame dt = some f) :
    f = frame + min dt (1 / 10) * pseqdesc.fps
        - ((truncate ((frame + min dt (1 / 10) * pseqdesc.fps)
            / ((pseqdesc.numframes - 1 : Int) : ℚ)) * (pseqdesc.numframes - 1) : Int) : ℚ) := by
  unfold AdvanceFrame at h
  have hn' : ¬ pseqdesc.numframes ≤ 1 := by omega
  simp only [clamp_eq_min, hn', if_false, floatToInt] at h
  cases hq : checkInt32 (truncate ((frame + min dt (1 / 10) * pseqdesc.fps)
      / ((pseqdesc.numframes - 1 : Int) : ℚ))) with
  | none =>
    rw [hq] at h
    simp at h
  | some q =>
    obtain ⟨rfl, -, -⟩ := checkInt32_some _ _ hq
    rw [hq] at h
    simp only at h
    cases hw : checkInt32 (truncate ((frame + min dt (1 / 10) * pseqdesc.fps)
        / ((pseqdesc.numframes - 1 : Int) : ℚ)) * (pseqdesc.numframes - 1)) with
    | none =>
      rw [hw] at h
      simp at h
    | some w =>
      obtain ⟨rfl, -, -⟩ := checkInt32_some _ _ hw
      rw [hw] at h
      simp only [Option.some.injEq] at h
      exact h.symm

theorem AdvanceFrame_range (pseqdesc : mstudioseqdesc_t) (frame dt f : ℚ)
    (hn : 1 < pseqdesc.numframes) (h : AdvanceFrame pseqdesc frame dt = some f) :
    (0 ≤ frame + min dt (1 / 10) * pseqdesc.fps →
        0 ≤ f ∧ f < ((pseqdesc.numframes - 1 : Int) : ℚ))
      ∧ (frame + min dt (1 / 10) * pseqdesc.fps < 0 →
        -((pseqdesc.numframes - 1 : Int) : ℚ) < f ∧ f ≤ 0) := by
  have hf := AdvanceFrame_some pseqdesc frame dt f hn h
  have hpos : (0 : ℚ) < ((pseqdesc.numframes - 1 : Int) : ℚ) := by
    exact_mod_cast (by omega : (0 : Int) < pseqdesc.numframes - 1)
  set x := frame + min dt (1 / 10) * pseqdesc.fps with hx
  set c := ((pseqdesc.numframes - 1 : Int) : ℚ) with hc
  have hcast : ((truncate (x / c) * (pseqdesc.numframes - 1) : Int) : ℚ)
      = (truncate (x / c) : ℚ) * c := by
    rw [hc]
    push_cast
    ring
  have hfc : f = (x / c - truncate (x / c)) * c := by
    rw [hf, hcast, sub_mul, div_mul_cancel₀ x (ne_of_gt hpos)]
  constructor
  · intro h0
    obtain ⟨a, b⟩ := truncate_frac_nonneg (x / c) (div_nonneg h0 (le_of_lt hpos))
    rw [hfc]
    constructor
    · exact mul_nonneg a (le_of_lt hpos)
    · calc (x / c - truncate (x / c)) * c < 1 * c := mul_lt_mul_of_pos_right b hpos
        _ = c := one_mul c
  · intro h0
    obtain ⟨a, b⟩ := truncate_frac_neg (x / c) (div_neg_of_neg_of_pos h0 hpos)
    rw [hfc]
    constructor
    · calc -c = (-1) * c := by ring
        _ < (x / c - truncate (x / c)) * c := mul_lt_mul_of_pos_right a hpos
    · exact mul_nonpos_of_nonpos_of_nonneg b (le_of_lt hpos)

/-! ## The animation clock in binary floating point: theorems -/

theorem roundNearestEven_int (k : Int) : roundNearestEven (k : ℚ) = k := by
  unfold roundNearestEven
  simp

theorem roundNearestEven_le (x : ℚ) : (roundNearestEven x : ℚ) ≤ x + 1 / 2 := by
  unfold roundNearestEven
  have h1 := Int.floor_le x
  split_ifs with a b c
  · linarith
  · push_cast
    linarith
  · linarith
  · push_cast
    linarith

theorem le_roundNearestEven (x : ℚ) : x - 1 / 2 ≤ (roundNearestEven x : ℚ) := by
  unfold roundNearestEven
  have h2 := Int.lt_floor_add_one x
  split_ifs with a b c
  · linarith
  · push_cast
    linarith
  · linarith
  · push_cast
    linarith

theorem floor_le_roundNearestEven (x : ℚ) : ⌊x⌋ ≤ roundNearestEven x := by
  unfold roundNearestEven
  split_ifs <;> omega

theorem int_le_roundNearestEven (k : Int) (x : ℚ) (h : (k : ℚ) ≤ x) : k ≤ roundNearestEven x :=
  le_trans (Int.le_floor.2 h) (floor_le_roundNearestEven x)

theorem roundNearestEven_lt_int (k : Int) (x : ℚ) (h : x + 1 / 2 < (k : ℚ)) :
    roundNearestEven x < k := by
  have h1 := roundNearestEven_le x
  have : (roundNearestEven x : ℚ) < (k : ℚ) := lt_of_le_of_lt h1 h
  exact_mod_cast this

theorem roundNearestEven_neg (x : ℚ) : roundNearestEven (-x) = - roundNearestEven x := by
  by_cases hx : (⌊x⌋ : ℚ) = x
  · have e : roundNearestEven x = ⌊x⌋ := by
      rw [← hx, roundNearestEven_int, Int.floor_intCast]
    have e' : roundNearestEven (-x) = -⌊x⌋ := by
      have : -x = ((-⌊x⌋ : Int) : ℚ) := by
        push_cast
        rw [hx]
      rw [this, roundNearestEven_int]
    rw [e, e']
  · have hlt : (⌊x⌋ : ℚ) < x := lt_of_le_of_ne (Int.floor_le x) hx
    have hf : ⌊-x⌋ = -⌊x⌋ - 1 := by
      rw [Int.floor_eq_iff]
      have := Int.lt_floor_add_one x
      push_cast
      constructor <;> linarith
    unfold roundNearestEven
    rw [hf]
    push_cast
    by_cases a : x - ⌊x⌋ < 1 / 2
    · have a1 : ¬ (-x - (-(⌊x⌋ : ℚ) - 1) < 1 / 2) := by
        intro h
        linarith
      have a2 : 1 / 2 < -x - (-(⌊x⌋ : ℚ) - 1) := by linarith
      simp only [a, a1, a2, if_true, if_false]
      ring
    · by_cases b : 1 / 2 < x - ⌊x⌋
      · have b1 : -x - (-(⌊x⌋ : ℚ) - 1) < 1 / 2 := by linarith
        simp only [a, b, b1, if_true, if_false]
        ring
      · have c1 : ¬ (-x - (-(⌊x⌋ : ℚ) - 1) < 1 / 2) := by
          intro h
          have : x - ⌊x⌋ = 1 / 2 := le_antisymm (not_lt.1 b) (not_lt.1 a)
          linarith
        have c2 : ¬ (1 / 2 < -x - (-(⌊x⌋ : ℚ) - 1)) := by
          intro h
          have : x - ⌊x⌋ = 1 / 2 := le_antisymm (not_lt.1 b) (not_lt.1 a)
          linarith
        simp only [a, b, c1, c2, if_false]
        by_cases hev : ⌊x⌋ % 2 = 0
        · have hodd : ¬ ((-⌊x⌋ - 1) % 2 = 0) := by omega
          simp only [hev, hodd, if_true, if_false]
          ring
        · have hodd : (-⌊x⌋ - 1) % 2 = 0 := by omega
          simp only [hev, hodd, if_true, if_false]
          ring

theorem binadeTop_spec : ∀ (fuel : Nat) (pw ax : ℚ), 0 < pw →
    ∃ i, i ≤ fuel ∧ binadeTop fuel pw ax = pw * 2 ^ i
      ∧ (ax < pw * 2 ^ i ∨ i = fuel) ∧ (i = 0 ∨ pw * 2 ^ i ≤ 2 * ax) := by
  intro fuel
  induction fuel with
  | zero =>
    intro pw ax _
    exact ⟨0, le_refl _, by simp [binadeTop], Or.inr rfl, Or.inl rfl⟩
  | succ fuel ih =>
    intro pw ax hpw
    by_cases h : ax < pw
    · exact ⟨0, Nat.zero_le _, by simp [binadeTop, h], Or.inl (by simpa using h), Or.inl rfl⟩
    · obtain ⟨i, hi, he, h1, h2⟩ := ih (2 * pw) ax (by linarith)
      refine ⟨i + 1, by omega, ?_, ?_, Or.inr ?_⟩
      · simp only [binadeTop, h, if_false, he]
        ring
      · rcases h1 with h1 | h1
        · left
          calc ax < 2 * pw * 2 ^ i := h1
            _ = pw * 2 ^ (i + 1) := by ring
        · right
          omega
      · rcases h2 with h2 | h2
        · subst h2
          have : pw ≤ ax := not_lt.1 h
          calc pw * 2 ^ (0 + 1) = 2 * pw := by ring
            _ ≤ 2 * ax := by linarith
        · calc pw * 2 ^ (i + 1) = 2 * pw * 2 ^ i := by ring
            _ ≤ 2 * ax := h2

/-- The conversion to `float` spelled out: the spacing is `2 ^ i / 2 ^ 149` for
the `i` that the search of the binade finds. -/
theorem binary32_quantum (x : ℚ) :
    ∃ i : Nat, i ≤ 253
      ∧ roundBinary binary32 x
          = (if |(roundNearestEven (x / (2 ^ i / 2 ^ 149)) : ℚ) * (2 ^ i / 2 ^ 149)| < 2 ^ 128
              then some ((roundNearestEven (x / (2 ^ i / 2 ^ 149)) : ℚ) * (2 ^ i / 2 ^ 149))
              else none)
      ∧ (|x| < 2 ^ i / 2 ^ 125 ∨ i = 253) ∧ (i = 0 ∨ 2 ^ i / 2 ^ 125 ≤ 2 * |x|) := by
  obtain ⟨i, hi, he, h1, h2⟩ := binadeTop_spec 253 (1 / 2 ^ 125) |x| (by positivity)
  have htop : (1 / (2 : ℚ) ^ 125) * 2 ^ i = 2 ^ i / 2 ^ 125 := by ring
  have hq : (2 : ℚ) ^ i / 2 ^ 125 / 2 ^ 24 = 2 ^ i / 2 ^ 149 := by
    rw [div_div, ← pow_add]
  rw [htop] at he h1 h2
  refine ⟨i, hi, ?_, h1, h2⟩
  have hfuel : 2 * binary32.bias - 1 = 253 := rfl
  have hb : binary32.bias - 2 = 125 := rfl
  have hp : binary32.precision = 24 := rfl
  have hmax : binary32.bias + 1 = 128 := rfl
  unfold roundBinary
  rw [hfuel, hb, hp, hmax, he]
  dsimp only
  rw [hq]

theorem pow_two_lt_pow (a b : Nat) (h : (2 : ℚ) ^ a < 2 ^ b) : a < b := by
  by_contra hc
  have : (2 : ℚ) ^ b ≤ 2 ^ a := pow_le_pow_right₀ (by norm_num) (not_lt.1 hc)
  linarith

theorem abs_int_div_pow (m : Int) (t : Nat) :
    |(m : ℚ) / 2 ^ t| = (|m| : Int) / 2 ^ t := by
  rw [abs_div, abs_of_pos (by positivity : (0 : ℚ) < 2 ^ t)]
  push_cast
  rfl

/-- A value `m / 2 ^ t` with `|m| < 2 ^ 24` and `t <= 149` is a `float`: the
conversion leaves it as it is. -/
theorem binary32_exact (m : Int) (t : Nat) (hm : |m| < 2 ^ 24) (ht : t ≤ 149) :
    roundBinary binary32 ((m : ℚ) / 2 ^ t) = some ((m : ℚ) / 2 ^ t) := by
  obtain ⟨i, hi, he, h1, h2⟩ := binary32_quantum ((m : ℚ) / 2 ^ t)
  have hmq : ((|m| : Int) : ℚ) < 2 ^ 24 := by exact_mod_cast hm
  have habs : |(m : ℚ) / 2 ^ t| < 2 ^ 24 / 2 ^ t := by
    rw [abs_int_div_pow]
    exact div_lt_div_of_pos_right hmq (by positivity)
  have hit : i + t ≤ 149 := by
    rcases h2 with h2 | h2
    · omega
    · have h3 : (2 : ℚ) ^ i / 2 ^ 125 < 2 * (2 ^ 24 / 2 ^ t) := by linarith
      have h4 : (2 : ℚ) ^ (i + t) < 2 ^ 150 := by
        rw [div_lt_iff₀ (by positivity)] at h3
        have h5 : 2 * ((2 : ℚ) ^ 24 / 2 ^ t) * 2 ^ 125 = 2 ^ 150 / 2 ^ t := by ring
        rw [h5, lt_div_iff₀ (by positivity), ← pow_add] at h3
        exact h3
      have := pow_two_lt_pow _ _ h4
      omega
  have hquot : (m : ℚ) / 2 ^ t / (2 ^ i / 2 ^ 149) = ((m * 2 ^ (149 - t - i) : Int) : ℚ) := by
    have e : (2 : ℚ) ^ 149 = 2 ^ t * 2 ^ i * 2 ^ (149 - t - i) := by
      rw [← pow_add, ← pow_add]
      congr 1
      omega
    rw [e]
    push_cast
    field_simp
    ring
  have hback : ((m * 2 ^ (149 - t - i) : Int) : ℚ) * (2 ^ i / 2 ^ 149) = (m : ℚ) / 2 ^ t := by
    rw [← hquot]
    field_simp
    ring
  rw [he, hquot, roundNearestEven_int, hback]
  have hfin : |(m : ℚ) / 2 ^ t| < 2 ^ 128 := by
    have h6 : (2 : ℚ) ^ 24 / 2 ^ t ≤ 2 ^ 24 := div_le_self (by positivity) (one_le_pow₀ (by norm_num))
    have h7 : (2 : ℚ) ^ 24 ≤ 2 ^ 128 := pow_le_pow_right₀ (by norm_num) (by norm_num)
    linarith
  rw [if_pos hfin]

/-- An integer of magnitude below `2 ^ 24` is a `float`. -/
theorem binary32_int (w : Int) (hw : |w| < 2 ^ 24) :
    roundBinary binary32 (w : ℚ) = some (w : ℚ) := by
  have := binary32_exact w 0 hw (by omega)
  simpa using this

/-- The `float` quotient of a non-negative `float` below `2 ^ 24` by a positive
integer lies in the same unit interval as the exact quotient: the rounding of
the division never reaches the next integer. -/
theorem binary32_quotient (m : Int) (t : Nat) (d : Int) (hm0 : 0 ≤ m) (hm : m < 2 ^ 24)
    (hd : 1 ≤ d) :
    ∃ q : ℚ, roundBinary binary32 ((m : ℚ) / 2 ^ t / (d : ℚ)) = some q
      ∧ ((⌊(m : ℚ) / 2 ^ t / (d : ℚ)⌋ : Int) : ℚ) ≤ q
      ∧ q < ((⌊(m : ℚ) / 2 ^ t / (d : ℚ)⌋ : Int) : ℚ) + 1 := by
  have hdq : (1 : ℚ) ≤ (d : ℚ) := by exact_mod_cast hd
  have hdpos : (0 : ℚ) < (d : ℚ) := by linarith
  have hmq0 : (0 : ℚ) ≤ (m : ℚ) := by exact_mod_cast hm0
  have hmq : (m : ℚ) < 2 ^ 24 := by exact_mod_cast hm
  have hpt : (0 : ℚ) < 2 ^ t := by positivity
  have hx0 : (0 : ℚ) ≤ (m : ℚ) / 2 ^ t := div_nonneg hmq0 (le_of_lt hpt)
  have hxm : (m : ℚ) / 2 ^ t ≤ (m : ℚ) := div_le_self hmq0 (one_le_pow₀ (by norm_num))
  obtain ⟨y, hy⟩ : ∃ y : ℚ, y = (m : ℚ) / 2 ^ t / (d : ℚ) := ⟨_, rfl⟩
  have hy0 : 0 ≤ y := by
    rw [hy]
    exact div_nonneg hx0 (le_of_lt hdpos)
  have hyx : y ≤ (m : ℚ) / 2 ^ t := by
    rw [hy]
    exact div_le_self hx0 hdq
  have hy24 : y < 2 ^ 24 := by linarith
  rw [← hy]
  obtain ⟨i, hi, he, h1, h2⟩ := binary32_quantum y
  rw [abs_of_nonneg hy0] at h1 h2
  have hi149 : i ≤ 149 := by
    rcases h2 with h2 | h2
    · omega
    · have h3 : (2 : ℚ) ^ i / 2 ^ 125 < 2 * 2 ^ 24 := by linarith
      have h4 : (2 : ℚ) ^ i < 2 ^ 150 := by
        rw [div_lt_iff₀ (by positivity)] at h3
        have h5 : 2 * (2 : ℚ) ^ 24 * 2 ^ 125 = 2 ^ 150 := by norm_num
        rw [h5] at h3
        exact h3
      have := pow_two_lt_pow _ _ h4
      omega
  obtain ⟨s, hs⟩ : ∃ s : Nat, s = 149 - i := ⟨_, rfl⟩
  have hQ : (2 : ℚ) ^ i / 2 ^ 149 = 1 / 2 ^ s := by
    have e : (2 : ℚ) ^ 149 = 2 ^ i * 2 ^ s := by
      rw [← pow_add]
      congr 1
      omega
    rw [e]
    field_simp
  rw [hQ] at he
  have hps : (0 : ℚ) < 2 ^ s := by positivity
  have hyQ : y / (1 / 2 ^ s) = y * 2 ^ s := by field_simp
  rw [hyQ] at he
  obtain ⟨F, hF⟩ : ∃ F : Int, F = ⌊y⌋ := ⟨_, rfl⟩
  rw [← hF]
  have hF0 : 0 ≤ F := by
    rw [hF]
    exact Int.floor_nonneg.2 hy0
  have hFy : (F : ℚ) ≤ y := by
    rw [hF]
    exact Int.floor_le y
  have hyF : y < (F : ℚ) + 1 := by
    rw [hF]
    exact Int.lt_floor_add_one y
  -- the distance of the quotient to the next integer exceeds half the spacing
  have hgap : 1 / 2 ^ s / 2 < (F : ℚ) + 1 - y := by
    rcases h2 with h2 | h2
    · subst h2
      have hy1 : y < 1 / 2 ^ 125 := by
        rcases h1 with h1 | h1
        · simpa using h1
        · omega
      have hsmall : (1 : ℚ) / 2 ^ 125 ≤ 1 / 2 := by
        rw [div_le_div_iff₀ (by positivity) (by positivity)]
        norm_num
      have hF' : (0 : ℚ) ≤ (F : ℚ) := by exact_mod_cast hF0
      have hs149 : s = 149 := by omega
      have hq2 : (1 : ℚ) / 2 ^ s / 2 ≤ 1 / 4 := by
        rw [hs149]
        norm_num
      linarith
    · -- the next integer times `d` is an integer above the dividend
      have hM : (m : ℚ) / 2 ^ t < ((F + 1) * d : Int) := by
        have : y * d < ((F : ℚ) + 1) * d := mul_lt_mul_of_pos_right hyF hdpos
        rw [hy] at this
        rw [div_mul_cancel₀ _ (ne_of_gt hdpos)] at this
        push_cast
        exact this
      have hMi : m + 1 ≤ (F + 1) * d * 2 ^ t := by
        have h3 : (m : ℚ) < (((F + 1) * d * 2 ^ t : Int) : ℚ) := by
          rw [div_lt_iff₀ hpt] at hM
          push_cast at hM ⊢
          exact hM
        have h4 : m < (F + 1) * d * 2 ^ t := by exact_mod_cast h3
        omega
      have hdiff : 1 / 2 ^ t ≤ (((F + 1) * d : Int) : ℚ) - (m : ℚ) / 2 ^ t := by
        have h3 : ((m + 1 : Int) : ℚ) ≤ (((F + 1) * d * 2 ^ t : Int) : ℚ) := by
          exact_mod_cast hMi
        push_cast at h3 ⊢
        rw [le_sub_iff_add_le, ← add_div, div_le_iff₀ hpt]
        linarith
      have hgap1 : 1 / (2 ^ t * (d : ℚ)) ≤ (F : ℚ) + 1 - y := by
        have e1 : (F : ℚ) + 1 - y = ((((F + 1) * d : Int) : ℚ) - (m : ℚ) / 2 ^ t) / d := by
          rw [hy]
          push_cast
          field_simp
          ring
        rw [e1, one_div, mul_inv, ← one_div, ← div_eq_mul_inv]
        exact div_le_div_of_nonneg_right hdiff (le_of_lt hdpos)
      have hy2 : y / 2 ^ 24 < 1 / (2 ^ t * (d : ℚ)) := by
        rw [hy, div_div, div_div, div_lt_div_iff₀ (by positivity) (by positivity)]
        have : (m : ℚ) * (2 ^ t * (d : ℚ)) < 2 ^ 24 * (2 ^ t * (d : ℚ)) :=
          mul_lt_mul_of_pos_right hmq (by positivity)
        linarith
      have hq2 : (1 : ℚ) / 2 ^ s / 2 ≤ y / 2 ^ 24 := by
        have e2 : (1 : ℚ) / 2 ^ s / 2 = 2 ^ i / 2 ^ 125 / 2 ^ 25 := by
          rw [← hQ]
          rw [div_div, div_div]
          norm_num
        rw [e2]
        have h5 : (2 : ℚ) ^ i / 2 ^ 125 / 2 ^ 25 ≤ 2 * y / 2 ^ 25 :=
          div_le_div_of_nonneg_right h2 (by positivity)
        have h6 : 2 * y / 2 ^ 25 = y / 2 ^ 24 := by
          field_simp
          ring
        linarith
      linarith
  have hlow : F * 2 ^ s ≤ roundNearestEven (y * 2 ^ s) := by
    apply int_le_roundNearestEven
    push_cast
    exact mul_le_mul_of_nonneg_right hFy (le_of_lt hps)
  have hup : roundNearestEven (y * 2 ^ s) < (F + 1) * 2 ^ s := by
    apply roundNearestEven_lt_int
    push_cast
    have h3 : 1 / 2 ^ s / 2 * 2 ^ s < ((F : ℚ) + 1 - y) * 2 ^ s :=
      mul_lt_mul_of_pos_right hgap hps
    have h4 : (1 : ℚ) / 2 ^ s / 2 * 2 ^ s = 1 / 2 := by field_simp
    rw [h4] at h3
    linarith
  have hlowq : (F : ℚ) ≤ (roundNearestEven (y * 2 ^ s) : ℚ) * (1 / 2 ^ s) := by
    have h3 : ((F * 2 ^ s : Int) : ℚ) ≤ (roundNearestEven (y * 2 ^ s) : ℚ) := by
      exact_mod_cast hlow
    push_cast at h3
    rw [mul_one_div, le_div_iff₀ hps]
    exact h3
  have hupq : (roundNearestEven (y * 2 ^ s) : ℚ) * (1 / 2 ^ s) < (F : ℚ) + 1 := by
    have h3 : (roundNearestEven (y * 2 ^ s) : ℚ) < (((F + 1) * 2 ^ s : Int) : ℚ) := by
      exact_mod_cast hup
    push_cast at h3
    rw [mul_one_div, div_lt_iff₀ hps]
    exact h3
  have hFle : (F : ℚ) + 1 ≤ 2 ^ 24 + 1 := by linarith
  have hfin : |(roundNearestEven (y * 2 ^ s) : ℚ) * (1 / 2 ^ s)| < 2 ^ 128 := by
    have hF' : (0 : ℚ) ≤ (F : ℚ) := by exact_mod_cast hF0
    rw [abs_of_nonneg (le_trans hF' hlowq)]
    have h7 : (2 : ℚ) ^ 24 + 1 ≤ 2 ^ 128 := by norm_num
    linarith
  rw [if_pos hfin] at he
  exact ⟨_, he, hlowq, hupq⟩

theorem roundNearestEven_le_int (k : Int) (x : ℚ) (h : x ≤ (k : ℚ)) : roundNearestEven x ≤ k := by
  have h1 : ((-k : Int) : ℚ) ≤ -x := by
    push_cast
    linarith
  have h2 := int_le_roundNearestEven (-k) (-x) h1
  rw [roundNearestEven_neg] at h2
  omega

theorem roundBinary_neg (fmt : BinaryFormat) (x : ℚ) :
    roundBinary fmt (-x) = (roundBinary fmt x).map (fun r => -r) := by
  unfold roundBinary
  simp only [abs_neg, neg_div, roundNearestEven_neg, Int.cast_neg, neg_mul]
  split_ifs <;> rfl

theorem truncate_neg (z : ℚ) : truncate (-z) = - truncate z := by
  unfold truncate
  rcases lt_trichotomy z 0 with h | h | h
  · have h1 : 0 ≤ -z := by linarith
    have h2 : ¬ 0 ≤ z := not_le.2 h
    simp only [h1, h2, if_true, if_false, Int.floor_neg]
  · subst h
    simp
  · have h1 : ¬ 0 ≤ -z := by
      intro hc
      linarith
    have h2 : 0 ≤ z := le_of_lt h
    simp only [h1, h2, if_true, if_false, Int.ceil_neg]

theorem truncate_nonneg (z : ℚ) (h : 0 ≤ z) : 0 ≤ truncate z ∧ (truncate z : ℚ) ≤ z := by
  unfold truncate
  simp only [h, if_true]
  exact ⟨Int.floor_nonneg.2 h, Int.floor_le z⟩

theorem truncate_nonpos (z : ℚ) (h : z ≤ 0) : truncate z ≤ 0 ∧ z ≤ (truncate z : ℚ) := by
  have h1 := truncate_nonneg (-z) (by linarith)
  rw [truncate_neg] at h1
  obtain ⟨a, b⟩ := h1
  push_cast at b
  exact ⟨by omega, by linarith⟩

/-- The `float` quotient of a `float` of magnitude below `2 ^ 24` by a positive
integer has the same integer part as the exact quotient. -/
theorem binary32_quotient_truncate (m : Int) (t : Nat) (d : Int) (hm : |m| < 2 ^ 24)
    (hd : 1 ≤ d) :
    ∃ q : ℚ, roundBinary binary32 ((m : ℚ) / 2 ^ t / (d : ℚ)) = some q
      ∧ truncate q = truncate ((m : ℚ) / 2 ^ t / (d : ℚ)) := by
  have key : ∀ m' : Int, 0 ≤ m' → m' < 2 ^ 24 →
      ∃ q : ℚ, roundBinary binary32 ((m' : ℚ) / 2 ^ t / (d : ℚ)) = some q
        ∧ truncate q = truncate ((m' : ℚ) / 2 ^ t / (d : ℚ)) := by
    intro m' h0 h1
    obtain ⟨q, hq, hlow, hup⟩ := binary32_quotient m' t d h0 h1 hd
    refine ⟨q, hq, ?_⟩
    have hdpos : (0 : ℚ) < (d : ℚ) := by
      have : (1 : ℚ) ≤ (d : ℚ) := by exact_mod_cast hd
      linarith
    have hy0 : (0 : ℚ) ≤ (m' : ℚ) / 2 ^ t / (d : ℚ) :=
      div_nonneg (div_nonneg (by exact_mod_cast h0) (by positivity)) (le_of_lt hdpos)
    have hF0 : (0 : ℚ) ≤ ((⌊(m' : ℚ) / 2 ^ t / (d : ℚ)⌋ : Int) : ℚ) := by
      exact_mod_cast Int.floor_nonneg.2 hy0
    have hq0 : 0 ≤ q := le_trans hF0 hlow
    simp only [truncate, hq0, hy0, if_true]
    rw [Int.floor_eq_iff]
    exact ⟨hlow, hup⟩
  by_cases h0 : 0 ≤ m
  · exact key m h0 (by rw [abs_of_nonneg h0] at hm; exact hm)
  · have hneg : m < 0 := not_le.1 h0
    obtain ⟨q, hq, hT⟩ := key (-m) (by omega) (by rw [abs_of_neg hneg] at hm; exact hm)
    have e : (m : ℚ) / 2 ^ t / (d : ℚ) = -(((-m : Int) : ℚ) / 2 ^ t / (d : ℚ)) := by
      push_cast
      ring
    refine ⟨-q, ?_, ?_⟩
    · rw [e, roundBinary_neg, hq]
      rfl
    · rw [e, truncate_neg, truncate_neg, hT]

/-- An `int` of at least `2 ^ 24` converts to a `float` that is an integer of at
least `2 ^ 24`. -/
theorem binary32_large (d : Int) (h0 : 2 ^ 24 ≤ d) (h1 : d ≤ 2147483647) :
    ∃ d' : Int, roundBinary binary32 (d : ℚ) = some (d' : ℚ) ∧ 2 ^ 24 ≤ d' := by
  have hdq0 : (2 : ℚ) ^ 24 ≤ (d : ℚ) := by exact_mod_cast h0
  have hdq1 : (d : ℚ) ≤ 2147483647 := by exact_mod_cast h1
  have hdpos : (0 : ℚ) ≤ (d : ℚ) := le_trans (by positivity) hdq0
  obtain ⟨i, hi, he, ha, hb⟩ := binary32_quantum (d : ℚ)
  rw [abs_of_nonneg hdpos] at ha hb
  have hi150 : 150 ≤ i := by
    rcases ha with ha | ha
    · have h3 : (2 : ℚ) ^ 24 < 2 ^ i / 2 ^ 125 := lt_of_le_of_lt hdq0 ha
      rw [lt_div_iff₀ (by positivity), ← pow_add] at h3
      have := pow_two_lt_pow _ _ h3
      omega
    · omega
  have hi156 : i ≤ 156 := by
    rcases hb with hb | hb
    · omega
    · have h3 : (2 : ℚ) ^ i / 2 ^ 125 < 2 ^ 32 := by
        have : (2 : ℚ) * 2147483647 < 2 ^ 32 := by norm_num
        linarith
      rw [div_lt_iff₀ (by positivity), ← pow_add] at h3
      have := pow_two_lt_pow _ _ h3
      omega
  obtain ⟨u, hu⟩ : ∃ u : Nat, u = i - 149 := ⟨_, rfl⟩
  have hQ : (2 : ℚ) ^ i / 2 ^ 149 = 2 ^ u := by
    have e : (2 : ℚ) ^ i = 2 ^ u * 2 ^ 149 := by
      rw [← pow_add]
      congr 1
      omega
    rw [e]
    field_simp
  rw [hQ] at he
  have hpu : (0 : ℚ) < 2 ^ u := by positivity
  have hu7 : (2 : ℚ) ^ u ≤ 2 ^ 7 := pow_le_pow_right₀ (by norm_num) (by omega)
  have hlow : (2 ^ (24 - u) : Int) ≤ roundNearestEven ((d : ℚ) / 2 ^ u) := by
    apply int_le_roundNearestEven
    push_cast
    rw [le_div_iff₀ hpu, ← pow_add]
    have : 24 - u + u = 24 := by omega
    rw [this]
    exact hdq0
  have hlowq : (2 : ℚ) ^ 24 ≤ (roundNearestEven ((d : ℚ) / 2 ^ u) : ℚ) * 2 ^ u := by
    have h3 : ((2 ^ (24 - u) : Int) : ℚ) ≤ (roundNearestEven ((d : ℚ) / 2 ^ u) : ℚ) := by
      exact_mod_cast hlow
    push_cast at h3
    have h4 : (2 : ℚ) ^ (24 - u) * 2 ^ u ≤ (roundNearestEven ((d : ℚ) / 2 ^ u) : ℚ) * 2 ^ u :=
      mul_le_mul_of_nonneg_right h3 (le_of_lt hpu)
    rw [← pow_add] at h4
    have : 24 - u + u = 24 := by omega
    rw [this] at h4
    exact h4
  have hupq : (roundNearestEven ((d : ℚ) / 2 ^ u) : ℚ) * 2 ^ u ≤ (d : ℚ) + 2 ^ 7 := by
    have h3 := roundNearestEven_le ((d : ℚ) / 2 ^ u)
    have h4 : (roundNearestEven ((d : ℚ) / 2 ^ u) : ℚ) * 2 ^ u
        ≤ ((d : ℚ) / 2 ^ u + 1 / 2) * 2 ^ u := mul_le_mul_of_nonneg_right h3 (le_of_lt hpu)
    have h5 : ((d : ℚ) / 2 ^ u + 1 / 2) * 2 ^ u = (d : ℚ) + 2 ^ u / 2 := by
      field_simp
      ring
    rw [h5] at h4
    linarith
  have hfin : |(roundNearestEven ((d : ℚ) / 2 ^ u) : ℚ) * 2 ^ u| < 2 ^ 128 := by
    rw [abs_of_nonneg (le_trans (by positivity) hlowq)]
    have : (2147483647 : ℚ) + 2 ^ 7 < 2 ^ 128 := by norm_num
    linarith
  rw [if_pos hfin] at he
  refine ⟨roundNearestEven ((d : ℚ) / 2 ^ u) * 2 ^ u, ?_, ?_⟩
  · rw [he]
    push_cast
    rfl
  · have : ((2 ^ 24 : Int) : ℚ) ≤ ((roundNearestEven ((d : ℚ) / 2 ^ u) * 2 ^ u : Int) : ℚ) := by
      push_cast
      exact hlowq
    exact_mod_cast this

/-- A `float` of magnitude below `2 ^ 24` is a value `m / 2 ^ t` with
`|m| < 2 ^ 24` and `t <= 149`. -/
theorem binary32_range (y r : ℚ) (h : roundBinary binary32 y = some r) (hr : |r| < 2 ^ 24) :
    ∃ (m : Int) (t : Nat), r = (m : ℚ) / 2 ^ t ∧ |m| < 2 ^ 24 ∧ t ≤ 149 := by
  obtain ⟨i, hi, he, ha, hb⟩ := binary32_quantum y
  rw [h] at he
  by_cases hfin : |(roundNearestEven (y / (2 ^ i / 2 ^ 149)) : ℚ) * (2 ^ i / 2 ^ 149)| < 2 ^ 128
  · rw [if_pos hfin] at he
    have hre : r = (roundNearestEven (y / (2 ^ i / 2 ^ 149)) : ℚ) * (2 ^ i / 2 ^ 149) :=
      Option.some.inj he
    by_cases hi149 : 149 ≤ i
    · obtain ⟨u, hu⟩ : ∃ u : Nat, u = i - 149 := ⟨_, rfl⟩
      have hQ : (2 : ℚ) ^ i / 2 ^ 149 = 2 ^ u := by
        have e : (2 : ℚ) ^ i = 2 ^ u * 2 ^ 149 := by
          rw [← pow_add]
          congr 1
          omega
        rw [e]
        field_simp
      rw [hQ] at hre
      refine ⟨roundNearestEven (y / 2 ^ u) * 2 ^ u, 0, ?_, ?_, by omega⟩
      · rw [hre]
        push_cast
        simp
      · have h3 : |((roundNearestEven (y / 2 ^ u) * 2 ^ u : Int) : ℚ)| < ((2 ^ 24 : Int) : ℚ) := by
          push_cast
          rw [← hre]
          exact hr
        rw [← Int.cast_abs] at h3
        exact_mod_cast h3
    · obtain ⟨s, hs⟩ : ∃ s : Nat, s = 149 - i := ⟨_, rfl⟩
      have hQ : (2 : ℚ) ^ i / 2 ^ 149 = 1 / 2 ^ s := by
        have e : (2 : ℚ) ^ 149 = 2 ^ i * 2 ^ s := by
          rw [← pow_add]
          congr 1
          omega
        rw [e]
        field_simp
      have hps : (0 : ℚ) < 2 ^ s := by positivity
      have hyQ : y / (1 / 2 ^ s) = y * 2 ^ s := by field_simp
      rw [hQ, hyQ] at hre
      have hy : |y| < 2 ^ 24 * (1 / 2 ^ s) := by
        rcases ha with ha | ha
        · have e : (2 : ℚ) ^ 24 * (1 / 2 ^ s) = 2 ^ i / 2 ^ 125 := by
            rw [← hQ]
            field_simp
            ring
          rw [e]
          exact ha
        · omega
      have hy1 : |y * 2 ^ s| < 2 ^ 24 := by
        rw [abs_mul, abs_of_pos hps]
        have := mul_lt_mul_of_pos_right hy hps
        have e : (2 : ℚ) ^ 24 * (1 / 2 ^ s) * 2 ^ s = 2 ^ 24 := by field_simp
        rw [e] at this
        exact this
      have hn1 : roundNearestEven (y * 2 ^ s) ≤ 2 ^ 24 := by
        apply roundNearestEven_le_int
        push_cast
        exact le_of_lt (lt_of_le_of_lt (le_abs_self _) hy1)
      have hn2 : -(2 ^ 24) ≤ roundNearestEven (y * 2 ^ s) := by
        apply int_le_roundNearestEven
        push_cast
        have := neg_abs_le (y * 2 ^ s)
        linarith
      by_cases hn : |roundNearestEven (y * 2 ^ s)| < 2 ^ 24
      · refine ⟨roundNearestEven (y * 2 ^ s), s, ?_, hn, by omega⟩
        rw [hre]
        ring
      · have hs1 : 1 ≤ s := by omega
        have e2 : (2 : ℚ) ^ s = 2 * 2 ^ (s - 1) := by
          rw [← pow_succ']
          congr 1
          omega
        rcases le_or_lt 0 (roundNearestEven (y * 2 ^ s)) with hsgn | hsgn
        · have hval : roundNearestEven (y * 2 ^ s) = 2 ^ 24 := by
            rw [abs_of_nonneg hsgn] at hn
            omega
          refine ⟨2 ^ 23, s - 1, ?_, by norm_num, by omega⟩
          rw [hre, hval, e2]
          push_cast
          field_simp
          ring
        · have hval : roundNearestEven (y * 2 ^ s) = -(2 ^ 24) := by
            rw [abs_of_neg hsgn] at hn
            omega
          refine ⟨-(2 ^ 23), s - 1, ?_, by norm_num, by omega⟩
          rw [hre, hval, e2]
          push_cast
          field_simp
          ring
  · rw [if_neg hfin] at he
    exact Option.noConfusion he

theorem truncate_small (z : ℚ) (h : |z| < 1) : truncate z = 0 := by
  obtain ⟨h1, h2⟩ := abs_lt.1 h
  unfold truncate
  by_cases h0 : 0 ≤ z
  · simp only [h0, if_true]
    rw [Int.floor_eq_iff]
    exact ⟨by simpa using h0, by simpa using h2⟩
  · simp only [h0, if_false]
    rw [Int.ceil_eq_iff]
    constructor
    · simpa using h1
    · simpa using le_of_lt (not_le.1 h0)

/-- The wrap of `AdvanceFrame` on a `float` of magnitude below `2 ^ 24`: no
rounding takes part, and the result is the frame minus the truncated quotient
times `numframes - 1`. -/
theorem AdvanceFrameWrap_eq (numframes : Int) (m : Int) (t : Nat) (hn : 1 < numframes)
    (hmax : numframes ≤ 2147483647) (hm : |m| < 2 ^ 24) (ht : t ≤ 149) :
    AdvanceFrameWrap numframes ((m : ℚ) / 2 ^ t)
      = some ((m : ℚ) / 2 ^ t
          - ((truncate ((m : ℚ) / 2 ^ t / ((numframes - 1 : Int) : ℚ)) * (numframes - 1) : Int)
            : ℚ)) := by
  have hpt : (0 : ℚ) < 2 ^ t := by positivity
  have hmq : |(m : ℚ)| < 2 ^ 24 := by
    have : ((|m| : Int) : ℚ) < ((2 ^ 24 : Int) : ℚ) := by exact_mod_cast hm
    rw [Int.cast_abs] at this
    push_cast at this
    exact this
  have hxabs : |(m : ℚ) / 2 ^ t| < 2 ^ 24 := by
    rw [abs_div, abs_of_pos hpt]
    have : |(m : ℚ)| / 2 ^ t ≤ |(m : ℚ)| := div_le_self (abs_nonneg _) (one_le_pow₀ (by norm_num))
    linarith
  have hd1 : 1 ≤ numframes - 1 := by omega
  have hdq : (1 : ℚ) ≤ ((numframes - 1 : Int) : ℚ) := by exact_mod_cast hd1
  have hdpos : (0 : ℚ) < ((numframes - 1 : Int) : ℚ) := by linarith
  -- the divisor as a `float`
  obtain ⟨δ, hδ, hδ1, hδT⟩ : ∃ δ : Int,
      roundBinary binary32 ((numframes - 1 : Int) : ℚ) = some (δ : ℚ) ∧ 1 ≤ δ
        ∧ truncate ((m : ℚ) / 2 ^ t / (δ : ℚ))
          = truncate ((m : ℚ) / 2 ^ t / ((numframes - 1 : Int) : ℚ)) := by
    by_cases hsmall : numframes - 1 < 2 ^ 24
    · exact ⟨numframes - 1, binary32_int _ (by rw [abs_of_nonneg (by omega)]; exact hsmall),
        hd1, rfl⟩
    · obtain ⟨d', hd', hd'24⟩ := binary32_large (numframes - 1) (by omega) (by omega)
      refine ⟨d', hd', by omega, ?_⟩
      have hbig : ∀ e : Int, 2 ^ 24 ≤ e → truncate ((m : ℚ) / 2 ^ t / (e : ℚ)) = 0 := by
        intro e he
        have heq : (2 : ℚ) ^ 24 ≤ (e : ℚ) := by exact_mod_cast he
        have hepos : (0 : ℚ) < (e : ℚ) := lt_of_lt_of_le (by positivity) heq
        apply truncate_small
        rw [abs_div, abs_of_pos hepos, div_lt_one hepos]
        linarith
      rw [hbig d' hd'24, hbig (numframes - 1) (by omega)]
  obtain ⟨q, hq, hqT⟩ := binary32_quotient_truncate m t δ hm hδ1
  rw [hδT] at hqT
  obtain ⟨T, hT⟩ : ∃ T : Int, T = truncate ((m : ℚ) / 2 ^ t / ((numframes - 1 : Int) : ℚ)) :=
    ⟨_, rfl⟩
  rw [← hT] at hqT ⊢
  -- the truncated quotient times the divisor lies between 0 and the frame
  have hprod : ((0 : ℚ) ≤ (m : ℚ) / 2 ^ t → 0 ≤ T
        ∧ ((T * (numframes - 1) : Int) : ℚ) ≤ (m : ℚ) / 2 ^ t)
      ∧ ((m : ℚ) / 2 ^ t ≤ 0 → T ≤ 0
        ∧ (m : ℚ) / 2 ^ t ≤ ((T * (numframes - 1) : Int) : ℚ)) := by
    constructor
    · intro hx
      obtain ⟨a, b⟩ := truncate_nonneg ((m : ℚ) / 2 ^ t / ((numframes - 1 : Int) : ℚ))
        (div_nonneg hx (le_of_lt hdpos))
      rw [← hT] at a b
      refine ⟨a, ?_⟩
      rw [le_div_iff₀ hdpos] at b
      push_cast at b ⊢
      exact b
    · intro hx
      obtain ⟨a, b⟩ := truncate_nonpos ((m : ℚ) / 2 ^ t / ((numframes - 1 : Int) : ℚ))
        (div_nonpos_of_nonpos_of_nonneg hx (le_of_lt hdpos))
      rw [← hT] at a b
      refine ⟨a, ?_⟩
      rw [div_le_iff₀ hdpos] at b
      push_cast at b ⊢
      exact b
  have hT0 : (0 : ℚ) ≤ (m : ℚ) / 2 ^ t → 0 ≤ T * (numframes - 1) := fun hx =>
    Int.mul_nonneg (hprod.1 hx).1 (by omega)
  have hT1 : (m : ℚ) / 2 ^ t ≤ 0 → T * (numframes - 1) ≤ 0 := fun hx =>
    Int.mul_nonpos_of_nonpos_of_nonneg (hprod.2 hx).1 (by omega)
  have hwabs : |((T * (numframes - 1) : Int) : ℚ)| ≤ |(m : ℚ) / 2 ^ t| := by
    rcases le_total 0 ((m : ℚ) / 2 ^ t) with hx | hx
    · have h0 : (0 : ℚ) ≤ ((T * (numframes - 1) : Int) : ℚ) := by exact_mod_cast hT0 hx
      rw [abs_of_nonneg h0, abs_of_nonneg hx]
      exact (hprod.1 hx).2
    · have h0 : ((T * (numframes - 1) : Int) : ℚ) ≤ 0 := by exact_mod_cast hT1 hx
      rw [abs_of_nonpos h0, abs_of_nonpos hx]
      have := (hprod.2 hx).2
      linarith
  have hw24 : |T * (numframes - 1)| < 2 ^ 24 := by
    have : ((|T * (numframes - 1)| : Int) : ℚ) < ((2 ^ 24 : Int) : ℚ) := by
      rw [Int.cast_abs]
      push_cast
      push_cast at hwabs
      linarith
    exact_mod_cast this
  have hTabs : |T| ≤ |T * (numframes - 1)| := by
    rw [abs_mul]
    have : 1 ≤ |numframes - 1| := by
      rw [abs_of_nonneg (by omega)]
      exact hd1
    exact le_mul_of_one_le_right (abs_nonneg T) this
  have hTrange : INT_MIN ≤ T ∧ T ≤ INT_MAX := by
    have h1 := abs_lt.1 (lt_of_le_of_lt hTabs hw24)
    have hmin : INT_MIN = -2147483648 := rfl
    have hmax' : INT_MAX = 2147483647 := rfl
    constructor <;> omega
  have hwrange : INT_MIN ≤ T * (numframes - 1) ∧ T * (numframes - 1) ≤ INT_MAX := by
    have h1 := abs_lt.1 hw24
    have hmin : INT_MIN = -2147483648 := rfl
    have hmax' : INT_MAX = 2147483647 := rfl
    constructor <;> omega
  -- the difference is a `float`
  have hdiff : (m : ℚ) / 2 ^ t - ((T * (numframes - 1) : Int) : ℚ)
      = ((m - T * (numframes - 1) * 2 ^ t : Int) : ℚ) / 2 ^ t := by
    push_cast
    field_simp
    ring
  have hnum : |m - T * (numframes - 1) * 2 ^ t| < 2 ^ 24 := by
    have h2t : (0 : Int) < 2 ^ t := by positivity
    rcases le_total 0 ((m : ℚ) / 2 ^ t) with hx | hx
    · have hm0 : 0 ≤ m := by
        have : (0 : ℚ) ≤ (m : ℚ) := by
          have := mul_nonneg hx (le_of_lt hpt)
          rwa [div_mul_cancel₀ _ (ne_of_gt hpt)] at this
        exact_mod_cast this
      have hle : T * (numframes - 1) * 2 ^ t ≤ m := by
        have h3 := (hprod.1 hx).2
        rw [le_div_iff₀ hpt] at h3
        exact_mod_cast h3
      have hge : 0 ≤ T * (numframes - 1) * 2 ^ t := Int.mul_nonneg (hT0 hx) (le_of_lt h2t)
      rw [abs_of_nonneg hm0] at hm
      rw [abs_of_nonneg (by omega)]
      omega
    · have hm0 : m ≤ 0 := by
        have : (m : ℚ) ≤ 0 := by
          have := mul_nonpos_of_nonpos_of_nonneg hx (le_of_lt hpt)
          rwa [div_mul_cancel₀ _ (ne_of_gt hpt)] at this
        exact_mod_cast this
      have hle : m ≤ T * (numframes - 1) * 2 ^ t := by
        have h3 := (hprod.2 hx).2
        rw [div_le_iff₀ hpt] at h3
        exact_mod_cast h3
      have hge : T * (numframes - 1) * 2 ^ t ≤ 0 :=
        Int.mul_nonpos_of_nonpos_of_nonneg (hT1 hx) (le_of_lt h2t)
      rw [abs_of_nonpos hm0] at hm
      rw [abs_of_nonpos (by omega)]
      omega
  unfold AdvanceFrameWrap
  rw [hδ]
  dsimp only
  rw [hq]
  dsimp only
  rw [floatToInt, hqT, checkInt32_inside T hTrange.1 hTrange.2]
  dsimp only
  rw [checkInt32_inside _ hwrange.1 hwrange.2]
  dsimp only
  rw [binary32_int _ hw24]
  dsimp only
  rw [hdiff]
  exact binary32_exact _ t hnum ht

/-- The sum that `AdvanceFrame` wraps is the result of a conversion to
`float`. -/
theorem advanceSum_float (pseqdesc : mstudioseqdesc_t) (frame dt x : ℚ)
    (h : advanceSum pseqdesc frame dt = some x) : ∃ y, roundBinary binary32 y = some x := by
  unfold advanceSum at h
  cases h1 : roundBinary binary64 (1 / 10) with
  | none =>
    rw [h1] at h
    cases h
  | some tenth =>
    rw [h1] at h
    dsimp only at h
    cases h2 : roundBinary binary64 ((if dt > tenth then tenth else dt) * pseqdesc.fps) with
    | none =>
      rw [h2] at h
      cases h
    | some product =>
      rw [h2] at h
      dsimp only at h
      cases h3 : roundBinary binary32 product with
      | none =>
        rw [h3] at h
        cases h
      | some increment =>
        rw [h3] at h
        exact ⟨_, h⟩

/-- The truncated quotient times the divisor is no larger in magnitude than the
dividend. -/
theorem truncate_mul_bound (x : ℚ) (d : Int) (hd : 1 ≤ d) :
    |((truncate (x / (d : ℚ)) * d : Int) : ℚ)| ≤ |x| := by
  have hdq : (1 : ℚ) ≤ (d : ℚ) := by exact_mod_cast hd
  have hdpos : (0 : ℚ) < (d : ℚ) := by linarith
  rcases le_total 0 x with hx | hx
  · obtain ⟨a, b⟩ := truncate_nonneg (x / (d : ℚ)) (div_nonneg hx (le_of_lt hdpos))
    have a' : (0 : ℚ) ≤ (truncate (x / (d : ℚ)) : ℚ) := by exact_mod_cast a
    rw [le_div_iff₀ hdpos] at b
    push_cast
    rw [abs_of_nonneg (mul_nonneg a' (le_of_lt hdpos)), abs_of_nonneg hx]
    exact b
  · obtain ⟨a, b⟩ := truncate_nonpos (x / (d : ℚ))
      (div_nonpos_of_nonpos_of_nonneg hx (le_of_lt hdpos))
    have a' : (truncate (x / (d : ℚ)) : ℚ) ≤ 0 := by exact_mod_cast a
    rw [div_le_iff₀ hdpos] at b
    push_cast
    rw [abs_of_nonpos (mul_nonpos_of_nonpos_of_nonneg a' (le_of_lt hdpos)), abs_of_nonpos hx]
    linarith

/-- On a `float` sum of magnitude below `2 ^ 24`, `AdvanceFrame` leaves the sum
minus the truncated quotient times `numframes - 1`: the wrap is computed
without rounding. -/
theorem AdvanceFrameBinary32_wrap (pseqdesc : mstudioseqdesc_t) (frame dt x : ℚ)
    (hsum : advanceSum pseqdesc frame dt = some x) (hn : 1 < pseqdesc.numframes)
    (hmax : pseqdesc.numframes ≤ 2147483647) (hx : |x| < 2 ^ 24) :
    AdvanceFrameBinary32 pseqdesc frame dt
      = some (x - ((truncate (x / ((pseqdesc.numframes - 1 : Int) : ℚ))
          * (pseqdesc.numframes - 1) : Int) : ℚ)) := by
  obtain ⟨y, hy⟩ := advanceSum_float pseqdesc frame dt x hsum
  obtain ⟨m, t, rfl, hm, ht⟩ := binary32_range y x hy hx
  have hn' : ¬ pseqdesc.numframes ≤ 1 := by omega
  unfold AdvanceFrameBinary32
  rw [hsum]
  dsimp only
  rw [if_neg hn']
  exact AdvanceFrameWrap_eq pseqdesc.numframes m t hn hmax hm ht

/-- The rational model applied to a sum of magnitude below `2 ^ 24`. -/
theorem AdvanceFrame_sum (pseqdesc : mstudioseqdesc_t) (x : ℚ) (hn : 1 < pseqdesc.numframes)
    (hx : |x| < 2 ^ 24) :
    AdvanceFrame pseqdesc x 0
      = some (x - ((truncate (x / ((pseqdesc.numframes - 1 : Int) : ℚ))
          * (pseqdesc.numframes - 1) : Int) : ℚ)) := by
  have hmin : min (0 : ℚ) (1 / 10) = 0 := min_eq_left (by norm_num)
  have hsum : x + min 0 (1 / 10) * pseqdesc.fps = x := by
    rw [hmin, zero_mul, add_zero]
  have hd1 : 1 ≤ pseqdesc.numframes - 1 := by omega
  have hw := truncate_mul_bound x (pseqdesc.numframes - 1) hd1
  have hw24 : |truncate (x / ((pseqdesc.numframes - 1 : Int) : ℚ)) * (pseqdesc.numframes - 1)|
      < 2 ^ 24 := by
    have : ((|truncate (x / ((pseqdesc.numframes - 1 : Int) : ℚ))
        * (pseqdesc.numframes - 1)| : Int) : ℚ) < ((2 ^ 24 : Int) : ℚ) := by
      rw [Int.cast_abs]
      push_cast
      push_cast at hw
      linarith
    exact_mod_cast this
  have hT : |truncate (x / ((pseqdesc.numframes - 1 : Int) : ℚ))|
      ≤ |truncate (x / ((pseqdesc.numframes - 1 : Int) : ℚ)) * (pseqdesc.numframes - 1)| := by
    rw [abs_mul]
    have : 1 ≤ |pseqdesc.numframes - 1| := by
      rw [abs_of_nonneg (by omega)]
      exact hd1
    exact le_mul_of_one_le_right (abs_nonneg _) this
  have h1 := abs_lt.1 hw24
  have h2 := abs_lt.1 (lt_of_le_of_lt hT hw24)
  have hmin' : INT_MIN = -2147483648 := rfl
  have hmax' : INT_MAX = 2147483647 := rfl
  have := AdvanceFrame_truncate pseqdesc x 0 hn (by rw [hsum, hmin']; omega)
    (by rw [hsum, hmax']; omega) (by rw [hsum, hmin']; omega) (by rw [hsum, hmax']; omega)
  rw [hsum] at this
  exact this

/-- On a `float` sum `x` of magnitude below `2 ^ 24`, the function with the
roundings of the machine types and the rational model applied to `x` leave the
same frame. -/
theorem AdvanceFrameBinary32_exact (pseqdesc : mstudioseqdesc_t) (frame dt x : ℚ)
    (hsum : advanceSum pseqdesc frame dt = some x) (hn : 1 < pseqdesc.numframes)
    (hmax : pseqdesc.numframes ≤ 2147483647) (hx : |x| < 2 ^ 24) :
    AdvanceFrameBinary32 pseqdesc frame dt = AdvanceFrame pseqdesc x 0 := by
  rw [AdvanceFrameBinary32_wrap pseqdesc frame dt x hsum hn hmax hx,
    AdvanceFrame_sum pseqdesc x hn hx]

/-- The frame that `AdvanceFrame` leaves on a `float` sum `x` of magnitude below
`2 ^ 24`: in `[0, numframes - 1)` when `x >= 0`, in `(-(numframes - 1), 0]`
when `x < 0`. -/
theorem AdvanceFrameBinary32_range (pseqdesc : mstudioseqdesc_t) (frame dt x : ℚ)
    (hsum : advanceSum pseqdesc frame dt = some x) (hn : 1 < pseqdesc.numframes)
    (hmax : pseqdesc.numframes ≤ 2147483647) (hx : |x| < 2 ^ 24) :
    ∃ f, AdvanceFrameBinary32 pseqdesc frame dt = some f
      ∧ (0 ≤ x → 0 ≤ f ∧ f < ((pseqdesc.numframes - 1 : Int) : ℚ))
      ∧ (x < 0 → -((pseqdesc.numframes - 1 : Int) : ℚ) < f ∧ f ≤ 0) := by
  have he := AdvanceFrameBinary32_exact pseqdesc frame dt x hsum hn hmax hx
  have hs := AdvanceFrame_sum pseqdesc x hn hx
  have hmin : min (0 : ℚ) (1 / 10) = 0 := min_eq_left (by norm_num)
  have hsum' : x + min 0 (1 / 10) * pseqdesc.fps = x := by
    rw [hmin, zero_mul, add_zero]
  have hr := AdvanceFrame_range pseqdesc x 0 _ hn hs
  rw [hsum'] at hr
  exact ⟨_, he.trans hs, hr.1, hr.2⟩

/-- C10 (counterexample): from frame -1 (as `SetFrame` can leave it), with
dt = 1/16 and fps = 8 on a sequence of 10 frames, the sum is -1/2; `(int)` of
the quotient is 0, so `AdvanceFrame` leaves the frame at -1/2, while the
reference rule, with `floor(x / 9) = -1`, gives 17/2. And from the frame
18874394 with dt = 0, the `float` quotient 18874394 / 9 is rounded up to
2097155, the product 18874395 is rounded to the `float` 18874396, and
`AdvanceFrame` leaves -2, while the reference rule gives 8. -/
theorem AdvanceFrameBinary32_not_reference :
    (advanceSum { fps := 8, numframes := 10 } (-1) (1 / 16) = some (-1 / 2)
        ∧ AdvanceFrameBinary32 { fps := 8, numframes := 10 } (-1) (1 / 16) = some (-1 / 2)
        ∧ referenceFrame { fps := 8, numframes := 10 } (-1) (1 / 16) = 17 / 2)
      ∧ (advanceSum { fps := 1, numframes := 10 } 18874394 0 = some 18874394
        ∧ roundBinary binary32 (18874394 / 9) = some 2097155
        ∧ roundBinary binary32 (2097155 * 9) = some 18874396
        ∧ AdvanceFrameBinary32 { fps := 1, numframes := 10 } 18874394 0 = some (-2)
        ∧ referenceFrame { fps := 1, numframes := 10 } 18874394 0 = 8) := by
  refine ⟨⟨by decide!, by decide!, by decide!⟩,
    ⟨by decide!, by decide!, by decide!, by decide!, by decide!⟩⟩

/-- C10 (amended): let `x` be the `float` sum that `AdvanceFrame` forms from the
frame and `min(dt, 0.1) * fps` (the product a `double` converted to `float`).
`AdvanceFrame` sets the frame to 0 when `numframes <= 1`; otherwise, when
`|x| < 2 ^ 24`, to `x - trunc(x / (numframes - 1)) * (numframes - 1)`, `trunc`
rounding toward zero as the `(int)` cast does, which for `0 <= x < 2 ^ 24` is
the reference rule with `floor` applied to `x`; and any dt above the `double`
0.1 gives the same result as that dt. -/
theorem AdvanceFrameBinary32_rule (pseqdesc : mstudioseqdesc_t) (frame dt x : ℚ)
    (hsum : advanceSum pseqdesc frame dt = some x) :
    (pseqdesc.numframes ≤ 1 → AdvanceFrameBinary32 pseqdesc frame dt = some 0)
      ∧ (1 < pseqdesc.numframes → pseqdesc.numframes ≤ 2147483647 → |x| < 2 ^ 24 →
          AdvanceFrameBinary32 pseqdesc frame dt
            = some (x - ((truncate (x / ((pseqdesc.numframes - 1 : Int) : ℚ))
                * (pseqdesc.numframes - 1) : Int) : ℚ)))
      ∧ (1 < pseqdesc.numframes → pseqdesc.numframes ≤ 2147483647 → 0 ≤ x → x < 2 ^ 24 →
          AdvanceFrameBinary32 pseqdesc frame dt
            = some (x - ((⌊x / ((pseqdesc.numframes - 1 : Int) : ℚ)⌋
                * (pseqdesc.numframes - 1) : Int) : ℚ)))
      ∧ (∀ tenth, roundBinary binary64 (1 / 10) = some tenth → tenth < dt →
          AdvanceFrameBinary32 pseqdesc frame dt = AdvanceFrameBinary32 pseqdesc frame tenth) := by
  refine ⟨?_, ?_, ?_, ?_⟩
  · intro hn
    unfold AdvanceFrameBinary32
    rw [hsum]
    dsimp only
    rw [if_pos hn]
  · intro hn hmax hx
    exact AdvanceFrameBinary32_wrap pseqdesc frame dt x hsum hn hmax hx
  · intro hn hmax h0 h1
    have hx : |x| < 2 ^ 24 := by
      rw [abs_of_nonneg h0]
      exact h1
    rw [AdvanceFrameBinary32_wrap pseqdesc frame dt x hsum hn hmax hx]
    have hdpos : (0 : ℚ) < ((pseqdesc.numframes - 1 : Int) : ℚ) := by
      exact_mod_cast (by omega : (0 : Int) < pseqdesc.numframes - 1)
    have hq : 0 ≤ x / ((pseqdesc.numframes - 1 : Int) : ℚ) := div_nonneg h0 (le_of_lt hdpos)
    simp only [truncate, hq, if_true]
  · intro tenth ht hdt
    have e : advanceSum pseqdesc frame dt = advanceSum pseqdesc frame tenth := by
      unfold advanceSum
      rw [ht]
      dsimp only
      have h1 : dt > tenth := hdt
      have h2 : ¬ (tenth > tenth) := lt_irrefl _
      rw [if_pos h1, if_neg h2]
    unfold AdvanceFrameBinary32
    rw [e]

/-- At 30 frames per second on a sequence of 10 frames, a call with dt = 1 from
frame 17/2 counts as dt = 0.1: the sum is 23/2, and the frame wraps to 5/2. -/
theorem AdvanceFrameBinary32_rule_witness :
    advanceSum { fps := 30, numframes := 10 } (17 / 2) 1 = some (23 / 2)
      ∧ AdvanceFrameBinary32 { fps := 30, numframes := 10 } (17 / 2) 1 = some (5 / 2)
      ∧ AdvanceFrameBinary32 { fps := 30, numframes := 10 } (17 / 2) 1
        = AdvanceFrameBinary32 { fps := 30, numframes := 10 } (17 / 2)
            (3602879701896397 / 36028797018963968) :=
  ⟨by decide!,
    ((AdvanceFrameBinary32_rule { fps := 30, numframes := 10 } (17 / 2) 1 (23 / 2)
      (by decide!)).2.2.1 (by decide) (by decide) (by decide!) (by decide!)).trans (by decide!),
    (AdvanceFrameBinary32_rule { fps := 30, numframes := 10 } (17 / 2) 1 (23 / 2)
      (by decide!)).2.2.2 (3602879701896397 / 36028797018963968) (by decide!) (by decide!)⟩

/-- C12 (counterexample): on a sequence of 10 frames with fps = 1 and dt = 0,
the frame -1/2 stays at -1/2, below the interval `[0, 9)`; the frame 18874394,
a `float` above `2 ^ 24`, becomes -2, and the frame 150995024 becomes 16. -/
theorem AdvanceFrameBinary32_outside_interval :
    (AdvanceFrameBinary32 { fps := 1, numframes := 10 } (-1 / 2) 0 = some (-1 / 2)
        ∧ ¬ ((0 : ℚ) ≤ -1 / 2))
      ∧ (advanceSum { fps := 1, numframes := 10 } 18874394 0 = some 18874394
        ∧ AdvanceFrameBinary32 { fps := 1, numframes := 10 } 18874394 0 = some (-2)
        ∧ ¬ ((0 : ℚ) ≤ -2))
      ∧ (advanceSum { fps := 1, numframes := 10 } 150995024 0 = some 150995024
        ∧ AdvanceFrameBinary32 { fps := 1, numframes := 10 } 150995024 0 = some 16
        ∧ ¬ ((16 : ℚ) < (((10 : Int) - 1 : Int) : ℚ))) := by
  refine ⟨⟨by decide!, by decide!⟩, ⟨by decide!, by decide!, by decide!⟩,
    ⟨by decide!, by decide!, by decide!⟩⟩

/-- C12 (amended): for a sequence with `numframes > 1`, let `x` be the `float`
sum that `AdvanceFrame` forms from the frame and `min(dt, 0.1) * fps`. When
`0 <= x < 2 ^ 24`, `AdvanceFrame` leaves a frame in `[0, numframes - 1)`; when
`-2 ^ 24 < x < 0`, it leaves a frame in `(-(numframes - 1), 0]`. -/
theorem AdvanceFrameBinary32_interval (pseqdesc : mstudioseqdesc_t) (frame dt x : ℚ)
    (hn : 1 < pseqdesc.numframes) (hmax : pseqdesc.numframes ≤ 2147483647)
    (hsum : advanceSum pseqdesc frame dt = some x) :
    (0 ≤ x → x < 2 ^ 24 →
        ∃ f, AdvanceFrameBinary32 pseqdesc frame dt = some f
          ∧ 0 ≤ f ∧ f < ((pseqdesc.numframes - 1 : Int) : ℚ))
      ∧ (x < 0 → -(2 ^ 24) < x →
        ∃ f, AdvanceFrameBinary32 pseqdesc frame dt = some f
          ∧ -((pseqdesc.numframes - 1 : Int) : ℚ) < f ∧ f ≤ 0) := by
  refine ⟨?_, ?_⟩
  · intro h0 h1
    obtain ⟨f, hf, ha, -⟩ := AdvanceFrameBinary32_range pseqdesc frame dt x hsum hn hmax
      (by rw [abs_of_nonneg h0]; exact h1)
    exact ⟨f, hf, ha h0⟩
  · intro h0 h1
    obtain ⟨f, hf, -, hb⟩ := AdvanceFrameBinary32_range pseqdesc frame dt x hsum hn hmax
      (by rw [abs_of_neg h0]; linarith)
    exact ⟨f, hf, hb h0⟩

/-- At 30 frames per second on a sequence of 10 frames, the call with dt = 1
from frame 17/2 has the sum 23/2 and leaves a frame in [0, 9). -/
theorem AdvanceFrameBinary32_interval_witness :
    (1 : Int) < 10 ∧ advanceSum { fps := 30, numframes := 10 } (17 / 2) 1 = some (23 / 2)
      ∧ ∃ f, AdvanceFrameBinary32 { fps := 30, numframes := 10 } (17 / 2) 1 = some f
          ∧ 0 ≤ f ∧ f < (((10 : Int) - 1 : Int) : ℚ) :=
  ⟨by decide, by decide!,
    (AdvanceFrameBinary32_interval { fps := 30, numframes := 10 } (17 / 2) 1 (23 / 2)
      (by decide) (by decide) (by decide!)).1 (by decide!) (by decide!)⟩

/-! ## Run-length curves: lemmas -/

theorem expandSpan_length (sp : Span) (h : sp.samples.length ≤ sp.total) :
    (expandSpan sp).length = sp.total := by
  simp only [expandSpan, List.length_append, List.length_replicate]
  omega

theorem expandCurve_cons (sp : Span) (spans : List Span) :
    expandCurve (sp :: spans) = expandSpan sp ++ expandCurve spans := by
  simp [expandCurve, List.flatMap_cons]

theorem expandCurve_append (pre post : List Span) :
    expandCurve (pre ++ post) = expandCurve pre ++ expandCurve post := by
  simp [expandCurve, List.flatMap_append]

theorem wellFormed_cons (sp : Span) (spans : List Span) (h : wellFormed (sp :: spans)) :
    (1 ≤ sp.samples.length ∧ sp.samples.length ≤ sp.total) ∧ wellFormed spans :=
  ⟨h sp (List.mem_cons_self _ _), fun s hs => h s (List.mem_cons_of_mem _ hs)⟩

theorem isCurve_cons (sp : Span) (spans : List Span) (cells : List mstudioanimvalue_t)
    (h : isCurve (sp :: spans) cells = true) :
    ∃ num rest, cells = num :: rest ∧ num.valid = sp.samples.length ∧ num.total = sp.total
      ∧ (rest.take num.valid).map (·.value) = sp.samples
      ∧ isCurve spans (rest.drop num.valid) = true := by
  match cells, h with
  | num :: rest, h =>
    simp only [isCurve, Bool.and_eq_true, beq_iff_eq] at h
    exact ⟨num, rest, rfl, h.1.1.1, h.1.1.2, h.1.2, h.2⟩

theorem take_map_getElem? (rest : List mstudioanimvalue_t) (n : Nat) (samples : List Int)
    (h : (rest.take n).map (·.value) = samples) (hn : samples.length = n) (i : Nat)
    (hi : i < n) : ∃ a, rest[i]? = some a ∧ a.value = samples.getD i 0 := by
  have hlen : (rest.take n).length = n := by
    have := congrArg List.length h
    simp only [List.length_map] at this
    omega
  have hrest : i < rest.length := by
    simp only [List.length_take] at hlen
    omega
  refine ⟨rest[i], List.getElem?_eq_getElem hrest, ?_⟩
  subst h
  have hi' : i < (List.map (fun x => x.value) (List.take n rest)).length := by
    simp only [List.length_map, hlen]
    exact hi
  rw [List.getD_eq_getElem _ _ hi']
  simp [List.getElem_take']

/-- The span walk on a well-formed curve: for a frame `k` inside the curve it
stops at the span that holds the frame, with `k` reduced by the run lengths of
the spans before it. -/
theorem findSpan_curve (spans : List Span) :
    ∀ (cells : List mstudioanimvalue_t) (k : Int) (fuel : Nat), wellFormed spans →
      isCurve spans cells = true → 0 ≤ k → k < (expandCurve spans).length →
      cells.length < fuel →
      ∃ pre sp post num rest, spans = pre ++ sp :: post
        ∧ findSpan fuel cells k = some (num :: rest, k - (expandCurve pre).length)
        ∧ ((expandCurve pre).length : Int) ≤ k
        ∧ k - (expandCurve pre).length < sp.total
        ∧ num.valid = sp.samples.length ∧ num.total = sp.total
        ∧ (rest.take num.valid).map (·.value) = sp.samples
        ∧ isCurve post (rest.drop num.valid) = true
        ∧ cells.drop (curveCells pre) = num :: rest := by
  induction spans with
  | nil =>
    intro cells k fuel _ _ h0 h1 _
    simp [expandCurve] at h1
    omega
  | cons sp spans ih =>
    intro cells k fuel hwf hc h0 h1 hfuel
    obtain ⟨⟨hv1, hv2⟩, hwf'⟩ := wellFormed_cons sp spans hwf
    obtain ⟨num, rest, rfl, hvalid, htotal, hmap, hrest⟩ := isCurve_cons sp spans cells hc
    rw [expandCurve_cons, List.length_append, expandSpan_length sp hv2] at h1
    cases fuel with
    | zero => simp at hfuel
    | succ fuel =>
      by_cases hle : (num.total : Int) ≤ k
      · have hdrop : (rest.drop num.valid).length < fuel := by
          simp only [List.length_cons, List.length_drop] at hfuel ⊢
          omega
        obtain ⟨pre, sp', post, num', rest', hsp, hfind, hpre, hk, hval', htot', hmap', hpost,
          hcells⟩ := ih (rest.drop num.valid) (k - num.total) fuel hwf' hrest
            (by omega) (by push_cast at h1 ⊢; omega) hdrop
        refine ⟨sp :: pre, sp', post, num', rest', by rw [hsp]; rfl, ?_, ?_, ?_, hval', htot',
          hmap', hpost, ?_⟩
        · simp only [findSpan, hle, if_true]
          rw [hfind, expandCurve_cons, List.length_append, expandSpan_length sp hv2]
          congr 2
          push_cast
          omega
        · rw [expandCurve_cons, List.length_append, expandSpan_length sp hv2]
          push_cast
          omega
        · rw [expandCurve_cons, List.length_append, expandSpan_length sp hv2]
          push_cast
          omega
        · simp only [curveCells, List.map_cons, List.sum_cons]
          rw [← hvalid, Nat.add_comm num.valid 1, Nat.add_assoc, ← List.drop_drop,
            ← List.drop_drop]
          simpa [curveCells] using hcells
      · refine ⟨[], sp, spans, num, rest, rfl, ?_, ?_, ?_, hvalid, htotal, hmap, hrest, ?_⟩
        · simp [findSpan, hle, expandCurve]
        · simp [expandCurve]
          exact h0
        · simp only [expandCurve, List.flatMap_nil, List.length_nil, Nat.cast_zero, sub_zero]
          omega
        · simp [curveCells]

theorem expandSpan_getD_valid (sp : Span) (i : Nat) (hi : i < sp.samples.length) :
    (expandSpan sp).getD i 0 = sp.samples.getD i 0 := by
  simp only [expandSpan, List.getD_eq_getElem?_getD]
  rw [List.getElem?_append_left hi]

theorem getLastD_cons_getD (l : List Int) : ∀ a : Int, l.getLastD a = (a :: l).getD l.length 0 := by
  induction l with
  | nil => intro a; rfl
  | cons b l ih =>
    intro a
    simp only [List.getLastD_cons, List.length_cons, List.getD_cons_succ]
    exact ih b

theorem getLastD_eq_getD (l : List Int) (h : 1 ≤ l.length) :
    l.getLastD 0 = l.getD (l.length - 1) 0 := by
  cases l with
  | nil => simp at h
  | cons a l =>
    simp only [List.getLastD_cons, List.length_cons, Nat.add_sub_cancel]
    exact getLastD_cons_getD l a

theorem expandSpan_getD_repeat (sp : Span) (i : Nat) (h1 : 1 ≤ sp.samples.length)
    (hi : sp.samples.length ≤ i) (hi2 : i < sp.total) :
    (expandSpan sp).getD i 0 = sp.samples.getD (sp.samples.length - 1) 0 := by
  simp only [expandSpan, List.getD_eq_getElem?_getD]
  rw [List.getElem?_append_right hi, List.getElem?_replicate]
  have : i - sp.samples.length < sp.total - sp.samples.length := by omega
  simp only [this, if_true, Option.getD_some]
  rw [getLastD_eq_getD _ h1, List.getD_eq_getElem?_getD]

theorem expandCurve_getD (pre : List Span) (sp : Span) (post : List Span) (i : Nat)
    (hsp : sp.samples.length ≤ sp.total) (hi : i < sp.total) :
    (expandCurve (pre ++ sp :: post)).getD ((expandCurve pre).length + i) 0
      = (expandSpan sp).getD i 0 := by
  rw [expandCurve_append, expandCurve_cons]
  simp only [List.getD_eq_getElem?_getD]
  rw [List.getElem?_append_right (by omega), Nat.add_sub_cancel_left,
    List.getElem?_append_left (by rw [expandSpan_length sp hsp]; exact hi)]

theorem expandCurve_getD_next (pre : List Span) (sp : Span) (post : List Span)
    (hsp : sp.samples.length ≤ sp.total) :
    (expandCurve (pre ++ sp :: post)).getD ((expandCurve pre).length + sp.total) 0
      = (expandCurve post).getD 0 0 := by
  rw [expandCurve_append, expandCurve_cons]
  simp only [List.getD_eq_getElem?_getD]
  rw [List.getElem?_append_right (by omega), Nat.add_sub_cancel_left,
    List.getElem?_append_right (by rw [expandSpan_length sp hsp]), expandSpan_length sp hsp,
    Nat.sub_self]

theorem curveCells_append (pre post : List Span) :
    curveCells (pre ++ post) = curveCells pre + curveCells post := by
  simp [curveCells, List.map_append, List.sum_append]

/-- What the sampling code finds on a well-formed curve at a frame inside it:
the span walk stops with `k` inside a span, and the cells that the code reads
from there hold the values `D[frame]` and `D[frame + 1]` of the run-length
expansion. -/
theorem curve_reads (spans : List Span) (cells : List mstudioanimvalue_t) (frame : Int)
    (hwf : wellFormed spans) (hc : isCurve spans cells = true) (h0 : 0 ≤ frame)
    (h1 : frame < (expandCurve spans).length) :
    ∃ (num : mstudioanimvalue_t) (rest : List mstudioanimvalue_t) (k : Nat),
      findSpan (cells.length + 1) cells frame = some (num :: rest, (k : Int))
        ∧ 1 ≤ num.valid ∧ num.valid ≤ num.total ∧ k < num.total
        ∧ (k < num.valid →
            ∃ a, rest[k]? = some a ∧ a.value = (expandCurve spans).getD frame.toNat 0)
        ∧ (num.valid ≤ k →
            ∃ a, rest[num.valid - 1]? = some a
              ∧ a.value = (expandCurve spans).getD frame.toNat 0)
        ∧ (k + 1 < num.valid →
            ∃ b, rest[k + 1]? = some b
              ∧ b.value = (expandCurve spans).getD (frame.toNat + 1) 0)
        ∧ (num.valid ≤ k + 1 → k + 1 < num.total →
            (expandCurve spans).getD (frame.toNat + 1) 0
              = (expandCurve spans).getD frame.toNat 0)
        ∧ (k + 1 = num.total → frame + 1 < (expandCurve spans).length →
            ∃ b, rest[num.valid + 1]? = some b
              ∧ b.value = (expandCurve spans).getD (frame.toNat + 1) 0)
        ∧ (curveCells spans + 2 ≤ cells.length → ∃ b, rest[num.valid + 1]? = some b) := by
  obtain ⟨pre, sp, post, num, rest, hsp, hfind, hpre, hk, hvalid, htotal, hmap, hpost, hcells⟩ :=
    findSpan_curve spans cells frame (cells.length + 1) hwf hc h0 h1 (Nat.lt_succ_self _)
  have hspwf : 1 ≤ sp.samples.length ∧ sp.samples.length ≤ sp.total :=
    hwf sp (by rw [hsp]; simp)
  obtain ⟨k, hkdef⟩ : ∃ k : Nat, (k : Int) = frame - (expandCurve pre).length :=
    ⟨(frame - (expandCurve pre).length).toNat, by omega⟩
  have hframe : frame.toNat = (expandCurve pre).length + k := by omega
  have hktot : k < sp.total := by omega
  refine ⟨num, rest, k, by rw [hfind, hkdef], by omega, by omega, by omega, ?_, ?_, ?_, ?_, ?_,
    ?_⟩
  · intro hkv
    obtain ⟨a, ha, hav⟩ := take_map_getElem? rest num.valid sp.samples hmap hvalid.symm k hkv
    refine ⟨a, ha, ?_⟩
    rw [hav, hframe, hsp, expandCurve_getD pre sp post k hspwf.2 hktot,
      expandSpan_getD_valid sp k (by omega)]
  · intro hkv
    obtain ⟨a, ha, hav⟩ := take_map_getElem? rest num.valid sp.samples hmap hvalid.symm
      (num.valid - 1) (by omega)
    refine ⟨a, ha, ?_⟩
    rw [hav, hframe, hsp, expandCurve_getD pre sp post k hspwf.2 hktot,
      expandSpan_getD_repeat sp k hspwf.1 (by omega) hktot, hvalid]
  · intro hkv
    obtain ⟨b, hb, hbv⟩ := take_map_getElem? rest num.valid sp.samples hmap hvalid.symm (k + 1)
      hkv
    refine ⟨b, hb, ?_⟩
    rw [hbv, hframe, hsp, Nat.add_assoc, expandCurve_getD pre sp post (k + 1) hspwf.2 (by omega),
      expandSpan_getD_valid sp (k + 1) (by omega)]
  · intro hv1 hv2
    rw [hframe, hsp, Nat.add_assoc, expandCurve_getD pre sp post (k + 1) hspwf.2 (by omega),
      expandCurve_getD pre sp post k hspwf.2 hktot,
      expandSpan_getD_repeat sp (k + 1) hspwf.1 (by omega) (by omega)]
    by_cases hkv : k < sp.samples.length
    · rw [expandSpan_getD_valid sp k hkv]
      congr 1
      omega
    · rw [expandSpan_getD_repeat sp k hspwf.1 (by omega) hktot]
  · intro hedge hnext
    have hlen : (expandCurve spans).length
        = (expandCurve pre).length + sp.total + (expandCurve post).length := by
      rw [hsp, expandCurve_append, expandCurve_cons, List.length_append, List.length_append,
        expandSpan_length sp hspwf.2]
      omega
    have hpostlen : 0 < (expandCurve post).length := by
      rw [hlen] at hnext
      push_cast at hnext
      omega
    match post, hpost, hpostlen, hsp with
    | [], _, hpl, _ => simp [expandCurve] at hpl
    | sp2 :: post2, hpost, _, hsp =>
      have hsp2 : 1 ≤ sp2.samples.length ∧ sp2.samples.length ≤ sp2.total :=
        hwf sp2 (by rw [hsp]; simp)
      obtain ⟨num2, rest2, hdrop, hvalid2, htotal2, hmap2, -⟩ :=
        isCurve_cons sp2 post2 _ hpost
      obtain ⟨b, hb, hbv⟩ := take_map_getElem? rest2 num2.valid sp2.samples hmap2 hvalid2.symm 0
        (by omega)
      have hidx : rest[num.valid + 1]? = rest2[0]? := by
        have hd : (rest.drop num.valid)[1]? = rest[num.valid + 1]? := by
          simp [List.getElem?_drop]
        rw [← hd, hdrop]
        simp
      refine ⟨b, by rw [hidx]; exact hb, ?_⟩
      have hf1 : frame.toNat + 1 = (expandCurve pre).length + sp.total := by omega
      rw [hbv, hf1, hsp, expandCurve_getD_next pre sp (sp2 :: post2) hspwf.2, expandCurve_cons]
      simp only [List.getD_eq_getElem?_getD]
      rw [List.getElem?_append_left (by rw [expandSpan_length sp2 hsp2.2]; omega)]
      have := expandSpan_getD_valid sp2 0 (by omega)
      simpa only [List.getD_eq_getElem?_getD] using this.symm
  · intro hlong
    have hcl : cells.length = curveCells pre + (rest.length + 1) := by
      have := congrArg List.length hcells
      simp only [List.length_drop, List.length_cons] at this
      omega
    have hcs : curveCells spans = curveCells pre + (sp.samples.length + 1 + curveCells post) := by
      rw [hsp, curveCells_append]
      simp [curveCells]
    have hr : num.valid + 1 < rest.length := by omega
    exact ⟨rest[num.valid + 1], List.getElem?_eq_getElem hr⟩

/-! ## Sampling a position channel: theorems -/

theorem animvalueAt_cons (num : mstudioanimvalue_t) (rest : List mstudioanimvalue_t) (i : Int)
    (n : Nat) (h : i = (n : Int) + 1) : animvalueAt (num :: rest) i = rest[n]? := by
  subst h
  have hn : ¬ ((n : Int) + 1 < 0) := by omega
  have ht : ((n : Int) + 1).toNat = n + 1 := by omega
  simp [animvalueAt, hn, ht]

theorem addAdjust_value (m_BoneAdjust : Nat → ℚ) (pbone : mstudiobone_t) (j : Nat) (pos v : ℚ)
    (h : addAdjust m_BoneAdjust pbone j (some pos) = some v) :
    v = pos + channelAdjust m_BoneAdjust pbone j := by
  unfold addAdjust at h
  unfold channelAdjust
  by_cases hb : pbone.bonecontroller j = -1
  · simp only [hb, ne_eq, not_true_eq_false, if_false, Option.some.injEq] at h
    simp [hb, h]
  · simp only [ne_eq, hb, not_false_eq_true, if_true, if_false] at h ⊢
    unfold readArr at h
    split_ifs at h with hr
    simp only [Option.some.injEq] at h
    exact h.symm

theorem addAdjust_some (m_BoneAdjust : Nat → ℚ) (pbone : mstudiobone_t) (j : Nat) (pos : ℚ)
    (hb : pbone.bonecontroller j = -1 ∨ (0 ≤ pbone.bonecontroller j ∧ pbone.bonecontroller j < 4)) :
    addAdjust m_BoneAdjust pbone j (some pos)
      = some (pos + channelAdjust m_BoneAdjust pbone j) := by
  unfold addAdjust channelAdjust
  by_cases h1 : pbone.bonecontroller j = -1
  · simp [h1]
  · have h2 : 0 ≤ pbone.bonecontroller j ∧ pbone.bonecontroller j < 4 := by
      rcases hb with hb | hb
      · exact absurd hb h1
      · exact hb
    have h3 : 0 ≤ pbone.bonecontroller j ∧ pbone.bonecontroller j < ((4 : Nat) : Int) := by
      simpa using h2
    simp only [ne_eq, h1, not_false_eq_true, if_true, if_false, readArr, h3, and_self]

/-- A position channel with a well-formed curve, sampled at a frame inside the
curve with `s = 0`: before the adjustment the code holds nothing (a read past the
cells) or `base + D[frame] * scale`, and it holds the latter when a frame or two
cells follow. -/
theorem CalcBonePositionChannel_curve (m_BoneAdjust : Nat → ℚ) (frame : Int)
    (pbone : mstudiobone_t) (panim : mstudioanim_t) (j : Nat) (spans : List Span)
    (hoff : panim.offset j ≠ 0) (hwf : wellFormed spans)
    (hc : isCurve spans (panim.animvalue j) = true) (h0 : 0 ≤ frame)
    (h1 : frame < (expandCurve spans).length) :
    ∃ sampled : Option ℚ,
      CalcBonePositionChannel m_BoneAdjust frame 0 pbone panim j
          = addAdjust m_BoneAdjust pbone j sampled
        ∧ (∀ pos, sampled = some pos →
            pos = pbone.value j
              + (((expandCurve spans).getD frame.toNat 0 : Int) : ℚ) * pbone.scale j)
        ∧ (frame + 1 < (expandCurve spans).length
            ∨ curveCells spans + 2 ≤ (panim.animvalue j).length → sampled ≠ none) := by
  obtain ⟨num, rest, k, hfind, hv1, hvt, hkt, r1, r2, r3, r4, r5, r6⟩ :=
    curve_reads spans (panim.animvalue j) frame hwf hc h0 h1
  unfold CalcBonePositionChannel
  simp only [ne_eq, hoff, not_false_eq_true, if_true, hfind]
  by_cases hkv : k < num.valid
  · have c1 : (num.valid : Int) > (k : Int) := by exact_mod_cast hkv
    obtain ⟨a, ha, hav⟩ := r1 hkv
    rw [if_pos c1, animvalueAt_cons num rest ((k : Int) + 1) k rfl, ha]
    by_cases hkv2 : k + 1 < num.valid
    · have c2 : (num.valid : Int) > (k : Int) + 1 := by exact_mod_cast hkv2
      obtain ⟨b, hb, -⟩ := r3 hkv2
      rw [if_pos c2, animvalueAt_cons num rest ((k : Int) + 2) (k + 1) (by push_cast; ring), hb]
      refine ⟨some (pbone.value j + ((a.value : ℚ) * (1 - 0) + 0 * (b.value : ℚ)) * pbone.scale j),
        rfl, ?_, by simp⟩
      intro pos hpos
      simp only [Option.some.injEq] at hpos
      rw [← hpos, hav]
      ring
    · have c2 : ¬ (num.valid : Int) > (k : Int) + 1 := by
        intro h
        exact hkv2 (by exact_mod_cast h)
      rw [if_neg c2]
      refine ⟨some (pbone.value j + (a.value : ℚ) * pbone.scale j), rfl, ?_, by simp⟩
      intro pos hpos
      simp only [Option.some.injEq] at hpos
      rw [← hpos, hav]
  · have c1 : ¬ (num.valid : Int) > (k : Int) := by
      intro h
      exact hkv (by exact_mod_cast h)
    obtain ⟨a, ha, hav⟩ := r2 (by omega)
    rw [if_neg c1, animvalueAt_cons num rest (num.valid : Int) (num.valid - 1) (by omega), ha]
    by_cases hedge : num.total ≤ k + 1
    · have c2 : (num.total : Int) ≤ (k : Int) + 1 := by exact_mod_cast hedge
      rw [if_pos c2, animvalueAt_cons num rest ((num.valid : Int) + 2) (num.valid + 1)
        (by push_cast; ring)]
      cases hb : rest[num.valid + 1]? with
      | none =>
        refine ⟨none, rfl, by simp, ?_⟩
        intro hcond
        rcases hcond with hcond | hcond
        · obtain ⟨b, hb2, -⟩ := r5 (by omega) hcond
          rw [hb] at hb2
          simp at hb2
        · obtain ⟨b, hb2⟩ := r6 hcond
          rw [hb] at hb2
          simp at hb2
      | some b =>
        refine ⟨some (pbone.value j
          + ((a.value : ℚ) * (1 - 0) + 0 * (b.value : ℚ)) * pbone.scale j), rfl, ?_, by simp⟩
        intro pos hpos
        simp only [Option.some.injEq] at hpos
        rw [← hpos, hav]
        ring
    · have c2 : ¬ (num.total : Int) ≤ (k : Int) + 1 := by
        intro h
        exact hedge (by exact_mod_cast h)
      rw [if_neg c2]
      refine ⟨some (pbone.value j + (a.value : ℚ) * pbone.scale j), rfl, ?_, by simp⟩
      intro pos hpos
      simp only [Option.some.injEq] at hpos
      rw [← hpos, hav]

theorem CalcBonePositionChannel_flat (m_BoneAdjust : Nat → ℚ) (frame : Int) (s : ℚ)
    (pbone : mstudiobone_t) (panim : mstudioanim_t) (j : Nat) (hoff : panim.offset j = 0) :
    CalcBonePositionChannel m_BoneAdjust frame s pbone panim j
      = addAdjust m_BoneAdjust pbone j (some (pbone.value j)) := by
  unfold CalcBonePositionChannel
  simp only [ne_eq, hoff, not_true_eq_false, if_false]
  rfl

theorem CalcBonePosition_get (m_BoneAdjust : Nat → ℚ) (frame : Int) (s : ℚ)
    (pbone : mstudiobone_t) (panim : mstudioanim_t) (p : vec3_t)
    (h : CalcBonePosition m_BoneAdjust frame s pbone panim = some p) (j : Nat) (hj : j < 3) :
    CalcBonePositionChannel m_BoneAdjust frame s pbone panim j = some (p.get j) := by
  unfold CalcBonePosition at h
  cases h0 : CalcBonePositionChannel m_BoneAdjust frame s pbone panim 0 with
  | none => simp [h0] at h
  | some p0 =>
    cases h1 : CalcBonePositionChannel m_BoneAdjust frame s pbone panim 1 with
    | none => simp [h0, h1] at h
    | some p1 =>
      cases h2 : CalcBonePositionChannel m_BoneAdjust frame s pbone panim 2 with
      | none => simp [h0, h1, h2] at h
      | some p2 =>
        simp only [h0, h1, h2, Option.some.injEq] at h
        subst h
        have hcases : j = 0 ∨ j = 1 ∨ j = 2 := by omega
        rcases hcases with rfl | rfl | rfl
        · simpa [vec3_t.get] using h0
        · simpa [vec3_t.get] using h1
        · simpa [vec3_t.get] using h2

/-- C20: a position channel `j` with a well-formed run-length curve, sampled
with `s = 0` at a frame `0 <= frame < |D|`: the component `j` of what
`CalcBonePosition` returns is `base + scale * D[frame]` plus the adjustment of
the assigned controller, `D` being the run-length expansion of the curve; the
channel is computed whenever a frame of the curve or two cells of the buffer
follow and the controller index is -1 or one of 0..3. A channel with offset 0
gives the base value plus the adjustment. `CalcBonePosition` returns the three
channels. -/
theorem CalcBonePosition_sample (m_BoneAdjust : Nat → ℚ) (frame : Int) (pbone : mstudiobone_t)
    (panim : mstudioanim_t) :
    (∀ (j : Nat) (spans : List Span), j < 3 → panim.offset j ≠ 0 → wellFormed spans →
        isCurve spans (panim.animvalue j) = true → 0 ≤ frame →
        frame < (expandCurve spans).length →
        (∀ p, CalcBonePosition m_BoneAdjust frame 0 pbone panim = some p →
            p.get j = pbone.value j
              + pbone.scale j * (((expandCurve spans).getD frame.toNat 0 : Int) : ℚ)
              + channelAdjust m_BoneAdjust pbone j)
          ∧ (frame + 1 < (expandCurve spans).length
                ∨ curveCells spans + 2 ≤ (panim.animvalue j).length →
              pbone.bonecontroller j = -1
                ∨ (0 ≤ pbone.bonecontroller j ∧ pbone.bonecontroller j < 4) →
              CalcBonePositionChannel m_BoneAdjust frame 0 pbone panim j
                = some (pbone.value j
                    + pbone.scale j * (((expandCurve spans).getD frame.toNat 0 : Int) : ℚ)
                    + channelAdjust m_BoneAdjust pbone j)))
      ∧ (∀ (j : Nat) (s : ℚ), j < 3 → panim.offset j = 0 →
          (∀ p, CalcBonePosition m_BoneAdjust frame s pbone panim = some p →
              p.get j = pbone.value j + channelAdjust m_BoneAdjust pbone j)
            ∧ (pbone.bonecontroller j = -1
                  ∨ (0 ≤ pbone.bonecontroller j ∧ pbone.bonecontroller j < 4) →
                CalcBonePositionChannel m_BoneAdjust frame s pbone panim j
                  = some (pbone.value j + channelAdjust m_BoneAdjust pbone j)))
      ∧ (∀ (s p0 p1 p2 : ℚ),
          CalcBonePositionChannel m_BoneAdjust frame s pbone panim 0 = some p0 →
          CalcBonePositionChannel m_BoneAdjust frame s pbone panim 1 = some p1 →
          CalcBonePositionChannel m_BoneAdjust frame s pbone panim 2 = some p2 →
          CalcBonePosition m_BoneAdjust frame s pbone panim = some ⟨p0, p1, p2⟩) := by
  refine ⟨?_, ?_, ?_⟩
  · intro j spans hj hoff hwf hc h0 h1
    obtain ⟨sampled, hch, hval, hsome⟩ :=
      CalcBonePositionChannel_curve m_BoneAdjust frame pbone panim j spans hoff hwf hc h0 h1
    refine ⟨?_, ?_⟩
    · intro p hp
      have hget := CalcBonePosition_get m_BoneAdjust frame 0 pbone panim p hp j hj
      rw [hch] at hget
      cases hs : sampled with
      | none =>
        rw [hs] at hget
        simp [addAdjust] at hget
      | some pos =>
        rw [hs] at hget
        rw [addAdjust_value m_BoneAdjust pbone j pos _ hget, hval pos hs]
        ring
    · intro hcond hctrl
      cases hs : sampled with
      | none => exact absurd hs (hsome hcond)
      | some pos =>
        rw [hch, hs, addAdjust_some m_BoneAdjust pbone j pos hctrl, hval pos hs]
        congr 1
        ring
  · intro j s hj hoff
    have hch := CalcBonePositionChannel_flat m_BoneAdjust frame s pbone panim j hoff
    refine ⟨?_, ?_⟩
    · intro p hp
      have hget := CalcBonePosition_get m_BoneAdjust frame s pbone panim p hp j hj
      rw [hch] at hget
      exact addAdjust_value m_BoneAdjust pbone j _ _ hget
    · intro hctrl
      rw [hch, addAdjust_some m_BoneAdjust pbone j _ hctrl]
  · intro s p0 p1 p2 h0 h1 h2
    simp [CalcBonePosition, h0, h1, h2]

/-- On the sample curve (spans `[5, 7]` of run length 4 and `[9]` of run length
1, so `D = [5, 7, 7, 7, 9]`) with base 1 and scale 1, frame 1 gives the channel
value `1 + 1 * D[1] + 0 = 8`, and channel 1, which has no curve, gives its base
value. -/
theorem CalcBonePosition_sample_witness :
    CalcBonePositionChannel (fun _ => 0) 1 0 (sampleBone (-1) 1) curveAnim 0
        = some ((sampleBone (-1) 1).value 0
            + (sampleBone (-1) 1).scale 0
              * (((expandCurve sampleSpans).getD (1 : Int).toNat 0 : Int) : ℚ)
            + channelAdjust (fun _ => 0) (sampleBone (-1) 1) 0)
      ∧ CalcBonePositionChannel (fun _ => 0) 1 0 (sampleBone (-1) 1) curveAnim 1
        = some ((sampleBone (-1) 1).value 1 + channelAdjust (fun _ => 0) (sampleBone (-1) 1) 1) :=
  ⟨((CalcBonePosition_sample (fun _ => 0) 1 (sampleBone (-1) 1) curveAnim).1 0 sampleSpans
      (by decide) (by decide) (by unfold wellFormed; decide) (by decide) (by decide)
      (by decide)).2 (Or.inl (by decide)) (Or.inl (by decide)),
    ((CalcBonePosition_sample (fun _ => 0) 1 (sampleBone (-1) 1) curveAnim).2.1 1 0
      (by decide) (by decide)).2 (Or.inl (by decide))⟩

/-! ## Loops over array slots: lemmas -/

/-- A loop whose round `j` reads and writes only slot `j` of an array: it
returns exactly the array that holds the round's result in each slot of the
range and the old element elsewhere. -/
theorem forLoop_slot {α : Type} (body : Nat → (Nat → α) → Option (Nat → α))
    (g : Nat → α → Option α)
    (hbody : ∀ j st, body j st = (g j (st j)).map (fun v => Function.update st j v)) :
    ∀ (n i : Nat) (st st' : Nat → α), forLoop body n i st = some st' ↔
      (∀ k, i ≤ k → k < i + n → g k (st k) = some (st' k))
        ∧ (∀ k, k < i ∨ i + n ≤ k → st' k = st k) := by
  intro n
  induction n with
  | zero =>
    intro i st st'
    simp only [forLoop, Option.some.injEq]
    constructor
    · intro h
      subst h
      exact ⟨fun k h1 h2 => absurd h2 (by omega), fun _ _ => rfl⟩
    · intro h
      funext k
      exact (h.2 k (by omega)).symm
  | succ n ih =>
    intro i st st'
    simp only [forLoop, hbody]
    cases hg : g i (st i) with
    | none =>
      simp only [Option.map_none']
      constructor
      · intro h
        simp at h
      · intro h
        have := h.1 i (le_refl _) (by omega)
        rw [hg] at this
        simp at this
    | some v =>
      simp only [Option.map_some']
      rw [ih]
      constructor
      · rintro ⟨h1, h2⟩
        refine ⟨?_, ?_⟩
        · intro k hk1 hk2
          by_cases hki : k = i
          · subst hki
            have := h2 k (Or.inl (by omega))
            rw [Function.update_same] at this
            rw [hg, this]
          · have := h1 k (by omega) (by omega)
            rwa [Function.update_noteq hki] at this
        · intro k hk
          have hki : k ≠ i := by omega
          have := h2 k (by omega)
          rwa [Function.update_noteq hki] at this
      · rintro ⟨h1, h2⟩
        refine ⟨?_, ?_⟩
        · intro k hk1 hk2
          have hki : k ≠ i := by omega
          rw [Function.update_noteq hki]
          exact h1 k (by omega) (by omega)
        · intro k hk
          by_cases hki : k = i
          · subst hki
            have := h1 k (le_refl _) (by omega)
            rw [hg] at this
            rw [Function.update_same]
            exact (Option.some.inj this).symm
          · rw [Function.update_noteq hki]
            exact h2 k (by omega)

/-- The same for a loop over two arrays. -/
theorem forLoop_slot2 {α β : Type}
    (body : Nat → (Nat → α) × (Nat → β) → Option ((Nat → α) × (Nat → β)))
    (g : Nat → α → β → Option (α × β))
    (hbody : ∀ j st, body j st = (g j (st.1 j) (st.2 j)).map
      (fun v => (Function.update st.1 j v.1, Function.update st.2 j v.2))) :
    ∀ (n i : Nat) (st st' : (Nat → α) × (Nat → β)), forLoop body n i st = some st' ↔
      (∀ k, i ≤ k → k < i + n → g k (st.1 k) (st.2 k) = some (st'.1 k, st'.2 k))
        ∧ (∀ k, k < i ∨ i + n ≤ k → st'.1 k = st.1 k ∧ st'.2 k = st.2 k) := by
  intro n
  induction n with
  | zero =>
    intro i st st'
    simp only [forLoop, Option.some.injEq]
    constructor
    · intro h
      subst h
      exact ⟨fun k h1 h2 => absurd h2 (by omega), fun _ _ => ⟨rfl, rfl⟩⟩
    · intro h
      refine Prod.ext ?_ ?_
      · funext k
        exact (h.2 k (by omega)).1.symm
      · funext k
        exact (h.2 k (by omega)).2.symm
  | succ n ih =>
    intro i st st'
    simp only [forLoop, hbody]
    cases hg : g i (st.1 i) (st.2 i) with
    | none =>
      simp only [Option.map_none']
      constructor
      · intro h
        simp at h
      · intro h
        have := h.1 i (le_refl _) (by omega)
        rw [hg] at this
        simp at this
    | some v =>
      simp only [Option.map_some']
      rw [ih]
      constructor
      · rintro ⟨h1, h2⟩
        refine ⟨?_, ?_⟩
        · intro k hk1 hk2
          by_cases hki : k = i
          · subst hki
            have := h2 k (Or.inl (by omega))
            simp only [Function.update_same] at this
            rw [hg, this.1, this.2]
          · have := h1 k (by omega) (by omega)
            simpa only [Function.update_noteq hki] using this
        · intro k hk
          have hki : k ≠ i := by omega
          have := h2 k (by omega)
          simpa only [Function.update_noteq hki] using this
      · rintro ⟨h1, h2⟩
        refine ⟨?_, ?_⟩
        · intro k hk1 hk2
          have hki : k ≠ i := by omega
          simp only [Function.update_noteq hki]
          exact h1 k (by omega) (by omega)
        · intro k hk
          by_cases hki : k = i
          · subst hki
            have := h1 k (le_refl _) (by omega)
            rw [hg] at this
            have hv := Option.some.inj this
            simp only [Function.update_same]
            rw [hv]
            exact ⟨rfl, rfl⟩
          · simp only [Function.update_noteq hki]
            exact h2 k (by omega)

/-! ## Bone controllers and `CalcRotations`: lemmas -/

theorem writeArr_nat {α : Type} (size : Nat) (arr : Nat → α) (j : Nat) (v : α) :
    writeArr size arr (j : Int) v = if j < size then some (Function.update arr j v) else none := by
  unfold writeArr
  by_cases h : j < size
  · have h2 : (0 : Int) ≤ (j : Int) ∧ (j : Int) < (size : Int) := ⟨by omega, by omega⟩
    simp [h, h2]
  · have h2 : ¬ ((0 : Int) ≤ (j : Int) ∧ (j : Int) < (size : Int)) := by omega
    simp [h, h2]

theorem readArr_nat {α : Type} (size : Nat) (arr : Nat → α) (j : Nat) :
    readArr size arr (j : Int) = if j < size then some (arr j) else none := by
  unfold readArr
  by_cases h : j < size
  · have h2 : (0 : Int) ≤ (j : Int) ∧ (j : Int) < (size : Int) := ⟨by omega, by omega⟩
    simp [h, h2]
  · have h2 : ¬ ((0 : Int) ≤ (j : Int) ∧ (j : Int) < (size : Int)) := by omega
    simp [h, h2]

/-- The loop of `CalcBoneAdj` is a loop over the slots of `m_BoneAdjust`. -/
theorem CalcBoneAdj_slot (c : StudioConsts) (hdr : studiohdr_t) (m_Controllers : Nat → Nat)
    (m_Mouth : Nat) (m_BoneAdjust adjust : Nat → ℚ) :
    CalcBoneAdj c hdr m_Controllers m_Mouth m_BoneAdjust = some adjust ↔
      (∀ k, k < hdr.numbonecontrollers.toNat →
          CalcBoneAdjSlot c hdr m_Controllers m_Mouth k (m_BoneAdjust k) = some (adjust k))
        ∧ (∀ k, hdr.numbonecontrollers.toNat ≤ k → adjust k = m_BoneAdjust k) := by
  unfold CalcBoneAdj
  rw [forLoop_slot _ (CalcBoneAdjSlot c hdr m_Controllers m_Mouth)]
  · constructor
    · rintro ⟨h1, h2⟩
      exact ⟨fun k hk => h1 k (Nat.zero_le _) (by omega), fun k hk => h2 k (Or.inr (by omega))⟩
    · rintro ⟨h1, h2⟩
      refine ⟨fun k _ hk => h1 k (by omega), fun k hk => h2 k ?_⟩
      rcases hk with hk | hk
      · omega
      · omega
  · intro j st
    unfold CalcBoneAdjSlot
    cases hb : hdr.bonecontrollers j with
    | none => simp [hb]
    | some pbonecontroller =>
      cases hv : boneControllerValue c pbonecontroller m_Controllers m_Mouth with
      | none => simp [hb, hv]
      | some value =>
        simp only [hb, hv, writeArr_nat]
        split_ifs <;> simp

/-- A second run of `CalcBoneAdj` with the same controller values leaves
`m_BoneAdjust` as the first run left it. -/
theorem CalcBoneAdj_idem (c : StudioConsts) (hdr : studiohdr_t) (m_Controllers : Nat → Nat)
    (m_Mouth : Nat) (m_BoneAdjust adjust : Nat → ℚ)
    (h : CalcBoneAdj c hdr m_Controllers m_Mouth m_BoneAdjust = some adjust) :
    CalcBoneAdj c hdr m_Controllers m_Mouth adjust = some adjust := by
  rw [CalcBoneAdj_slot] at h ⊢
  refine ⟨fun k hk => ?_, fun _ _ => rfl⟩
  have h1 := h.1 k hk
  unfold CalcBoneAdjSlot at h1 ⊢
  cases hb : hdr.bonecontrollers k with
  | none => simp [hb] at h1
  | some pbonecontroller =>
    cases hv : boneControllerValue c pbonecontroller m_Controllers m_Mouth with
    | none => simp [hb, hv] at h1
    | some value =>
      simp only [hb, hv] at h1 ⊢
      split_ifs at h1 ⊢
      · exact h1
      · exact h1
      · rfl

/-- The three assignments at the end of `CalcRotations` in closed form: they
need the motion bone inside the array when a flag is set, and replace the
flagged components of its position by 0. -/
theorem zeroMotion_eq (c : StudioConsts) (pseqdesc : mstudioseqdesc_t) (pos : Nat → vec3_t) :
    zeroMotion c pseqdesc pos
      = if (motionFlag c pseqdesc 0 = true ∨ motionFlag c pseqdesc 1 = true
              ∨ motionFlag c pseqdesc 2 = true)
            ∧ ¬ (0 ≤ pseqdesc.motionbone ∧ pseqdesc.motionbone < c.MAXSTUDIOBONES) then none
        else some (fun (i : Nat) =>
          if (i : Int) = pseqdesc.motionbone then zeroAxes c pseqdesc (pos i) else pos i) := by
  have hupd : ∀ (p : Nat → vec3_t) (v : vec3_t), 0 ≤ pseqdesc.motionbone →
      Function.update p pseqdesc.motionbone.toNat v
        = fun (i : Nat) => if (i : Int) = pseqdesc.motionbone then v else p i := by
    intro p v h0
    funext i
    by_cases hi : (i : Int) = pseqdesc.motionbone
    · have : i = pseqdesc.motionbone.toNat := by omega
      subst this
      simp [hi]
    · have : i ≠ pseqdesc.motionbone.toNat := by omega
      simp [hi, Function.update_noteq this]
  have hself : ∀ (p : Nat → vec3_t),
      (fun (i : Nat) => if (i : Int) = pseqdesc.motionbone then p i else p i) = p := by
    intro p
    funext i
    simp
  unfold zeroMotion zeroComponent readArr writeArr
  by_cases hr : 0 ≤ pseqdesc.motionbone ∧ pseqdesc.motionbone < (c.MAXSTUDIOBONES : Int)
  · have h0 := hr.1
    have hmb : ((pseqdesc.motionbone.toNat : Nat) : Int) = pseqdesc.motionbone := by omega
    by_cases hx : pseqdesc.motiontype &&& c.STUDIO_X = 0 <;>
    by_cases hy : pseqdesc.motiontype &&& c.STUDIO_Y = 0 <;>
    by_cases hz : pseqdesc.motiontype &&& c.STUDIO_Z = 0 <;>
    · simp only [hr, hx, hy, hz, motionFlag, zeroAxes, vec3_t.set, ne_eq, not_true_eq_false,
        not_false_eq_true, if_true, if_false, and_self, and_true, and_false, or_self, or_true,
        or_false, true_or, decide_True, decide_False, Bool.false_eq_true, not_not,
        OfNat.ofNat_ne_zero, OfNat.ofNat_ne_one, OfNat.zero_ne_ofNat, one_ne_zero,
        Option.some.injEq, hupd _ _ h0, hmb, decide_not, Bool.not_eq_true', decide_eq_false_iff_not,
        decide_eq_true_eq, Bool.not_true, Bool.not_false]
      first
        | rfl
        | (funext i
           by_cases hi : (i : Int) = pseqdesc.motionbone
           · have hi2 : pseqdesc.motionbone.toNat = i := by omega
             simp [hi, hi2]
           · simp [hi])
  · by_cases hx : pseqdesc.motiontype &&& c.STUDIO_X = 0 <;>
    by_cases hy : pseqdesc.motiontype &&& c.STUDIO_Y = 0 <;>
    by_cases hz : pseqdesc.motiontype &&& c.STUDIO_Z = 0 <;>
    · simp [hr, hx, hy, hz, motionFlag, zeroAxes]

/-- The loop over the bones in `CalcRotations` is a loop over the slots of
`pos` and `q`. -/
theorem CalcRotationsBody_slot (c : StudioConsts) (ml : MathLib) (hdr : studiohdr_t)
    (adjust : Nat → ℚ) (frame : Int) (s : ℚ) (panim : List mstudioanim_t) (n : Nat)
    (st st' : (Nat → vec3_t) × (Nat → vec4_t)) :
    forLoop (CalcRotationsBody c ml hdr adjust frame s panim) n 0 st = some st' ↔
      (∀ k, k < n → CalcRotationsSlot c ml hdr adjust frame s panim k = some (st'.1 k, st'.2 k))
        ∧ (∀ k, n ≤ k → st'.1 k = st.1 k ∧ st'.2 k = st.2 k) := by
  rw [forLoop_slot2 _ (fun i _ _ => CalcRotationsSlot c ml hdr adjust frame s panim i)]
  · constructor
    · rintro ⟨h1, h2⟩
      exact ⟨fun k hk => h1 k (Nat.zero_le _) (by omega), fun k hk => h2 k (Or.inr (by omega))⟩
    · rintro ⟨h1, h2⟩
      exact ⟨fun k _ hk => h1 k (by omega), fun k hk => h2 k (by omega)⟩
  · intro j st
    unfold CalcRotationsBody CalcRotationsSlot
    cases hb : hdr.bones j with
    | none => simp [hb]
    | some pbone =>
      cases ha : panim[j]? with
      | none => simp [hb, ha]
      | some anim =>
        cases hq : CalcBoneQuaternion ml adjust frame s pbone anim with
        | none => simp [hb, ha, hq]
        | some qi =>
          by_cases hj : j < c.MAXSTUDIOBONES
          · cases hp : CalcBonePosition adjust frame s pbone anim with
            | none => simp [hb, ha, hq, hp, writeArr_nat, hj]
            | some pi => simp [hb, ha, hq, hp, writeArr_nat, hj]
          · simp [hb, ha, hq, writeArr_nat, hj]

/-- `CalcRotations` in terms of its parts: the frame, `CalcBoneAdj`, the loop
over the bones, which fills the slots below `numbones` and leaves the others,
and the assignments to the motion bone. -/
theorem CalcRotations_iff (c : StudioConsts) (ml : MathLib) (hdr : studiohdr_t)
    (m_Controllers : Nat → Nat) (m_Mouth : Nat) (m_BoneAdjust : Nat → ℚ)
    (pos : Nat → vec3_t) (q : Nat → vec4_t) (pseqdesc : mstudioseqdesc_t)
    (panim : List mstudioanim_t) (f : ℚ) (adjust : Nat → ℚ) (pos' : Nat → vec3_t)
    (q' : Nat → vec4_t) :
    CalcRotations c ml hdr m_Controllers m_Mouth m_BoneAdjust pos q pseqdesc panim f
        = some (adjust, pos', q') ↔
      ∃ (frame : Int) (posL : Nat → vec3_t), floatToInt f = some frame
        ∧ CalcBoneAdj c hdr m_Controllers m_Mouth m_BoneAdjust = some adjust
        ∧ (∀ k, k < hdr.numbones.toNat →
            CalcRotationsSlot c ml hdr adjust frame (f - frame) panim k = some (posL k, q' k))
        ∧ (∀ k, hdr.numbones.toNat ≤ k → posL k = pos k ∧ q' k = q k)
        ∧ zeroMotion c pseqdesc posL = some pos' := by
  unfold CalcRotations
  constructor
  · intro h
    cases hf : floatToInt f with
    | none => simp [hf] at h
    | some frame =>
      cases hadj : CalcBoneAdj c hdr m_Controllers m_Mouth m_BoneAdjust with
      | none => simp [hf, hadj] at h
      | some adj =>
        cases hres : forLoop (CalcRotationsBody c ml hdr adj frame (f - frame) panim)
            hdr.numbones.toNat 0 (pos, q) with
        | none => simp [hf, hadj, hres] at h
        | some res =>
          obtain ⟨posL, qL⟩ := res
          cases hz : zeroMotion c pseqdesc posL with
          | none => simp [hf, hadj, hres, hz] at h
          | some pz =>
            simp only [hf, hadj, hres, hz, Option.some.injEq, Prod.mk.injEq] at h
            obtain ⟨h1, h2, h3⟩ := h
            subst h1
            subst h2
            subst h3
            have hchar := (CalcRotationsBody_slot c ml hdr adj frame (f - frame) panim
              hdr.numbones.toNat (pos, q) (posL, qL)).1 hres
            exact ⟨frame, posL, rfl, rfl, hchar.1, hchar.2, hz⟩
  · rintro ⟨frame, posL, hf, hadj, h1, h2, hz⟩
    have hres := (CalcRotationsBody_slot c ml hdr adjust frame (f - frame) panim
      hdr.numbones.toNat (pos, q) (posL, q')).2 ⟨h1, h2⟩
    simp only [hf, hadj, hres, hz]

/-- `SlerpBones` blends the slots below `numbones`, which must lie inside the
arrays, with the weight clamped to `[0, 1]`, and leaves the other slots. -/
theorem SlerpBones_iff (c : StudioConsts) (ml : MathLib) (hdr : studiohdr_t)
    (q1 : Nat → vec4_t) (pos1 : Nat → vec3_t) (q2 : Nat → vec4_t) (pos2 : Nat → vec3_t) (s : ℚ)
    (q' : Nat → vec4_t) (pos' : Nat → vec3_t) :
    SlerpBones c ml hdr q1 pos1 q2 pos2 s = some (q', pos') ↔
      (∀ k, k < hdr.numbones.toNat →
          k < c.MAXSTUDIOBONES ∧ q' k = ml.QuaternionSlerp (q1 k) (q2 k) (clamp01 s)
            ∧ pos' k = (pos1 k).lerp (pos2 k) (clamp01 s))
        ∧ (∀ k, hdr.numbones.toNat ≤ k → q' k = q1 k ∧ pos' k = pos1 k) := by
  unfold SlerpBones
  rw [forLoop_slot2 _ (fun k a b =>
    if k < c.MAXSTUDIOBONES then
      some (ml.QuaternionSlerp a (q2 k) (clamp01 s), b.lerp (pos2 k) (clamp01 s))
    else none)]
  · constructor
    · rintro ⟨h1, h2⟩
      refine ⟨fun k hk => ?_, fun k hk => h2 k (Or.inr (by omega))⟩
      have := h1 k (Nat.zero_le _) (by omega)
      by_cases hm : k < c.MAXSTUDIOBONES
      · simp only [hm, if_true, Option.some.injEq, Prod.mk.injEq] at this
        exact ⟨hm, this.1.symm, this.2.symm⟩
      · simp [hm] at this
    · rintro ⟨h1, h2⟩
      refine ⟨fun k _ hk => ?_, fun k hk => h2 k (by omega)⟩
      obtain ⟨hm, hq, hp⟩ := h1 k (by omega)
      simp only [hm, if_true, hq, hp]
  · intro j st
    by_cases hm : j < c.MAXSTUDIOBONES
    · simp [hm, clamp01, vec3_t.lerp]
    · simp [hm]

/-- Two runs of `CalcRotations` whose calls of `CalcBoneAdj` give the same
adjustments: if one returns, so does the other, and the arrays they leave agree
on the slots below `numbones`. -/
theorem CalcRotations_agree (c : StudioConsts) (ml : MathLib) (hdr : studiohdr_t)
    (m_Controllers : Nat → Nat) (m_Mouth : Nat) (adjA adjB adjust : Nat → ℚ)
    (posA posB pA : Nat → vec3_t) (qA qB qA' : Nat → vec4_t) (pseqdesc : mstudioseqdesc_t)
    (panim : List mstudioanim_t) (f : ℚ)
    (hA : CalcRotations c ml hdr m_Controllers m_Mouth adjA posA qA pseqdesc panim f
      = some (adjust, pA, qA'))
    (hB : CalcBoneAdj c hdr m_Controllers m_Mouth adjB = some adjust) :
    ∃ pB qB', CalcRotations c ml hdr m_Controllers m_Mouth adjB posB qB pseqdesc panim f
        = some (adjust, pB, qB')
      ∧ ∀ k, k < hdr.numbones.toNat → pB k = pA k ∧ qB' k = qA' k := by
  obtain ⟨frame, posL, hf, -, h1, h2, hz⟩ := (CalcRotations_iff c ml hdr m_Controllers m_Mouth
    adjA posA qA pseqdesc panim f adjust pA qA').1 hA
  rw [zeroMotion_eq] at hz
  split_ifs at hz with hcond
  simp only [Option.some.injEq] at hz
  refine ⟨fun (i : Nat) => if (i : Int) = pseqdesc.motionbone
      then zeroAxes c pseqdesc (if i < hdr.numbones.toNat then posL i else posB i)
      else (if i < hdr.numbones.toNat then posL i else posB i),
    fun i => if i < hdr.numbones.toNat then qA' i else qB i, ?_, ?_⟩
  · rw [CalcRotations_iff]
    refine ⟨frame, fun i => if i < hdr.numbones.toNat then posL i else posB i, hf, hB, ?_, ?_, ?_⟩
    · intro k hk
      simp only [hk, if_true]
      exact h1 k hk
    · intro k hk
      have : ¬ k < hdr.numbones.toNat := by omega
      simp [this]
    · rw [zeroMotion_eq, if_neg hcond]
  · intro k hk
    rw [← hz]
    simp [hk]

/-! ## The blending part of `SetUpBones`: lemmas -/

/-- The blending part of `SetUpBones`, call by call, for a sequence with at most
one blend group. -/
theorem blendSequence_one (c : StudioConsts) (ml : MathLib) (hdr : studiohdr_t)
    (pseqdesc : mstudioseqdesc_t) (panim : List mstudioanim_t) (st st' : StudioModelAnimating)
    (hn : ¬ pseqdesc.numblends > 1) :
    blendSequence c ml hdr pseqdesc panim st = some st' ↔
      ∃ a1 P0 Q0,
        CalcRotations c ml hdr st.m_Controllers st.m_Mouth st.m_BoneAdjust st.tmp_pos st.tmp_q
            pseqdesc panim st.m_Frame = some (a1, P0, Q0)
          ∧ st' = { st with m_BoneAdjust := a1, tmp_pos := P0, tmp_q := Q0 } := by
  unfold blendSequence
  constructor
  · intro h
    split at h
    · simp at h
    · rename_i a1 P0 Q0 h0
      simp only [hn, if_false, Option.some.injEq] at h
      exact ⟨a1, P0, Q0, h0, h.symm⟩
  · rintro ⟨a1, P0, Q0, h0, rfl⟩
    simp only [h0, hn, if_false]

/-- The blending part of `SetUpBones`, call by call, for a sequence with more
than one blend group, but not four. -/
theorem blendSequence_two (c : StudioConsts) (ml : MathLib) (hdr : studiohdr_t)
    (pseqdesc : mstudioseqdesc_t) (panim : List mstudioanim_t) (st st' : StudioModelAnimating)
    (hn : pseqdesc.numblends > 1) (h4 : pseqdesc.numblends ≠ 4) :
    blendSequence c ml hdr pseqdesc panim st = some st' ↔
      ∃ a1 P0 Q0 a2 P1 Q1 q01 p01,
        CalcRotations c ml hdr st.m_Controllers st.m_Mouth st.m_BoneAdjust st.tmp_pos st.tmp_q
            pseqdesc panim st.m_Frame = some (a1, P0, Q0)
          ∧ CalcRotations c ml hdr st.m_Controllers st.m_Mouth a1 st.tmp_pos2 st.tmp_q2
            pseqdesc (panim.drop hdr.numbones.toNat) st.m_Frame = some (a2, P1, Q1)
          ∧ SlerpBones c ml hdr Q0 P0 Q1 P1 ((st.m_Blendings 0 : ℚ) / 255) = some (q01, p01)
          ∧ st' = { st with m_BoneAdjust := a2, tmp_pos := p01, tmp_q := q01, tmp_pos2 := P1,
                            tmp_q2 := Q1 } := by
  unfold blendSequence
  constructor
  · intro h
    split at h
    · simp at h
    · rename_i a1 P0 Q0 h0
      simp only [hn, if_true] at h
      split at h
      · simp at h
      · rename_i a2 P1 Q1 h1
        split at h
        · simp at h
        · rename_i q01 p01 hs
          simp only [h4, if_false, Option.some.injEq] at h
          exact ⟨a1, P0, Q0, a2, P1, Q1, q01, p01, h0, h1, hs, h.symm⟩
  · rintro ⟨a1, P0, Q0, a2, P1, Q1, q01, p01, h0, h1, hs, rfl⟩
    simp only [h0, hn, if_true, h1, hs, h4, if_false]

/-- The blending part of `SetUpBones`, call by call, for a sequence with four
blend groups. -/
theorem blendSequence_four (c : StudioConsts) (ml : MathLib) (hdr : studiohdr_t)
    (pseqdesc : mstudioseqdesc_t) (panim : List mstudioanim_t) (st st' : StudioModelAnimating)
    (h4 : pseqdesc.numblends = 4) :
    blendSequence c ml hdr pseqdesc panim st = some st' ↔
      ∃ a1 P0 Q0 a2 P1 Q1 q01 p01 a3 P2 Q2 a4 P3 Q3 q23 p23 qf pf,
        CalcRotations c ml hdr st.m_Controllers st.m_Mouth st.m_BoneAdjust st.tmp_pos st.tmp_q
            pseqdesc panim st.m_Frame = some (a1, P0, Q0)
          ∧ CalcRotations c ml hdr st.m_Controllers st.m_Mouth a1 st.tmp_pos2 st.tmp_q2
            pseqdesc (panim.drop hdr.numbones.toNat) st.m_Frame = some (a2, P1, Q1)
          ∧ SlerpBones c ml hdr Q0 P0 Q1 P1 ((st.m_Blendings 0 : ℚ) / 255) = some (q01, p01)
          ∧ CalcRotations c ml hdr st.m_Controllers st.m_Mouth a2 st.tmp_pos3 st.tmp_q3
            pseqdesc ((panim.drop hdr.numbones.toNat).drop hdr.numbones.toNat) st.m_Frame
              = some (a3, P2, Q2)
          ∧ CalcRotations c ml hdr st.m_Controllers st.m_Mouth a3 st.tmp_pos4 st.tmp_q4
            pseqdesc (((panim.drop hdr.numbones.toNat).drop hdr.numbones.toNat).drop
              hdr.numbones.toNat) st.m_Frame = some (a4, P3, Q3)
          ∧ SlerpBones c ml hdr Q2 P2 Q3 P3 ((st.m_Blendings 0 : ℚ) / 255) = some (q23, p23)
          ∧ SlerpBones c ml hdr q01 p01 q23 p23 ((st.m_Blendings 1 : ℚ) / 255) = some (qf, pf)
          ∧ st' = { st with m_BoneAdjust := a4, tmp_pos := pf, tmp_q := qf, tmp_pos2 := P1,
                            tmp_q2 := Q1, tmp_pos3 := p23, tmp_q3 := q23, tmp_pos4 := P3,
                            tmp_q4 := Q3 } := by
  have hn : pseqdesc.numblends > 1 := by omega
  unfold blendSequence
  constructor
  · intro h
    split at h
    · simp at h
    · rename_i a1 P0 Q0 h0
      simp only [hn, if_true] at h
      split at h
      · simp at h
      · rename_i a2 P1 Q1 h1
        split at h
        · simp at h
        · rename_i q01 p01 hs
          simp only [h4, if_true] at h
          split at h
          · simp at h
          · rename_i a3 P2 Q2 h2
            split at h
            · simp at h
            · rename_i a4 P3 Q3 h3
              split at h
              · simp at h
              · rename_i q23 p23 hs2
                split at h
                · simp at h
                · rename_i qf pf hs3
                  simp only [Option.some.injEq] at h
                  exact ⟨a1, P0, Q0, a2, P1, Q1, q01, p01, a3, P2, Q2, a4, P3, Q3, q23, p23, qf,
                    pf, h0, h1, hs, h2, h3, hs2, hs3, h.symm⟩
  · rintro ⟨a1, P0, Q0, a2, P1, Q1, q01, p01, a3, P2, Q2, a4, P3, Q3, q23, p23, qf, pf, h0, h1,
      hs, h2, h3, hs2, hs3, rfl⟩
    simp only [h0, h1, hs, h2, h3, hs2, hs3, if_pos hn, if_pos h4]

/-- A call of `CalcRotations` on the blocks of blend group `g` leaves in
`pos[i]`, for each bone `i`, the position sampled from block
`g * numbones + i` with the motion axes cleared, and in `m_BoneAdjust` what
`CalcBoneAdj` gives. -/
theorem CalcRotations_sampled (c : StudioConsts) (ml : MathLib) (hdr : studiohdr_t)
    (m_Controllers : Nat → Nat) (m_Mouth : Nat) (m_BoneAdjust : Nat → ℚ)
    (pos : Nat → vec3_t) (q : Nat → vec4_t) (pseqdesc : mstudioseqdesc_t)
    (panim blocks : List mstudioanim_t) (f : ℚ) (adjust : Nat → ℚ) (pos' : Nat → vec3_t)
    (q' : Nat → vec4_t) (g : Nat)
    (hblocks : ∀ k, blocks[k]? = panim[g * hdr.numbones.toNat + k]?)
    (h : CalcRotations c ml hdr m_Controllers m_Mouth m_BoneAdjust pos q pseqdesc blocks f
      = some (adjust, pos', q')) :
    CalcBoneAdj c hdr m_Controllers m_Mouth m_BoneAdjust = some adjust
      ∧ ∀ i, i < hdr.numbones.toNat →
          i < c.MAXSTUDIOBONES
            ∧ ∃ R, rawPosition hdr adjust panim f g i = some R
              ∧ pos' i = motionZero c pseqdesc i R := by
  obtain ⟨frame, posL, hf, hadj, h1, -, hz⟩ := (CalcRotations_iff c ml hdr m_Controllers m_Mouth
    m_BoneAdjust pos q pseqdesc blocks f adjust pos' q').1 h
  refine ⟨hadj, ?_⟩
  intro i hi
  have hs := h1 i hi
  rw [zeroMotion_eq] at hz
  split_ifs at hz with hcond
  simp only [Option.some.injEq] at hz
  unfold CalcRotationsSlot at hs
  rw [hblocks i] at hs
  unfold rawPosition
  rw [hf]
  cases hb : hdr.bones i with
  | none => simp [hb] at hs
  | some pbone =>
    cases ha : panim[g * hdr.numbones.toNat + i]? with
    | none => simp [hb, ha] at hs
    | some anim =>
      cases hq : CalcBoneQuaternion ml adjust frame (f - frame) pbone anim with
      | none => simp [hb, ha, hq] at hs
      | some qi =>
        by_cases hm : i < c.MAXSTUDIOBONES
        · cases hp : CalcBonePosition adjust frame (f - frame) pbone anim with
          | none => simp [hb, ha, hq, hm, hp] at hs
          | some pi =>
            simp only [hb, ha, hq, hm, hp, if_true, Option.some.injEq, Prod.mk.injEq] at hs
            refine ⟨hm, pi, hp, ?_⟩
            rw [← hz, hs.1]
            rfl
        · simp [hb, ha, hq, hm] at hs

theorem drop_blocks1 (panim : List mstudioanim_t) (n k : Nat) :
    (panim.drop n)[k]? = panim[1 * n + k]? := by
  rw [List.getElem?_drop, one_mul]

theorem drop_blocks2 (panim : List mstudioanim_t) (n k : Nat) :
    ((panim.drop n).drop n)[k]? = panim[2 * n + k]? := by
  rw [List.getElem?_drop, List.getElem?_drop]
  congr 1
  omega

theorem drop_blocks3 (panim : List mstudioanim_t) (n k : Nat) :
    (((panim.drop n).drop n).drop n)[k]? = panim[3 * n + k]? := by
  rw [List.getElem?_drop, List.getElem?_drop, List.getElem?_drop]
  congr 1
  omega

/-- The members that the blending part of `SetUpBones` leaves as they are. -/
theorem blendSequence_fields (c : StudioConsts) (ml : MathLib) (hdr : studiohdr_t)
    (pseqdesc : mstudioseqdesc_t) (panim : List mstudioanim_t) (st st' : StudioModelAnimating)
    (h : blendSequence c ml hdr pseqdesc panim st = some st') :
    st'.m_StudioHeader = st.m_StudioHeader
      ∧ st'.m_StudioSequenceGroupHeaders = st.m_StudioSequenceGroupHeaders
      ∧ st'.m_Sequence = st.m_Sequence ∧ st'.m_Frame = st.m_Frame
      ∧ st'.m_Controllers = st.m_Controllers ∧ st'.m_Blendings = st.m_Blendings
      ∧ st'.m_Mouth = st.m_Mouth ∧ st'.m_BoneTransforms = st.m_BoneTransforms := by
  by_cases hn : pseqdesc.numblends > 1
  · by_cases h4 : pseqdesc.numblends = 4
    · obtain ⟨a1, P0, Q0, a2, P1, Q1, q01, p01, a3, P2, Q2, a4, P3, Q3, q23, p23, qf, pf, -, -,
        -, -, -, -, -, rfl⟩ := (blendSequence_four c ml hdr pseqdesc panim st st' h4).1 h
      exact ⟨rfl, rfl, rfl, rfl, rfl, rfl, rfl, rfl⟩
    · obtain ⟨a1, P0, Q0, a2, P1, Q1, q01, p01, -, -, -, rfl⟩ :=
        (blendSequence_two c ml hdr pseqdesc panim st st' hn h4).1 h
      exact ⟨rfl, rfl, rfl, rfl, rfl, rfl, rfl, rfl⟩
  · obtain ⟨a1, P0, Q0, -, rfl⟩ := (blendSequence_one c ml hdr pseqdesc panim st st' hn).1 h
    exact ⟨rfl, rfl, rfl, rfl, rfl, rfl, rfl, rfl⟩

/-- The positions that the blending part of `SetUpBones` leaves in `tmp_pos`,
bone by bone: the sampled position of group 0, its blend with group 1, or the
blend of the blends of groups 0, 1 and 2, 3; `m_BoneAdjust` holds what
`CalcBoneAdj` gives. -/
theorem blendSequence_positions (c : StudioConsts) (ml : MathLib) (hdr : studiohdr_t)
    (pseqdesc : mstudioseqdesc_t) (panim : List mstudioanim_t) (st st' : StudioModelAnimating)
    (h : blendSequence c ml hdr pseqdesc panim st = some st') :
    CalcBoneAdj c hdr st.m_Controllers st.m_Mouth st.m_BoneAdjust = some st'.m_BoneAdjust
      ∧ ∀ i, i < hdr.numbones.toNat →
        i < c.MAXSTUDIOBONES
          ∧ (¬ pseqdesc.numblends > 1 →
              ∃ R0, rawPosition hdr st'.m_BoneAdjust panim st.m_Frame 0 i = some R0
                ∧ st'.tmp_pos i = motionZero c pseqdesc i R0)
          ∧ (pseqdesc.numblends > 1 → pseqdesc.numblends ≠ 4 →
              ∃ R0 R1, rawPosition hdr st'.m_BoneAdjust panim st.m_Frame 0 i = some R0
                ∧ rawPosition hdr st'.m_BoneAdjust panim st.m_Frame 1 i = some R1
                ∧ st'.tmp_pos i = (motionZero c pseqdesc i R0).lerp (motionZero c pseqdesc i R1)
                    (clamp01 ((st.m_Blendings 0 : ℚ) / 255)))
          ∧ (pseqdesc.numblends = 4 →
              ∃ R0 R1 R2 R3, rawPosition hdr st'.m_BoneAdjust panim st.m_Frame 0 i = some R0
                ∧ rawPosition hdr st'.m_BoneAdjust panim st.m_Frame 1 i = some R1
                ∧ rawPosition hdr st'.m_BoneAdjust panim st.m_Frame 2 i = some R2
                ∧ rawPosition hdr st'.m_BoneAdjust panim st.m_Frame 3 i = some R3
                ∧ st'.tmp_pos i =
                    ((motionZero c pseqdesc i R0).lerp (motionZero c pseqdesc i R1)
                        (clamp01 ((st.m_Blendings 0 : ℚ) / 255))).lerp
                      ((motionZero c pseqdesc i R2).lerp (motionZero c pseqdesc i R3)
                        (clamp01 ((st.m_Blendings 0 : ℚ) / 255)))
                      (clamp01 ((st.m_Blendings 1 : ℚ) / 255))) := by
  by_cases hn : pseqdesc.numblends > 1
  · by_cases h4 : pseqdesc.numblends = 4
    · obtain ⟨a1, P0, Q0, a2, P1, Q1, q01, p01, a3, P2, Q2, a4, P3, Q3, q23, p23, qf, pf, h0, h1,
        hs, h2, h3, hs2, hs3, rfl⟩ := (blendSequence_four c ml hdr pseqdesc panim st st' h4).1 h
      obtain ⟨e0, s0⟩ := CalcRotations_sampled c ml hdr _ _ _ _ _ pseqdesc panim panim _ _ _ _ 0
        (fun k => by rw [Nat.zero_mul, Nat.zero_add]) h0
      obtain ⟨e1, s1⟩ := CalcRotations_sampled c ml hdr _ _ _ _ _ pseqdesc panim _ _ _ _ _ 1
        (drop_blocks1 panim _) h1
      obtain ⟨e2, s2⟩ := CalcRotations_sampled c ml hdr _ _ _ _ _ pseqdesc panim _ _ _ _ _ 2
        (drop_blocks2 panim _) h2
      obtain ⟨e3, s3⟩ := CalcRotations_sampled c ml hdr _ _ _ _ _ pseqdesc panim _ _ _ _ _ 3
        (drop_blocks3 panim _) h3
      have i1 := CalcBoneAdj_idem c hdr _ _ _ _ e0
      have a21 : a2 = a1 := Option.some.inj (e1.symm.trans i1)
      subst a21
      have a32 : a3 = a2 := Option.some.inj (e2.symm.trans i1)
      subst a32
      have a43 : a4 = a3 := Option.some.inj (e3.symm.trans i1)
      subst a43
      refine ⟨e0, ?_⟩
      intro i hi
      obtain ⟨hm, R0, r0, p0⟩ := s0 i hi
      obtain ⟨-, R1, r1, p1⟩ := s1 i hi
      obtain ⟨-, R2, r2, p2⟩ := s2 i hi
      obtain ⟨-, R3, r3, p3⟩ := s3 i hi
      obtain ⟨-, -, b01⟩ := ((SlerpBones_iff c ml hdr _ _ _ _ _ _ _).1 hs).1 i hi
      obtain ⟨-, -, b23⟩ := ((SlerpBones_iff c ml hdr _ _ _ _ _ _ _).1 hs2).1 i hi
      obtain ⟨-, -, bf⟩ := ((SlerpBones_iff c ml hdr _ _ _ _ _ _ _).1 hs3).1 i hi
      refine ⟨hm, fun hx => absurd hn hx, fun _ hx => absurd h4 hx, fun _ => ?_⟩
      refine ⟨R0, R1, R2, R3, r0, r1, r2, r3, ?_⟩
      show pf i = _
      rw [bf, b01, b23, p0, p1, p2, p3]
    · obtain ⟨a1, P0, Q0, a2, P1, Q1, q01, p01, h0, h1, hs, rfl⟩ :=
        (blendSequence_two c ml hdr pseqdesc panim st st' hn h4).1 h
      obtain ⟨e0, s0⟩ := CalcRotations_sampled c ml hdr _ _ _ _ _ pseqdesc panim panim _ _ _ _ 0
        (fun k => by rw [Nat.zero_mul, Nat.zero_add]) h0
      obtain ⟨e1, s1⟩ := CalcRotations_sampled c ml hdr _ _ _ _ _ pseqdesc panim _ _ _ _ _ 1
        (drop_blocks1 panim _) h1
      have i1 := CalcBoneAdj_idem c hdr _ _ _ _ e0
      have a21 : a2 = a1 := Option.some.inj (e1.symm.trans i1)
      subst a21
      refine ⟨e0, ?_⟩
      intro i hi
      obtain ⟨hm, R0, r0, p0⟩ := s0 i hi
      obtain ⟨-, R1, r1, p1⟩ := s1 i hi
      obtain ⟨-, -, b01⟩ := ((SlerpBones_iff c ml hdr _ _ _ _ _ _ _).1 hs).1 i hi
      refine ⟨hm, fun hx => absurd hn hx, fun _ _ => ?_, fun hx => absurd hx h4⟩
      refine ⟨R0, R1, r0, r1, ?_⟩
      show p01 i = _
      rw [b01, p0, p1]
  · obtain ⟨a1, P0, Q0, h0, rfl⟩ := (blendSequence_one c ml hdr pseqdesc panim st st' hn).1 h
    obtain ⟨e0, s0⟩ := CalcRotations_sampled c ml hdr _ _ _ _ _ pseqdesc panim panim _ _ _ _ 0
      (fun k => by rw [Nat.zero_mul, Nat.zero_add]) h0
    refine ⟨e0, ?_⟩
    intro i hi
    obtain ⟨hm, R0, r0, p0⟩ := s0 i hi
    refine ⟨hm, fun _ => ⟨R0, r0, p0⟩, fun hx => absurd hx hn, fun hx => ?_⟩
    exact absurd (by omega : pseqdesc.numblends > 1) hn

/-! ## The matrix pass of `SetUpBones`: lemmas -/

/-- A round of the matrix pass that returns has found its bone inside the
arrays. -/
theorem concatBonesBody_bone (c : StudioConsts) (ml : MathLib) (hdr : studiohdr_t)
    (tmp_q : Nat → vec4_t) (tmp_pos : Nat → vec3_t) (i : Nat) (T T' : Nat → mat3x4)
    (h : concatBonesBody c ml hdr tmp_q tmp_pos i T = some T') :
    ∃ pbone, hdr.bones i = some pbone ∧ i < c.MAXSTUDIOBONES := by
  unfold concatBonesBody at h
  cases hb : hdr.bones i with
  | none => simp [hb] at h
  | some pbone =>
    by_cases hm : i < c.MAXSTUDIOBONES
    · exact ⟨pbone, rfl, hm⟩
    · simp [hb, hm] at h

/-- A round of the matrix pass for a bone that is a root or comes after its
parent: the bone's slot takes its own matrix, or the parent's transform
concatenated with it. -/
theorem concatBonesBody_ordered (c : StudioConsts) (ml : MathLib) (hdr : studiohdr_t)
    (tmp_q : Nat → vec4_t) (tmp_pos : Nat → vec3_t) (i : Nat) (T : Nat → mat3x4)
    (pbone : mstudiobone_t) (hb : hdr.bones i = some pbone) (hm : i < c.MAXSTUDIOBONES)
    (ho : pbone.parent = -1 ∨ (0 ≤ pbone.parent ∧ pbone.parent < i)) :
    concatBonesBody c ml hdr tmp_q tmp_pos i T
      = some (Function.update T i
          (if pbone.parent = -1 then boneMatrix ml (tmp_q i) (tmp_pos i)
            else ml.R_ConcatTransforms (T pbone.parent.toNat)
              (boneMatrix ml (tmp_q i) (tmp_pos i)))) := by
  unfold concatBonesBody
  simp only [hb, hm, if_true]
  by_cases hp : pbone.parent = -1
  · simp only [hp, if_true]
  · have h2 : 0 ≤ pbone.parent ∧ pbone.parent < i := by
      rcases ho with ho | ho
      · exact absurd ho hp
      · exact ho
    have hne : ¬ pbone.parent = (i : Int) := by omega
    have hr : 0 ≤ pbone.parent ∧ pbone.parent < (c.MAXSTUDIOBONES : Int) := by omega
    simp only [hp, hne, if_false, readArr, hr, and_self, if_true]

/-- The matrix pass on a skeleton whose bones come after their parents: every
slot of the range holds the bone's own matrix (a root) or the parent's final
transform concatenated with it; the other slots are as before. -/
theorem concatLoop_spec (c : StudioConsts) (ml : MathLib) (hdr : studiohdr_t)
    (tmp_q : Nat → vec4_t) (tmp_pos : Nat → vec3_t) :
    ∀ (n i : Nat) (T0 T : Nat → mat3x4),
      forLoop (concatBonesBody c ml hdr tmp_q tmp_pos) n i T0 = some T →
      (∀ (k : Nat) (pbone : mstudiobone_t), i ≤ k → k < i + n → hdr.bones k = some pbone →
        pbone.parent = -1 ∨ (0 ≤ pbone.parent ∧ pbone.parent < k)) →
      (∀ k, k < i ∨ i + n ≤ k → T k = T0 k)
        ∧ ∀ k, i ≤ k → k < i + n →
            ∃ pbone, hdr.bones k = some pbone ∧ k < c.MAXSTUDIOBONES
              ∧ T k = if pbone.parent = -1 then boneMatrix ml (tmp_q k) (tmp_pos k)
                  else ml.R_ConcatTransforms (T pbone.parent.toNat)
                    (boneMatrix ml (tmp_q k) (tmp_pos k)) := by
  intro n
  induction n with
  | zero =>
    intro i T0 T h _
    simp only [forLoop, Option.some.injEq] at h
    subst h
    exact ⟨fun _ _ => rfl, fun k h1 h2 => absurd h2 (by omega)⟩
  | succ n ih =>
    intro i T0 T h hord
    simp only [forLoop] at h
    cases hbody : concatBonesBody c ml hdr tmp_q tmp_pos i T0 with
    | none => simp [hbody] at h
    | some T1 =>
      simp only [hbody] at h
      obtain ⟨pbone, hb, hm⟩ := concatBonesBody_bone c ml hdr tmp_q tmp_pos i T0 T1 hbody
      have ho := hord i pbone (le_refl _) (by omega) hb
      rw [concatBonesBody_ordered c ml hdr tmp_q tmp_pos i T0 pbone hb hm ho] at hbody
      have hT1 := (Option.some.inj hbody).symm
      obtain ⟨hframe, hchar⟩ := ih (i + 1) T1 T h
        (fun k pb h1 h2 h3 => hord k pb (by omega) (by omega) h3)
      refine ⟨?_, ?_⟩
      · intro k hk
        have hki : k ≠ i := by omega
        rw [hframe k (by omega), hT1, Function.update_noteq hki]
      · intro k hk1 hk2
        by_cases hki : k = i
        · subst hki
          refine ⟨pbone, hb, hm, ?_⟩
          rw [hframe k (Or.inl (by omega)), hT1, Function.update_same]
          by_cases hp : pbone.parent = -1
          · simp only [hp, if_true]
          · simp only [hp, if_false]
            have h2 : 0 ≤ pbone.parent ∧ pbone.parent < k := by
              rcases ho with ho | ho
              · exact absurd ho hp
              · exact ho
            have hne : pbone.parent.toNat ≠ k := by omega
            rw [hframe pbone.parent.toNat (Or.inl (by omega)), hT1, Function.update_noteq hne]
        · exact hchar k (by omega) (by omega)

/-- Two runs of the matrix pass on a skeleton whose bones come after their
parents, with positions and quaternions that agree on the range: if one
returns, so does the other, with the same transforms on the slots below the end
of the range, and its other slots as before. -/
theorem concatLoop_agree (c : StudioConsts) (ml : MathLib) (hdr : studiohdr_t)
    (qA qB : Nat → vec4_t) (pA pB : Nat → vec3_t) :
    ∀ (n i : Nat) (TA0 TB0 TA : Nat → mat3x4),
      forLoop (concatBonesBody c ml hdr qA pA) n i TA0 = some TA →
      (∀ k, k < i → TB0 k = TA0 k) →
      (∀ k, i ≤ k → k < i + n → qB k = qA k ∧ pB k = pA k) →
      (∀ (k : Nat) (pbone : mstudiobone_t), i ≤ k → k < i + n → hdr.bones k = some pbone →
        pbone.parent = -1 ∨ (0 ≤ pbone.parent ∧ pbone.parent < k)) →
      ∃ TB, forLoop (concatBonesBody c ml hdr qB pB) n i TB0 = some TB
        ∧ (∀ k, k < i + n → TB k = TA k) ∧ (∀ k, i + n ≤ k → TB k = TB0 k) := by
  intro n
  induction n with
  | zero =>
    intro i TA0 TB0 TA h hpre _ _
    simp only [forLoop, Option.some.injEq] at h
    subst h
    exact ⟨TB0, rfl, fun k hk => hpre k (by omega), fun _ _ => rfl⟩
  | succ n ih =>
    intro i TA0 TB0 TA h hpre htmp hord
    simp only [forLoop] at h ⊢
    cases hbody : concatBonesBody c ml hdr qA pA i TA0 with
    | none => simp [hbody] at h
    | some TA1 =>
      simp only [hbody] at h
      obtain ⟨pbone, hb, hm⟩ := concatBonesBody_bone c ml hdr qA pA i TA0 TA1 hbody
      have ho := hord i pbone (le_refl _) (by omega) hb
      rw [concatBonesBody_ordered c ml hdr qA pA i TA0 pbone hb hm ho] at hbody
      have hTA1 := (Option.some.inj hbody).symm
      rw [concatBonesBody_ordered c ml hdr qB pB i TB0 pbone hb hm ho]
      simp only
      have hq := htmp i (le_refl _) (by omega)
      have hparent : pbone.parent ≠ -1 → TB0 pbone.parent.toNat = TA0 pbone.parent.toNat := by
        intro hp
        have h2 : 0 ≤ pbone.parent ∧ pbone.parent < i := by
          rcases ho with ho | ho
          · exact absurd ho hp
          · exact ho
        exact hpre _ (by omega)
      obtain ⟨TB, hTB, hlow, hhigh⟩ := ih (i + 1) TA1
        (Function.update TB0 i
          (if pbone.parent = -1 then boneMatrix ml (qB i) (pB i)
            else ml.R_ConcatTransforms (TB0 pbone.parent.toNat) (boneMatrix ml (qB i) (pB i))))
        TA h
        (by
          intro k hk
          rw [hTA1]
          by_cases hki : k = i
          · subst hki
            simp only [Function.update_same, hq.1, hq.2]
            by_cases hp : pbone.parent = -1
            · simp only [hp, if_true]
            · simp only [hp, if_false, hparent hp]
          · simp only [Function.update_noteq hki]
            exact hpre k (by omega))
        (fun k h1 h2 => htmp k (by omega) (by omega))
        (fun k pb h1 h2 h3 => hord k pb (by omega) (by omega) h3)
      refine ⟨TB, hTB, fun k hk => hlow k (by omega), ?_⟩
      intro k hk
      have hki : k ≠ i := by omega
      rw [hhigh k (by omega), Function.update_noteq hki]

/-- Two runs of `SlerpBones` on arrays that agree on the slots below
`numbones`: if one returns, so does the other, and what they leave agrees on
these slots. -/
theorem SlerpBones_agree (c : StudioConsts) (ml : MathLib) (hdr : studiohdr_t)
    (q1 q2 q1B q2B q' : Nat → vec4_t) (p1 p2 p1B p2B p' : Nat → vec3_t) (s : ℚ)
    (h : SlerpBones c ml hdr q1 p1 q2 p2 s = some (q', p'))
    (h1 : ∀ k, k < hdr.numbones.toNat → p1B k = p1 k ∧ q1B k = q1 k)
    (h2 : ∀ k, k < hdr.numbones.toNat → p2B k = p2 k ∧ q2B k = q2 k) :
    ∃ qB' pB', SlerpBones c ml hdr q1B p1B q2B p2B s = some (qB', pB')
      ∧ ∀ k, k < hdr.numbones.toNat → pB' k = p' k ∧ qB' k = q' k := by
  obtain ⟨hv, -⟩ := (SlerpBones_iff c ml hdr q1 p1 q2 p2 s q' p').1 h
  refine ⟨fun k => if k < hdr.numbones.toNat then q' k else q1B k,
    fun k => if k < hdr.numbones.toNat then p' k else p1B k, ?_, ?_⟩
  · rw [SlerpBones_iff]
    refine ⟨?_, ?_⟩
    · intro k hk
      obtain ⟨hm, hq, hp⟩ := hv k hk
      simp only [hk, if_true]
      rw [(h1 k hk).1, (h1 k hk).2, (h2 k hk).1, (h2 k hk).2]
      exact ⟨hm, hq, hp⟩
    · intro k hk
      have : ¬ k < hdr.numbones.toNat := by omega
      simp [this]
  · intro k hk
    simp [hk]

/-- Two runs of the blending part of `SetUpBones` with the same controller
values, blend values and frame, whose calls of `CalcBoneAdj` give the same
adjustments: if one returns, so does the other, and the positions and
quaternions they leave agree on the slots below `numbones`. -/
theorem blendSequence_agree (c : StudioConsts) (ml : MathLib) (hdr : studiohdr_t)
    (pseqdesc : mstudioseqdesc_t) (panim : List mstudioanim_t) (a b a' : StudioModelAnimating)
    (hc : b.m_Controllers = a.m_Controllers) (hm : b.m_Mouth = a.m_Mouth)
    (hf : b.m_Frame = a.m_Frame) (hbl : b.m_Blendings = a.m_Blendings)
    (hadj : CalcBoneAdj c hdr a.m_Controllers a.m_Mouth b.m_BoneAdjust
      = CalcBoneAdj c hdr a.m_Controllers a.m_Mouth a.m_BoneAdjust)
    (h : blendSequence c ml hdr pseqdesc panim a = some a') :
    ∃ b', blendSequence c ml hdr pseqdesc panim b = some b'
      ∧ ∀ k, k < hdr.numbones.toNat → b'.tmp_pos k = a'.tmp_pos k ∧ b'.tmp_q k = a'.tmp_q k := by
  by_cases hn : pseqdesc.numblends > 1
  · by_cases h4 : pseqdesc.numblends = 4
    · obtain ⟨a1, P0, Q0, a2, P1, Q1, q01, p01, a3, P2, Q2, a4, P3, Q3, q23, p23, qf, pf, h0, h1,
        hs, h2, h3, hs2, hs3, rfl⟩ := (blendSequence_four c ml hdr pseqdesc panim a a' h4).1 h
      have e0 := (CalcRotations_sampled c ml hdr _ _ _ _ _ pseqdesc panim panim _ _ _ _ 0
        (fun k => by rw [Nat.zero_mul, Nat.zero_add]) h0).1
      have e1 := (CalcRotations_sampled c ml hdr _ _ _ _ _ pseqdesc panim _ _ _ _ _ 1
        (drop_blocks1 panim _) h1).1
      have e2 := (CalcRotations_sampled c ml hdr _ _ _ _ _ pseqdesc panim _ _ _ _ _ 2
        (drop_blocks2 panim _) h2).1
      have e3 := (CalcRotations_sampled c ml hdr _ _ _ _ _ pseqdesc panim _ _ _ _ _ 3
        (drop_blocks3 panim _) h3).1
      obtain ⟨P0B, Q0B, g0, r0⟩ := CalcRotations_agree c ml hdr _ _ _ b.m_BoneAdjust _ _ b.tmp_pos
        _ _ b.tmp_q _ pseqdesc _ _ h0 (hadj.trans e0)
      obtain ⟨P1B, Q1B, g1, r1⟩ := CalcRotations_agree c ml hdr _ _ _ a1 _ _ b.tmp_pos2
        _ _ b.tmp_q2 _ pseqdesc _ _ h1 e1
      obtain ⟨P2B, Q2B, g2, r2⟩ := CalcRotations_agree c ml hdr _ _ _ a2 _ _ b.tmp_pos3
        _ _ b.tmp_q3 _ pseqdesc _ _ h2 e2
      obtain ⟨P3B, Q3B, g3, r3⟩ := CalcRotations_agree c ml hdr _ _ _ a3 _ _ b.tmp_pos4
        _ _ b.tmp_q4 _ pseqdesc _ _ h3 e3
      obtain ⟨q01B, p01B, gs, rs⟩ := SlerpBones_agree c ml hdr _ _ Q0B Q1B _ _ _ P0B P1B _ _ hs
        r0 r1
      obtain ⟨q23B, p23B, gs2, rs2⟩ := SlerpBones_agree c ml hdr _ _ Q2B Q3B _ _ _ P2B P3B _ _
        hs2 r2 r3
      obtain ⟨qfB, pfB, gs3, rs3⟩ := SlerpBones_agree c ml hdr _ _ q01B q23B _ _ _ p01B p23B _ _
        hs3 rs rs2
      refine ⟨_, (blendSequence_four c ml hdr pseqdesc panim b _ h4).2
        ⟨a1, P0B, Q0B, a2, P1B, Q1B, q01B, p01B, a3, P2B, Q2B, a4, P3B, Q3B, q23B, p23B, qfB,
          pfB, ?_, ?_, ?_, ?_, ?_, ?_, ?_, rfl⟩, ?_⟩
      · rw [hc, hm, hf]; exact g0
      · rw [hc, hm, hf]; exact g1
      · rw [hbl]; exact gs
      · rw [hc, hm, hf]; exact g2
      · rw [hc, hm, hf]; exact g3
      · rw [hbl]; exact gs2
      · rw [hbl]; exact gs3
      · exact rs3
    · obtain ⟨a1, P0, Q0, a2, P1, Q1, q01, p01, h0, h1, hs, rfl⟩ :=
        (blendSequence_two c ml hdr pseqdesc panim a a' hn h4).1 h
      have e0 := (CalcRotations_sampled c ml hdr _ _ _ _ _ pseqdesc panim panim _ _ _ _ 0
        (fun k => by rw [Nat.zero_mul, Nat.zero_add]) h0).1
      have e1 := (CalcRotations_sampled c ml hdr _ _ _ _ _ pseqdesc panim _ _ _ _ _ 1
        (drop_blocks1 panim _) h1).1
      obtain ⟨P0B, Q0B, g0, r0⟩ := CalcRotations_agree c ml hdr _ _ _ b.m_BoneAdjust _ _ b.tmp_pos
        _ _ b.tmp_q _ pseqdesc _ _ h0 (hadj.trans e0)
      obtain ⟨P1B, Q1B, g1, r1⟩ := CalcRotations_agree c ml hdr _ _ _ a1 _ _ b.tmp_pos2
        _ _ b.tmp_q2 _ pseqdesc _ _ h1 e1
      obtain ⟨q01B, p01B, gs, rs⟩ := SlerpBones_agree c ml hdr _ _ Q0B Q1B _ _ _ P0B P1B _ _ hs
        r0 r1
      refine ⟨_, (blendSequence_two c ml hdr pseqdesc panim b _ hn h4).2
        ⟨a1, P0B, Q0B, a2, P1B, Q1B, q01B, p01B, ?_, ?_, ?_, rfl⟩, ?_⟩
      · rw [hc, hm, hf]; exact g0
      · rw [hc, hm, hf]; exact g1
      · rw [hbl]; exact gs
      · exact rs
  · obtain ⟨a1, P0, Q0, h0, rfl⟩ := (blendSequence_one c ml hdr pseqdesc panim a a' hn).1 h
    have e0 := (CalcRotations_sampled c ml hdr _ _ _ _ _ pseqdesc panim panim _ _ _ _ 0
      (fun k => by rw [Nat.zero_mul, Nat.zero_add]) h0).1
    obtain ⟨P0B, Q0B, g0, r0⟩ := CalcRotations_agree c ml hdr _ _ _ b.m_BoneAdjust _ _ b.tmp_pos
      _ _ b.tmp_q _ pseqdesc _ _ h0 (hadj.trans e0)
    refine ⟨_, (blendSequence_one c ml hdr pseqdesc panim b _ hn).2
      ⟨a1, P0B, Q0B, ?_, rfl⟩, ?_⟩
    · rw [hc, hm, hf]; exact g0
    · exact r0

/-! ## `SetUpBones`: theorems -/

/-- With the header bound, the sequence found and its animation data found,
`SetUpBones` is the blending part followed by the matrix pass. -/
theorem SetUpBones_iff (c : StudioConsts) (ml : MathLib) (st st' : StudioModelAnimating)
    (hdr : studiohdr_t) (pseqdesc : mstudioseqdesc_t) (panim : List mstudioanim_t)
    (hhdr : st.m_StudioHeader = some hdr)
    (hseq : hdr.seqdescs (if st.m_Sequence ≥ hdr.numseq then 0 else st.m_Sequence)
      = some pseqdesc)
    (hanim : GetAnim st.m_StudioSequenceGroupHeaders hdr pseqdesc = some (some panim)) :
    SetUpBones c ml st = some st' ↔
      ∃ stB T,
        blendSequence c ml hdr pseqdesc panim
            { st with m_Sequence := if st.m_Sequence ≥ hdr.numseq then 0 else st.m_Sequence }
          = some stB
        ∧ concatBones c ml hdr stB.tmp_q stB.tmp_pos stB.m_BoneTransforms = some T
        ∧ st' = { stB with m_BoneTransforms := T } := by
  unfold SetUpBones
  simp only [hhdr, hseq, hanim]
  constructor
  · intro h
    split at h
    · simp at h
    · rename_i stB hB
      split at h
      · simp at h
      · rename_i T hT
        simp only [Option.some.injEq] at h
        exact ⟨stB, T, hB, hT, h.symm⟩
  · rintro ⟨stB, T, hB, hT, rfl⟩
    simp only [hB, hT]

/-- The sequence index that `SetUpBones` leaves is left as it is by the next
call. -/
theorem sequence_normal (m_Sequence numseq : Int) :
    (if (if m_Sequence ≥ numseq then 0 else m_Sequence) ≥ numseq then 0
      else (if m_Sequence ≥ numseq then 0 else m_Sequence))
      = if m_Sequence ≥ numseq then 0 else m_Sequence := by
  by_cases h : m_Sequence ≥ numseq
  · simp [h]
  · simp [h]

/-- C13 (counterexample): a skeleton of two bones in which bone 0 has bone 1
for parent. The first call of `SetUpBones` on a new object concatenates bone 0
with the transform of bone 1 that the constructor left (all zero), the second
call with the one that the first call computed: the transform of bone 0 is the
zero matrix after the first call and the translation by (1, 0, 0) after the
second. -/
theorem SetUpBones_reversed_parent :
    (SetUpBones sampleConsts sampleMathLib (newAnimating (some reversedSkeleton))).map
        (fun st => st.m_BoneTransforms 0) = some zeroMatrix
      ∧ ((SetUpBones sampleConsts sampleMathLib (newAnimating (some reversedSkeleton))).bind
          (SetUpBones sampleConsts sampleMathLib)).map (fun st => st.m_BoneTransforms 0)
        = some ⟨1, 0, 0, 1, 0, 1, 0, 0, 0, 0, 1, 0⟩
      ∧ zeroMatrix ≠ (⟨1, 0, 0, 1, 0, 1, 0, 0, 0, 0, 1, 0⟩ : mat3x4) := by
  refine ⟨by decide!, by decide!, by decide!⟩

/-- C13 (amended): when every bone is a root or has a parent index that is not
negative and smaller than its own index, a call of `SetUpBones` that follows
one that returned, with nothing changed in between, returns as well and leaves
the array `m_BoneTransforms` as the first call left it. -/
theorem SetUpBones_twice (c : StudioConsts) (ml : MathLib) (st st1 : StudioModelAnimating)
    (hord : ∀ hdr, st.m_StudioHeader = some hdr → parentsFirst hdr)
    (h : SetUpBones c ml st = some st1) :
    ∃ st2, SetUpBones c ml st1 = some st2 ∧ st2.m_BoneTransforms = st1.m_BoneTransforms := by
  cases hh : st.m_StudioHeader with
  | none =>
    have h1 : SetUpBones c ml st = some st := by
      unfold SetUpBones
      simp only [hh]
    rw [h1] at h
    have := Option.some.inj h
    subst this
    exact ⟨st, h1, rfl⟩
  | some hdr =>
    cases hs : hdr.seqdescs (if st.m_Sequence ≥ hdr.numseq then 0 else st.m_Sequence) with
    | none =>
      unfold SetUpBones at h
      simp only [hh, hs] at h
      simp at h
    | some pseqdesc =>
      cases ha : GetAnim st.m_StudioSequenceGroupHeaders hdr pseqdesc with
      | none =>
        unfold SetUpBones at h
        simp only [hh, hs, ha] at h
        simp at h
      | some found =>
        cases found with
        | none =>
          unfold SetUpBones at h
          simp only [hh, hs, ha, Option.some.injEq] at h
          subst h
          refine ⟨{ st with
            m_Sequence := if st.m_Sequence ≥ hdr.numseq then 0 else st.m_Sequence }, ?_, rfl⟩
          unfold SetUpBones
          simp only [hh, sequence_normal, hs, ha]
        | some panim =>
          obtain ⟨stB, T1, hB, hT, rfl⟩ :=
            (SetUpBones_iff c ml st st1 hdr pseqdesc panim hh hs ha).1 h
          obtain ⟨f1, f2, f3, f4, f5, f6, f7, f8⟩ :=
            blendSequence_fields c ml hdr pseqdesc panim _ stB hB
          simp only at f1 f2 f3 f4 f5 f6 f7 f8
          have eA := (blendSequence_positions c ml hdr pseqdesc panim _ stB hB).1
          simp only at eA
          have hidem := CalcBoneAdj_idem c hdr _ _ _ _ eA
          obtain ⟨b', hb', hagree⟩ := blendSequence_agree c ml hdr pseqdesc panim
            { st with m_Sequence := if st.m_Sequence ≥ hdr.numseq then 0 else st.m_Sequence }
            { stB with m_BoneTransforms := T1 } stB f5 f7 f4 f6 (hidem.trans eA.symm) hB
          have g8 := (blendSequence_fields c ml hdr pseqdesc panim _ b' hb').2.2.2.2.2.2.2
          simp only at g8
          unfold concatBones at hT
          obtain ⟨T2, hT2, hlow, hhigh⟩ := concatLoop_agree c ml hdr stB.tmp_q b'.tmp_q
            stB.tmp_pos b'.tmp_pos hdr.numbones.toNat 0 stB.m_BoneTransforms T1 T1 hT
            (fun k hk => absurd hk (by omega))
            (fun k _ hk => ⟨(hagree k (by omega)).2, (hagree k (by omega)).1⟩)
            (fun k pb _ hk hb => hord hdr hh k pb (by omega) hb)
          have hT21 : T2 = T1 := by
            funext k
            by_cases hk : k < hdr.numbones.toNat
            · exact hlow k (by omega)
            · exact hhigh k (by omega)
          have hseqn : (if stB.m_Sequence ≥ hdr.numseq then 0 else stB.m_Sequence)
              = stB.m_Sequence := by
            rw [f3, sequence_normal]
          have key := (SetUpBones_iff c ml { stB with m_BoneTransforms := T1 }
            { b' with m_BoneTransforms := T2 } hdr pseqdesc panim (f1.trans hh)
            (by
              show hdr.seqdescs (if stB.m_Sequence ≥ hdr.numseq then 0 else stB.m_Sequence) = _
              rw [f3, sequence_normal]
              exact hs)
            (by
              show GetAnim stB.m_StudioSequenceGroupHeaders hdr pseqdesc = _
              rw [f2]
              exact ha)).2
          refine ⟨{ b' with m_BoneTransforms := T2 }, key ⟨b', T2, ?_, ?_, rfl⟩, hT21⟩
          · simp only [hseqn]
            exact hb'
          · unfold concatBones
            rw [g8]
            exact hT2

/-- On the skeleton of two bones in which bone 1 has bone 0 for parent, a second
call of `SetUpBones` on a new object returns the transforms of the first. -/
theorem SetUpBones_twice_witness :
    ∃ st1 st2,
      SetUpBones sampleConsts sampleMathLib (newAnimating (some orderedSkeleton)) = some st1
        ∧ SetUpBones sampleConsts sampleMathLib st1 = some st2
        ∧ st2.m_BoneTransforms = st1.m_BoneTransforms := by
  have hs : (SetUpBones sampleConsts sampleMathLib
      (newAnimating (some orderedSkeleton))).isSome = true := by decide!
  obtain ⟨st1, h1⟩ := Option.isSome_iff_exists.1 hs
  have hord : ∀ hdr, (newAnimating (some orderedSkeleton)).m_StudioHeader = some hdr →
      parentsFirst hdr := by
    intro hdr hh
    have : hdr = orderedSkeleton := (Option.some.inj hh).symm
    subst this
    intro i pbone hi hb
    have hi2 : i < 2 := hi
    interval_cases i
    · have : pbone = sampleBone (-1) 1 := (Option.some.inj hb).symm
      subst this
      exact Or.inl rfl
    · have : pbone = sampleBone 0 2 := (Option.some.inj hb).symm
      subst this
      exact Or.inr ⟨by decide, by decide⟩
  obtain ⟨st2, h2, h3⟩ := SetUpBones_twice sampleConsts sampleMathLib
    (newAnimating (some orderedSkeleton)) st1 hord h1
  exact ⟨st1, st2, h1, h2, h3⟩

/-- The matrix pass returns on a skeleton whose bones come after their parents,
when the bones of the range exist and lie inside the arrays. -/
theorem concatLoop_some (c : StudioConsts) (ml : MathLib) (hdr : studiohdr_t)
    (tmp_q : Nat → vec4_t) (tmp_pos : Nat → vec3_t) :
    ∀ (n i : Nat) (T0 : Nat → mat3x4),
      (∀ k, i ≤ k → k < i + n → ∃ pbone, hdr.bones k = some pbone) →
      i + n ≤ c.MAXSTUDIOBONES →
      (∀ (k : Nat) (pbone : mstudiobone_t), i ≤ k → k < i + n → hdr.bones k = some pbone →
        pbone.parent = -1 ∨ (0 ≤ pbone.parent ∧ pbone.parent < k)) →
      ∃ T, forLoop (concatBonesBody c ml hdr tmp_q tmp_pos) n i T0 = some T := by
  intro n
  induction n with
  | zero =>
    intro i T0 _ _ _
    exact ⟨T0, rfl⟩
  | succ n ih =>
    intro i T0 hbones hmax hord
    obtain ⟨pbone, hb⟩ := hbones i (le_refl _) (by omega)
    simp only [forLoop]
    rw [concatBonesBody_ordered c ml hdr tmp_q tmp_pos i T0 pbone hb (by omega)
      (hord i pbone (le_refl _) (by omega) hb)]
    exact ih (i + 1) _ (fun k h1 h2 => hbones k (by omega) (by omega)) (by omega)
      (fun k pb h1 h2 h3 => hord k pb (by omega) (by omega) h3)

theorem pathProduct_append (ml : MathLib) (localMatrix : Nat → mat3x4) (path : List Nat)
    (m : mat3x4) (i : Nat) (h : pathProduct ml localMatrix path = some m) :
    pathProduct ml localMatrix (path ++ [i])
      = some (ml.R_ConcatTransforms m (localMatrix i)) := by
  cases path with
  | nil => simp [pathProduct] at h
  | cons r rest =>
    simp only [pathProduct, Option.some.injEq] at h
    simp only [List.cons_append, pathProduct, List.foldl_append, List.foldl_cons, List.foldl_nil,
      h]

/-- When each transform is the bone's own matrix (a root) or the parent's
transform concatenated with it, and parents come first, the transform of a bone
is the product of the local matrices along its path from the root. -/
theorem pathProduct_transform (ml : MathLib) (hdr : studiohdr_t) (localMatrix : Nat → mat3x4)
    (T : Nat → mat3x4) (hord : parentsFirst hdr)
    (hT : ∀ k, k < hdr.numbones.toNat → ∃ pbone, hdr.bones k = some pbone
      ∧ T k = if pbone.parent = -1 then localMatrix k
          else ml.R_ConcatTransforms (T pbone.parent.toNat) (localMatrix k)) :
    ∀ (fuel i : Nat), i ≤ fuel → i < hdr.numbones.toNat →
      pathProduct ml localMatrix (bonePath hdr fuel i) = some (T i) := by
  intro fuel
  induction fuel with
  | zero =>
    intro i hi hn
    obtain ⟨pbone, hb, hv⟩ := hT i hn
    have hp : pbone.parent = -1 := by
      rcases hord i pbone hn hb with h | h
      · exact h
      · omega
    simp only [bonePath, pathProduct, List.foldl_nil, hv, hp, if_true]
  | succ fuel ih =>
    intro i hi hn
    obtain ⟨pbone, hb, hv⟩ := hT i hn
    simp only [bonePath, hb]
    by_cases hp : pbone.parent = -1
    · simp only [hp, if_true, pathProduct, List.foldl_nil, hv]
    · have h2 : 0 ≤ pbone.parent ∧ pbone.parent < i := by
        rcases hord i pbone hn hb with h | h
        · exact absurd h hp
        · exact h
      simp only [hp, if_false]
      rw [pathProduct_append ml localMatrix _ _ i (ih pbone.parent.toNat (by omega) (by omega)),
        hv]
      simp only [hp, if_false]

/-- C14: on a skeleton in which every bone is a root or has a parent index that
is not negative and smaller than its own index, after a call of `SetUpBones`
that evaluates the pose, the transform of a root is its own local matrix (the
rotation of its quaternion with its position), the transform of every other
bone is its parent's transform of the same call concatenated with its local
matrix, and so each transform is the product of the local matrices along the
path from the root. The matrix pass returns on such a skeleton when the bones
exist and `numbones` is at most `MAXSTUDIOBONES`. -/
theorem SetUpBones_transforms (c : StudioConsts) (ml : MathLib) (st st' : StudioModelAnimating)
    (hdr : studiohdr_t) (pseqdesc : mstudioseqdesc_t) (panim : List mstudioanim_t)
    (hhdr : st.m_StudioHeader = some hdr)
    (hseq : hdr.seqdescs (if st.m_Sequence ≥ hdr.numseq then 0 else st.m_Sequence)
      = some pseqdesc)
    (hanim : GetAnim st.m_StudioSequenceGroupHeaders hdr pseqdesc = some (some panim))
    (hord : parentsFirst hdr) (h : SetUpBones c ml st = some st') :
    (∀ i, i < hdr.numbones.toNat → ∃ pbone, hdr.bones i = some pbone
        ∧ (pbone.parent = -1 →
            st'.m_BoneTransforms i = boneMatrix ml (st'.tmp_q i) (st'.tmp_pos i))
        ∧ (pbone.parent ≠ -1 →
            st'.m_BoneTransforms i
              = ml.R_ConcatTransforms (st'.m_BoneTransforms pbone.parent.toNat)
                  (boneMatrix ml (st'.tmp_q i) (st'.tmp_pos i)))
        ∧ pathProduct ml (fun j => boneMatrix ml (st'.tmp_q j) (st'.tmp_pos j))
            (bonePath hdr i i) = some (st'.m_BoneTransforms i))
      ∧ (∀ (tmp_q : Nat → vec4_t) (tmp_pos : Nat → vec3_t) (T0 : Nat → mat3x4),
          (∀ k, k < hdr.numbones.toNat → ∃ pbone, hdr.bones k = some pbone) →
          hdr.numbones.toNat ≤ c.MAXSTUDIOBONES →
          ∃ T, concatBones c ml hdr tmp_q tmp_pos T0 = some T) := by
  obtain ⟨stB, T, hB, hT, rfl⟩ := (SetUpBones_iff c ml st st' hdr pseqdesc panim hhdr hseq hanim).1 h
  unfold concatBones at hT
  obtain ⟨-, hchar⟩ := concatLoop_spec c ml hdr stB.tmp_q stB.tmp_pos hdr.numbones.toNat 0
    stB.m_BoneTransforms T hT (fun k pb _ hk hb => hord k pb (by omega) hb)
  have hT' : ∀ k, k < hdr.numbones.toNat → ∃ pbone, hdr.bones k = some pbone
      ∧ T k = if pbone.parent = -1 then boneMatrix ml (stB.tmp_q k) (stB.tmp_pos k)
          else ml.R_ConcatTransforms (T pbone.parent.toNat)
            (boneMatrix ml (stB.tmp_q k) (stB.tmp_pos k)) := by
    intro k hk
    obtain ⟨pbone, hb, -, hv⟩ := hchar k (Nat.zero_le _) (by omega)
    exact ⟨pbone, hb, hv⟩
  refine ⟨?_, ?_⟩
  · intro i hi
    obtain ⟨pbone, hb, hv⟩ := hT' i hi
    refine ⟨pbone, hb, ?_, ?_, ?_⟩
    · intro hp
      show T i = _
      rw [hv, if_pos hp]
    · intro hp
      show T i = _
      rw [hv, if_neg hp]
    · exact pathProduct_transform ml hdr
        (fun j => boneMatrix ml (stB.tmp_q j) (stB.tmp_pos j)) T hord hT' i i (le_refl _) hi
  · intro tmp_q tmp_pos T0 hbones hmax
    unfold concatBones
    exact concatLoop_some c ml hdr tmp_q tmp_pos hdr.numbones.toNat 0 T0
      (fun k _ hk => hbones k (by omega)) (by omega)
      (fun k pb _ hk hb => hord k pb (by omega) hb)

/-- On the skeleton of two bones in which bone 1 has bone 0 for parent, the
transform of bone 1 after `SetUpBones` is the product of the local matrices of
bones 0 and 1. -/
theorem SetUpBones_transforms_witness :
    ∃ st', SetUpBones sampleConsts sampleMathLib (newAnimating (some orderedSkeleton)) = some st'
      ∧ pathProduct sampleMathLib
          (fun j => boneMatrix sampleMathLib (st'.tmp_q j) (st'.tmp_pos j))
          (bonePath orderedSkeleton 1 1) = some (st'.m_BoneTransforms 1) := by
  have hs : (SetUpBones sampleConsts sampleMathLib
      (newAnimating (some orderedSkeleton))).isSome = true := by decide!
  obtain ⟨st', h1⟩ := Option.isSome_iff_exists.1 hs
  have hord : parentsFirst orderedSkeleton := by
    intro i pbone hi hb
    have hi2 : i < 2 := hi
    interval_cases i
    · have : pbone = sampleBone (-1) 1 := (Option.some.inj hb).symm
      subst this
      exact Or.inl rfl
    · have : pbone = sampleBone 0 2 := (Option.some.inj hb).symm
      subst this
      exact Or.inr ⟨by decide, by decide⟩
  obtain ⟨pbone, -, -, -, hp⟩ := (SetUpBones_transforms sampleConsts sampleMathLib
    (newAnimating (some orderedSkeleton)) st' orderedSkeleton { fps := 1, numframes := 2 }
    [emptyAnim, emptyAnim] rfl rfl rfl hord h1).1 1 (by decide)
  exact ⟨st', h1, hp⟩

theorem lerp_get (p q : vec3_t) (s : ℚ) (axis : Nat) :
    (p.lerp q s).get axis = p.get axis * (1 - s) + q.get axis * s := by
  unfold vec3_t.lerp vec3_t.get
  split_ifs <;> rfl

theorem zeroAxes_get (c : StudioConsts) (pseqdesc : mstudioseqdesc_t) (p : vec3_t) (axis : Nat) :
    (zeroAxes c pseqdesc p).get axis
      = if motionFlag c pseqdesc axis = true then 0 else p.get axis := by
  unfold zeroAxes vec3_t.get
  by_cases h0 : axis = 0
  · subst h0
    simp
  · by_cases h1 : axis = 1
    · subst h1
      simp
    · have h2 : motionFlag c pseqdesc axis = motionFlag c pseqdesc 2 := by
        simp [motionFlag, h0, h1]
      simp [h0, h1, h2]

theorem motionZero_get (c : StudioConsts) (pseqdesc : mstudioseqdesc_t) (i : Nat) (p : vec3_t)
    (axis : Nat) :
    (motionZero c pseqdesc i p).get axis
      = if (i : Int) = pseqdesc.motionbone ∧ motionFlag c pseqdesc axis = true then 0
        else p.get axis := by
  unfold motionZero
  by_cases hi : (i : Int) = pseqdesc.motionbone
  · simp only [hi, if_true, true_and, zeroAxes_get]
  · simp only [hi, if_false, false_and]

/-- C15: after a call of `SetUpBones` that evaluates the pose, the matrix pass
has turned the positions in `tmp_pos` into the transforms, and for every bone
the position is `lerp(lerp(P0, P1, w0), lerp(P2, P3, w0), w1)` for a sequence
with four blend groups, `lerp(P0, P1, w0)` for a sequence with more than one
group but not four, and `P0` otherwise, where `Pg` is the position sampled from
block `g * numbones + i` and `w0`, `w1` are the blend values divided by 255 and
clamped to `[0, 1]`. -/
theorem SetUpBones_blend (c : StudioConsts) (ml : MathLib) (st st' : StudioModelAnimating)
    (hdr : studiohdr_t) (pseqdesc : mstudioseqdesc_t) (panim : List mstudioanim_t)
    (hhdr : st.m_StudioHeader = some hdr)
    (hseq : hdr.seqdescs (if st.m_Sequence ≥ hdr.numseq then 0 else st.m_Sequence)
      = some pseqdesc)
    (hanim : GetAnim st.m_StudioSequenceGroupHeaders hdr pseqdesc = some (some panim))
    (h : SetUpBones c ml st = some st') :
    concatBones c ml hdr st'.tmp_q st'.tmp_pos st.m_BoneTransforms = some st'.m_BoneTransforms
      ∧ ∀ i, i < hdr.numbones.toNat →
          (pseqdesc.numblends = 4 →
            ∃ P0 P1 P2 P3,
              sampledPosition c hdr st'.m_BoneAdjust pseqdesc panim st.m_Frame 0 i = some P0
                ∧ sampledPosition c hdr st'.m_BoneAdjust pseqdesc panim st.m_Frame 1 i = some P1
                ∧ sampledPosition c hdr st'.m_BoneAdjust pseqdesc panim st.m_Frame 2 i = some P2
                ∧ sampledPosition c hdr st'.m_BoneAdjust pseqdesc panim st.m_Frame 3 i = some P3
                ∧ st'.tmp_pos i =
                    ((P0.lerp P1 (clamp01 ((st.m_Blendings 0 : ℚ) / 255))).lerp
                      (P2.lerp P3 (clamp01 ((st.m_Blendings 0 : ℚ) / 255)))
                      (clamp01 ((st.m_Blendings 1 : ℚ) / 255))))
          ∧ (pseqdesc.numblends > 1 → pseqdesc.numblends ≠ 4 →
              ∃ P0 P1,
                sampledPosition c hdr st'.m_BoneAdjust pseqdesc panim st.m_Frame 0 i = some P0
                  ∧ sampledPosition c hdr st'.m_BoneAdjust pseqdesc panim st.m_Frame 1 i
                    = some P1
                  ∧ st'.tmp_pos i = P0.lerp P1 (clamp01 ((st.m_Blendings 0 : ℚ) / 255)))
          ∧ (¬ pseqdesc.numblends > 1 →
              ∃ P0,
                sampledPosition c hdr st'.m_BoneAdjust pseqdesc panim st.m_Frame 0 i = some P0
                  ∧ st'.tmp_pos i = P0) := by
  obtain ⟨stB, T, hB, hT, rfl⟩ := (SetUpBones_iff c ml st st' hdr pseqdesc panim hhdr hseq hanim).1 h
  have f8 := (blendSequence_fields c ml hdr pseqdesc panim _ stB hB).2.2.2.2.2.2.2
  simp only at f8
  obtain ⟨-, hpos⟩ := blendSequence_positions c ml hdr pseqdesc panim _ stB hB
  simp only at hpos
  refine ⟨by rw [← f8]; exact hT, ?_⟩
  intro i hi
  obtain ⟨-, p1, p2, p4⟩ := hpos i hi
  refine ⟨?_, ?_, ?_⟩
  · intro h4
    obtain ⟨R0, R1, R2, R3, r0, r1, r2, r3, hv⟩ := p4 h4
    exact ⟨_, _, _, _, by simp only [sampledPosition, r0, Option.map_some'],
      by simp only [sampledPosition, r1, Option.map_some'],
      by simp only [sampledPosition, r2, Option.map_some'],
      by simp only [sampledPosition, r3, Option.map_some'], hv⟩
  · intro hn h4
    obtain ⟨R0, R1, r0, r1, hv⟩ := p2 hn h4
    exact ⟨_, _, by simp only [sampledPosition, r0, Option.map_some'],
      by simp only [sampledPosition, r1, Option.map_some'], hv⟩
  · intro hn
    obtain ⟨R0, r0, hv⟩ := p1 hn
    exact ⟨_, by simp only [sampledPosition, r0, Option.map_some'], hv⟩

/-- C16: after a call of `SetUpBones` that evaluates the pose, the matrix pass
has turned the positions in `tmp_pos` into the transforms; the position of the
motion bone has component 0 on every axis whose flag is set in `motiontype`,
whatever the number of blend groups; and every other component of every bone is
the component of the position sampled by `CalcBonePosition`, blended over the
groups. -/
theorem SetUpBones_motion (c : StudioConsts) (ml : MathLib) (st st' : StudioModelAnimating)
    (hdr : studiohdr_t) (pseqdesc : mstudioseqdesc_t) (panim : List mstudioanim_t)
    (hhdr : st.m_StudioHeader = some hdr)
    (hseq : hdr.seqdescs (if st.m_Sequence ≥ hdr.numseq then 0 else st.m_Sequence)
      = some pseqdesc)
    (hanim : GetAnim st.m_StudioSequenceGroupHeaders hdr pseqdesc = some (some panim))
    (h : SetUpBones c ml st = some st') :
    concatBones c ml hdr st'.tmp_q st'.tmp_pos st.m_BoneTransforms = some st'.m_BoneTransforms
      ∧ ∀ (i axis : Nat), i < hdr.numbones.toNat → axis < 3 →
          ((i : Int) = pseqdesc.motionbone → motionFlag c pseqdesc axis = true →
            (st'.tmp_pos i).get axis = 0)
          ∧ (¬ ((i : Int) = pseqdesc.motionbone ∧ motionFlag c pseqdesc axis = true) →
              (¬ pseqdesc.numblends > 1 →
                ∃ R0, rawPosition hdr st'.m_BoneAdjust panim st.m_Frame 0 i = some R0
                  ∧ (st'.tmp_pos i).get axis = R0.get axis)
              ∧ (pseqdesc.numblends > 1 → pseqdesc.numblends ≠ 4 →
                  ∃ R0 R1, rawPosition hdr st'.m_BoneAdjust panim st.m_Frame 0 i = some R0
                    ∧ rawPosition hdr st'.m_BoneAdjust panim st.m_Frame 1 i = some R1
                    ∧ (st'.tmp_pos i).get axis
                      = (R0.lerp R1 (clamp01 ((st.m_Blendings 0 : ℚ) / 255))).get axis)
              ∧ (pseqdesc.numblends = 4 →
                  ∃ R0 R1 R2 R3, rawPosition hdr st'.m_BoneAdjust panim st.m_Frame 0 i = some R0
                    ∧ rawPosition hdr st'.m_BoneAdjust panim st.m_Frame 1 i = some R1
                    ∧ rawPosition hdr st'.m_BoneAdjust panim st.m_Frame 2 i = some R2
                    ∧ rawPosition hdr st'.m_BoneAdjust panim st.m_Frame 3 i = some R3
                    ∧ (st'.tmp_pos i).get axis
                      = ((R0.lerp R1 (clamp01 ((st.m_Blendings 0 : ℚ) / 255))).lerp
                          (R2.lerp R3 (clamp01 ((st.m_Blendings 0 : ℚ) / 255)))
                          (clamp01 ((st.m_Blendings 1 : ℚ) / 255))).get axis)) := by
  obtain ⟨stB, T, hB, hT, rfl⟩ := (SetUpBones_iff c ml st st' hdr pseqdesc panim hhdr hseq hanim).1 h
  have f8 := (blendSequence_fields c ml hdr pseqdesc panim _ stB hB).2.2.2.2.2.2.2
  simp only at f8
  obtain ⟨-, hpos⟩ := blendSequence_positions c ml hdr pseqdesc panim _ stB hB
  simp only at hpos
  refine ⟨by rw [← f8]; exact hT, ?_⟩
  intro i axis hi _
  obtain ⟨-, p1, p2, p4⟩ := hpos i hi
  refine ⟨?_, ?_⟩
  · intro hmb hflag
    have hz : ∀ R, (motionZero c pseqdesc i R).get axis = 0 := by
      intro R
      rw [motionZero_get, if_pos ⟨hmb, hflag⟩]
    show (stB.tmp_pos i).get axis = 0
    by_cases hn : pseqdesc.numblends > 1
    · by_cases h4 : pseqdesc.numblends = 4
      · obtain ⟨R0, R1, R2, R3, -, -, -, -, hv⟩ := p4 h4
        rw [hv, lerp_get, lerp_get, lerp_get, hz, hz, hz, hz]
        ring
      · obtain ⟨R0, R1, -, -, hv⟩ := p2 hn h4
        rw [hv, lerp_get, hz, hz]
        ring
    · obtain ⟨R0, -, hv⟩ := p1 hn
      rw [hv, hz]
  · intro hnot
    have hz : ∀ R, (motionZero c pseqdesc i R).get axis = R.get axis := by
      intro R
      rw [motionZero_get, if_neg hnot]
    refine ⟨?_, ?_, ?_⟩
    · intro hn
      obtain ⟨R0, r0, hv⟩ := p1 hn
      refine ⟨R0, r0, ?_⟩
      show (stB.tmp_pos i).get axis = _
      rw [hv, hz]
    · intro hn h4
      obtain ⟨R0, R1, r0, r1, hv⟩ := p2 hn h4
      refine ⟨R0, R1, r0, r1, ?_⟩
      show (stB.tmp_pos i).get axis = _
      rw [hv, lerp_get, lerp_get, hz, hz]
    · intro h4
      obtain ⟨R0, R1, R2, R3, r0, r1, r2, r3, hv⟩ := p4 h4
      refine ⟨R0, R1, R2, R3, r0, r1, r2, r3, ?_⟩
      show (stB.tmp_pos i).get axis = _
      rw [hv]
      simp only [lerp_get, hz]

/-- On the sample of four blend groups with the blend values 51 and 102, the
position of bone 1 after `SetUpBones` is the blend of the four sampled
positions with the weights 51/255 and 102/255. -/
theorem SetUpBones_blend_witness :
    ∃ st', SetUpBones sampleConsts sampleMathLib blendState = some st'
      ∧ ∃ P0 P1 P2 P3,
          sampledPosition sampleConsts blendSkeleton st'.m_BoneAdjust blendSeqdesc blendBlocks
              blendState.m_Frame 0 1 = some P0
            ∧ sampledPosition sampleConsts blendSkeleton st'.m_BoneAdjust blendSeqdesc blendBlocks
              blendState.m_Frame 1 1 = some P1
            ∧ sampledPosition sampleConsts blendSkeleton st'.m_BoneAdjust blendSeqdesc blendBlocks
              blendState.m_Frame 2 1 = some P2
            ∧ sampledPosition sampleConsts blendSkeleton st'.m_BoneAdjust blendSeqdesc blendBlocks
              blendState.m_Frame 3 1 = some P3
            ∧ st'.tmp_pos 1 =
                ((P0.lerp P1 (clamp01 ((blendState.m_Blendings 0 : ℚ) / 255))).lerp
                  (P2.lerp P3 (clamp01 ((blendState.m_Blendings 0 : ℚ) / 255)))
                  (clamp01 ((blendState.m_Blendings 1 : ℚ) / 255))) := by
  have hs : (SetUpBones sampleConsts sampleMathLib blendState).isSome = true := by decide!
  obtain ⟨st', h1⟩ := Option.isSome_iff_exists.1 hs
  exact ⟨st', h1, ((SetUpBones_blend sampleConsts sampleMathLib blendState st' blendSkeleton
    blendSeqdesc blendBlocks rfl rfl rfl h1).2 1 (by decide)).1 rfl⟩

/-- On the sample of four blend groups, whose motion bone is bone 0 with the X
axis flagged, the position of bone 0 after `SetUpBones` has x = 0. -/
theorem SetUpBones_motion_witness :
    ∃ st', SetUpBones sampleConsts sampleMathLib blendState = some st'
      ∧ (st'.tmp_pos 0).get 0 = 0 := by
  have hs : (SetUpBones sampleConsts sampleMathLib blendState).isSome = true := by decide!
  obtain ⟨st', h1⟩ := Option.isSome_iff_exists.1 hs
  exact ⟨st', h1, ((SetUpBones_motion sampleConsts sampleMathLib blendState st' blendSkeleton
    blendSeqdesc blendBlocks rfl rfl rfl h1).2 0 0 (by decide) (by decide)).1 rfl (by decide)⟩

/-! ## Loading from files: theorems -/

/-- A call of `LoadFromFile` whose file gives no bytes or fails
`VerifyStudioFile` replaces `m_FileData` by what was read and changes nothing
else. -/
theorem LoadFromFile_reject (L : StudioLayout) (pl : PathLib)
    (files : String → Option (List Byte)) (filePath : String) (self : StudioModel)
    (h : ReadAllBytes files filePath = []
      ∨ VerifyStudioFile L.sizeofStudiohdr (ReadAllBytes files filePath) = some false) :
    LoadFromFile L pl files filePath self
      = some { self with m_FileData := ReadAllBytes files filePath } := by
  unfold LoadFromFile
  by_cases he : ReadAllBytes files filePath = []
  · simp [he]
  · rcases h with h | h
    · exact absurd h he
    · have hne : (ReadAllBytes files filePath).isEmpty = false := by
        cases hb : ReadAllBytes files filePath with
        | nil => exact absurd hb he
        | cons _ _ => rfl
      simp only [hne, h]
      rfl

/-- C18 (counterexample): a model that has loaded `a.mdl` and is then asked to
load a file that does not exist keeps the header pointer, path, texture and body
part of `a.mdl`; only `m_FileData` is replaced (by no bytes). -/
theorem LoadFromFile_leftover :
    sampleFiles "nofile.mdl" = none
      ∧ ((LoadFromFile sampleLayout samplePathLib sampleFiles "a.mdl" StudioModel.new).bind
          (LoadFromFile sampleLayout samplePathLib sampleFiles "nofile.mdl")).map
        (fun m => (m.m_FilePath, m.m_StudioHeader.isSome, m.m_Textures.length,
          m.m_BodyParts.length, m.m_FileData.length))
        = some ("a.mdl", true, 1, 1, 0) := by
  refine ⟨by decide!, by decide!⟩

/-- C18 (amended): a call of `LoadFromFile` whose file is unreadable, empty or
fails `VerifyStudioFile` returns and leaves the header pointer, the path, the
body parts and the textures as they were before the call: on a newly
constructed model the header pointer is null, the path empty and the body parts
and textures empty. The bytes read are kept in `m_FileData`. -/
theorem LoadFromFile_rejected (L : StudioLayout) (pl : PathLib)
    (files : String → Option (List Byte)) (filePath : String)
    (hrej : files filePath = none ∨ files filePath = some []
      ∨ ∃ buffer, files filePath = some buffer
          ∧ VerifyStudioFile L.sizeofStudiohdr buffer = some false) :
    (∀ self : StudioModel, ∃ self', LoadFromFile L pl files filePath self = some self'
        ∧ self'.m_StudioHeader = self.m_StudioHeader ∧ self'.m_FilePath = self.m_FilePath
        ∧ self'.m_BodyParts = self.m_BodyParts ∧ self'.m_Textures = self.m_Textures
        ∧ self'.m_StudioTextureHeader = self.m_StudioTextureHeader
        ∧ self'.m_StudioSequenceGroupHeaders = self.m_StudioSequenceGroupHeaders
        ∧ self'.m_FileData = ReadAllBytes files filePath)
      ∧ ∃ self', LoadFromFile L pl files filePath StudioModel.new = some self'
          ∧ self'.m_StudioHeader = none ∧ self'.m_FilePath = ""
          ∧ self'.m_BodyParts = [] ∧ self'.m_Textures = [] := by
  have h : ReadAllBytes files filePath = []
      ∨ VerifyStudioFile L.sizeofStudiohdr (ReadAllBytes files filePath) = some false := by
    rcases hrej with h | h | ⟨buffer, h, hv⟩
    · exact Or.inl (by simp [ReadAllBytes, h])
    · exact Or.inl (by simp [ReadAllBytes, h])
    · exact Or.inr (by simp only [ReadAllBytes, h]; exact hv)
  refine ⟨fun self => ⟨_, LoadFromFile_reject L pl files filePath self h, rfl, rfl, rfl, rfl,
    rfl, rfl, rfl⟩, ⟨_, LoadFromFile_reject L pl files filePath StudioModel.new h, rfl, rfl, rfl,
    rfl⟩⟩

/-- In the sample directory, loading the twelve zero bytes of `junk.mdl`, which
fail `VerifyStudioFile`, into a new model leaves the model empty. -/
theorem LoadFromFile_rejected_witness :
    ∃ self', LoadFromFile sampleLayout samplePathLib sampleFiles "junk.mdl" StudioModel.new
        = some self'
      ∧ self'.m_StudioHeader = none ∧ self'.m_FilePath = ""
      ∧ self'.m_BodyParts = [] ∧ self'.m_Textures = [] :=
  (LoadFromFile_rejected sampleLayout samplePathLib sampleFiles "junk.mdl"
    (Or.inr (Or.inr ⟨List.replicate 12 0, by decide!, by decide!⟩))).2

/-- The decoding part of `LoadFromFile`, loop by loop. -/
theorem LoadFromFileDecode_iff (L : StudioLayout) (pl : PathLib)
    (files : String → Option (List Byte)) (filePath : String) (self self' : StudioModel) :
    LoadFromFileDecode L pl files filePath self = some self' ↔
      ∃ primary textureFile textures parts tables,
        self.m_StudioHeader = some primary ∧ self.m_StudioTextureHeader = some textureFile
          ∧ LoadFromFileTextures L textureFile (L.header textureFile).numtextures.toNat 0
              self.m_Textures = some textures
          ∧ LoadFromFileBodyParts
              ⟨(L.header textureFile).studioTextures, (L.header textureFile).studioSkinRef⟩
              (L.header primary) (L.header primary).numbodyparts.toNat 0 self.m_BodyParts
              = some parts
          ∧ LoadFromFileSeqGroups L pl files filePath ((L.header primary).numseqgroups - 1).toNat
              1 (self.m_StudioSequenceGroupFileData, self.m_StudioSequenceGroupHeaders)
              = some tables
          ∧ self' = { self with m_Textures := textures, m_BodyParts := parts,
                                m_StudioSequenceGroupFileData := tables.1,
                                m_StudioSequenceGroupHeaders := tables.2 } := by
  unfold LoadFromFileDecode
  cases hp : self.m_StudioHeader with
  | none => simp
  | some primary =>
    cases ht : self.m_StudioTextureHeader with
    | none => simp
    | some textureFile =>
      have e1 : (if (L.header textureFile).numtextures > 0 then
            LoadFromFileTextures L textureFile (L.header textureFile).numtextures.toNat 0
              self.m_Textures
          else some self.m_Textures)
          = LoadFromFileTextures L textureFile (L.header textureFile).numtextures.toNat 0
              self.m_Textures := by
        by_cases hn : (L.header textureFile).numtextures > 0
        · simp only [hn, if_true]
        · have : (L.header textureFile).numtextures.toNat = 0 := by omega
          simp only [hn, if_false, this, LoadFromFileTextures]
      have e2 : ∀ acc, (if (L.header primary).numbodyparts > 0 then
            LoadFromFileBodyParts
              ⟨(L.header textureFile).studioTextures, (L.header textureFile).studioSkinRef⟩
              (L.header primary) (L.header primary).numbodyparts.toNat 0 acc
          else some acc)
          = LoadFromFileBodyParts
              ⟨(L.header textureFile).studioTextures, (L.header textureFile).studioSkinRef⟩
              (L.header primary) (L.header primary).numbodyparts.toNat 0 acc := by
        intro acc
        by_cases hn : (L.header primary).numbodyparts > 0
        · simp only [hn, if_true]
        · have : (L.header primary).numbodyparts.toNat = 0 := by omega
          simp only [hn, if_false, this, LoadFromFileBodyParts]
      simp only [e1, e2]
      constructor
      · intro h
        cases h1 : LoadFromFileTextures L textureFile (L.header textureFile).numtextures.toNat 0
            self.m_Textures with
        | none => simp [h1] at h
        | some textures =>
          cases h2 : LoadFromFileBodyParts
              ⟨(L.header textureFile).studioTextures, (L.header textureFile).studioSkinRef⟩
              (L.header primary) (L.header primary).numbodyparts.toNat 0 self.m_BodyParts with
          | none => simp [h1, h2] at h
          | some parts =>
            simp only [h1, h2] at h
            by_cases hn : (L.header primary).numseqgroups > 1
            · simp only [hn, if_true] at h
              cases h3 : LoadFromFileSeqGroups L pl files filePath
                  ((L.header primary).numseqgroups - 1).toNat 1
                  (self.m_StudioSequenceGroupFileData, self.m_StudioSequenceGroupHeaders) with
              | none =>
                simp only [h3] at h
                cases h
              | some tables =>
                obtain ⟨fileData, headers⟩ := tables
                simp only [h3, Option.some.injEq] at h
                exact ⟨primary, textureFile, textures, parts, (fileData, headers), rfl, rfl, h1,
                  h2, h3, h.symm⟩
            · simp only [hn, if_false, Option.some.injEq] at h
              have h0 : ((L.header primary).numseqgroups - 1).toNat = 0 := by omega
              refine ⟨primary, textureFile, textures, parts,
                (self.m_StudioSequenceGroupFileData, self.m_StudioSequenceGroupHeaders), rfl, rfl,
                h1, h2, ?_, h.symm⟩
              rw [h0]
              rfl
      · rintro ⟨primary', textureFile', textures, parts, tables, hp', ht', h1, h2, h3, rfl⟩
        have := Option.some.inj hp'
        subst this
        have := Option.some.inj ht'
        subst this
        simp only [h1, h2]
        by_cases hn : (L.header primary).numseqgroups > 1
        · simp only [hn, if_true, h3]
        · have h0 : ((L.header primary).numseqgroups - 1).toNat = 0 := by omega
          rw [h0] at h3
          simp only [LoadFromFileSeqGroups, Option.some.injEq] at h3
          simp only [hn, if_false, ← h3]

/-- A call of `LoadFromFile` whose file passes `VerifyStudioFile` sets the path
and the two header pointers, looks for the texture file and decodes. -/
theorem LoadFromFile_accept (L : StudioLayout) (pl : PathLib)
    (files : String → Option (List Byte)) (filePath : String) (self : StudioModel)
    (primary : List Byte) (hfile : files filePath = some primary) (hne : primary ≠ [])
    (hver : VerifyStudioFile L.sizeofStudiohdr primary = some true) :
    LoadFromFile L pl files filePath self
      = match LoadFromFileCompanion L pl files filePath
            { self with m_FileData := primary, m_FilePath := filePath,
                        m_StudioHeader := some primary, m_StudioTextureHeader := some primary } with
        | none => none
        | some self => LoadFromFileDecode L pl files filePath self := by
  have hread : ReadAllBytes files filePath = primary := by simp [ReadAllBytes, hfile]
  have hempty : primary.isEmpty = false := by
    cases primary with
    | nil => exact absurd rfl hne
    | cons _ _ => rfl
  unfold LoadFromFile
  simp only [hread, hempty, hver]
  rfl

/-- A texture with at least one pixel whose `index` is negative or not below the
length of the buffer: the first read of the pixel loop is outside the buffer,
and the execution of `LoadTexture` is not defined. -/
theorem LoadTexture_outside (STUDIO_NF_MASKED : Nat) (buffer : List Byte)
    (studioTexture : mstudiotexture_t) (hsize : 0 < studioTexture.width * studioTexture.height)
    (hindex : studioTexture.index < 0 ∨ (buffer.length : Int) ≤ studioTexture.index) :
    readByte buffer (studioTexture.index + (0 : Nat)) = none
      ∧ LoadTexture STUDIO_NF_MASKED buffer studioTexture = none := by
  have hread : readByte buffer (studioTexture.index + (0 : Nat)) = none := by
    unfold readByte
    simp only [Nat.cast_zero, add_zero]
    by_cases h0 : studioTexture.index < 0
    · simp [h0]
    · have h1 : (buffer.length : Int) ≤ studioTexture.index := by
        rcases hindex with h | h
        · exact absurd h h0
        · exact h
      have h2 : buffer.length ≤ studioTexture.index.toNat := by omega
      simp [h0, List.getElem?_eq_none h2]
  refine ⟨hread, ?_⟩
  unfold LoadTexture
  cases h1 : checkInt32 (studioTexture.width * studioTexture.height) with
  | none => rfl
  | some size =>
    obtain ⟨hs, -, -⟩ := checkInt32_some _ _ h1
    subst hs
    dsimp only
    cases h2 : checkInt32 (studioTexture.width * studioTexture.height * 4) with
    | none => rfl
    | some size4 =>
      dsimp only
      by_cases h3 : size4 < 0
      · simp only [h3, if_true]
      · simp only [h3, if_false]
        obtain ⟨n, hn⟩ : ∃ n, (studioTexture.width * studioTexture.height).toNat = n + 1 :=
          ⟨(studioTexture.width * studioTexture.height).toNat - 1, by omega⟩
        rw [hn]
        simp only [pixelLoop, hread]

/-- A command stream without a zero header: the loop of `LoadMesh` reads on to
the end of the stream and past it, whatever the bound on the number of
headers. -/
theorem LoadMeshLoop_no_zero (studioModel : mstudiomodel_t) (s t : ℚ) (fuel : Nat) :
    ∀ (tricmds : List Int) (vertices : List Vertex) (meshIndices : List Nat),
      noZeroHeader fuel tricmds = true →
      LoadMeshLoop studioModel s t fuel tricmds vertices meshIndices = none := by
  induction fuel with
  | zero =>
    intro tricmds vertices meshIndices _
    rfl
  | succ fuel ih =>
    intro tricmds vertices meshIndices h
    cases tricmds with
    | nil => rfl
    | cons i rest =>
      simp only [noZeroHeader, Bool.and_eq_true, decide_eq_true_eq] at h
      obtain ⟨hi, hrec⟩ := h
      simp only [LoadMeshLoop, hi, if_false]
      cases hr : readRun studioModel s t (if i < 0 then toInt16 (-i) else i).toNat rest
          vertices [] with
      | none => rfl
      | some res =>
        obtain ⟨rest', vertices', indices'⟩ := res
        obtain ⟨ext, new, entries, -, -, hrest, -⟩ := readRun_spec studioModel s t _ rest
          vertices [] rest' vertices' indices' hr
        dsimp only
        rw [hrest]
        exact ih _ _ _ hrec

/-- C19 (counterexample): `bad.mdl` passes `VerifyStudioFile`; its texture of
1 x 1 has its pixel at offset 200 of a buffer of 21 bytes. `LoadTexture` reads
the byte at offset 200, which the buffer does not have: the execution is not
defined (there is no decode failure to end in), and so is that of
`LoadFromFile`. A command stream `3, ...` of three entries that ends without a
zero header makes `LoadMesh` read past its end. -/
theorem LoadFromFile_reads_outside :
    VerifyStudioFile sampleLayout.sizeofStudiohdr sampleFileBad = some true
      ∧ (sampleLayout.header sampleFileBad).studioTextures 0 = some ⟨0, 1, 1, 200⟩
      ∧ sampleFileBad.length = 21
      ∧ readByte sampleFileBad 200 = none
      ∧ LoadTexture sampleLayout.STUDIO_NF_MASKED sampleFileBad ⟨0, 1, 1, 200⟩ = none
      ∧ (LoadFromFile sampleLayout samplePathLib sampleFiles "bad.mdl" StudioModel.new).isNone
          = true
      ∧ LoadMesh sampleTextureHeader ⟨0, [3, 0, 0, 0, 0, 1, 0, 0, 0, 2, 0, 0, 0]⟩ sampleModel []
          = none := by
  refine ⟨by decide!, by decide!, by decide!, by decide!, by decide!, by decide!, by decide!⟩

/-- C19 (amended): the decoder checks no offset against the buffer. A texture
whose `width * height` index bytes and 768 palette bytes lie inside the buffer
(with `4 * width * height` in the range of `int`) is decoded. A texture with at
least one pixel whose pixel offset is negative or not below the length of the
buffer makes `LoadTexture` read outside the buffer, and a command stream
without a zero header before its end makes the loop of `LoadMesh` read past the
end: these executions are not defined, and no decode failure is reported. -/
theorem decode_unchecked (STUDIO_NF_MASKED : Nat) (buffer : List Byte)
    (studioTexture : mstudiotexture_t) (studioModel : mstudiomodel_t) (s t : ℚ) (fuel : Nat)
    (tricmds : List Int) (vertices : List Vertex) (meshIndices : List Nat) :
    (0 ≤ studioTexture.width * studioTexture.height →
        4 * (studioTexture.width * studioTexture.height) ≤ INT_MAX →
        0 ≤ studioTexture.index →
        studioTexture.index + studioTexture.width * studioTexture.height + 768 ≤ buffer.length →
        ∃ texture, LoadTexture STUDIO_NF_MASKED buffer studioTexture = some texture)
      ∧ (0 < studioTexture.width * studioTexture.height →
          studioTexture.index < 0 ∨ (buffer.length : Int) ≤ studioTexture.index →
          readByte buffer (studioTexture.index + (0 : Nat)) = none
            ∧ LoadTexture STUDIO_NF_MASKED buffer studioTexture = none)
      ∧ (noZeroHeader fuel tricmds = true →
          LoadMeshLoop studioModel s t fuel tricmds vertices meshIndices = none) :=
  ⟨LoadTexture_returns STUDIO_NF_MASKED buffer studioTexture,
    LoadTexture_outside STUDIO_NF_MASKED buffer studioTexture,
    LoadMeshLoop_no_zero studioModel s t fuel tricmds vertices meshIndices⟩

/-- The sample texture of 2 x 2 with its 768 palette bytes inside the buffer is
decoded; the texture of `bad.mdl` is read outside the buffer; and the stream
`3, ...` without a zero header is read past its end. -/
theorem decode_unchecked_witness :
    (∃ texture, LoadTexture 0x40 sampleTextureBytes ⟨0, 2, 2, 0⟩ = some texture)
      ∧ (readByte sampleFileBad ((200 : Int) + (0 : Nat)) = none
          ∧ LoadTexture 0x40 sampleFileBad ⟨0, 1, 1, 200⟩ = none)
      ∧ LoadMeshLoop sampleModel 1 1 14 [3, 0, 0, 0, 0, 1, 0, 0, 0, 2, 0, 0, 0] [] [] = none :=
  ⟨(decode_unchecked 0x40 sampleTextureBytes ⟨0, 2, 2, 0⟩ sampleModel 1 1 14
      [3, 0, 0, 0, 0, 1, 0, 0, 0, 2, 0, 0, 0] [] []).1 (by decide!) (by decide!) (by decide!)
      (by decide!),
    (decode_unchecked 0x40 sampleFileBad ⟨0, 1, 1, 200⟩ sampleModel 1 1 14
      [3, 0, 0, 0, 0, 1, 0, 0, 0, 2, 0, 0, 0] [] []).2.1 (by decide!) (Or.inr (by decide!)),
    (decode_unchecked 0x40 sampleFileBad ⟨0, 1, 1, 200⟩ sampleModel 1 1 14
      [3, 0, 0, 0, 0, 1, 0, 0, 0, 2, 0, 0, 0] [] []).2.2 (by decide!)⟩

/-! ## Blending toward the next frame: theorems -/

/-- A position channel with a well-formed curve, sampled at a frame that has a
successor in the curve: the code blends `D[frame]` with `D[frame + 1]` by `s`,
except at the last sample of a span with `valid = total`, where it takes
`D[frame]` alone. -/
theorem CalcBonePositionChannel_blend (m_BoneAdjust : Nat → ℚ) (frame : Int) (s : ℚ)
    (pbone : mstudiobone_t) (panim : mstudioanim_t) (j : Nat) (spans : List Span)
    (hoff : panim.offset j ≠ 0) (hwf : wellFormed spans)
    (hc : isCurve spans (panim.animvalue j) = true) (h0 : 0 ≤ frame)
    (h1 : frame + 1 < (expandCurve spans).length) :
    ∃ (num : mstudioanimvalue_t) (rest : List mstudioanimvalue_t) (k : Nat),
      findSpan ((panim.animvalue j).length + 1) (panim.animvalue j) frame
          = some (num :: rest, (k : Int))
        ∧ CalcBonePositionChannel m_BoneAdjust frame s pbone panim j
          = addAdjust m_BoneAdjust pbone j
              (some (pbone.value j
                + (if k + 1 = num.valid ∧ num.valid = num.total then
                    (((expandCurve spans).getD frame.toNat 0 : Int) : ℚ)
                  else
                    (((expandCurve spans).getD frame.toNat 0 : Int) : ℚ) * (1 - s)
                      + s * (((expandCurve spans).getD (frame.toNat + 1) 0 : Int) : ℚ))
                  * pbone.scale j)) := by
  obtain ⟨num, rest, k, hfind, hv1, hvt, hkt, r1, r2, r3, r4, r5, -⟩ :=
    curve_reads spans (panim.animvalue j) frame hwf hc h0 (by omega)
  refine ⟨num, rest, k, hfind, ?_⟩
  unfold CalcBonePositionChannel
  simp only [ne_eq, hoff, not_false_eq_true, if_true, hfind]
  by_cases hkv : k < num.valid
  · have c1 : (num.valid : Int) > (k : Int) := by exact_mod_cast hkv
    obtain ⟨a, ha, hav⟩ := r1 hkv
    rw [if_pos c1, animvalueAt_cons num rest ((k : Int) + 1) k rfl, ha]
    by_cases hkv2 : k + 1 < num.valid
    · have c2 : (num.valid : Int) > (k : Int) + 1 := by exact_mod_cast hkv2
      obtain ⟨b, hb, hbv⟩ := r3 hkv2
      rw [if_pos c2, animvalueAt_cons num rest ((k : Int) + 2) (k + 1) (by push_cast; ring), hb]
      have hne : ¬ (k + 1 = num.valid ∧ num.valid = num.total) := by omega
      rw [if_neg hne, ← hav, ← hbv]
      rfl
    · have c2 : ¬ (num.valid : Int) > (k : Int) + 1 := by
        intro h
        exact hkv2 (by exact_mod_cast h)
      rw [if_neg c2]
      by_cases hfull : num.valid = num.total
      · rw [if_pos ⟨by omega, hfull⟩, ← hav]
        rfl
      · have hne : ¬ (k + 1 = num.valid ∧ num.valid = num.total) := fun h => hfull h.2
        rw [if_neg hne, r4 (by omega) (by omega), ← hav,
          show pbone.value j + ((a.value : ℚ) * (1 - s) + s * (a.value : ℚ)) * pbone.scale j
            = pbone.value j + (a.value : ℚ) * pbone.scale j by ring]
        rfl
  · have c1 : ¬ (num.valid : Int) > (k : Int) := by
      intro h
      exact hkv (by exact_mod_cast h)
    obtain ⟨a, ha, hav⟩ := r2 (by omega)
    have hne : ¬ (k + 1 = num.valid ∧ num.valid = num.total) := by omega
    rw [if_neg c1, animvalueAt_cons num rest (num.valid : Int) (num.valid - 1) (by omega), ha,
      if_neg hne]
    by_cases hedge : num.total ≤ k + 1
    · have c2 : (num.total : Int) ≤ (k : Int) + 1 := by exact_mod_cast hedge
      obtain ⟨b, hb, hbv⟩ := r5 (by omega) h1
      rw [if_pos c2, animvalueAt_cons num rest ((num.valid : Int) + 2) (num.valid + 1)
        (by push_cast; ring), hb, ← hav, ← hbv]
      rfl
    · have c2 : ¬ (num.total : Int) ≤ (k : Int) + 1 := by
        intro h
        exact hedge (by exact_mod_cast h)
      rw [if_neg c2, r4 (by omega) (by omega), ← hav,
        show pbone.value j + ((a.value : ℚ) * (1 - s) + s * (a.value : ℚ)) * pbone.scale j
          = pbone.value j + (a.value : ℚ) * pbone.scale j by ring]
      rfl

/-- C21 (failing input): the curve with samples 5, 7 for two frames and then
sample 9, so `D = [5, 7, 9]`, sampled at frame 1 with `s = 1/2`, base 1 and
scale 1. Frame 1 is the last sample of a span with `valid = total`, and
`CalcBonePosition` returns `1 + 7 = 8` for the channel, without the blend toward
`D[2] = 9` that gives `1 + (7/2 + 9/2) = 9`. `CalcBoneQuaternion` on the same
curve takes the angles 7 and 9. -/
theorem CalcBonePosition_missing_blend :
    isCurve fullSpans (fullSpanAnim.animvalue 0) = true
      ∧ expandCurve fullSpans = [5, 7, 9]
      ∧ CalcBonePositionChannel (fun _ => 0) 1 (1 / 2) (sampleBone (-1) 1) fullSpanAnim 0
        = some 8
      ∧ (sampleBone (-1) 1).value 0 + (sampleBone (-1) 1).scale 0
          * ((1 - 1 / 2) * (((expandCurve fullSpans).getD 1 0 : Int) : ℚ)
            + 1 / 2 * (((expandCurve fullSpans).getD 2 0 : Int) : ℚ)) = 9
      ∧ (CalcBonePosition (fun _ => 0) 1 (1 / 2) (sampleBone (-1) 1) fullSpanAnim).map
          (fun p => p.x) = some 8
      ∧ CalcBoneAngleChannel (fun _ => 0) 1 (sampleBone (-1) 1) fullSpanAnim 0 = some (7, 9) := by
  refine ⟨by decide!, by decide!, by decide!, by decide!, by decide!, by decide!⟩

theorem addAdjust2_value (m_BoneAdjust : Nat → ℚ) (pbone : mstudiobone_t) (j : Nat)
    (angle1 angle2 : ℚ) (a : ℚ × ℚ)
    (h : addAdjust2 m_BoneAdjust pbone j (some (angle1, angle2)) = some a) :
    a.1 = angle1 + channelAdjust m_BoneAdjust pbone j
      ∧ a.2 = angle2 + channelAdjust m_BoneAdjust pbone j := by
  unfold addAdjust2 at h
  unfold channelAdjust
  by_cases hb : pbone.bonecontroller j = -1
  · simp only [hb, ne_eq, not_true_eq_false, if_false, Option.some.injEq] at h
    subst h
    simp [hb]
  · simp only [ne_eq, hb, not_false_eq_true, if_true, if_false] at h ⊢
    unfold readArr at h
    split_ifs at h with hr
    simp only [Option.some.injEq] at h
    subst h
    exact ⟨rfl, rfl⟩

theorem addAdjust2_some (m_BoneAdjust : Nat → ℚ) (pbone : mstudiobone_t) (j : Nat)
    (angle1 angle2 : ℚ)
    (hb : pbone.bonecontroller j = -1 ∨ (0 ≤ pbone.bonecontroller j ∧ pbone.bonecontroller j < 4)) :
    addAdjust2 m_BoneAdjust pbone j (some (angle1, angle2))
      = some (angle1 + channelAdjust m_BoneAdjust pbone j,
          angle2 + channelAdjust m_BoneAdjust pbone j) := by
  unfold addAdjust2 channelAdjust
  by_cases h1 : pbone.bonecontroller j = -1
  · simp [h1]
  · have h2 : 0 ≤ pbone.bonecontroller j ∧ pbone.bonecontroller j < 4 := by
      rcases hb with hb | hb
      · exact absurd hb h1
      · exact hb
    have h3 : 0 ≤ pbone.bonecontroller j ∧ pbone.bonecontroller j < ((4 : Nat) : Int) := by
      simpa using h2
    simp only [ne_eq, h1, not_false_eq_true, if_true, if_false, readArr, h3, and_self]

/-- A rotation channel with a well-formed curve, sampled at a frame that has a
successor in the curve: before the adjustment the two angles are
`base + D[frame] * scale` and `base + D[frame + 1] * scale`. -/
theorem CalcBoneAngleChannel_curve (m_BoneAdjust : Nat → ℚ) (frame : Int)
    (pbone : mstudiobone_t) (panim : mstudioanim_t) (j : Nat) (spans : List Span)
    (hoff : panim.offset (j + 3) ≠ 0) (hwf : wellFormed spans)
    (hc : isCurve spans (panim.animvalue (j + 3)) = true) (h0 : 0 ≤ frame)
    (h1 : frame + 1 < (expandCurve spans).length) :
    CalcBoneAngleChannel m_BoneAdjust frame pbone panim j
      = addAdjust2 m_BoneAdjust pbone (j + 3)
          (some (pbone.value (j + 3)
              + (((expandCurve spans).getD frame.toNat 0 : Int) : ℚ) * pbone.scale (j + 3),
            pbone.value (j + 3)
              + (((expandCurve spans).getD (frame.toNat + 1) 0 : Int) : ℚ)
                * pbone.scale (j + 3))) := by
  obtain ⟨num, rest, k, hfind, hv1, hvt, hkt, r1, r2, r3, r4, r5, -⟩ :=
    curve_reads spans (panim.animvalue (j + 3)) frame hwf hc h0 (by omega)
  unfold CalcBoneAngleChannel
  simp only [hoff, if_false, hfind]
  by_cases hkv : k < num.valid
  · have c1 : (num.valid : Int) > (k : Int) := by exact_mod_cast hkv
    obtain ⟨a, ha, hav⟩ := r1 hkv
    rw [if_pos c1, animvalueAt_cons num rest ((k : Int) + 1) k rfl, ha]
    by_cases hkv2 : k + 1 < num.valid
    · have c2 : (num.valid : Int) > (k : Int) + 1 := by exact_mod_cast hkv2
      obtain ⟨b, hb, hbv⟩ := r3 hkv2
      simp only [if_pos c2]
      rw [animvalueAt_cons num rest ((k : Int) + 2) (k + 1) (by push_cast; ring), hb, ← hav,
        ← hbv]
      rfl
    · have c2 : ¬ (num.valid : Int) > (k : Int) + 1 := by
        intro h
        exact hkv2 (by exact_mod_cast h)
      simp only [if_neg c2]
      by_cases hin : k + 1 < num.total
      · have c3 : (num.total : Int) > (k : Int) + 1 := by exact_mod_cast hin
        simp only [if_pos c3]
        rw [r4 (by omega) hin, ← hav]
        rfl
      · have c3 : ¬ (num.total : Int) > (k : Int) + 1 := by
          intro h
          exact hin (by exact_mod_cast h)
        obtain ⟨b, hb, hbv⟩ := r5 (by omega) h1
        simp only [if_neg c3]
        rw [animvalueAt_cons num rest ((num.valid : Int) + 2) (num.valid + 1)
          (by push_cast; ring), hb, ← hav, ← hbv]
        rfl
  · have c1 : ¬ (num.valid : Int) > (k : Int) := by
      intro h
      exact hkv (by exact_mod_cast h)
    obtain ⟨a, ha, hav⟩ := r2 (by omega)
    rw [if_neg c1, animvalueAt_cons num rest (num.valid : Int) (num.valid - 1) (by omega), ha]
    by_cases hin : k + 1 < num.total
    · have c3 : (num.total : Int) > (k : Int) + 1 := by exact_mod_cast hin
      simp only [if_pos c3]
      rw [r4 (by omega) hin, ← hav]
      rfl
    · have c3 : ¬ (num.total : Int) > (k : Int) + 1 := by
        intro h
        exact hin (by exact_mod_cast h)
      obtain ⟨b, hb, hbv⟩ := r5 (by omega) h1
      simp only [if_neg c3]
      rw [animvalueAt_cons num rest ((num.valid : Int) + 2) (num.valid + 1)
        (by push_cast; ring), hb, ← hav, ← hbv]
      rfl

/-- C22: for a rotation channel `j` with a well-formed run-length curve and a
frame `0 <= frame` with `frame + 1 < |D|`, the two angles that
`CalcBoneQuaternion` computes are `base + scale * D[frame]` and
`base + scale * D[frame + 1]`, each plus the adjustment of the assigned
controller, and they are computed when the controller index is -1 or one of
0..3. From the three pairs of angles the function returns the slerp of the two
converted triples, or, when `VectorCompare` finds the triples equal, the
conversion of `angle1` alone, for every `s`. -/
theorem CalcBoneQuaternion_angles (ml : MathLib) (m_BoneAdjust : Nat → ℚ) (frame : Int)
    (pbone : mstudiobone_t) (panim : mstudioanim_t) :
    (∀ (j : Nat) (spans : List Span), j < 3 → panim.offset (j + 3) ≠ 0 → wellFormed spans →
        isCurve spans (panim.animvalue (j + 3)) = true → 0 ≤ frame →
        frame + 1 < (expandCurve spans).length →
        (∀ a, CalcBoneAngleChannel m_BoneAdjust frame pbone panim j = some a →
            a.1 = pbone.value (j + 3)
                + pbone.scale (j + 3) * (((expandCurve spans).getD frame.toNat 0 : Int) : ℚ)
                + channelAdjust m_BoneAdjust pbone (j + 3)
              ∧ a.2 = pbone.value (j + 3)
                + pbone.scale (j + 3)
                  * (((expandCurve spans).getD (frame.toNat + 1) 0 : Int) : ℚ)
                + channelAdjust m_BoneAdjust pbone (j + 3))
          ∧ (pbone.bonecontroller (j + 3) = -1
                ∨ (0 ≤ pbone.bonecontroller (j + 3) ∧ pbone.bonecontroller (j + 3) < 4) →
              ∃ a, CalcBoneAngleChannel m_BoneAdjust frame pbone panim j = some a))
      ∧ (∀ (a0 a1 a2 : ℚ × ℚ),
          CalcBoneAngleChannel m_BoneAdjust frame pbone panim 0 = some a0 →
          CalcBoneAngleChannel m_BoneAdjust frame pbone panim 1 = some a1 →
          CalcBoneAngleChannel m_BoneAdjust frame pbone panim 2 = some a2 →
          (∀ s, CalcBoneQuaternion ml m_BoneAdjust frame s pbone panim
              = some (if ml.VectorCompare ⟨a0.1, a1.1, a2.1⟩ ⟨a0.2, a1.2, a2.2⟩ = true then
                    ml.AngleQuaternion ⟨a0.1, a1.1, a2.1⟩
                  else ml.QuaternionSlerp (ml.AngleQuaternion ⟨a0.1, a1.1, a2.1⟩)
                    (ml.AngleQuaternion ⟨a0.2, a1.2, a2.2⟩) s))
            ∧ ((⟨a0.1, a1.1, a2.1⟩ : vec3_t) = ⟨a0.2, a1.2, a2.2⟩ →
                ml.VectorCompare ⟨a0.1, a1.1, a2.1⟩ ⟨a0.1, a1.1, a2.1⟩ = true →
                ∀ s, CalcBoneQuaternion ml m_BoneAdjust frame s pbone panim
                  = some (ml.AngleQuaternion ⟨a0.1, a1.1, a2.1⟩))) := by
  refine ⟨?_, ?_⟩
  · intro j spans _ hoff hwf hc h0 h1
    have hch := CalcBoneAngleChannel_curve m_BoneAdjust frame pbone panim j spans hoff hwf hc h0 h1
    refine ⟨?_, ?_⟩
    · intro a ha
      rw [hch] at ha
      obtain ⟨e1, e2⟩ := addAdjust2_value m_BoneAdjust pbone (j + 3) _ _ a ha
      rw [e1, e2]
      constructor <;> ring
    · intro hctrl
      rw [hch, addAdjust2_some m_BoneAdjust pbone (j + 3) _ _ hctrl]
      exact ⟨_, rfl⟩
  · intro a0 a1 a2 h0 h1 h2
    have hq : ∀ s, CalcBoneQuaternion ml m_BoneAdjust frame s pbone panim
        = some (if ml.VectorCompare ⟨a0.1, a1.1, a2.1⟩ ⟨a0.2, a1.2, a2.2⟩ = true then
              ml.AngleQuaternion ⟨a0.1, a1.1, a2.1⟩
            else ml.QuaternionSlerp (ml.AngleQuaternion ⟨a0.1, a1.1, a2.1⟩)
              (ml.AngleQuaternion ⟨a0.2, a1.2, a2.2⟩) s) := by
      intro s
      unfold CalcBoneQuaternion
      simp only [h0, h1, h2]
      by_cases hv : ml.VectorCompare ⟨a0.1, a1.1, a2.1⟩ ⟨a0.2, a1.2, a2.2⟩ = true
      · simp [hv]
      · simp [hv]
    refine ⟨hq, ?_⟩
    intro heq hrefl s
    rw [hq s, ← heq, if_pos hrefl]

/-- On the sample curve with `D = [5, 7, 7, 7, 9]` in the channel of the first
rotation angle, base 0 and scale 1: at frame 0 the angles are 5 and 7; at frame
1 they are 7 and 7, the triples are equal, and the quaternion is the conversion
of `(7, 0, 0)` whatever `s` is. -/
theorem CalcBoneQuaternion_angles_witness :
    (∃ a, CalcBoneAngleChannel (fun _ => 0) 0 (sampleBone (-1) 1) rotationAnim 0 = some a)
      ∧ ∀ s, CalcBoneQuaternion sampleMathLib (fun _ => 0) 1 s (sampleBone (-1) 1) rotationAnim
          = some (sampleMathLib.AngleQuaternion ⟨7, 0, 0⟩) :=
  ⟨((CalcBoneQuaternion_angles sampleMathLib (fun _ => 0) 0 (sampleBone (-1) 1)
      rotationAnim).1 0 sampleSpans (by decide) (by decide) (by unfold wellFormed; decide)
      (by decide) (by decide) (by decide)).2 (Or.inl (by decide)),
    ((CalcBoneQuaternion_angles sampleMathLib (fun _ => 0) 1 (sampleBone (-1) 1)
      rotationAnim).2 (7, 7) (0, 0) (0, 0) (by decide!) (by decide!) (by decide!)).2
      (by decide!) (by decide!)⟩

/-! ## Bone controllers: theorems -/

theorem clamp01_range (t : ℚ) : 0 ≤ clamp01 t ∧ clamp01 t ≤ 1 := by
  unfold clamp01
  split_ifs with h1 h2
  · exact ⟨le_refl _, by norm_num⟩
  · exact ⟨by norm_num, le_refl _⟩
  · exact ⟨le_of_not_lt h1, le_of_not_lt h2⟩

/-- A value `(1 - t) * a + t * b` with `t` in `[0, 1]` lies between `a` and
`b`. -/
theorem lerp_between (a b t : ℚ) (h0 : 0 ≤ t) (h1 : t ≤ 1) :
    min a b ≤ (1 - t) * a + t * b ∧ (1 - t) * a + t * b ≤ max a b := by
  have hs : 0 ≤ 1 - t := by linarith
  constructor
  · have e1 := mul_le_mul_of_nonneg_left (min_le_left a b) hs
    have e2 := mul_le_mul_of_nonneg_left (min_le_right a b) h0
    nlinarith
  · have e1 := mul_le_mul_of_nonneg_left (le_max_left a b) hs
    have e2 := mul_le_mul_of_nonneg_left (le_max_right a b) h0
    nlinarith

/-- C23: the value that `CalcBoneAdj` computes for a controller before the unit
conversion. For a slot index in 0..3, with `r` the raw value of that slot: it is
`r * (360/256) + start` when the type has the flag `STUDIO_RLOOP`, and otherwise
`(1 - t) * start + t * end` with `t = r / 255` clamped to `[0, 1]`, which is
`start` at `r = 0`, `end` at `r = 255`, and lies between `start` and `end`. For
a slot index of 4 or more it is `(1 - t) * start + t * end` with `t = mouth / 64`
clamped to `[0, 1]`. -/
theorem boneControllerValue_rule (c : StudioConsts) (pbonecontroller : mstudiobonecontroller_t)
    (m_Controllers : Nat → Nat) (m_Mouth : Nat) :
    (0 ≤ pbonecontroller.index → pbonecontroller.index ≤ 3 →
        (pbonecontroller.type &&& c.STUDIO_RLOOP ≠ 0 →
          boneControllerValue c pbonecontroller m_Controllers m_Mouth
            = some ((m_Controllers pbonecontroller.index.toNat : ℚ) * (360 / 256)
                + pbonecontroller.start))
        ∧ (pbonecontroller.type &&& c.STUDIO_RLOOP = 0 →
            boneControllerValue c pbonecontroller m_Controllers m_Mouth
                = some ((1 - clamp01 ((m_Controllers pbonecontroller.index.toNat : ℚ) / 255))
                      * pbonecontroller.start
                    + clamp01 ((m_Controllers pbonecontroller.index.toNat : ℚ) / 255)
                      * pbonecontroller.end_)
              ∧ (m_Controllers pbonecontroller.index.toNat = 0 →
                  boneControllerValue c pbonecontroller m_Controllers m_Mouth
                    = some pbonecontroller.start)
              ∧ (m_Controllers pbonecontroller.index.toNat = 255 →
                  boneControllerValue c pbonecontroller m_Controllers m_Mouth
                    = some pbonecontroller.end_)
              ∧ ∃ value, boneControllerValue c pbonecontroller m_Controllers m_Mouth = some value
                  ∧ min pbonecontroller.start pbonecontroller.end_ ≤ value
                  ∧ value ≤ max pbonecontroller.start pbonecontroller.end_))
      ∧ (4 ≤ pbonecontroller.index →
          boneControllerValue c pbonecontroller m_Controllers m_Mouth
              = some ((1 - clamp01 ((m_Mouth : ℚ) / 64)) * pbonecontroller.start
                  + clamp01 ((m_Mouth : ℚ) / 64) * pbonecontroller.end_)
            ∧ ∃ value, boneControllerValue c pbonecontroller m_Controllers m_Mouth = some value
                ∧ min pbonecontroller.start pbonecontroller.end_ ≤ value
                ∧ value ≤ max pbonecontroller.start pbonecontroller.end_) := by
  refine ⟨?_, ?_⟩
  · intro h0 h3
    have hr : 0 ≤ pbonecontroller.index ∧ pbonecontroller.index < ((4 : Nat) : Int) := by
      constructor
      · exact h0
      · push_cast
        omega
    have hread : readArr 4 m_Controllers pbonecontroller.index
        = some (m_Controllers pbonecontroller.index.toNat) := by
      simp only [readArr, hr, and_self, if_true]
    refine ⟨?_, ?_⟩
    · intro hloop
      unfold boneControllerValue
      simp only [h3, if_true, hread, ne_eq, hloop, not_false_eq_true]
    · intro hloop
      have hnn : ∀ r : Nat, ¬ ((r : ℚ) / 255 < 0) := by
        intro r
        have : (0 : ℚ) ≤ (r : ℚ) / 255 := by positivity
        linarith
      have hval : boneControllerValue c pbonecontroller m_Controllers m_Mouth
          = some ((1 - clamp01 ((m_Controllers pbonecontroller.index.toNat : ℚ) / 255))
                * pbonecontroller.start
              + clamp01 ((m_Controllers pbonecontroller.index.toNat : ℚ) / 255)
                * pbonecontroller.end_) := by
        unfold boneControllerValue clamp01
        simp only [h3, if_true, hread, ne_eq, hloop, not_true_eq_false, if_false, hnn]
      refine ⟨hval, ?_, ?_, ?_⟩
      · intro hz
        rw [hval, hz]
        norm_num [clamp01]
      · intro hz
        rw [hval, hz]
        norm_num [clamp01]
      · obtain ⟨c0, c1⟩ := clamp01_range ((m_Controllers pbonecontroller.index.toNat : ℚ) / 255)
        exact ⟨_, hval, lerp_between _ _ _ c0 c1⟩
  · intro h4
    have h3 : ¬ pbonecontroller.index ≤ 3 := by omega
    have hnn : ¬ ((m_Mouth : ℚ) / 64 < 0) := by
      have : (0 : ℚ) ≤ (m_Mouth : ℚ) / 64 := by positivity
      linarith
    have hval : boneControllerValue c pbonecontroller m_Controllers m_Mouth
        = some ((1 - clamp01 ((m_Mouth : ℚ) / 64)) * pbonecontroller.start
            + clamp01 ((m_Mouth : ℚ) / 64) * pbonecontroller.end_) := by
      unfold boneControllerValue clamp01
      simp only [h3, if_false, hnn]
    obtain ⟨c0, c1⟩ := clamp01_range ((m_Mouth : ℚ) / 64)
    exact ⟨hval, _, hval, lerp_between _ _ _ c0 c1⟩

/-- A controller of slot 2 without the flag `STUDIO_RLOOP`, from 10 to 50: the
raw value 255 gives 50; a controller of slot 4 with the mouth value 32 gives the
midpoint 30. -/
theorem boneControllerValue_rule_witness :
    boneControllerValue sampleConsts ⟨8, 10, 50, 2⟩ (fun _ => 255) 0 = some 50
      ∧ boneControllerValue sampleConsts ⟨8, 10, 50, 4⟩ (fun _ => 0) 32
        = some ((1 - clamp01 (((32 : Nat) : ℚ) / 64)) * 10 + clamp01 (((32 : Nat) : ℚ) / 64) * 50) :=
  ⟨(((boneControllerValue_rule sampleConsts ⟨8, 10, 50, 2⟩ (fun _ => 255) 0).1 (by decide)
      (by decide)).2 (by decide)).2.2.1 rfl,
    ((boneControllerValue_rule sampleConsts ⟨8, 10, 50, 4⟩ (fun _ => 0) 32).2 (by decide)).1⟩

/-! ## Sequence-group files: theorems -/

theorem formatSuffix_twoDigits :
    ∀ i : Nat, i < 100 → formatSuffix (i : Int) = some (twoDigits i) := by
  decide!

theorem VerifySequenceStudioFile_some (s : Nat) (h8 : 8 ≤ s) (buffer : List Byte) :
    ∃ ok, VerifySequenceStudioFile s buffer = some ok := by
  unfold VerifySequenceStudioFile
  by_cases hlen : buffer.length < s
  · exact ⟨false, by simp [hlen]⟩
  · obtain ⟨b0, b1, b2, b3, b4, b5, b6, b7, rest, rfl⟩ := list_eight buffer (by omega)
    simp only [hlen, if_false, readInt32, List.drop]
    split_ifs
    · exact ⟨_, rfl⟩
    · exact ⟨_, rfl⟩
    · exact ⟨_, rfl⟩

/-- The sequence-group loop over the groups `i .. i + n - 1` inside the table of
32 slots: it returns, slot `k` of that range holds the bytes of the file of
group `k` when they pass `VerifySequenceStudioFile`, and every other slot is as
before. -/
theorem LoadFromFileSeqGroups_spec (L : StudioLayout) (pl : PathLib)
    (files : String → Option (List Byte)) (filePath : String) (h8 : 8 ≤ L.sizeofStudioseqhdr) :
    ∀ (n i : Nat) (tables : (Nat → List Byte) × (Nat → Option (List Byte))), i + n ≤ 32 →
      ∃ t, LoadFromFileSeqGroups L pl files filePath n (i : Int) tables = some t
        ∧ ∀ k, (t.1 k, t.2 k)
            = if i ≤ k ∧ k < i + n
                ∧ VerifySequenceStudioFile L.sizeofStudioseqhdr (seqGroupFile pl files filePath k)
                  = some true
              then (seqGroupFile pl files filePath k, some (seqGroupFile pl files filePath k))
              else (tables.1 k, tables.2 k) := by
  intro n
  induction n with
  | zero =>
    intro i tables _
    refine ⟨tables, rfl, ?_⟩
    intro k
    have : ¬ (i ≤ k ∧ k < i + 0 ∧ VerifySequenceStudioFile L.sizeofStudioseqhdr
        (seqGroupFile pl files filePath k) = some true) := by omega
    rw [if_neg this]
  | succ n ih =>
    intro i tables hin
    have hfmt : formatSuffix (i : Int) = some (twoDigits i) :=
      formatSuffix_twoDigits i (by omega)
    have hcast : ((i : Int) + 1) = ((i + 1 : Nat) : Int) := by push_cast; rfl
    have hbuf : ReadAllBytes files (AddSuffixToFileName pl filePath (twoDigits i))
        = seqGroupFile pl files filePath i := rfl
    obtain ⟨ok, hok⟩ := VerifySequenceStudioFile_some L.sizeofStudioseqhdr h8
      (seqGroupFile pl files filePath i)
    unfold LoadFromFileSeqGroups
    simp only [hfmt, hbuf, hok]
    cases ok with
    | false =>
      obtain ⟨t, ht, hk⟩ := ih (i + 1) tables (by omega)
      refine ⟨t, ?_, ?_⟩
      · rw [hcast]
        exact ht
      · intro k
        rw [hk k]
        by_cases hki : k = i
        · subst hki
          have c1 : ¬ (k + 1 ≤ k ∧ k < k + 1 + n ∧ VerifySequenceStudioFile L.sizeofStudioseqhdr
              (seqGroupFile pl files filePath k) = some true) := by omega
          have c2 : ¬ (k ≤ k ∧ k < k + (n + 1) ∧ VerifySequenceStudioFile L.sizeofStudioseqhdr
              (seqGroupFile pl files filePath k) = some true) := by
            rw [hok]
            simp
          rw [if_neg c1, if_neg c2]
        · have e : (i + 1 ≤ k ∧ k < i + 1 + n ∧ VerifySequenceStudioFile L.sizeofStudioseqhdr
              (seqGroupFile pl files filePath k) = some true)
              ↔ (i ≤ k ∧ k < i + (n + 1) ∧ VerifySequenceStudioFile L.sizeofStudioseqhdr
              (seqGroupFile pl files filePath k) = some true) := by
            constructor
            · rintro ⟨a, b, c⟩
              exact ⟨by omega, by omega, c⟩
            · rintro ⟨a, b, c⟩
              exact ⟨by omega, by omega, c⟩
          simp only [e]
    | true =>
      have hi32 : i < 32 := by omega
      simp only [writeArr_nat, hi32, if_true]
      obtain ⟨t, ht, hk⟩ := ih (i + 1)
        (Function.update tables.1 i (seqGroupFile pl files filePath i),
          Function.update tables.2 i (some (seqGroupFile pl files filePath i))) (by omega)
      refine ⟨t, ?_, ?_⟩
      · rw [hcast]
        exact ht
      · intro k
        rw [hk k]
        by_cases hki : k = i
        · subst hki
          have c1 : ¬ (k + 1 ≤ k ∧ k < k + 1 + n ∧ VerifySequenceStudioFile L.sizeofStudioseqhdr
              (seqGroupFile pl files filePath k) = some true) := by omega
          have c2 : (k ≤ k ∧ k < k + (n + 1) ∧ VerifySequenceStudioFile L.sizeofStudioseqhdr
              (seqGroupFile pl files filePath k) = some true) := ⟨le_refl _, by omega, hok⟩
          rw [if_neg c1, if_pos c2]
          simp only [Function.update_same]
        · have e : (i + 1 ≤ k ∧ k < i + 1 + n ∧ VerifySequenceStudioFile L.sizeofStudioseqhdr
              (seqGroupFile pl files filePath k) = some true)
              ↔ (i ≤ k ∧ k < i + (n + 1) ∧ VerifySequenceStudioFile L.sizeofStudioseqhdr
              (seqGroupFile pl files filePath k) = some true) := by
            constructor
            · rintro ⟨a, b, c⟩
              exact ⟨by omega, by omega, c⟩
            · rintro ⟨a, b, c⟩
              exact ⟨by omega, by omega, c⟩
          simp only [e, Function.update_noteq hki]

/-- The search for the texture file leaves the primary header pointer and the
two sequence-group tables as they were. -/
theorem LoadFromFileCompanion_tables (L : StudioLayout) (pl : PathLib)
    (files : String → Option (List Byte)) (filePath : String) (self self' : StudioModel)
    (h : LoadFromFileCompanion L pl files filePath self = some self') :
    self'.m_StudioHeader = self.m_StudioHeader
      ∧ self'.m_StudioSequenceGroupFileData = self.m_StudioSequenceGroupFileData
      ∧ self'.m_StudioSequenceGroupHeaders = self.m_StudioSequenceGroupHeaders := by
  unfold LoadFromFileCompanion at h
  cases hp : self.m_StudioHeader with
  | none =>
    rw [hp] at h
    cases h
  | some primary =>
    rw [hp] at h
    dsimp only at h
    split_ifs at h with hn
    · cases hv : VerifyStudioFile L.sizeofStudiohdr
          (ReadAllBytes files (AddSuffixToFileName pl filePath "T")) with
      | none =>
        rw [hv] at h
        cases h
      | some ok =>
        rw [hv] at h
        cases ok
        · cases h
          exact ⟨hp.symm ▸ rfl, rfl, rfl⟩
        · cases h
          exact ⟨hp.symm ▸ rfl, rfl, rfl⟩
    · cases h
      exact ⟨hp, rfl, rfl⟩

/-- C24 (counterexample): the primary file `m.mdl` passes `VerifyStudioFile` and
has `numseqgroups = 34`; the rounds 1..31 find no file and store nothing; in
round 32 the file `m32.mdl` passes `VerifySequenceStudioFile`, and the store
into slot 32 is outside the tables of 32 slots, so the load has no defined
result. And a model that has loaded `a.mdl`, with `a01.mdl` in slot 1, and then
loads `c.mdl`, whose file `c01.mdl` does not exist, keeps the bytes of `a01.mdl`
in slot 1: the slot is left as it was, not empty. -/
theorem LoadFromFile_slot32 :
    (reloadFiles "c01.mdl" = none
        ∧ ((LoadFromFile sampleLayout samplePathLib reloadFiles "a.mdl" StudioModel.new).bind
            (LoadFromFile sampleLayout samplePathLib reloadFiles "c.mdl")).map
          (fun m => (m.m_FilePath, m.m_StudioSequenceGroupFileData 1,
            m.m_StudioSequenceGroupHeaders 1))
          = some ("c.mdl", sampleFileSeq, some sampleFileSeq))
      ∧ VerifyStudioFile sampleLayout.sizeofStudiohdr sampleFileMany = some true
      ∧ (sampleLayout.header sampleFileMany).numseqgroups = 34
      ∧ (LoadFromFileSeqGroups sampleLayout samplePathLib manyFiles "m.mdl" 31 1
          (StudioModel.new.m_StudioSequenceGroupFileData,
            StudioModel.new.m_StudioSequenceGroupHeaders)).isSome = true
      ∧ formatSuffix 32 = some "32"
      ∧ AddSuffixToFileName samplePathLib "m.mdl" "32" = "m32.mdl"
      ∧ VerifySequenceStudioFile sampleLayout.sizeofStudioseqhdr
          (ReadAllBytes manyFiles "m32.mdl") = some true
      ∧ writeArr 32 StudioModel.new.m_StudioSequenceGroupFileData 32
          (ReadAllBytes manyFiles "m32.mdl") = none
      ∧ LoadFromFileSeqGroups sampleLayout samplePathLib manyFiles "m.mdl" 33 1
          (StudioModel.new.m_StudioSequenceGroupFileData,
            StudioModel.new.m_StudioSequenceGroupHeaders) = none
      ∧ LoadFromFile sampleLayout samplePathLib manyFiles "m.mdl" StudioModel.new = none := by
  refine ⟨⟨by decide!, by decide!⟩, by decide!, by decide!, by decide!, by decide!, by decide!,
    by decide!, Option.isNone_iff_eq_none.1 (by decide!),
    Option.isNone_iff_eq_none.1 (by decide!), Option.isNone_iff_eq_none.1 (by decide!)⟩

/-- C24 (amended): for a primary file that passes `VerifyStudioFile` and whose
`numseqgroups` is at most 32, the sequence-group loop of `LoadFromFile` returns,
and a load that returns has stored sequence-group bytes and header references
only in the slots `k` with `1 ≤ k < numseqgroups`, which lie in 1..31: such a
slot holds the bytes of the file named stem + the two digits of `k` + extension
when they pass `VerifySequenceStudioFile`, and is left as it was (empty on a new
model) when that file is missing or fails the check; every other slot is as it
was. -/
theorem LoadFromFile_seqgroups (L : StudioLayout) (pl : PathLib)
    (files : String → Option (List Byte)) (filePath : String) (self : StudioModel)
    (primary : List Byte) (hfile : files filePath = some primary) (hne : primary ≠ [])
    (hver : VerifyStudioFile L.sizeofStudiohdr primary = some true)
    (h8 : 8 ≤ L.sizeofStudioseqhdr) (hnum : (L.header primary).numseqgroups ≤ 32) :
    (∀ tables, ∃ t, LoadFromFileSeqGroups L pl files filePath
        ((L.header primary).numseqgroups - 1).toNat 1 tables = some t)
      ∧ ∀ self', LoadFromFile L pl files filePath self = some self' →
          ∀ k : Nat,
            (self'.m_StudioSequenceGroupFileData k, self'.m_StudioSequenceGroupHeaders k)
              = (if 1 ≤ k ∧ (k : Int) < (L.header primary).numseqgroups
                    ∧ VerifySequenceStudioFile L.sizeofStudioseqhdr
                      (seqGroupFile pl files filePath k) = some true
                  then (seqGroupFile pl files filePath k,
                    some (seqGroupFile pl files filePath k))
                  else (self.m_StudioSequenceGroupFileData k,
                    self.m_StudioSequenceGroupHeaders k))
              ∧ ((self'.m_StudioSequenceGroupFileData k ≠ self.m_StudioSequenceGroupFileData k
                  ∨ self'.m_StudioSequenceGroupHeaders k ≠ self.m_StudioSequenceGroupHeaders k) →
                1 ≤ k ∧ k ≤ 31) := by
  have hrounds : 1 + ((L.header primary).numseqgroups - 1).toNat ≤ 32 := by omega
  refine ⟨?_, ?_⟩
  · intro tables
    obtain ⟨t, ht, -⟩ := LoadFromFileSeqGroups_spec L pl files filePath h8
      ((L.header primary).numseqgroups - 1).toNat 1 tables hrounds
    exact ⟨t, ht⟩
  · intro self' hload k
    rw [LoadFromFile_accept L pl files filePath self primary hfile hne hver] at hload
    cases hc : LoadFromFileCompanion L pl files filePath
        { self with m_FileData := primary, m_FilePath := filePath,
                    m_StudioHeader := some primary, m_StudioTextureHeader := some primary } with
    | none =>
      rw [hc] at hload
      cases hload
    | some s1 =>
      rw [hc] at hload
      dsimp only at hload
      obtain ⟨e1, e2, e3⟩ := LoadFromFileCompanion_tables L pl files filePath _ s1 hc
      obtain ⟨primary', textureFile, textures, parts, tables, hp, -, -, -, hseq, hself⟩ :=
        (LoadFromFileDecode_iff L pl files filePath s1 self').1 hload
      have hpp : primary' = primary := by
        rw [e1] at hp
        exact (Option.some.inj hp).symm
      subst hpp
      obtain ⟨t, ht, hk⟩ := LoadFromFileSeqGroups_spec L pl files filePath h8
        ((L.header primary').numseqgroups - 1).toNat 1
        (s1.m_StudioSequenceGroupFileData, s1.m_StudioSequenceGroupHeaders) hrounds
      have htt : tables = t := by
        have := hseq.symm.trans ht
        exact Option.some.inj this
      subst htt
      have hcond : (1 ≤ k ∧ k < 1 + ((L.header primary').numseqgroups - 1).toNat
            ∧ VerifySequenceStudioFile L.sizeofStudioseqhdr
              (seqGroupFile pl files filePath k) = some true)
          ↔ (1 ≤ k ∧ (k : Int) < (L.header primary').numseqgroups
            ∧ VerifySequenceStudioFile L.sizeofStudioseqhdr
              (seqGroupFile pl files filePath k) = some true) := by
        constructor
        · rintro ⟨a, b, c⟩
          exact ⟨a, by omega, c⟩
        · rintro ⟨a, b, c⟩
          exact ⟨a, by omega, c⟩
      have hval : (self'.m_StudioSequenceGroupFileData k, self'.m_StudioSequenceGroupHeaders k)
          = (if 1 ≤ k ∧ (k : Int) < (L.header primary').numseqgroups
                ∧ VerifySequenceStudioFile L.sizeofStudioseqhdr
                  (seqGroupFile pl files filePath k) = some true
              then (seqGroupFile pl files filePath k,
                some (seqGroupFile pl files filePath k))
              else (self.m_StudioSequenceGroupFileData k,
                self.m_StudioSequenceGroupHeaders k)) := by
        have := hk k
        rw [e2, e3] at this
        simp only [hcond] at this
        rw [hself]
        exact this
      refine ⟨hval, ?_⟩
      intro hchg
      by_contra hout
      have hno : ¬ (1 ≤ k ∧ (k : Int) < (L.header primary').numseqgroups
          ∧ VerifySequenceStudioFile L.sizeofStudioseqhdr
            (seqGroupFile pl files filePath k) = some true) := by
        rintro ⟨a, b, -⟩
        exact hout ⟨a, by omega⟩
      rw [if_neg hno] at hval
      have h1 := congrArg Prod.fst hval
      have h2 := congrArg Prod.snd hval
      rcases hchg with h | h
      · exact h h1
      · exact h h2

/-- The primary file `a.mdl` has three sequence groups; `a01.mdl` passes the
check and fills slot 1, `a02.mdl` does not exist and slot 2 stays empty. -/
theorem LoadFromFile_seqgroups_witness :
    ∃ self', LoadFromFile sampleLayout samplePathLib sampleFiles "a.mdl" StudioModel.new
        = some self'
      ∧ (self'.m_StudioSequenceGroupFileData 1, self'.m_StudioSequenceGroupHeaders 1)
        = (sampleFileSeq, some sampleFileSeq)
      ∧ (self'.m_StudioSequenceGroupFileData 2, self'.m_StudioSequenceGroupHeaders 2)
        = ([], none) := by
  have hs : (LoadFromFile sampleLayout samplePathLib sampleFiles "a.mdl"
      StudioModel.new).isSome = true := by decide!
  obtain ⟨self', h⟩ := Option.isSome_iff_exists.1 hs
  have key := (LoadFromFile_seqgroups sampleLayout samplePathLib sampleFiles "a.mdl"
    StudioModel.new sampleFileA (by decide!) (by decide!) (by decide!) (by decide)
    (by decide!)).2 self' h
  refine ⟨self', h, ?_, ?_⟩
  · rw [(key 1).1]
    decide!
  · rw [(key 2).1]
    decide!

/-! ## The texture file: lemmas -/

/-- A position channel without curve data, or with a well-formed curve sampled at
a frame that has a successor in the curve, returns when its controller index is
-1 or in 0..3. -/
theorem CalcBonePositionChannel_returns (m_BoneAdjust : Nat → ℚ) (frame : Int) (s : ℚ)
    (pbone : mstudiobone_t) (panim : mstudioanim_t) (j : Nat) (numframes : Int)
    (hcurve : panim.offset j = 0 ∨ ∃ spans, wellFormed spans
      ∧ isCurve spans (panim.animvalue j) = true
      ∧ ((expandCurve spans).length : Int) = numframes)
    (hctl : pbone.bonecontroller j = -1
      ∨ (0 ≤ pbone.bonecontroller j ∧ pbone.bonecontroller j < 4))
    (h0 : 0 ≤ frame) (h1 : frame + 1 < numframes) :
    ∃ v, CalcBonePositionChannel m_BoneAdjust frame s pbone panim j = some v := by
  rcases hcurve with hoff | ⟨spans, hwf, hc, hlen⟩
  · have e : CalcBonePositionChannel m_BoneAdjust frame s pbone panim j
        = addAdjust m_BoneAdjust pbone j (some (pbone.value j)) := by
      unfold CalcBonePositionChannel addAdjust
      simp only [hoff, ne_eq, not_true_eq_false, if_false]
    rw [e, addAdjust_some m_BoneAdjust pbone j _ hctl]
    exact ⟨_, rfl⟩
  · have hoff : panim.offset j ≠ 0 ∨ panim.offset j = 0 := (em _).symm
    rcases hoff with hoff | hoff
    · obtain ⟨num, rest, k, -, e⟩ := CalcBonePositionChannel_blend m_BoneAdjust frame s pbone
        panim j spans hoff hwf hc h0 (by omega)
      rw [e, addAdjust_some m_BoneAdjust pbone j _ hctl]
      exact ⟨_, rfl⟩
    · have e : CalcBonePositionChannel m_BoneAdjust frame s pbone panim j
          = addAdjust m_BoneAdjust pbone j (some (pbone.value j)) := by
        unfold CalcBonePositionChannel addAdjust
        simp only [hoff, ne_eq, not_true_eq_false, if_false]
      rw [e, addAdjust_some m_BoneAdjust pbone j _ hctl]
      exact ⟨_, rfl⟩

/-- A rotation channel without curve data, or with a well-formed curve sampled at
a frame that has a successor in the curve, returns when its controller index is
-1 or in 0..3. -/
theorem CalcBoneAngleChannel_returns (m_BoneAdjust : Nat → ℚ) (frame : Int)
    (pbone : mstudiobone_t) (panim : mstudioanim_t) (j : Nat) (numframes : Int)
    (hcurve : panim.offset (j + 3) = 0 ∨ ∃ spans, wellFormed spans
      ∧ isCurve spans (panim.animvalue (j + 3)) = true
      ∧ ((expandCurve spans).length : Int) = numframes)
    (hctl : pbone.bonecontroller (j + 3) = -1
      ∨ (0 ≤ pbone.bonecontroller (j + 3) ∧ pbone.bonecontroller (j + 3) < 4))
    (h0 : 0 ≤ frame) (h1 : frame + 1 < numframes) :
    ∃ a, CalcBoneAngleChannel m_BoneAdjust frame pbone panim j = some a := by
  have hzero : panim.offset (j + 3) = 0 →
      ∃ a, CalcBoneAngleChannel m_BoneAdjust frame pbone panim j = some a := by
    intro hoff
    have e : CalcBoneAngleChannel m_BoneAdjust frame pbone panim j
        = addAdjust2 m_BoneAdjust pbone (j + 3)
            (some (pbone.value (j + 3), pbone.value (j + 3))) := by
      unfold CalcBoneAngleChannel addAdjust2
      simp only [hoff, if_true]
    rw [e, addAdjust2_some m_BoneAdjust pbone (j + 3) _ _ hctl]
    exact ⟨_, rfl⟩
  rcases hcurve with hoff | ⟨spans, hwf, hc, hlen⟩
  · exact hzero hoff
  · by_cases hoff : panim.offset (j + 3) = 0
    · exact hzero hoff
    · rw [CalcBoneAngleChannel_curve m_BoneAdjust frame pbone panim j spans hoff hwf hc h0
        (by omega), addAdjust2_some m_BoneAdjust pbone (j + 3) _ _ hctl]
      exact ⟨_, rfl⟩

/-- A position channel with a well-formed curve, sampled at frame 0: the reads
stay inside the first span, whatever follows the curve. -/
theorem CalcBonePositionChannel_first (m_BoneAdjust : Nat → ℚ) (s : ℚ)
    (pbone : mstudiobone_t) (panim : mstudioanim_t) (j : Nat) (spans : List Span)
    (hwf : wellFormed spans) (hc : isCurve spans (panim.animvalue j) = true)
    (hlen : 0 < (expandCurve spans).length)
    (hctl : pbone.bonecontroller j = -1
      ∨ (0 ≤ pbone.bonecontroller j ∧ pbone.bonecontroller j < 4)) :
    ∃ v, CalcBonePositionChannel m_BoneAdjust 0 s pbone panim j = some v := by
  by_cases hoff : panim.offset j = 0
  · have e : CalcBonePositionChannel m_BoneAdjust 0 s pbone panim j
        = addAdjust m_BoneAdjust pbone j (some (pbone.value j)) := by
      unfold CalcBonePositionChannel addAdjust
      simp only [hoff, ne_eq, not_true_eq_false, if_false]
    rw [e, addAdjust_some m_BoneAdjust pbone j _ hctl]
    exact ⟨_, rfl⟩
  · cases spans with
    | nil => simp [expandCurve] at hlen
    | cons sp spans =>
      obtain ⟨⟨hv1, hv2⟩, -⟩ := wellFormed_cons sp spans hwf
      obtain ⟨num, rest, hcells, hvalid, htotal, hmap, -⟩ :=
        isCurve_cons sp spans (panim.animvalue j) hc
      have hrest : num.valid ≤ rest.length := by
        have := congrArg List.length hmap
        simp only [List.length_map, List.length_take] at this
        omega
      have hfind : findSpan ((panim.animvalue j).length + 1) (panim.animvalue j) 0
          = some (num :: rest, 0) := by
        rw [hcells]
        have : ¬ ((num.total : Int) ≤ 0) := by omega
        simp only [findSpan, this, if_false]
      have c1 : (num.valid : Int) > 0 := by omega
      obtain ⟨a, ha⟩ : ∃ a, rest[0]? = some a :=
        ⟨rest[0], List.getElem?_eq_getElem (by omega)⟩
      have ea : animvalueAt (num :: rest) ((0 : Int) + 1) = some a := by
        rw [animvalueAt_cons num rest ((0 : Int) + 1) 0 (by norm_num), ha]
      by_cases hv : (num.valid : Int) > 0 + 1
      · obtain ⟨b, hb⟩ : ∃ b, rest[1]? = some b :=
          ⟨rest[1], List.getElem?_eq_getElem (by omega)⟩
        have eb : animvalueAt (num :: rest) ((0 : Int) + 2) = some b := by
          rw [animvalueAt_cons num rest ((0 : Int) + 2) 1 (by norm_num), hb]
        have e : CalcBonePositionChannel m_BoneAdjust 0 s pbone panim j
            = addAdjust m_BoneAdjust pbone j
                (some (pbone.value j
                  + ((a.value : ℚ) * (1 - s) + s * (b.value : ℚ)) * pbone.scale j)) := by
          unfold CalcBonePositionChannel addAdjust
          simp only [ne_eq, hoff, not_false_eq_true, if_true, hfind, c1, hv, ea, eb]
        rw [e, addAdjust_some m_BoneAdjust pbone j _ hctl]
        exact ⟨_, rfl⟩
      · have e : CalcBonePositionChannel m_BoneAdjust 0 s pbone panim j
            = addAdjust m_BoneAdjust pbone j
                (some (pbone.value j + (a.value : ℚ) * pbone.scale j)) := by
          unfold CalcBonePositionChannel addAdjust
          simp only [ne_eq, hoff, not_false_eq_true, if_true, hfind, c1, hv, if_false, ea]
        rw [e, addAdjust_some m_BoneAdjust pbone j _ hctl]
        exact ⟨_, rfl⟩

/-- The clock on a sequence of ten frames at the rate 754975744, from frame 0
with a step of one second: the step is clamped to the `double` nearest to 0.1,
the sum is the `float` 75497576, and the wrap leaves the frame -8. -/
theorem AdvanceFrameBinary32_fast_rate :
    advanceSum { fps := 754975744, numframes := 10 } 0 1 = some 75497576
      ∧ AdvanceFrameBinary32 { fps := 754975744, numframes := 10 } 0 1 = some (-8) :=
  ⟨by decide!, by decide!⟩

/-- The clock on short sequences: a sequence of one frame is left at frame 0, and
a sequence of four frames at the rate -25 is left at the frame -5/2. -/
theorem AdvanceFrameBinary32_short :
    AdvanceFrameBinary32 { fps := 10, numframes := 1 } 0 (1 / 10) = some 0
      ∧ AdvanceFrameBinary32 { fps := -25, numframes := 4 } 0 (1 / 10) = some (-5 / 2) :=
  ⟨by decide!, by decide!⟩

/-- C25 (counterexample): a sequence of one frame, for which `AdvanceFrame`
leaves frame 0, with the well-formed curve of one span that covers exactly that
frame: `CalcBoneQuaternion` reads the cell at index `valid + 2 = 3`, past the two
cells of the curve (with two more cells behind the curve it returns the second
angle 9 taken from there). A sequence of four frames with a negative rate:
`AdvanceFrame` leaves the frame -5/2, which is frame -2 with `s = -1/2`, and
`CalcBonePosition` reads the cell at index -1, before the first span. And a
sequence of ten frames at the rate 754975744: the sum is the `float` 75497576,
above `2 ^ 24`, `AdvanceFrame` leaves the frame -8, and `CalcBonePosition` reads
the cell at index -7. -/
theorem CalcBoneQuaternion_past_curve :
    (wellFormed oneFrameSpans ∧ isCurve oneFrameSpans oneFrameCells = true
        ∧ oneFrameCells.length = curveCells oneFrameSpans
        ∧ (expandCurve oneFrameSpans).length = 1
        ∧ AdvanceFrameBinary32 { fps := 10, numframes := 1 } 0 (1 / 10) = some 0
        ∧ floatToInt 0 = some 0
        ∧ animvalueAt oneFrameCells 3 = none
        ∧ CalcBoneAngleChannel (fun _ => 0) 0 (sampleBone (-1) 1) (channelAnim oneFrameCells) 0
          = none
        ∧ CalcBoneQuaternion sampleMathLib (fun _ => 0) 0 0 (sampleBone (-1) 1)
            (channelAnim oneFrameCells) = none
        ∧ CalcBoneAngleChannel (fun _ => 0) 0 (sampleBone (-1) 1)
            (channelAnim (oneFrameCells ++ [⟨1, 1, 0⟩, ⟨0, 0, 9⟩])) 0 = some (5, 9))
      ∧ (wellFormed fourFrameSpans ∧ isCurve fourFrameSpans fourFrameCells = true
        ∧ fourFrameCells.length = curveCells fourFrameSpans
        ∧ (expandCurve fourFrameSpans).length = 4
        ∧ AdvanceFrameBinary32 { fps := -25, numframes := 4 } 0 (1 / 10) = some (-5 / 2)
        ∧ floatToInt (-5 / 2) = some (-2)
        ∧ animvalueAt fourFrameCells (-2 + 1) = none
        ∧ CalcBonePositionChannel (fun _ => 0) (-2) (-5 / 2 - (-2)) (sampleBone (-1) 1)
            (channelAnim fourFrameCells) 0 = none
        ∧ CalcBonePosition (fun _ => 0) (-2) (-5 / 2 - (-2)) (sampleBone (-1) 1)
            (channelAnim fourFrameCells) = none)
      ∧ (wellFormed tenFrameSpans ∧ isCurve tenFrameSpans tenFrameCells = true
        ∧ tenFrameCells.length = curveCells tenFrameSpans
        ∧ (expandCurve tenFrameSpans).length = 10
        ∧ advanceSum { fps := 754975744, numframes := 10 } 0 1 = some 75497576
        ∧ AdvanceFrameBinary32 { fps := 754975744, numframes := 10 } 0 1 = some (-8)
        ∧ floatToInt (-8) = some (-8)
        ∧ animvalueAt tenFrameCells (-8 + 1) = none
        ∧ CalcBonePositionChannel (fun _ => 0) (-8) 0 (sampleBone (-1) 1)
            (channelAnim tenFrameCells) 0 = none
        ∧ CalcBonePosition (fun _ => 0) (-8) 0 (sampleBone (-1) 1)
            (channelAnim tenFrameCells) = none) := by
  refine ⟨⟨by unfold wellFormed; decide, by decide!, by decide!, by decide!,
      AdvanceFrameBinary32_short.1,
      by decide!, by decide!, by decide!, Option.isNone_iff_eq_none.1 (by decide!), by decide!⟩,
    ⟨by unfold wellFormed; decide, by decide!, by decide!, by decide!,
      AdvanceFrameBinary32_short.2,
      by decide!, by decide!, by decide!, Option.isNone_iff_eq_none.1 (by decide!)⟩,
    ⟨by unfold wellFormed; decide, by decide!, by decide!, by decide!,
      AdvanceFrameBinary32_fast_rate.1, AdvanceFrameBinary32_fast_rate.2,
      by decide!, by decide!, by decide!, Option.isNone_iff_eq_none.1 (by decide!)⟩⟩

/-- C25 (amended): a sequence whose curves are well-formed run-length lists that
cover exactly `numframes` frames, the cells of each channel being those of its
span list and no more, and a frame value `f` left by `AdvanceFrame`. When
`numframes >= 2` and the `float` sum `x` that `AdvanceFrame` forms from the
frame and `min(dt, 0.1) * fps` has `0 <= x < 2 ^ 24`, the frame `(int)f` lies in
`0 .. numframes - 2`, and `CalcBoneQuaternion` and `CalcBonePosition` both
return: every span header and sample they read is a cell of the sampled
channel's own span list, none before its first cell or past the end of its last
span. When `numframes = 1`, the frame is 0 and `CalcBonePosition` returns in the
same way. -/
theorem samplers_read_own_cells (ml : MathLib) (m_BoneAdjust : Nat → ℚ)
    (pseqdesc : mstudioseqdesc_t) (m_Frame dt x f : ℚ) (pbone : mstudiobone_t)
    (panim : mstudioanim_t) (hint : pseqdesc.numframes ≤ 2147483647)
    (hsum : advanceSum pseqdesc m_Frame dt = some x)
    (hadv : AdvanceFrameBinary32 pseqdesc m_Frame dt = some f)
    (hcurves : ∀ j, j < 6 → panim.offset j = 0 ∨ ∃ spans, wellFormed spans
      ∧ isCurve spans (panim.animvalue j) = true
      ∧ (panim.animvalue j).length = curveCells spans
      ∧ ((expandCurve spans).length : Int) = pseqdesc.numframes)
    (hctl : ∀ j, j < 6 → pbone.bonecontroller j = -1
      ∨ (0 ≤ pbone.bonecontroller j ∧ pbone.bonecontroller j < 4)) :
    (2 ≤ pseqdesc.numframes → 0 ≤ x → x < 2 ^ 24 →
        ∃ frame, floatToInt f = some frame ∧ 0 ≤ frame ∧ frame + 1 < pseqdesc.numframes
          ∧ (∃ q, CalcBoneQuaternion ml m_BoneAdjust frame (f - (frame : ℚ)) pbone panim
              = some q)
          ∧ ∃ pos, CalcBonePosition m_BoneAdjust frame (f - (frame : ℚ)) pbone panim
              = some pos)
      ∧ (pseqdesc.numframes = 1 →
          f = 0 ∧ floatToInt f = some 0
            ∧ ∀ s, ∃ pos, CalcBonePosition m_BoneAdjust 0 s pbone panim = some pos) := by
  have hcurves' : ∀ j, j < 6 → panim.offset j = 0 ∨ ∃ spans, wellFormed spans
      ∧ isCurve spans (panim.animvalue j) = true
      ∧ ((expandCurve spans).length : Int) = pseqdesc.numframes := by
    intro j hj
    rcases hcurves j hj with h | ⟨spans, a, b, -, d⟩
    · exact Or.inl h
    · exact Or.inr ⟨spans, a, b, d⟩
  refine ⟨?_, ?_⟩
  · intro hn h0 h1
    obtain ⟨f', hf', r⟩ := AdvanceFrameBinary32_range pseqdesc m_Frame dt x hsum (by omega) hint
      (by rw [abs_of_nonneg h0]; exact h1)
    have hff : f' = f := Option.some.inj (hf'.symm.trans hadv)
    subst hff
    obtain ⟨r0, r1⟩ := r.1 h0
    have htr : truncate f' = ⌊f'⌋ := by simp only [truncate, r0, if_true]
    have hf0 : 0 ≤ ⌊f'⌋ := Int.floor_nonneg.2 r0
    have hf1 : ⌊f'⌋ < pseqdesc.numframes - 1 := Int.floor_lt.2 r1
    have hconv : floatToInt f' = some ⌊f'⌋ := by
      unfold floatToInt
      rw [htr]
      exact checkInt32_inside _ (by unfold INT_MIN; omega) (by unfold INT_MAX; omega)
    refine ⟨⌊f'⌋, hconv, hf0, by omega, ?_, ?_⟩
    · obtain ⟨a0, e0⟩ := CalcBoneAngleChannel_returns m_BoneAdjust ⌊f'⌋ pbone panim 0
        pseqdesc.numframes (hcurves' 3 (by decide)) (hctl 3 (by decide)) hf0 (by omega)
      obtain ⟨a1, e1⟩ := CalcBoneAngleChannel_returns m_BoneAdjust ⌊f'⌋ pbone panim 1
        pseqdesc.numframes (hcurves' 4 (by decide)) (hctl 4 (by decide)) hf0 (by omega)
      obtain ⟨a2, e2⟩ := CalcBoneAngleChannel_returns m_BoneAdjust ⌊f'⌋ pbone panim 2
        pseqdesc.numframes (hcurves' 5 (by decide)) (hctl 5 (by decide)) hf0 (by omega)
      unfold CalcBoneQuaternion
      rw [e0, e1, e2]
      dsimp only
      split_ifs <;> exact ⟨_, rfl⟩
    · obtain ⟨p0, e0⟩ := CalcBonePositionChannel_returns m_BoneAdjust ⌊f'⌋ (f' - (⌊f'⌋ : ℚ))
        pbone panim 0 pseqdesc.numframes (hcurves' 0 (by decide)) (hctl 0 (by decide)) hf0
        (by omega)
      obtain ⟨p1, e1⟩ := CalcBonePositionChannel_returns m_BoneAdjust ⌊f'⌋ (f' - (⌊f'⌋ : ℚ))
        pbone panim 1 pseqdesc.numframes (hcurves' 1 (by decide)) (hctl 1 (by decide)) hf0
        (by omega)
      obtain ⟨p2, e2⟩ := CalcBonePositionChannel_returns m_BoneAdjust ⌊f'⌋ (f' - (⌊f'⌋ : ℚ))
        pbone panim 2 pseqdesc.numframes (hcurves' 2 (by decide)) (hctl 2 (by decide)) hf0
        (by omega)
      unfold CalcBonePosition
      rw [e0, e1, e2]
      exact ⟨_, rfl⟩
  · intro hn
    have hzero : AdvanceFrameBinary32 pseqdesc m_Frame dt = some 0 := by
      unfold AdvanceFrameBinary32
      rw [hsum]
      dsimp only
      rw [if_pos (by omega)]
    have hf : f = 0 := by
      rw [hzero] at hadv
      exact (Option.some.inj hadv).symm
    subst hf
    refine ⟨rfl, by decide!, ?_⟩
    intro s
    have hch : ∀ j, j < 3 →
        ∃ v, CalcBonePositionChannel m_BoneAdjust 0 s pbone panim j = some v := by
      intro j hj
      rcases hcurves' j (by omega) with hoff | ⟨spans, hwf, hc, hlen⟩
      · exact CalcBonePositionChannel_returns m_BoneAdjust 0 s pbone panim j 2 (Or.inl hoff)
          (hctl j (by omega)) (le_refl _) (by decide)
      · exact CalcBonePositionChannel_first m_BoneAdjust s pbone panim j spans hwf hc
          (by omega) (hctl j (by omega))
    obtain ⟨p0, e0⟩ := hch 0 (by decide)
    obtain ⟨p1, e1⟩ := hch 1 (by decide)
    obtain ⟨p2, e2⟩ := hch 2 (by decide)
    unfold CalcBonePosition
    rw [e0, e1, e2]
    exact ⟨_, rfl⟩

/-- The sequence of three frames whose position and rotation channels hold the
curve 5, 7, 9 in exactly five cells: from frame 0, a step of 0.1 s at 10 frames
per second has the sum 1 and leaves frame 1, and both samplers return there. -/
theorem samplers_read_own_cells_witness :
    advanceSum { fps := 10, numframes := 3 } 0 (1 / 10) = some 1
      ∧ AdvanceFrameBinary32 { fps := 10, numframes := 3 } 0 (1 / 10) = some 1
      ∧ fullSpanCells.length = curveCells fullSpans
      ∧ ∃ frame, floatToInt 1 = some frame ∧ 0 ≤ frame ∧ frame + 1 < 3
          ∧ (∃ q, CalcBoneQuaternion sampleMathLib (fun _ => 0) frame (1 - (frame : ℚ))
              (sampleBone (-1) 1) fullSpanAnim = some q)
          ∧ ∃ pos, CalcBonePosition (fun _ => 0) frame (1 - (frame : ℚ))
              (sampleBone (-1) 1) fullSpanAnim = some pos :=
  ⟨by decide!, by decide!, by decide!,
    (samplers_read_own_cells sampleMathLib (fun _ => 0) { fps := 10, numframes := 3 } 0 (1 / 10)
      1 1 (sampleBone (-1) 1) fullSpanAnim (by decide) (by decide!) (by decide!)
      (by
        intro j hj
        by_cases h0 : j = 0 ∨ j = 3
        · refine Or.inr ⟨fullSpans, by unfold wellFormed; decide, ?_, ?_, by decide!⟩
          · simp only [fullSpanAnim, h0, if_true]
            decide!
          · simp only [fullSpanAnim, h0, if_true]
            decide!
        · exact Or.inl (by simp only [fullSpanAnim, h0, if_false]))
      (fun _ _ => Or.inl rfl)).1 (by decide) (by decide!) (by decide!)⟩

/-! ## The adjustment table of the bone controllers: theorems -/

/-- The value of a controller is computed whenever its slot index is not
negative: a slot in 0..3 is read from the four general values, a slot of 4 or
more takes the mouth value. -/
theorem boneControllerValue_some (c : StudioConsts) (pbonecontroller : mstudiobonecontroller_t)
    (m_Controllers : Nat → Nat) (m_Mouth : Nat) (h0 : 0 ≤ pbonecontroller.index) :
    ∃ value, boneControllerValue c pbonecontroller m_Controllers m_Mouth = some value := by
  unfold boneControllerValue
  by_cases h3 : pbonecontroller.index ≤ 3
  · have hr : 0 ≤ pbonecontroller.index ∧ pbonecontroller.index < ((4 : Nat) : Int) := by
      constructor
      · exact h0
      · push_cast
        omega
    simp only [h3, if_true, readArr, hr, and_self]
    split_ifs <;> exact ⟨_, rfl⟩
  · simp only [h3, if_false]
    exact ⟨_, rfl⟩

/-- With at most four bone controllers, each with a slot index that is not
negative, `CalcBoneAdj` returns and leaves every element of `m_BoneAdjust` from
index 4 on as it was. -/
theorem CalcBoneAdj_within (c : StudioConsts) (hdr : studiohdr_t) (m_Controllers : Nat → Nat)
    (m_Mouth : Nat) (m_BoneAdjust : Nat → ℚ) (hn : hdr.numbonecontrollers ≤ 4)
    (hctl : ∀ k : Nat, (k : Int) < hdr.numbonecontrollers →
      ∃ pbonecontroller, hdr.bonecontrollers k = some pbonecontroller
        ∧ 0 ≤ pbonecontroller.index) :
    ∃ adjust, CalcBoneAdj c hdr m_Controllers m_Mouth m_BoneAdjust = some adjust
      ∧ ∀ k, 4 ≤ k → adjust k = m_BoneAdjust k := by
  have hslot : ∀ k, k < hdr.numbonecontrollers.toNat →
      ∃ v, CalcBoneAdjSlot c hdr m_Controllers m_Mouth k (m_BoneAdjust k) = some v := by
    intro k hk
    obtain ⟨pbonecontroller, hb, h0⟩ := hctl k (by omega)
    obtain ⟨value, hv⟩ := boneControllerValue_some c pbonecontroller m_Controllers m_Mouth h0
    have hk4 : k < 4 := by omega
    unfold CalcBoneAdjSlot
    simp only [hb, hv, hk4, if_true]
    split_ifs <;> exact ⟨_, rfl⟩
  refine ⟨fun k => if k < hdr.numbonecontrollers.toNat then
      (CalcBoneAdjSlot c hdr m_Controllers m_Mouth k (m_BoneAdjust k)).getD 0
    else m_BoneAdjust k, ?_, ?_⟩
  · rw [CalcBoneAdj_slot]
    refine ⟨?_, ?_⟩
    · intro k hk
      obtain ⟨v, hv⟩ := hslot k hk
      simp only [hk, if_true, hv, Option.getD_some]
    · intro k hk
      have : ¬ k < hdr.numbonecontrollers.toNat := by omega
      simp only [this, if_false]
  · intro k hk
    have : ¬ k < hdr.numbonecontrollers.toNat := by omega
    simp only [this, if_false]

/-- C26 (failing input): a header with five bone controllers, four general ones
in the slots 0..3 and a mouth controller in slot 4, each a rotation. The rounds
0..3 of `CalcBoneAdj` stay inside the tables; round 4 computes the value 45 from
the mouth value 32 and stores it in `m_BoneAdjust[4]`, outside the four elements
of that array, so the call has no defined result. -/
theorem CalcBoneAdj_fifth_controller :
    (controllerHeader mouthControllers).numbonecontrollers = 5
      ∧ (CalcBoneAdj sampleConsts (controllerHeader (mouthControllers.take 4)) (fun _ => 0) 32
          (fun _ => 0)).isSome = true
      ∧ (controllerHeader mouthControllers).bonecontrollers 4 = some ⟨8, 0, 90, 4⟩
      ∧ boneControllerValue sampleConsts ⟨8, 0, 90, 4⟩ (fun _ => 0) 32 = some 45
      ∧ writeArr 4 (fun _ => (0 : ℚ)) 4 (45 * (sampleConsts.Q_PI / 180)) = none
      ∧ CalcBoneAdjSlot sampleConsts (controllerHeader mouthControllers) (fun _ => 0) 32 4 0
        = none
      ∧ CalcBoneAdj sampleConsts (controllerHeader mouthControllers) (fun _ => 0) 32
          (fun _ => 0) = none := by
  refine ⟨by decide!, by decide!, rfl, by decide!,
    Option.isNone_iff_eq_none.1 (by decide!), by decide!,
    Option.isNone_iff_eq_none.1 (by decide!)⟩

/-! ## The walk over the spans: theorems -/

theorem totalFrames_cons (sp : Span) (spans : List Span) :
    totalFrames (sp :: spans) = sp.total + totalFrames spans := by
  simp [totalFrames]

theorem curveCells_cons (sp : Span) (spans : List Span) :
    curveCells (sp :: spans) = (sp.samples.length + 1) + curveCells spans := by
  simp [curveCells]

/-- The walk of `findSpan` over cells that start with the span list `spans`, for
a frame below the sum of the run lengths: it stops at the header of the span
whose window of frames holds the frame, after one round per span before it. -/
theorem findSpan_totals (spans : List Span) :
    ∀ (cells : List mstudioanimvalue_t) (frame : Int), (∀ sp, sp ∈ spans → 1 ≤ sp.total) →
      isCurve spans cells = true → 0 ≤ frame → frame < (totalFrames spans : Int) →
      ∃ pre sp post, spans = pre ++ sp :: post
        ∧ (totalFrames pre : Int) ≤ frame ∧ frame < (totalFrames pre : Int) + sp.total
        ∧ (∀ fuel, pre.length < fuel →
            findSpan fuel cells frame
              = some (cells.drop (curveCells pre), frame - (totalFrames pre : Int)))
        ∧ ∃ num rest, cells.drop (curveCells pre) = num :: rest
            ∧ num.valid = sp.samples.length ∧ num.total = sp.total := by
  induction spans with
  | nil =>
    intro cells frame _ _ h0 h1
    simp [totalFrames] at h1
    omega
  | cons sp spans ih =>
    intro cells frame htot hc h0 h1
    obtain ⟨num, rest, rfl, hvalid, htotal, -, hrest⟩ := isCurve_cons sp spans _ hc
    rw [totalFrames_cons] at h1
    by_cases hle : (num.total : Int) ≤ frame
    · obtain ⟨pre, sp', post, hsplit, hlo, hhi, hfuel, num', rest', hdrop, hv', ht'⟩ :=
        ih (rest.drop num.valid) (frame - num.total)
          (fun s hs => htot s (List.mem_cons_of_mem _ hs)) hrest (by omega)
          (by push_cast at h1 ⊢; omega)
      have hcells : (num :: rest).drop (curveCells (sp :: pre))
          = (rest.drop num.valid).drop (curveCells pre) := by
        rw [curveCells_cons, ← hvalid, List.drop_drop]
        have : num.valid + 1 + curveCells pre = (curveCells pre + num.valid) + 1 := by omega
        rw [this, List.drop_succ_cons, Nat.add_comm]
      refine ⟨sp :: pre, sp', post, by rw [hsplit]; rfl, ?_, ?_, ?_, num', rest', ?_, hv', ht'⟩
      · rw [totalFrames_cons]
        push_cast
        omega
      · rw [totalFrames_cons]
        push_cast
        omega
      · intro fuel hf
        cases fuel with
        | zero => simp at hf
        | succ fuel =>
          have hf' : pre.length < fuel := by
            simp only [List.length_cons] at hf
            omega
          rw [hcells, totalFrames_cons]
          simp only [findSpan, hle, if_true]
          rw [hfuel fuel hf']
          congr 2
          push_cast
          omega
      · rw [hcells]
        exact hdrop
    · refine ⟨[], sp, spans, rfl, ?_, ?_, ?_, num, rest, rfl, hvalid, htotal⟩
      · simpa [totalFrames] using h0
      · simp only [totalFrames, List.map_nil, List.sum_nil, Nat.cast_zero, zero_add]
        omega
      · intro fuel hf
        cases fuel with
        | zero => simp at hf
        | succ fuel =>
          simp only [findSpan, hle, if_false, curveCells, totalFrames, List.map_nil,
            List.sum_nil, List.drop_zero, Nat.cast_zero, sub_zero]

/-- The span whose window of frames holds a given frame is unique when every
run length is at least 1. -/
theorem span_window_unique (pre : List Span) :
    ∀ (sp : Span) (post pre' : List Span) (sp' : Span) (post' : List Span) (frame : Int),
      pre ++ sp :: post = pre' ++ sp' :: post' →
      (totalFrames pre : Int) ≤ frame → frame < (totalFrames pre : Int) + sp.total →
      (totalFrames pre' : Int) ≤ frame → frame < (totalFrames pre' : Int) + sp'.total →
      pre' = pre ∧ sp' = sp ∧ post' = post := by
  induction pre with
  | nil =>
    intro sp post pre' sp' post' frame heq hlo hhi hlo' hhi'
    cases pre' with
    | nil =>
      simp only [List.nil_append, List.cons.injEq] at heq
      exact ⟨rfl, heq.1.symm, heq.2.symm⟩
    | cons p pre' =>
      simp only [List.nil_append, List.cons_append, List.cons.injEq] at heq
      rw [totalFrames_cons] at hlo'
      simp only [totalFrames, List.map_nil, List.sum_nil, Nat.cast_zero, zero_add] at hhi
      rw [heq.1] at hhi
      push_cast at hlo'
      omega
  | cons q pre ih =>
    intro sp post pre' sp' post' frame heq hlo hhi hlo' hhi'
    cases pre' with
    | nil =>
      simp only [List.nil_append, List.cons_append, List.cons.injEq] at heq
      rw [totalFrames_cons] at hlo
      simp only [totalFrames, List.map_nil, List.sum_nil, Nat.cast_zero, zero_add] at hhi'
      rw [← heq.1] at hhi'
      push_cast at hlo
      omega
    | cons p pre' =>
      simp only [List.cons_append, List.cons.injEq] at heq
      obtain ⟨hqp, htail⟩ := heq
      subst hqp
      rw [totalFrames_cons] at hlo hhi hlo' hhi'
      push_cast at hlo hhi hlo' hhi'
      obtain ⟨e1, e2, e3⟩ := ih sp post pre' sp' post' (frame - q.total) htail
        (by omega) (by omega) (by omega) (by omega)
      exact ⟨by rw [e1], e2, e3⟩

/-- C27: the span walk shared by `CalcBonePosition` and `CalcBoneQuaternion`, on
cells that hold a span list in which every span has `total >= 1`, for a frame
that is not negative and smaller than the sum of the totals. The walk
terminates: with one round per span before the stopping one it returns, and so
it does with the bound the samplers run it with. It stops at the header of the
span whose window `total_0 + ... + total_(i-1) <= frame < total_0 + ... +
total_i` holds the frame, with `k` equal to the frame minus the sum of the
preceding totals, and that span is the only one with such a window. -/
theorem findSpan_terminates (spans : List Span) (cells : List mstudioanimvalue_t) (frame : Int)
    (htot : ∀ sp, sp ∈ spans → 1 ≤ sp.total) (hc : isCurve spans cells = true)
    (h0 : 0 ≤ frame) (h1 : frame < (totalFrames spans : Int)) :
    ∃ pre sp post, spans = pre ++ sp :: post
      ∧ (totalFrames pre : Int) ≤ frame ∧ frame < (totalFrames pre : Int) + sp.total
      ∧ (∀ fuel, pre.length < fuel →
          findSpan fuel cells frame
            = some (cells.drop (curveCells pre), frame - (totalFrames pre : Int)))
      ∧ findSpan (cells.length + 1) cells frame
          = some (cells.drop (curveCells pre), frame - (totalFrames pre : Int))
      ∧ (∃ num rest, cells.drop (curveCells pre) = num :: rest
          ∧ num.valid = sp.samples.length ∧ num.total = sp.total)
      ∧ ∀ pre' sp' post', spans = pre' ++ sp' :: post' →
          (totalFrames pre' : Int) ≤ frame → frame < (totalFrames pre' : Int) + sp'.total →
          pre' = pre ∧ sp' = sp ∧ post' = post := by
  obtain ⟨pre, sp, post, hsplit, hlo, hhi, hfuel, num, rest, hdrop, hv, ht⟩ :=
    findSpan_totals spans cells frame htot hc h0 h1
  have hlen : pre.length < cells.length + 1 := by
    have h1 : curveCells pre < cells.length := by
      have := congrArg List.length hdrop
      simp only [List.length_drop, List.length_cons] at this
      omega
    have h2 : ∀ l : List Span, l.length ≤ curveCells l := by
      intro l
      induction l with
      | nil => simp [curveCells]
      | cons a l ih =>
        rw [curveCells_cons]
        simp only [List.length_cons]
        omega
    have := h2 pre
    omega
  refine ⟨pre, sp, post, hsplit, hlo, hhi, hfuel, hfuel _ hlen, ⟨num, rest, hdrop, hv, ht⟩, ?_⟩
  intro pre' sp' post' hsplit' hlo' hhi'
  exact span_window_unique pre sp post pre' sp' post' frame (hsplit.symm.trans hsplit') hlo hhi
    hlo' hhi'

/-- The curve of two spans with the totals 4 and 1, walked to frame 4: the walk
stops at the second span, three cells on, with `k = 0`. -/
theorem findSpan_terminates_witness :
    (∀ sp, sp ∈ sampleSpans → 1 ≤ sp.total) ∧ isCurve sampleSpans sampleCurveCells = true
      ∧ (4 : Int) < (totalFrames sampleSpans : Int)
      ∧ findSpan (sampleCurveCells.length + 1) sampleCurveCells 4
        = some (sampleCurveCells.drop 3, 0) := by
  have hall : ∀ sp, sp ∈ sampleSpans → 1 ≤ sp.total := by decide
  have hc : isCurve sampleSpans sampleCurveCells = true := by decide!
  have hlt : (4 : Int) < (totalFrames sampleSpans : Int) := by decide!
  refine ⟨hall, hc, hlt, ?_⟩
  obtain ⟨pre, sp, post, -, -, -, -, hfind, -, huniq⟩ :=
    findSpan_terminates sampleSpans sampleCurveCells 4 hall hc (by decide) hlt
  obtain ⟨e, -, -⟩ := huniq [⟨[5, 7], 4⟩] ⟨[9], 1⟩ [] rfl (by decide!) (by decide!)
  rw [hfind, ← e]
  decide!

/-! ## Vertex identity and the owning bone: theorems -/

/-- In a run decoded into a vertex list that holds no vertex equal to `e`, the
first entry of the run that equals `e` is stored as it is, and its index is the
one the run emits for it. -/
theorem readRun_first (studioModel : mstudiomodel_t) (s t : ℚ) (i : Nat) :
    ∀ (tricmds : List Int) (vertices : List Vertex) (indices : List Nat) (rest : List Int)
      (vertices' : List Vertex) (indices' : List Nat) (entries : List Vertex),
      readRun studioModel s t i tricmds vertices indices = some (rest, vertices', indices') →
      runEntries studioModel s t i tricmds = some entries →
      ∀ (f : Nat) (e : Vertex), entries[f]? = some e →
        (∀ w, w ∈ vertices → w.eq e = false) →
        (∀ (k : Nat) (w : Vertex), k < f → entries[k]? = some w → w.eq e = false) →
        ∃ index, indices'[indices.length + f]? = some index ∧ vertices'[index]? = some e := by
  induction i with
  | zero =>
    intro tricmds vertices indices rest vertices' indices' entries _ hents f e he
    simp only [runEntries, Option.some.injEq] at hents
    subst hents
    simp at he
  | succ i ih =>
    intro tricmds vertices indices rest vertices' indices' entries h hents f e he hno hfirst
    match tricmds, h, hents with
    | c0 :: c1 :: c2 :: c3 :: tricmds, h, hents =>
      simp only [readRun] at h
      simp only [runEntries] at hents
      cases hv : entryVertex studioModel s t c0 c1 c2 c3 with
      | none => simp [hv] at h
      | some vert =>
        simp only [hv] at h hents
        obtain ⟨entries', hents', rfl⟩ := Option.map_eq_some'.1 hents
        cases f with
        | zero =>
          simp only [List.getElem?_cons_zero, Option.some.injEq] at he
          subst he
          rw [InsertVertex_absent vertices vert hno] at h
          obtain ⟨ext, new, -, hvs, his, -, -, -, -⟩ :=
            readRun_spec studioModel s t i tricmds _ _ rest vertices' indices' h
          dsimp only at hvs his
          refine ⟨vertices.length, ?_, ?_⟩
          · rw [his, Nat.add_zero, List.append_assoc,
              List.getElem?_append_right (le_refl _), Nat.sub_self]
            simp
          · rw [hvs, List.append_assoc, List.getElem?_append_right (le_refl _), Nat.sub_self]
            simp
        | succ f =>
          have hvert : vert.eq e = false := hfirst 0 vert (by omega) (by simp)
          have hno' : ∀ w, w ∈ (InsertVertex vertices vert).1 → w.eq e = false := by
            intro w hw
            rcases InsertVertex_cases vertices vert with hc | ⟨-, hc⟩
            · rw [hc] at hw
              exact hno w hw
            · rw [hc] at hw
              rcases List.mem_append.1 hw with hw | hw
              · exact hno w hw
              · simp only [List.mem_singleton] at hw
                rw [hw]
                exact hvert
          simp only [List.getElem?_cons_succ] at he
          obtain ⟨index, hidx, hst⟩ := ih tricmds _ _ rest vertices' indices' entries' h hents'
            f e he hno' (fun k w hk hw => hfirst (k + 1) w (by omega) (by simpa using hw))
          refine ⟨index, ?_, hst⟩
          simp only [List.length_append, List.length_singleton] at hidx
          rw [← hidx]
          congr 1
          omega
    | [], h, _ => simp [readRun] at h
    | [_], h, _ => simp [readRun] at h
    | [_, _], h, _ => simp [readRun] at h
    | [_, _, _], h, _ => simp [readRun] at h

/-- C28: vertex identity in the decoder ignores the owning bone. Two vertices
with equal position, normal and texture coordinate are equal for
`Vertex::operator==` whatever their bones. In a run of `LoadMesh`, when an entry
has no equal vertex stored before the run or earlier in the run, it is stored as
it is, with its bone, and every entry of the run with the same position, normal
and texture coordinate gets its index, whatever bone that entry resolves to;
and when the first equal vertex was stored before the run, at index `i0`, every
such entry of the run gets the index `i0` and the stored vertex stays as it
was. -/
theorem InsertVertex_ignores_bone :
    (∀ v1 v2 : Vertex, v1.Position = v2.Position → v1.Normal = v2.Normal →
        v1.TexCoord = v2.TexCoord → v1.eq v2 = true)
      ∧ (∀ (studioModel : mstudiomodel_t) (s t : ℚ) (i : Nat) (tricmds : List Int)
          (vertices : List Vertex) (rest : List Int) (vertices' : List Vertex)
          (indices : List Nat),
          readRun studioModel s t i tricmds vertices [] = some (rest, vertices', indices) →
          ∃ entries, runEntries studioModel s t i tricmds = some entries
            ∧ ∀ (a b : Nat) (ea eb : Vertex), entries[a]? = some ea → entries[b]? = some eb →
                ea.Position = eb.Position → ea.Normal = eb.Normal →
                ea.TexCoord = eb.TexCoord →
                (∀ w, w ∈ vertices → w.eq ea = false) →
                (∀ (k : Nat) (w : Vertex), k < a → entries[k]? = some w → w.eq ea = false) →
                ∃ index, indices[a]? = some index ∧ indices[b]? = some index
                  ∧ vertices'[index]? = some ea)
      ∧ (∀ (studioModel : mstudiomodel_t) (s t : ℚ) (i : Nat) (tricmds : List Int)
          (vertices : List Vertex) (rest : List Int) (vertices' : List Vertex)
          (indices : List Nat) (i0 : Nat) (v1 : Vertex),
          readRun studioModel s t i tricmds vertices [] = some (rest, vertices', indices) →
          vertices[i0]? = some v1 →
          (∀ (k : Nat) (w : Vertex), k < i0 → vertices[k]? = some w → w.eq v1 = false) →
          ∃ entries, runEntries studioModel s t i tricmds = some entries
            ∧ ∀ (b : Nat) (eb : Vertex), entries[b]? = some eb →
                v1.Position = eb.Position → v1.Normal = eb.Normal →
                v1.TexCoord = eb.TexCoord →
                indices[b]? = some i0 ∧ vertices'[i0]? = some v1) := by
  refine ⟨fun v1 v2 h1 h2 h3 => (Vertex.eq_iff v1 v2).2 ⟨h1, h2, h3⟩, ?_, ?_⟩
  · intro studioModel s t i tricmds vertices rest vertices' indices h
    obtain ⟨ext, new, entries, -, hi, -, hents, hall, -⟩ :=
      readRun_spec studioModel s t i tricmds vertices [] rest vertices' indices h
    simp only [List.nil_append] at hi
    subst hi
    refine ⟨entries, hents, ?_⟩
    intro a b ea eb hea heb hp hn ht hno hfirst
    have heq : ea.eq eb = true := (Vertex.eq_iff ea eb).2 ⟨hp, hn, ht⟩
    obtain ⟨index, hidx, hst⟩ := readRun_first studioModel s t i tricmds vertices [] rest
      vertices' indices entries h hents a ea hea hno hfirst
    simp only [List.length_nil, Nat.zero_add] at hidx
    have hb : b < indices.length := by
      rw [hall.length_eq]
      by_contra hc
      rw [List.getElem?_eq_none (by omega)] at heb
      exact Option.noConfusion heb
    have hda := forall₂_getElem? _ _ _ hall a index ea hidx hea
    have hdb := forall₂_getElem? _ _ _ hall b indices[b] eb (List.getElem?_eq_getElem hb) heb
    have hab := Designates_unique vertices' _ _ ea eb hda hdb heq
    refine ⟨index, hidx, ?_, hst⟩
    rw [hab]
    exact List.getElem?_eq_getElem hb
  · intro studioModel s t i tricmds vertices rest vertices' indices i0 v1 h hv1 hfirst
    obtain ⟨ext, new, entries, hvs, hi, -, hents, hall, -⟩ :=
      readRun_spec studioModel s t i tricmds vertices [] rest vertices' indices h
    simp only [List.nil_append] at hi
    subst hi
    refine ⟨entries, hents, ?_⟩
    intro b eb heb hp hn ht
    have heq : v1.eq eb = true := (Vertex.eq_iff v1 eb).2 ⟨hp, hn, ht⟩
    have hd0 : Designates vertices' i0 v1 := by
      rw [hvs]
      exact Designates_append vertices ext i0 v1 ⟨v1, hv1, Vertex.eq_refl v1, hfirst⟩
    have hb : b < indices.length := by
      rw [hall.length_eq]
      by_contra hc
      rw [List.getElem?_eq_none (by omega)] at heb
      exact Option.noConfusion heb
    have hdb := forall₂_getElem? _ _ _ hall b indices[b] eb (List.getElem?_eq_getElem hb) heb
    have hab := Designates_unique vertices' _ _ v1 eb hd0 hdb heq
    refine ⟨?_, ?_⟩
    · rw [hab]
      exact List.getElem?_eq_getElem hb
    · obtain ⟨v, hv, -, -⟩ := hd0
      have hi0 : i0 < vertices.length := by
        by_contra hc
        rw [List.getElem?_eq_none (by omega)] at hv1
        exact Option.noConfusion hv1
      rw [hvs, List.getElem?_append_left hi0]
      exact hv1

/-- The strip of `twoBoneModel` names the vertices 0, 1, 2, of which 0 and 1
share position, normal and texture coordinate and have the bones 0 and 1: both
get the index 0, and the one stored vertex has bone 0. -/
theorem InsertVertex_ignores_bone_witness :
    (boneVertex 1 0).Bone ≠ (boneVertex 1 1).Bone
      ∧ LoadMesh sampleTextureHeader ⟨0, [3, 0, 0, 0, 0, 1, 0, 0, 0, 2, 0, 0, 0, 0]⟩
          twoBoneModel []
        = some (⟨[0, 0, 1], 0⟩, [boneVertex 1 0, boneVertex 2 2])
      ∧ runEntries twoBoneModel (1 / 4) (1 / 4) 3 [0, 0, 0, 0, 1, 0, 0, 0, 2, 0, 0, 0, 0]
        = some [boneVertex 1 0, boneVertex 1 1, boneVertex 2 2]
      ∧ ∃ index, [0, 0, 1][0]? = some index ∧ [0, 0, 1][1]? = some index
          ∧ [boneVertex 1 0, boneVertex 2 2][index]? = some (boneVertex 1 0) := by
  have hents : runEntries twoBoneModel (1 / 4) (1 / 4) 3 [0, 0, 0, 0, 1, 0, 0, 0, 2, 0, 0, 0, 0]
      = some [boneVertex 1 0, boneVertex 1 1, boneVertex 2 2] := by decide!
  refine ⟨by decide, by decide!, hents, ?_⟩
  obtain ⟨entries, he, hall⟩ := InsertVertex_ignores_bone.2.1 twoBoneModel (1 / 4) (1 / 4) 3
    [0, 0, 0, 0, 1, 0, 0, 0, 2, 0, 0, 0, 0] [] [0] [boneVertex 1 0, boneVertex 2 2] [0, 0, 1]
    (by decide!)
  have hentries : entries = [boneVertex 1 0, boneVertex 1 1, boneVertex 2 2] :=
    Option.some.inj (he.symm.trans hents)
  subst hentries
  exact hall 0 1 (boneVertex 1 0) (boneVertex 1 1) rfl rfl rfl rfl rfl
    (fun w hw => absurd hw (List.not_mem_nil w)) (fun k w hk => absurd hk (Nat.not_lt_zero k))
end StudioModel
